import Mathlib

/-!
# Moolticute host driver: command queue, job queue and flash-database integrity checker

A shallow embedding of `src/src/MPDevice.cpp` (with the command codes of
`src/src/MooltipassCmds.h`) and theorems about it.

* Byte arrays (`QByteArray`) are lists of natural numbers, each meant as one byte.
* The command queue / job queue part of `MPDevice` is the record `MPDevice W`, where `W`
  is whatever state the completion callbacks capture; the frames handed to
  `platformWrite` and the callback invocations are recorded in two logs.
* The memory-management part of `MPDevice` (start addresses, the four node lists,
  favorites) is the record `Session`; a `MPNode *` is an index into its list.
-/

namespace Moolticute

/-! ## Packets and command codes (MooltipassCmds.h) -/

/-- A byte array: the bytes in order. The null array is the empty list. -/
abbrev QByteArray := List Nat

/-- Index of the command byte in a packet. -/
def MP_CMD_FIELD_INDEX : Nat := 1

def MP_DEBUG : Nat := 0xA0
def MP_PING : Nat := 0xA1
def MP_MOOLTIPASS_STATUS : Nat := 0xB9
def MP_READ_32B_IN_DN : Nat := 0xC1
def MP_PLEASE_RETRY : Nat := 0xC4
def MP_READ_FLASH_NODE : Nat := 0xC5
def MP_GET_CARD_CPZ_CTR : Nat := 0xCE

/-- Byte `i` of a byte array (`data.at(i)` as an unsigned value), 0 outside the array. -/
def byteAt (data : QByteArray) (i : Nat) : Nat := data.getD i 0

/-! ## Command queue (MPDevice::sendData, sendDataDequeue, newDataRead) -/

/-- What one run of a completion callback did: the captured state it left, the value it
left in the `done` reference (which `newDataRead` initialises to `true`), and the
`sendData(c, data, cb)` calls it made, in order. -/
structure CbResult (W : Type) (C : Type) where
  world : W
  done : Bool
  sends : List (Nat × QByteArray × C)

/-- The completion callback of a command (`MPCommandCb`): a function of the captured state,
the `success` flag and the reply packet. -/
inductive MPCommandCb (W : Type) where
  | mk (run : W → Bool → QByteArray → CbResult W (MPCommandCb W)) : MPCommandCb W

/-- Invoke a callback. -/
def MPCommandCb.run {W : Type} : MPCommandCb W → W → Bool → QByteArray →
    CbResult W (MPCommandCb W)
  | MPCommandCb.mk f => f

/-- Modelled from the spec: the class `MPCommand` (declared in MPDevice.h, which is not
among the sources). A queued command: the packet, the callback and the `running` flag,
which is `false` for a freshly built command (only the head of the queue is running). -/
structure MPCommand (W : Type) where
  data : QByteArray
  cb : MPCommandCb W
  running : Bool := false

/-- One recorded callback invocation: the packet of the command whose callback ran, the
`success` argument and the reply packet passed to it. -/
structure CbCall where
  cmdData : QByteArray
  success : Bool
  reply : QByteArray
  deriving DecidableEq, Repr

/-- The queue part of `MPDevice`. `platformWritten` lists the packets handed to
`platformWrite`, `cbCalls` the callback invocations and `jobsStarted` the jobs whose
`start()` was called, each in order; `jobsEnqueued` lists the jobs ever enqueued. -/
structure MPDevice (W : Type) where
  commandQueue : List (MPCommand W) := []
  jobsQueue : List Nat := []
  currentJobs : Option Nat := none
  platformWritten : List QByteArray := []
  cbCalls : List CbCall := []
  jobsStarted : List Nat := []
  jobsEnqueued : List Nat := []
  world : W

/-- `MPDevice::sendDataDequeue`: mark the head of the command queue running and write its
packet; nothing happens on an empty queue. -/
def sendDataDequeue {W : Type} (s : MPDevice W) : MPDevice W :=
  match s.commandQueue with
  | [] => s
  | currentCmd :: rest =>
    { s with
      commandQueue := { currentCmd with running := true } :: rest
      platformWritten := s.platformWritten ++ [currentCmd.data] }

/-- The packet `sendData` builds: length byte, command byte, payload. The two leading
bytes are stored as `char`s, hence modulo 256. -/
def mkPacket (c : Nat) (data : QByteArray) : QByteArray :=
  (data.length % 256) :: (c % 256) :: data

/-- `MPDevice::sendData`: enqueue the command and, when the head of the queue is not
running, send the head. -/
def sendData {W : Type} (c : Nat) (data : QByteArray) (cb : MPCommandCb W)
    (s : MPDevice W) : MPDevice W :=
  let cmd : MPCommand W := { data := mkPacket c data, cb := cb }
  let s1 := { s with commandQueue := s.commandQueue ++ [cmd] }
  match s1.commandQueue with
  | [] => s1
  | head :: _ => if !head.running then sendDataDequeue s1 else s1

/-- The `sendData` calls made by a callback while it runs, in order. -/
def runSends {W : Type} : List (Nat × QByteArray × MPCommandCb W) → MPDevice W → MPDevice W
  | [], s => s
  | (c, data, cb) :: rest, s => runSends rest (sendData c data cb s)

/-- `MPDevice::newDataRead`: on an empty queue the packet is logged and dropped; otherwise
the callback of the head runs with `success = true` and the packet, and when it leaves
`done = true` the head is dequeued and the next command sent. -/
def newDataRead {W : Type} (data : QByteArray) (s : MPDevice W) : MPDevice W :=
  match s.commandQueue with
  | [] => s
  | currentCmd :: _ =>
    let r := currentCmd.cb.run s.world true data
    let s1 := runSends r.sends
      { s with world := r.world
               cbCalls := s.cbCalls ++ [{ cmdData := currentCmd.data, success := true, reply := data }] }
    if r.done then sendDataDequeue { s1 with commandQueue := s1.commandQueue.tail }
    else s1

/-- The callback of the status poll (the lambda passed to `sendData(MP_MOOLTIPASS_STATUS, …)`
in the constructor), with the device status as captured state: a `MP_MOOLTIPASS_STATUS`
reply sets the status to byte 2, any other reply (a `MP_PLEASE_RETRY` one is only logged)
leaves it; `done` is never touched and no command is sent. -/
def statusCb : MPCommandCb Nat :=
  MPCommandCb.mk fun status success data =>
    if !success then { world := status, done := true, sends := [] }
    else if byteAt data 1 = MP_MOOLTIPASS_STATUS then
      { world := byteAt data 2, done := true, sends := [] }
    else { world := status, done := true, sends := [] }

/-- The states reachable from an empty command queue by `sendData` calls and `newDataRead`
deliveries. -/
inductive Reachable {W : Type} : MPDevice W → Prop
  | init (s : MPDevice W) : s.commandQueue = [] → Reachable s
  | send (c : Nat) (data : QByteArray) (cb : MPCommandCb W) (s : MPDevice W) :
      Reachable s → Reachable (sendData c data cb s)
  | read (data : QByteArray) (s : MPDevice W) : Reachable s → Reachable (newDataRead data s)

/-- Only the head of the queue is running: the queue is empty, or its head is running and
no other command is. -/
def HeadOnlyRunning {W : Type} (q : List (MPCommand W)) : Prop :=
  match q with
  | [] => True
  | head :: rest => head.running = true ∧ ∀ c ∈ rest, c.running = false

/-- The command queue with its head marked running. -/
def markHeadRunning {W : Type} (q : List (MPCommand W)) : List (MPCommand W) :=
  match q with
  | [] => []
  | head :: rest => { head with running := true } :: rest

/-! ## Job queue (MPDevice::runAndDequeueJobs) -/

/-- `MPDevice::runAndDequeueJobs`: when no job is current and the job queue is not empty,
dequeue its head, make it current and start it. -/
def runAndDequeueJobs {W : Type} (s : MPDevice W) : MPDevice W :=
  match s.jobsQueue with
  | [] => s
  | job :: rest =>
    if s.currentJobs.isSome then s
    else { s with currentJobs := some job, jobsQueue := rest, jobsStarted := s.jobsStarted ++ [job] }

/-- The pattern `jobsQueue.enqueue(jobs); runAndDequeueJobs();` that ends every request. -/
def enqueueJobs {W : Type} (job : Nat) (s : MPDevice W) : MPDevice W :=
  runAndDequeueJobs { s with jobsQueue := s.jobsQueue ++ [job], jobsEnqueued := s.jobsEnqueued ++ [job] }

/-- The handlers connected to `AsyncJobs::finished` and `AsyncJobs::failed` of the current
job: forget the current job and run the next one. -/
def jobsDone {W : Type} (s : MPDevice W) : MPDevice W :=
  runAndDequeueJobs { s with currentJobs := none }

/-- The job-queue events: a request enqueues a job, or the current job emits `finished` or
`failed`. -/
inductive JobEvent where
  | enqueue (job : Nat)
  | finished
  | failed
  deriving DecidableEq, Repr

/-- The effect of one job-queue event. -/
def jobStep {W : Type} (s : MPDevice W) : JobEvent → MPDevice W
  | JobEvent.enqueue job => enqueueJobs job s
  | JobEvent.finished => jobsDone s
  | JobEvent.failed => jobsDone s

/-- The effect of a sequence of job-queue events. -/
def jobRun {W : Type} (s : MPDevice W) (events : List JobEvent) : MPDevice W :=
  events.foldl jobStep s


/-- The commands that a list of `sendData` calls appends to the queue, not yet running. -/
def sentCommands {W : Type} (sends : List (Nat × QByteArray × MPCommandCb W)) :
    List (MPCommand W) :=
  sends.map fun r => { data := mkPacket r.1 r.2.1, cb := r.2.2 }

/-! ## Nodes and session state (MPNode, the memory-management members of MPDevice) -/

/-- `MPNode::EmptyAddress`: the two-byte address 0x0000. -/
def EmptyAddress : QByteArray := [0, 0]

/-- Modelled from the spec: the class `MPNode` (MPNode.h and MPNode.cpp are not among the
sources). A node carries its own address, the pointer fields its getters and setters give
access to, its service or login string (the list of its
character codes, which `QString::compare` orders lexicographically) and the
`pointedToCheck` tag. An address is two
bytes, or null (the empty list) when the node or the pointed node is virtual, and then the
accompanying virtual id counts. A setter `setX(addr, virt)` stores both arguments, `virt`
being 0 when it is left out. Parents use the parent pointers and `startChildAddress`,
credential children use `previousChildAddress` and `nextChildAddress`, data children use
`nextChildDataAddress`. `getNodeData` is the record the device stores for the node: every
pointer field and string together with `payload`, the bytes of the record no pointer or string
covers. The node's own address, the virtual ids and the tag are not part of the record. -/
structure MPNode where
  address : QByteArray := []
  virtualAddress : Nat := 0
  previousParentAddress : QByteArray := EmptyAddress
  prevParentVirtualAddress : Nat := 0
  nextParentAddress : QByteArray := EmptyAddress
  nextParentVirtualAddress : Nat := 0
  startChildAddress : QByteArray := EmptyAddress
  firstChildVirtualAddress : Nat := 0
  previousChildAddress : QByteArray := EmptyAddress
  previousChildVirtualAddress : Nat := 0
  nextChildAddress : QByteArray := EmptyAddress
  nextChildDataAddress : QByteArray := EmptyAddress
  nextChildVirtualAddress : Nat := 0
  service : List Nat := []
  login : List Nat := []
  payload : QByteArray := []
  pointedToCheck : Bool := false
  deriving DecidableEq, Repr, Inhabited

/-- `MPNode::getNodeData`: the stored record of the node, field by field. -/
def MPNode.getNodeData (n : MPNode) : List QByteArray :=
  [n.previousParentAddress, n.nextParentAddress, n.startChildAddress, n.previousChildAddress,
    n.nextChildAddress, n.nextChildDataAddress, n.service, n.login, n.payload]

/-- `MPNode::setAddress(addr, virt)`. -/
def MPNode.setAddress (n : MPNode) (addr : QByteArray) (virt : Nat) : MPNode :=
  { n with address := addr, virtualAddress := virt }

/-- `MPNode::setPointedToCheck`. -/
def MPNode.setPointedToCheck (n : MPNode) : MPNode := { n with pointedToCheck := true }

/-- `MPNode::removePointedToCheck`. -/
def MPNode.removePointedToCheck (n : MPNode) : MPNode := { n with pointedToCheck := false }

/-- `MPNode::setPreviousParentAddress(addr, virt)`. -/
def MPNode.setPreviousParentAddress (n : MPNode) (addr : QByteArray) (virt : Nat) : MPNode :=
  { n with previousParentAddress := addr, prevParentVirtualAddress := virt }

/-- `MPNode::setNextParentAddress(addr, virt)`. -/
def MPNode.setNextParentAddress (n : MPNode) (addr : QByteArray) (virt : Nat) : MPNode :=
  { n with nextParentAddress := addr, nextParentVirtualAddress := virt }

/-- `MPNode::setStartChildAddress(addr)`. -/
def MPNode.setStartChildAddress (n : MPNode) (addr : QByteArray) : MPNode :=
  { n with startChildAddress := addr, firstChildVirtualAddress := 0 }

/-- `MPNode::setPreviousChildAddress(addr)`. -/
def MPNode.setPreviousChildAddress (n : MPNode) (addr : QByteArray) : MPNode :=
  { n with previousChildAddress := addr, previousChildVirtualAddress := 0 }

/-- `MPNode::setNextChildAddress(addr)`. -/
def MPNode.setNextChildAddress (n : MPNode) (addr : QByteArray) : MPNode :=
  { n with nextChildAddress := addr, nextChildVirtualAddress := 0 }

/-- `MPNode::setNextChildDataAddress(addr)`. -/
def MPNode.setNextChildDataAddress (n : MPNode) (addr : QByteArray) : MPNode :=
  { n with nextChildDataAddress := addr, nextChildVirtualAddress := 0 }

/-- The forward pointer the child walk follows: `getNextChildAddress` for credential
children, `getNextChildDataAddress` for data children. -/
def MPNode.nextChild (isData : Bool) (n : MPNode) : QByteArray :=
  if isData then n.nextChildDataAddress else n.nextChildAddress

/-- The setter matching `MPNode.nextChild`. -/
def MPNode.setNextChild (isData : Bool) (n : MPNode) (addr : QByteArray) : MPNode :=
  if isData then n.setNextChildDataAddress addr else n.setNextChildAddress addr

/-- The node a pointer (an index into its list) points to. -/
def nodeAt (list : List MPNode) (pt : Nat) : MPNode := list.getD pt default

/-- Apply a setter to the node a pointer points to. -/
def updateNode (list : List MPNode) (pt : Nat) (f : MPNode → MPNode) : List MPNode :=
  list.set pt (f (nodeAt list pt))

/-- Apply a setter through a pointer variable; a null pointer (which the code never
dereferences) leaves the list alone. -/
def updatePtr (list : List MPNode) (pt : Option Nat) (f : MPNode → MPNode) : List MPNode :=
  match pt with
  | some i => updateNode list i f
  | none => list

/-- `pt->getAddress()` through a pointer variable. -/
def ptrAddress (list : List MPNode) (pt : Option Nat) : QByteArray :=
  match pt with
  | some i => (nodeAt list i).address
  | none => []

/-- The memory-management state of `MPDevice`: the start addresses with their virtual ids,
the four node lists, the favorites, the CTR value and the CPZ/CTR entries, the clone of each of
them taken when the database was read, the free addresses, the
`diagSavePacketsGenerated` flag and the `memMgmtMode` property. -/
structure Session where
  startNode : QByteArray := EmptyAddress
  virtualStartNode : Nat := 0
  startDataNode : QByteArray := EmptyAddress
  virtualDataStartNode : Nat := 0
  loginNodes : List MPNode := []
  loginChildNodes : List MPNode := []
  dataNodes : List MPNode := []
  dataChildNodes : List MPNode := []
  favoritesAddrs : List QByteArray := []
  ctrValue : QByteArray := []
  cpzCtrValue : List QByteArray := []
  startNodeClone : QByteArray := EmptyAddress
  startDataNodeClone : QByteArray := EmptyAddress
  loginNodesClone : List MPNode := []
  loginChildNodesClone : List MPNode := []
  dataNodesClone : List MPNode := []
  dataChildNodesClone : List MPNode := []
  favoritesAddrsClone : List QByteArray := []
  ctrValueClone : QByteArray := []
  cpzCtrValueClone : List QByteArray := []
  freeAddresses : List QByteArray := []
  diagSavePacketsGenerated : Bool := false
  memMgmtMode : Bool := false
  deriving DecidableEq, Repr

/-- The test of `MPDevice::findNodeWithAddressInList` (the lambda given to `std::find_if`):
a node whose own address is null matches by its virtual id, any other node by its address. -/
def nodeMatches (address : QByteArray) (virt_addr : Nat) (node : MPNode) : Bool :=
  if node.address = [] then decide (node.virtualAddress = virt_addr)
  else decide (node.address = address)

/-- `MPDevice::findNodeWithAddressInList` as a search from index `idx` on: the first
matching node. -/
def findNodeFrom (address : QByteArray) (virt_addr : Nat) : List MPNode → Nat → Option Nat
  | [], _ => none
  | node :: rest, idx =>
    if nodeMatches address virt_addr node then some idx
    else findNodeFrom address virt_addr rest (idx + 1)

/-- `MPDevice::findNodeWithAddressInList`: pointer to the first matching node, if any. -/
def findNodeWithAddressInList (list : List MPNode) (address : QByteArray) (virt_addr : Nat) :
    Option Nat :=
  findNodeFrom address virt_addr list 0

/-- `MPDevice::detagPointedNodes`. -/
def detagPointedNodes (s : Session) : Session :=
  { s with
    loginNodes := s.loginNodes.map MPNode.removePointedToCheck
    loginChildNodes := s.loginChildNodes.map MPNode.removePointedToCheck
    dataNodes := s.dataNodes.map MPNode.removePointedToCheck
    dataChildNodes := s.dataChildNodes.map MPNode.removePointedToCheck }

/-! ## Integrity checker (MPDevice::tagPointedNodes)

The function walks the credential chain and then, by a copy of the same code, the data
chain. Both walks are instances of `tagParentLoop`, the flag `isData` selecting the places
where the copies differ: the start address and the two lists walked (`NodeChain`), the
forward pointer of a child, and the check of a child's previous address, which only the
credential walk does. -/

/-- The part of the session one walk works on: the start address, the parent list and
the child list. -/
structure NodeChain where
  start : QByteArray
  parents : List MPNode
  children : List MPNode
  deriving DecidableEq, Repr

/-- State at the exit of a loop: the chain, the pointer variables `tempParentNodePt` and
`tempChildNodePt`, `return_bool`, and whether `tagPointedNodes` executed `return false`
inside the loop. -/
structure TagLoop where
  chain : NodeChain
  tempParentNodePt : Option Nat
  tempChildNodePt : Option Nat
  return_bool : Bool
  returned : Bool
  deriving DecidableEq, Repr

/-- The repair done for a child address that is not found or already tagged: clear the
start child address of the parent when the address is the parent's start child address,
else clear the next pointer of the previous child. -/
def cutChildLink (isData : Bool) (c : NodeChain) (tempParentNodePt : Nat)
    (tempChildNodePt : Option Nat) (tempChildAddress : QByteArray) : NodeChain :=
  if tempChildAddress = (nodeAt c.parents tempParentNodePt).startChildAddress then
    { c with parents := updateNode c.parents tempParentNodePt
              (fun n => n.setStartChildAddress EmptyAddress) }
  else
    { c with children := updatePtr c.children tempChildNodePt
              (fun n => n.setNextChild isData EmptyAddress) }

/-- The child loop of `tagPointedNodes` (`while (tempChildAddress != MPNode::EmptyAddress)`)
for the parent `tempParentNodePt`. The first argument bounds the number of iterations;
`none` means the bound was too small. -/
def tagChildLoop (isData repairAllowed : Bool) (tempParentNodePt : Nat) :
    Nat → NodeChain → QByteArray → Option Nat → Bool → Option TagLoop
  | 0, _, _, _, _ => none
  | fuel + 1, c, tempChildAddress, tempChildNodePt, return_bool =>
    if tempChildAddress = EmptyAddress then
      some { chain := c, tempParentNodePt := some tempParentNodePt,
             tempChildNodePt := tempChildNodePt, return_bool := return_bool, returned := false }
    else
      match findNodeWithAddressInList c.children tempChildAddress 0 with
      | none =>
        -- not found: return_bool = false, repair, tempChildAddress = EmptyAddress ends the loop
        some { chain := if repairAllowed then
                          cutChildLink isData c tempParentNodePt tempChildNodePt tempChildAddress
                        else c,
               tempParentNodePt := some tempParentNodePt,
               tempChildNodePt := tempChildNodePt, return_bool := false, returned := false }
      | some tempNextChildNodePt =>
        if (nodeAt c.children tempNextChildNodePt).pointedToCheck then
          -- already tagged: repair and `return false`
          some { chain := if repairAllowed then
                            cutChildLink isData c tempParentNodePt tempChildNodePt tempChildAddress
                          else c,
                 tempParentNodePt := some tempParentNodePt,
                 tempChildNodePt := tempChildNodePt, return_bool := return_bool, returned := true }
        else
          -- check previous node address (credential children only)
          let expected :=
            if tempChildAddress = (nodeAt c.parents tempParentNodePt).startChildAddress then
              EmptyAddress
            else ptrAddress c.children tempChildNodePt
          let mismatch : Bool :=
            !isData && decide ((nodeAt c.children tempNextChildNodePt).previousChildAddress ≠ expected)
          let c1 : NodeChain :=
            if mismatch && repairAllowed then
              { c with children := updateNode c.children tempNextChildNodePt
                        (fun n => n.setPreviousChildAddress expected) }
            else c
          let return_bool1 := if mismatch then false else return_bool
          -- tag child, loop to next possible child
          let c2 : NodeChain :=
            { c1 with children := updateNode c1.children tempNextChildNodePt
                        MPNode.setPointedToCheck }
          tagChildLoop isData repairAllowed tempParentNodePt fuel c2
            ((nodeAt c2.children tempNextChildNodePt).nextChild isData)
            (some tempNextChildNodePt) return_bool1

/-- The repair done for a parent address that is not found or already tagged: clear the
start address when the address is the start address, else clear the next pointer of the
previous parent. -/
def cutParentLink (c : NodeChain) (tempParentNodePt : Option Nat)
    (tempParentAddress : QByteArray) : NodeChain :=
  if tempParentAddress = c.start then { c with start := EmptyAddress }
  else { c with parents := updatePtr c.parents tempParentNodePt
                  (fun n => n.setNextParentAddress EmptyAddress 0) }

/-- The parent loop of `tagPointedNodes` (`while (tempParentAddress != MPNode::EmptyAddress)`).
The first argument bounds the number of iterations; `none` means a bound was too small. -/
def tagParentLoop (isData repairAllowed : Bool) :
    Nat → NodeChain → QByteArray → Nat → Option Nat → Option Nat → Bool → Option TagLoop
  | 0, _, _, _, _, _, _ => none
  | fuel + 1, c, tempParentAddress, tempVirtualParentAddress, tempParentNodePt,
      tempChildNodePt, return_bool =>
    if tempParentAddress = EmptyAddress then
      some { chain := c, tempParentNodePt := tempParentNodePt,
             tempChildNodePt := tempChildNodePt, return_bool := return_bool, returned := false }
    else
      match findNodeWithAddressInList c.parents tempParentAddress tempVirtualParentAddress with
      | none =>
        -- not found: repair and `return false`
        some { chain := if repairAllowed then cutParentLink c tempParentNodePt tempParentAddress
                        else c,
               tempParentNodePt := tempParentNodePt,
               tempChildNodePt := tempChildNodePt, return_bool := return_bool, returned := true }
      | some tempNextParentNodePt =>
        if (nodeAt c.parents tempNextParentNodePt).pointedToCheck then
          -- already tagged: repair and `return false`
          some { chain := if repairAllowed then cutParentLink c tempParentNodePt tempParentAddress
                          else c,
                 tempParentNodePt := tempParentNodePt,
                 tempChildNodePt := tempChildNodePt, return_bool := return_bool, returned := true }
        else
          -- check previous node address
          let expected :=
            if tempParentAddress = c.start then EmptyAddress
            else ptrAddress c.parents tempParentNodePt
          let mismatch : Bool :=
            decide ((nodeAt c.parents tempNextParentNodePt).previousParentAddress ≠ expected)
          let c1 : NodeChain :=
            if mismatch && repairAllowed then
              { c with parents := updateNode c.parents tempNextParentNodePt
                        (fun n => n.setPreviousParentAddress expected 0) }
            else c
          let return_bool1 := if mismatch then false else return_bool
          -- tag parent, get first child, browse through all the children
          let c2 : NodeChain :=
            { c1 with parents := updateNode c1.parents tempNextParentNodePt
                        MPNode.setPointedToCheck }
          match tagChildLoop isData repairAllowed tempNextParentNodePt (c2.children.length + 1) c2
              (nodeAt c2.parents tempNextParentNodePt).startChildAddress tempChildNodePt
              return_bool1 with
          | none => none
          | some r =>
            if r.returned then some r
            else
              -- get next parent address
              tagParentLoop isData repairAllowed fuel r.chain
                (nodeAt r.chain.parents tempNextParentNodePt).nextParentAddress
                (nodeAt r.chain.parents tempNextParentNodePt).nextParentVirtualAddress
                (some tempNextParentNodePt) r.tempChildNodePt r.return_bool

/-- The credential chain of a session. -/
def Session.credChain (s : Session) : NodeChain :=
  { start := s.startNode, parents := s.loginNodes, children := s.loginChildNodes }

/-- The data chain of a session. -/
def Session.dataChain (s : Session) : NodeChain :=
  { start := s.startDataNode, parents := s.dataNodes, children := s.dataChildNodes }

/-- Store the credential chain back. -/
def Session.setCredChain (s : Session) (c : NodeChain) : Session :=
  { s with startNode := c.start, loginNodes := c.parents, loginChildNodes := c.children }

/-- Store the data chain back. -/
def Session.setDataChain (s : Session) (c : NodeChain) : Session :=
  { s with startDataNode := c.start, dataNodes := c.parents, dataChildNodes := c.children }

/-- `MPDevice::tagPointedNodes`: detag all nodes, walk the credential chain from
`startNode`, then the data chain from `startDataNode` (whose walk also starts with the
virtual id `virtualStartNode`). The result is the returned value and the state left;
`none` would mean that an iteration bound was too small. The pointer variables are
assigned in each walk before they are used, so the data walk starts with null ones. -/
def tagPointedNodes (repairAllowed : Bool) (s : Session) : Option (Bool × Session) :=
  let s0 := detagPointedNodes s
  match tagParentLoop false repairAllowed (s0.loginNodes.length + 1) s0.credChain
      s0.startNode s0.virtualStartNode none none true with
  | none => none
  | some r1 =>
    let s1 := s0.setCredChain r1.chain
    if r1.returned then some (false, s1)
    else
      match tagParentLoop true repairAllowed (s1.dataNodes.length + 1) s1.dataChain
          s1.startDataNode s1.virtualStartNode none none r1.return_bool with
      | none => none
      | some r2 =>
        let s2 := s1.setDataChain r2.chain
        if r2.returned then some (false, s2) else some (r2.return_bool, s2)

/-- Whether `tagPointedNodes` left through one of the `return false` statements inside its
loops (a parent address that is not found or already tagged, a child that is already
tagged) instead of reaching its final `return return_bool`. -/
def tagPointedNodesStopped (repairAllowed : Bool) (s : Session) : Option Bool :=
  let s0 := detagPointedNodes s
  match tagParentLoop false repairAllowed (s0.loginNodes.length + 1) s0.credChain
      s0.startNode s0.virtualStartNode none none true with
  | none => none
  | some r1 =>
    let s1 := s0.setCredChain r1.chain
    if r1.returned then some true
    else
      match tagParentLoop true repairAllowed (s1.dataNodes.length + 1) s1.dataChain
          s1.startDataNode s1.virtualStartNode none none r1.return_bool with
      | none => none
      | some r2 => some r2.returned

/-! ## Repair (MPDevice::addOrphanParentToDB, addOrphanChildToDB, checkLoadedNodes) -/

/-- The parent list `addOrphanParentToDB` browses: `dataNodes` or `loginNodes`. -/
def Session.parentList (s : Session) (isDataParent : Bool) : List MPNode :=
  if isDataParent then s.dataNodes else s.loginNodes

/-- Store a parent list back. -/
def Session.setParentList (s : Session) (isDataParent : Bool) (list : List MPNode) : Session :=
  if isDataParent then { s with dataNodes := list } else { s with loginNodes := list }

/-- Make a parent the start node: `startDataNode` and `virtualDataStartNode`, or
`startNode` and `virtualStartNode`. -/
def Session.setStartParent (s : Session) (isDataParent : Bool) (addr : QByteArray)
    (virt : Nat) : Session :=
  if isDataParent then { s with startDataNode := addr, virtualDataStartNode := virt }
  else { s with startNode := addr, virtualStartNode := virt }

/-- The `for` loop of `addOrphanParentToDB` up to the point where it finds a tagged node
whose service compares greater than `service`: the pointer to that node, if the loop found
one, and the value of `prevNodePt` (the last tagged node seen) at that point. The second
argument is the index of the head of the list browsed. -/
def orphanScan (service : List Nat) : List MPNode → Nat → Option Nat → Option Nat × Option Nat
  | [], _, prevNodePt => (none, prevNodePt)
  | i :: rest, idx, prevNodePt =>
    if i.pointedToCheck then
      if i.service > service then (some idx, some idx)
      else orphanScan service rest (idx + 1) (some idx)
    else orphanScan service rest (idx + 1) prevNodePt

/-- `MPDevice::addOrphanParentToDB`: link the untagged parent `parentNodePt` into its chain
in front of the first tagged parent with a greater service, or at the end, then re-run
`tagPointedNodes(true)`. The result is the returned value and the state left. -/
def addOrphanParentToDB (parentNodePt : Nat) (isDataParent : Bool) (s : Session) :
    Option (Bool × Session) :=
  let parentList := s.parentList isDataParent
  if (nodeAt parentList parentNodePt).pointedToCheck then some (true, s)
  else
    match orphanScan (nodeAt parentList parentNodePt).service parentList 0 none with
    | (some i, _) =>
      -- we went one slot too far, i is the next parent node
      let prevNodeAddr := (nodeAt parentList i).previousParentAddress
      let prevNodeAddrVirtual := (nodeAt parentList i).prevParentVirtualAddress
      if prevNodeAddr = EmptyAddress then
        -- we have a new start node
        let s1 := s.setStartParent isDataParent (nodeAt parentList parentNodePt).address
          (nodeAt parentList parentNodePt).virtualAddress
        let l1 := updateNode parentList parentNodePt
          (fun n => n.setPreviousParentAddress EmptyAddress 0)
        let l2 := updateNode l1 i (fun n => n.setPreviousParentAddress
          (nodeAt l1 parentNodePt).address (nodeAt l1 parentNodePt).virtualAddress)
        let l3 := updateNode l2 parentNodePt (fun n => n.setNextParentAddress
          (nodeAt l2 i).address (nodeAt l2 i).virtualAddress)
        (tagPointedNodes true (s1.setParentList isDataParent l3)).map fun r => (true, r.2)
      else
        -- something before our node
        match findNodeWithAddressInList parentList prevNodeAddr prevNodeAddrVirtual with
        | none => some (false, s)
        | some prevNodePt =>
          let l1 := updateNode parentList prevNodePt (fun n => n.setNextParentAddress
            (nodeAt parentList parentNodePt).address (nodeAt parentList parentNodePt).virtualAddress)
          let l2 := updateNode l1 parentNodePt (fun n => n.setPreviousParentAddress
            (nodeAt l1 prevNodePt).address (nodeAt l1 prevNodePt).virtualAddress)
          let l3 := updateNode l2 i (fun n => n.setPreviousParentAddress
            (nodeAt l2 parentNodePt).address (nodeAt l2 parentNodePt).virtualAddress)
          let l4 := updateNode l3 parentNodePt (fun n => n.setNextParentAddress
            (nodeAt l3 i).address (nodeAt l3 i).virtualAddress)
          (tagPointedNodes true (s.setParentList isDataParent l4)).map fun r => (true, r.2)
    | (none, none) =>
      -- empty DB
      let s1 := s.setStartParent isDataParent (nodeAt parentList parentNodePt).address
        (nodeAt parentList parentNodePt).virtualAddress
      let l1 := updateNode parentList parentNodePt
        (fun n => n.setPreviousParentAddress EmptyAddress 0)
      let l2 := updateNode l1 parentNodePt (fun n => n.setNextParentAddress EmptyAddress 0)
      (tagPointedNodes true (s1.setParentList isDataParent l2)).map fun r => (true, r.2)
    | (none, some prevNodePt) =>
      -- we need to take the last spot
      let l1 := updateNode parentList prevNodePt (fun n => n.setNextParentAddress
        (nodeAt parentList parentNodePt).address (nodeAt parentList parentNodePt).virtualAddress)
      let l2 := updateNode l1 parentNodePt (fun n => n.setPreviousParentAddress
        (nodeAt l1 prevNodePt).address (nodeAt l1 prevNodePt).virtualAddress)
      let l3 := updateNode l2 parentNodePt (fun n => n.setNextParentAddress EmptyAddress 0)
      (tagPointedNodes true (s.setParentList isDataParent l3)).map fun r => (true, r.2)

/-- `MPDevice::findNodeWithServiceInList`: the first credential parent with the service. -/
def findNodeWithServiceInList (s : Session) (service : List Nat) : Option Nat :=
  s.loginNodes.findIdx? (fun node => node.service = service)

/-- `MPDevice::addOrphanChildToDB`: looks up the `_recovered_` service and, the rest being
left to do in the source, changes nothing and returns true. -/
def addOrphanChildToDB (_childNodePt : Nat) (s : Session) : Bool × Session :=
  let _tempNodePt := findNodeWithServiceInList s ("_recovered_".toList.map Char.toNat)
  (true, s)

/-- The loops of `checkLoadedNodes` over `loginNodes` and over `dataNodes`: every node
found untagged when its turn comes is counted and, with repair allowed, handed to
`addOrphanParentToDB`. The first argument lists the pointers still to visit. -/
def orphanParentsLoop (repairAllowed isDataParent : Bool) :
    List Nat → Session → Nat → Option (Session × Nat)
  | [], s, nb => some (s, nb)
  | i :: rest, s, nb =>
    if (nodeAt (s.parentList isDataParent) i).pointedToCheck then
      orphanParentsLoop repairAllowed isDataParent rest s nb
    else if repairAllowed then
      match addOrphanParentToDB i isDataParent s with
      | none => none
      | some r => orphanParentsLoop repairAllowed isDataParent rest r.2 (nb + 1)
    else orphanParentsLoop repairAllowed isDataParent rest s (nb + 1)

/-- The loop of `checkLoadedNodes` over `loginChildNodes`. -/
def orphanChildrenLoop (repairAllowed : Bool) : List Nat → Session → Nat → Session × Nat
  | [], s, nb => (s, nb)
  | i :: rest, s, nb =>
    if (nodeAt s.loginChildNodes i).pointedToCheck then
      orphanChildrenLoop repairAllowed rest s nb
    else if repairAllowed then
      orphanChildrenLoop repairAllowed rest (addOrphanChildToDB i s).2 (nb + 1)
    else orphanChildrenLoop repairAllowed rest s (nb + 1)

/-- The loop of `checkLoadedNodes` over `dataChildNodes`: untagged nodes are only counted. -/
def orphanDataChildren (s : Session) : Nat :=
  (s.dataChildNodes.filter fun i => !i.pointedToCheck).length

/-- The favorites check of `checkLoadedNodes` for one favorite (four bytes: parent address,
child address): when the parent address is not empty and the parent or the child cannot be
found, every byte of the favorite is set to 0. -/
def checkFavorite (s : Session) (i : QByteArray) : QByteArray :=
  let temp_pnode_address := i.take 2
  let temp_cnode_address := (i.drop 2).take 2
  if temp_pnode_address ≠ EmptyAddress ∨ temp_pnode_address ≠ EmptyAddress then
    match findNodeWithAddressInList s.loginNodes temp_pnode_address 0,
          findNodeWithAddressInList s.loginChildNodes temp_cnode_address 0 with
    | some _, some _ => i
    | _, _ => i.map fun _ => 0
  else i

/-- The body of `checkLoadedNodes` down to `Set return bool`: tag, look for orphans in the
four lists, check the favorites. The orphan counters are 32-bit in the source; a list
cannot hold enough nodes for them to wrap. -/
def checkLoadedNodesPass (repairAllowed : Bool) (s : Session) : Option (Bool × Session) :=
  match tagPointedNodes repairAllowed s with
  | none => none
  | some r =>
    match orphanParentsLoop repairAllowed false (List.range r.2.loginNodes.length) r.2 0 with
    | none => none
    | some p1 =>
      let p2 := orphanChildrenLoop repairAllowed (List.range p1.1.loginChildNodes.length) p1.1 0
      match orphanParentsLoop repairAllowed true (List.range p2.1.dataNodes.length) p2.1 0 with
      | none => none
      | some p3 =>
        let nbOrphanDataChildren := orphanDataChildren p3.1
        let s5 := { p3.1 with favoritesAddrs := p3.1.favoritesAddrs.map (checkFavorite p3.1) }
        if p1.2 + p2.2 + p3.2 + nbOrphanDataChildren ≠ 0 then some (false, s5)
        else some (r.1, s5)

/-- `MPDevice::checkLoadedNodes`: one pass and, when that pass reports errors and repair is
allowed, the double check `checkLoadedNodes(false)`, whose verdict is only logged. The
result is the returned value and the state left. -/
def checkLoadedNodes (repairAllowed : Bool) (s : Session) : Option (Bool × Session) :=
  match checkLoadedNodesPass repairAllowed s with
  | none => none
  | some r =>
    if r.1 then some (true, r.2)
    else if !repairAllowed then some (false, r.2)
    else
      match checkLoadedNodesPass false r.2 with
      | none => none
      | some r2 => some (false, r2.2)

/-! ## What a valid pair of chains is (the property `tagPointedNodes` checks) -/

/-- The node an address resolves to in a list: the first node of the list that has this
address. -/
def resolveFrom (address : QByteArray) : List MPNode → Nat → Option Nat
  | [], _ => none
  | node :: rest, idx =>
    if node.address = address then some idx else resolveFrom address rest (idx + 1)

/-- The node an address resolves to in a list. -/
def resolve (list : List MPNode) (address : QByteArray) : Option Nat :=
  resolveFrom address list 0

/-- Following the pointer `next` from the address `a` visits exactly the nodes `path`, in
this order: every address met resolves to a node of the list, and the pointer of the last
node is `EmptyAddress`. -/
def ChainLinks (list : List MPNode) (next : MPNode → QByteArray) :
    QByteArray → List Nat → Prop
  | a, [] => a = EmptyAddress
  | a, i :: rest =>
    a ≠ EmptyAddress ∧ resolve list a = some i ∧ ChainLinks list next (next (nodeAt list i)) rest

/-- The backward pointers along `path` are right: the pointer `prev` of the first node is
`expected`, and that of every later node is the address of its predecessor. -/
def PrevLinks (list : List MPNode) (prev : MPNode → QByteArray) :
    QByteArray → List Nat → Prop
  | _, [] => True
  | expected, i :: rest =>
    prev (nodeAt list i) = expected ∧ PrevLinks list prev (nodeAt list i).address rest

/-- The child chain of the parent `p` is `path`: following the child pointers from the
parent's first child address visits `path`, and, for credential children only, the
previous-child pointers are right. -/
def ChildChain (isData : Bool) (parents children : List MPNode) (p : Nat)
    (path : List Nat) : Prop :=
  ChainLinks children (MPNode.nextChild isData) (nodeAt parents p).startChildAddress path ∧
  (isData = false → PrevLinks children MPNode.previousChildAddress EmptyAddress path)

/-- No violation on one canonical chain: the parents met from the start address on are
`parentPath`, none twice, with right previous-parent pointers; the child chain of the k-th
of them is the k-th list of `childPaths`; and no child is met twice. -/
def ChainValid (isData : Bool) (c : NodeChain) : Prop :=
  ∃ (parentPath : List Nat) (childPaths : List (List Nat)),
    ChainLinks c.parents MPNode.nextParentAddress c.start parentPath ∧
    parentPath.Nodup ∧
    PrevLinks c.parents MPNode.previousParentAddress EmptyAddress parentPath ∧
    List.Forall₂ (ChildChain isData c.parents c.children) parentPath childPaths ∧
    childPaths.flatten.Nodup

/-- No violation on the canonical chains of a session. -/
def ChainsValid (s : Session) : Prop :=
  ChainValid false s.credChain ∧ ChainValid true s.dataChain

/-- Every node of the four lists has a physical address. -/
def AllPhysical (s : Session) : Prop :=
  (∀ n ∈ s.loginNodes, n.address ≠ []) ∧ (∀ n ∈ s.loginChildNodes, n.address ≠ []) ∧
  (∀ n ∈ s.dataNodes, n.address ≠ []) ∧ (∀ n ∈ s.dataChildNodes, n.address ≠ [])

/-- No orphan: every node of the four lists is tagged. -/
def AllTagged (s : Session) : Prop :=
  (∀ n ∈ s.loginNodes, n.pointedToCheck = true) ∧
  (∀ n ∈ s.loginChildNodes, n.pointedToCheck = true) ∧
  (∀ n ∈ s.dataNodes, n.pointedToCheck = true) ∧
  (∀ n ∈ s.dataChildNodes, n.pointedToCheck = true)

/-- The favorites check of `checkLoadedNodes` applied to every favorite. -/
def checkFavorites (s : Session) : Session :=
  { s with favoritesAddrs := s.favoritesAddrs.map (checkFavorite s) }

/-! ## Auxiliary notions for the proofs -/

/-- The number of untagged nodes of a list. -/
def untagged (list : List MPNode) : Nat :=
  ((list.map fun n => n.pointedToCheck).filter fun b => !b).length

/-- Two lists hold the same nodes up to the tags. -/
def SameFields (l1 l2 : List MPNode) : Prop :=
  l1.map MPNode.removePointedToCheck = l2.map MPNode.removePointedToCheck

/-- Tag every node of a path. -/
def tagAll (path : List Nat) (list : List MPNode) : List MPNode :=
  path.foldl (fun l i => updateNode l i MPNode.setPointedToCheck) list


/-- The previous-child address the child loop expects for the child found at `a`. -/
def childExpected (c : NodeChain) (p : Nat) (pt : Option Nat) (a : QByteArray) : QByteArray :=
  if a = (nodeAt c.parents p).startChildAddress then EmptyAddress
  else ptrAddress c.children pt

/-- Whether the child loop reports a wrong previous-child address for the child `i`. -/
def childMismatch (isData : Bool) (c : NodeChain) (p : Nat) (pt : Option Nat)
    (a : QByteArray) (i : Nat) : Bool :=
  !isData && decide ((nodeAt c.children i).previousChildAddress ≠ childExpected c p pt a)

/-- The chain after the child loop has checked, possibly repaired, and tagged child `i`. -/
def childVisit (isData repairAllowed : Bool) (c : NodeChain) (p : Nat) (pt : Option Nat)
    (a : QByteArray) (i : Nat) : NodeChain :=
  { start := c.start, parents := c.parents
    children := updateNode
      (if childMismatch isData c p pt a i && repairAllowed then
        updateNode c.children i (fun n => n.setPreviousChildAddress (childExpected c p pt a))
      else c.children) i MPNode.setPointedToCheck }

/-- The previous-parent address the parent loop expects for the parent found at `a`. -/
def parentExpected (c : NodeChain) (pt : Option Nat) (a : QByteArray) : QByteArray :=
  if a = c.start then EmptyAddress else ptrAddress c.parents pt

/-- Whether the parent loop reports a wrong previous-parent address for the parent `i`. -/
def parentMismatch (c : NodeChain) (pt : Option Nat) (a : QByteArray) (i : Nat) : Bool :=
  decide ((nodeAt c.parents i).previousParentAddress ≠ parentExpected c pt a)

/-- The chain after the parent loop has checked, possibly repaired, and tagged parent `i`. -/
def parentVisit (repairAllowed : Bool) (c : NodeChain) (pt : Option Nat)
    (a : QByteArray) (i : Nat) : NodeChain :=
  { start := c.start, children := c.children
    parents := updateNode
      (if parentMismatch c pt a i && repairAllowed then
        updateNode c.parents i (fun n => n.setPreviousParentAddress (parentExpected c pt a) 0)
      else c.parents) i MPNode.setPointedToCheck }

/-- Where a walk stands: at the first node of its chain (the address is the start address
and the expected previous address is empty), or later (the node at the start address is
tagged and the expected previous address is that of the node visited last). -/
def FirstOrLater (list : List MPNode) (startAddr a e : QByteArray) (pt : Option Nat) : Prop :=
  (a = startAddr ∧ e = EmptyAddress) ∨
  ((∀ i, resolve list startAddr = some i → (nodeAt list i).pointedToCheck = true) ∧
    e = ptrAddress list pt)

/-- The rest of a child chain, from the address `a` on, is without violation: it is `path`,
made of distinct untagged children, with right previous-child pointers (credential
children only), `e` being the one expected of the first. -/
def ChildPathOK (isData : Bool) (children : List MPNode) (e a : QByteArray)
    (path : List Nat) : Prop :=
  ChainLinks children (MPNode.nextChild isData) a path ∧ path.Nodup ∧
  (∀ i ∈ path, (nodeAt children i).pointedToCheck = false) ∧
  (isData = false → PrevLinks children MPNode.previousChildAddress e path)

/-- The rest of a parent chain, from the address `a` on, is without violation. -/
def ParentPathOK (isData : Bool) (c : NodeChain) (e a : QByteArray)
    (parentPath : List Nat) (childPaths : List (List Nat)) : Prop :=
  ChainLinks c.parents MPNode.nextParentAddress a parentPath ∧ parentPath.Nodup ∧
  (∀ i ∈ parentPath, (nodeAt c.parents i).pointedToCheck = false) ∧
  PrevLinks c.parents MPNode.previousParentAddress e parentPath ∧
  List.Forall₂ (ChildChain isData c.parents c.children) parentPath childPaths ∧
  childPaths.flatten.Nodup ∧
  (∀ j ∈ childPaths.flatten, (nodeAt c.children j).pointedToCheck = false)

/-- Two lists hold nodes with the same addresses and virtual ids, in the same order. -/
def AddrSame (l1 l2 : List MPNode) : Prop :=
  l1.map (fun n => (n.address, n.virtualAddress)) = l2.map (fun n => (n.address, n.virtualAddress))

/-- Two lists carry the same tags. -/
def SameTags (l1 l2 : List MPNode) : Prop :=
  l1.map MPNode.pointedToCheck = l2.map MPNode.pointedToCheck

/-- The first child address of parent `p` is found in the child list. -/
def FirstChildFound (c : NodeChain) (p : Nat) : Prop :=
  (findNodeWithAddressInList c.children (nodeAt c.parents p).startChildAddress 0).isSome = true

/-- Where the child loop read its current address from: the first child address of the
parent, or the next pointer of the child visited last. -/
inductive ChildSource where
  | parent
  | child (j : Nat)
  deriving DecidableEq, Repr

/-- The address stored at a source. -/
def readSource (isData : Bool) (c : NodeChain) (p : Nat) : ChildSource → QByteArray
  | ChildSource.parent => (nodeAt c.parents p).startChildAddress
  | ChildSource.child j => (nodeAt c.children j).nextChild isData

/-- The state `cF` carries the tags of the state `c` of a repairing walk, and the fields
that the walk leaves in the end (`fin`) wherever the end state is tagged. -/
structure Replays (c cF fin : NodeChain) : Prop where
  start : cF.start = fin.start
  addrParents : AddrSame cF.parents fin.parents
  addrChildren : AddrSame cF.children fin.children
  tagsParents : SameTags cF.parents c.parents
  tagsChildren : SameTags cF.children c.children
  fieldsParents : ∀ k, (nodeAt fin.parents k).pointedToCheck = true →
    (nodeAt cF.parents k).removePointedToCheck = (nodeAt fin.parents k).removePointedToCheck
  fieldsChildren : ∀ k, (nodeAt fin.children k).pointedToCheck = true →
    (nodeAt cF.children k).removePointedToCheck = (nodeAt fin.children k).removePointedToCheck

/-- The later state `fin` of a repairing walk still holds every node that is tagged in the
earlier state `rch` as it is there, and the addresses of all nodes. -/
structure FinAgrees (rch fin : NodeChain) : Prop where
  start : fin.start = rch.start
  addrParents : AddrSame fin.parents rch.parents
  addrChildren : AddrSame fin.children rch.children
  parents : ∀ k, (nodeAt rch.parents k).pointedToCheck = true →
    nodeAt fin.parents k = nodeAt rch.parents k
  children : ∀ k, (nodeAt rch.children k).pointedToCheck = true →
    nodeAt fin.children k = nodeAt rch.children k

/-! ## Example states -/

/-- A small valid database: two credential parents (the first with two children, the
second with one) and one data parent with two data children, all at physical addresses. -/
def exampleDb : Session :=
  { startNode := [0x00, 0x08]
    loginNodes :=
      [{ address := [0x00, 0x08], nextParentAddress := [0x01, 0x08],
         startChildAddress := [0x00, 0x09], service := [103, 105, 116] },
       { address := [0x01, 0x08], previousParentAddress := [0x00, 0x08],
         startChildAddress := [0x02, 0x09], service := [104, 110] }]
    loginChildNodes :=
      [{ address := [0x00, 0x09], nextChildAddress := [0x01, 0x09], login := [97] },
       { address := [0x01, 0x09], previousChildAddress := [0x00, 0x09], login := [98] },
       { address := [0x02, 0x09], login := [99] }]
    startDataNode := [0x00, 0x0A]
    dataNodes := [{ address := [0x00, 0x0A], startChildAddress := [0x00, 0x0B], service := [107] }]
    dataChildNodes :=
      [{ address := [0x00, 0x0B], nextChildDataAddress := [0x01, 0x0B] },
       { address := [0x01, 0x0B] }]
    favoritesAddrs := [[0x00, 0x08, 0x00, 0x09], [0, 0, 0, 0]] }

/-- A state without nodes whose two start addresses are 0x0200, the address in the
graphics zone that `testCodeAgainstCleanDBChanges` uses as invalid address. -/
def danglingStarts : Session :=
  { startNode := [0x02, 0x00], startDataNode := [0x02, 0x00] }

/-- A state whose only node is a data child that no data parent points to. -/
def orphanDataChild : Session :=
  { dataChildNodes := [{ address := [0x00, 0x0B] }] }

/-- The example database with every node tagged. -/
def exampleDbTagged : Session :=
  { exampleDb with
    loginNodes := exampleDb.loginNodes.map MPNode.setPointedToCheck
    loginChildNodes := exampleDb.loginChildNodes.map MPNode.setPointedToCheck
    dataNodes := exampleDb.dataNodes.map MPNode.setPointedToCheck
    dataChildNodes := exampleDb.dataChildNodes.map MPNode.setPointedToCheck }

/-- The example database with three violations that the tag walk repairs without
stopping: the second credential parent has its own address as previous address, the second
credential child has a wrong previous address, and the next pointer of that child is an
address that no child has. -/
def brokenDb : Session :=
  { exampleDb with
    loginNodes :=
      [{ address := [0x00, 0x08], nextParentAddress := [0x01, 0x08],
         startChildAddress := [0x00, 0x09], service := [103, 105, 116] },
       { address := [0x01, 0x08], previousParentAddress := [0x01, 0x08],
         startChildAddress := [0x02, 0x09], service := [104, 110] }]
    loginChildNodes :=
      [{ address := [0x00, 0x09], nextChildAddress := [0x01, 0x09], login := [97] },
       { address := [0x01, 0x09], previousChildAddress := [0x02, 0x09],
         nextChildAddress := [0x07, 0x09], login := [98] },
       { address := [0x02, 0x09], login := [99] }] }

/-! ## Saving (MPDevice::generateSavePackets) -/

/-- One round of a first-pass loop of `generateSavePackets` over the credential parents, the
data parents or the data children: the flag is set when the clone list has no node at the
live node's address, or when the node found there has other node data. -/
def savePassChanged (clone : List MPNode) (flag : Bool) (node : MPNode) : Bool :=
  match findNodeWithAddressInList clone node.address 0 with
  | none => true
  | some temp_node_pointer =>
    if node.getNodeData ≠ (nodeAt clone temp_node_pointer).getNodeData then true else flag

/-- One round of the first-pass loop of `generateSavePackets` over the credential children:
the second test compares the node data of the live node with itself. -/
def savePassChangedLogin (clone : List MPNode) (flag : Bool) (node : MPNode) : Bool :=
  match findNodeWithAddressInList clone node.address 0 with
  | none => true
  | some _ => if node.getNodeData ≠ node.getNodeData then true else flag

/-- One round of a second-pass loop of `generateSavePackets`: the flag is set when the live
list has no node at the clone node's address. -/
def savePassRemoved (live : List MPNode) (flag : Bool) (node : MPNode) : Bool :=
  match findNodeWithAddressInList live node.address 0 with
  | none => true
  | some _ => flag

/-- The favorites loop of `generateSavePackets` from slot `i` on: `favoritesAddrsClone[i]` is
read for every slot of `favoritesAddrs`, which fails when the clone has no such slot. -/
def saveFavorites (clone : List QByteArray) : List QByteArray → Nat → Bool → Option Bool
  | [], _, flag => some flag
  | fav :: rest, i, flag =>
    match clone[i]? with
    | none => none
    | some c => saveFavorites clone rest (i + 1) (if fav ≠ c then true else flag)

/-- One round of the CPZ/CTR loop of `generateSavePackets`: the flag is set when the entry is
not among the clone's entries. -/
def saveCpzCtr (clone : List QByteArray) (flag : Bool) (entry : QByteArray) : Bool :=
  if clone.any (fun c => entry = c) then flag else true

/-- `MPDevice::generateSavePackets`: compare the live state with the clone and set
`diagSavePacketsGenerated` for every difference found. The result is the returned value and
the state left; there is none when a favorite slot is read that the clone does not have. -/
def generateSavePackets (s : Session) : Option (Bool × Session) :=
  -- first pass: check the nodes that changed or were added
  let f1 := s.loginNodes.foldl (savePassChanged s.loginNodesClone) s.diagSavePacketsGenerated
  let f2 := s.loginChildNodes.foldl (savePassChangedLogin s.loginChildNodesClone) f1
  let f3 := s.dataNodes.foldl (savePassChanged s.dataNodesClone) f2
  let f4 := s.dataChildNodes.foldl (savePassChanged s.dataChildNodesClone) f3
  -- second pass: check the nodes that were removed
  let f5 := s.loginNodesClone.foldl (savePassRemoved s.loginNodes) f4
  let f6 := s.loginChildNodesClone.foldl (savePassRemoved s.loginChildNodes) f5
  let f7 := s.dataNodesClone.foldl (savePassRemoved s.dataNodes) f6
  let f8 := s.dataChildNodesClone.foldl (savePassRemoved s.dataChildNodes) f7
  -- diff favorites
  match saveFavorites s.favoritesAddrsClone s.favoritesAddrs 0 f8 with
  | none => none
  | some f9 =>
    let f10 := if s.ctrValue ≠ s.ctrValueClone then true else f9
    let f11 := if s.startNode ≠ s.startNodeClone then true else f10
    let f12 := if s.startDataNode ≠ s.startDataNodeClone then true else f11
    let f13 := s.cpzCtrValue.foldl (saveCpzCtr s.cpzCtrValueClone) f12
    some (true, { s with diagSavePacketsGenerated := f13 })

/-! ## Virtual addresses (MPDevice::changeVirtualAddressesToFreeAddresses) -/

/-- The statement `if (get().isNull()) set(freeAddresses[virt])` of
`changeVirtualAddressesToFreeAddresses` for one address field of one node: `addr` and `virt`
are what the getters give and `set` is the setter called with one argument. There is no result
when the virtual id is not an index of `freeAddresses`. -/
def freeAddressFor (freeAddresses : List QByteArray) (addr : QByteArray) (virt : Nat)
    (set : QByteArray → MPNode) (node : MPNode) : Option MPNode :=
  if addr = [] then (freeAddresses[virt]?).map set else some node

/-- The body of the loops of `changeVirtualAddressesToFreeAddresses` over `loginNodes` and
over `dataNodes`. -/
def parentToFreeAddresses (freeAddresses : List QByteArray) (i : MPNode) : Option MPNode :=
  (freeAddressFor freeAddresses i.address i.virtualAddress (fun a => i.setAddress a 0) i).bind
  fun i1 =>
  (freeAddressFor freeAddresses i1.nextParentAddress i1.nextParentVirtualAddress
    (fun a => i1.setNextParentAddress a 0) i1).bind
  fun i2 =>
  (freeAddressFor freeAddresses i2.previousParentAddress i2.prevParentVirtualAddress
    (fun a => i2.setPreviousParentAddress a 0) i2).bind
  fun i3 =>
  freeAddressFor freeAddresses i3.startChildAddress i3.firstChildVirtualAddress
    (fun a => i3.setStartChildAddress a) i3

/-- The body of the loop of `changeVirtualAddressesToFreeAddresses` over `loginChildNodes`. -/
def childToFreeAddresses (freeAddresses : List QByteArray) (i : MPNode) : Option MPNode :=
  (freeAddressFor freeAddresses i.address i.virtualAddress (fun a => i.setAddress a 0) i).bind
  fun i1 =>
  (freeAddressFor freeAddresses i1.nextChildAddress i1.nextChildVirtualAddress
    (fun a => i1.setNextChildAddress a) i1).bind
  fun i2 =>
  freeAddressFor freeAddresses i2.previousChildAddress i2.previousChildVirtualAddress
    (fun a => i2.setPreviousChildAddress a) i2

/-- The body of the loop of `changeVirtualAddressesToFreeAddresses` over `dataChildNodes`. -/
def dataChildToFreeAddresses (freeAddresses : List QByteArray) (i : MPNode) : Option MPNode :=
  (freeAddressFor freeAddresses i.address i.virtualAddress (fun a => i.setAddress a 0) i).bind
  fun i1 =>
  freeAddressFor freeAddresses i1.nextChildDataAddress i1.nextChildVirtualAddress
    (fun a => i1.setNextChildDataAddress a) i1

/-- A loop over a node list whose body may fail. -/
def forEachNode (body : MPNode → Option MPNode) : List MPNode → Option (List MPNode)
  | [] => some []
  | i :: rest =>
    match body i with
    | none => none
    | some i1 => (forEachNode body rest).map fun rest1 => i1 :: rest1

/-- `MPDevice::changeVirtualAddressesToFreeAddresses`: every null address field of every node
takes the free address its virtual id indexes. There is no result when a virtual id read is
not an index of `freeAddresses`. -/
def changeVirtualAddressesToFreeAddresses (s : Session) : Option Session :=
  (forEachNode (parentToFreeAddresses s.freeAddresses) s.loginNodes).bind fun l1 =>
  (forEachNode (childToFreeAddresses s.freeAddresses) s.loginChildNodes).bind fun l2 =>
  (forEachNode (parentToFreeAddresses s.freeAddresses) s.dataNodes).bind fun l3 =>
  (forEachNode (dataChildToFreeAddresses s.freeAddresses) s.dataChildNodes).map fun l4 =>
  { s with loginNodes := l1, loginChildNodes := l2, dataNodes := l3, dataChildNodes := l4 }

/-! ## Writing a data node (MPDevice::setDataNode, MPDevice::setDataNodeCb) -/

/-- `MP_SET_DATA_SERVICE` (MooltipassCmds.h). -/
def MP_SET_DATA_SERVICE : Nat := 0xBE

/-- `MP_WRITE_32B_IN_DN` (MooltipassCmds.h). -/
def MP_WRITE_32B_IN_DN : Nat := 0xC0

/-- Modelled from the spec: `MOOLTIPASS_BLOCK_SIZE` is declared outside the sources; the
spec has data sent in 32-byte blocks. -/
def MOOLTIPASS_BLOCK_SIZE : Nat := 32

/-- Modelled from the spec: `MP_DATA_HEADER_SIZE` is declared outside the sources; the spec
has the payload preceded by its size as a 32-bit big-endian number. -/
def MP_DATA_HEADER_SIZE : Nat := 4

/-- `QByteArray::mid(pos, len)`. -/
def mid (b : QByteArray) (pos len : Nat) : QByteArray := (b.drop pos).take len

/-- `QByteArray::resize(size)`: a longer array is cut, a shorter one is extended by bytes
whose value Qt leaves open; `fill` gives the byte found at each added position. -/
def resize (fill : Nat → Nat) (b : QByteArray) (size : Nat) : QByteArray :=
  (List.range size).map fun i => if i < b.length then b.getD i 0 else fill i

/-- `qToBigEndian` of a 32-bit value: its four bytes, the most significant first. -/
def qToBigEndian (v : Nat) : QByteArray :=
  [v / 2 ^ 24 % 256, v / 2 ^ 16 % 256, v / 2 ^ 8 % 256, v % 256]

/-- The job `setDataNode` and `setDataNodeCb` append for one block: the payload of a
`MP_WRITE_32B_IN_DN` command and the value of `current` bound into its callback. -/
structure WriteJob where
  packet : QByteArray
  current : Nat
  deriving DecidableEq, Repr

/-- `MPDevice::setDataNodeCb`, the callback of a `MP_WRITE_32B_IN_DN` job, run on the reply
`data` with `current` the offset of the next block of `currentDataNode`: the returned value
and the job appended, if any. -/
def setDataNodeCb (fill : Nat → Nat) (currentDataNode : QByteArray) (current : Nat)
    (data : QByteArray) : Bool × Option WriteJob :=
  if byteAt data 2 = 0 then (false, none)
  -- sending finished
  else if current ≥ currentDataNode.length then (true, none)
  else
    -- prepare next block of data
    let eod := if currentDataNode.length - current ≤ MOOLTIPASS_BLOCK_SIZE then 1 else 0
    let packet := resize fill (eod :: mid currentDataNode current MOOLTIPASS_BLOCK_SIZE)
      (MOOLTIPASS_BLOCK_SIZE + 1)
    (true, some { packet := packet, current := current + MOOLTIPASS_BLOCK_SIZE })

/-- The value `setDataNode` gives `currentDataNode`: the size of the node data as a 32-bit
big-endian number, then the node data. -/
def dataNodeStream (nodeData : QByteArray) : QByteArray :=
  qToBigEndian (nodeData.length % 2 ^ 32) ++ nodeData

/-- `MPDevice::setDataNode` up to the point where the jobs are enqueued: the value left in
`currentDataNode` and the `MP_WRITE_32B_IN_DN` job appended for the first block. An empty
service gives no job. -/
def setDataNode (fill : Nat → Nat) (service : List Nat) (nodeData : QByteArray) :
    Option (QByteArray × WriteJob) :=
  if service = [] then none
  else
    -- set size of data
    let currentDataNode := dataNodeStream nodeData
    -- first packet
    let eod := if nodeData.length + MP_DATA_HEADER_SIZE ≤ MOOLTIPASS_BLOCK_SIZE then 1 else 0
    let firstPacket := resize fill (eod :: mid currentDataNode 0 MOOLTIPASS_BLOCK_SIZE)
      (MOOLTIPASS_BLOCK_SIZE + 1)
    some (currentDataNode, { packet := firstPacket, current := MOOLTIPASS_BLOCK_SIZE })

/-- The `MP_WRITE_32B_IN_DN` jobs run one after the other: the payload of the job is sent,
the device answers with `replies k` for the job of rank `k`, the callback `setDataNodeCb`
runs on the answer, and the job it appends, if any, is the next one. The result is the list
of the payloads sent, in order; the first argument bounds the number of jobs run. -/
def runWriteJobs (fill : Nat → Nat) (currentDataNode : QByteArray) (replies : Nat → QByteArray) :
    Nat → Nat → WriteJob → Option (List QByteArray)
  | 0, _, _ => none
  | fuel + 1, k, job =>
    match setDataNodeCb fill currentDataNode job.current (replies k) with
    | (_, none) => some [job.packet]
    | (_, some next) =>
      (runWriteJobs fill currentDataNode replies fuel (k + 1) next).map fun sent =>
        job.packet :: sent

/-- The payloads of the `MP_WRITE_32B_IN_DN` commands sent for `setDataNode(service,
nodeData)`, given the replies of the device. -/
def setDataNodePackets (fill : Nat → Nat) (service : List Nat) (nodeData : QByteArray)
    (replies : Nat → QByteArray) : Option (List QByteArray) :=
  match setDataNode fill service nodeData with
  | none => some []
  | some (currentDataNode, first) =>
    runWriteJobs fill currentDataNode replies (currentDataNode.length + 1) 0 first

/-! ## What resolving the virtual addresses means -/

/-- The value an address field has once resolved: the free address its virtual id indexes
when the field is null, the field itself otherwise. -/
def resolvedAddress (freeAddresses : List QByteArray) (addr : QByteArray) (virt : Nat) :
    QByteArray :=
  if addr = [] then freeAddresses.getD virt [] else addr

/-- The virtual id of a null address field is an index of `freeAddresses`. -/
def VirtualIdValid (freeAddresses : List QByteArray) (addr : QByteArray) (virt : Nat) : Prop :=
  addr = [] → virt < freeAddresses.length

/-- The free address the virtual id of a null address field indexes is a physical one. -/
def FreeAddressPhysical (freeAddresses : List QByteArray) (addr : QByteArray) (virt : Nat) :
    Prop :=
  addr = [] → freeAddresses.getD virt [] ≠ []

/-- A property of the address fields of a parent: its own address and its next-parent,
previous-parent and first-child pointers, each with its virtual id. -/
def ParentFields (P : QByteArray → Nat → Prop) (n : MPNode) : Prop :=
  P n.address n.virtualAddress ∧ P n.nextParentAddress n.nextParentVirtualAddress ∧
  P n.previousParentAddress n.prevParentVirtualAddress ∧
  P n.startChildAddress n.firstChildVirtualAddress

/-- A property of the address fields of a credential child: its own address and its
next-child and previous-child pointers. -/
def ChildFields (P : QByteArray → Nat → Prop) (n : MPNode) : Prop :=
  P n.address n.virtualAddress ∧ P n.nextChildAddress n.nextChildVirtualAddress ∧
  P n.previousChildAddress n.previousChildVirtualAddress

/-- A property of the address fields of a data child: its own address and its next-child
pointer. -/
def DataChildFields (P : QByteArray → Nat → Prop) (n : MPNode) : Prop :=
  P n.address n.virtualAddress ∧ P n.nextChildDataAddress n.nextChildVirtualAddress

/-- A property of every address field of the four node lists. -/
def AllFields (P : QByteArray → Nat → Prop) (s : Session) : Prop :=
  (∀ n ∈ s.loginNodes, ParentFields P n) ∧ (∀ n ∈ s.loginChildNodes, ChildFields P n) ∧
  (∀ n ∈ s.dataNodes, ParentFields P n) ∧ (∀ n ∈ s.dataChildNodes, DataChildFields P n)

/-- The address fields of the parent `n1` are those of `n`, resolved. -/
def ParentResolved (freeAddresses : List QByteArray) (n n1 : MPNode) : Prop :=
  n1.address = resolvedAddress freeAddresses n.address n.virtualAddress ∧
  n1.nextParentAddress =
    resolvedAddress freeAddresses n.nextParentAddress n.nextParentVirtualAddress ∧
  n1.previousParentAddress =
    resolvedAddress freeAddresses n.previousParentAddress n.prevParentVirtualAddress ∧
  n1.startChildAddress =
    resolvedAddress freeAddresses n.startChildAddress n.firstChildVirtualAddress

/-- The address fields of the credential child `n1` are those of `n`, resolved. -/
def ChildResolved (freeAddresses : List QByteArray) (n n1 : MPNode) : Prop :=
  n1.address = resolvedAddress freeAddresses n.address n.virtualAddress ∧
  n1.nextChildAddress =
    resolvedAddress freeAddresses n.nextChildAddress n.nextChildVirtualAddress ∧
  n1.previousChildAddress =
    resolvedAddress freeAddresses n.previousChildAddress n.previousChildVirtualAddress

/-- The address fields of the data child `n1` are those of `n`, resolved. -/
def DataChildResolved (freeAddresses : List QByteArray) (n n1 : MPNode) : Prop :=
  n1.address = resolvedAddress freeAddresses n.address n.virtualAddress ∧
  n1.nextChildDataAddress =
    resolvedAddress freeAddresses n.nextChildDataAddress n.nextChildVirtualAddress

/-- The state in which the parent `j` of a parent list has been given the virtual id `k`
instead of its address, in the node itself, in the next-parent pointer of `i` and in the
previous-parent pointer of `l`. -/
def virtualiseParent (s : Session) (isData : Bool) (j i l k : Nat) : Session :=
  let l1 := updateNode (s.parentList isData) j (fun n => n.setAddress [] k)
  let l2 := updateNode l1 i (fun n => n.setNextParentAddress [] k)
  let l3 := updateNode l2 l (fun n => n.setPreviousParentAddress [] k)
  s.setParentList isData l3

/-! ## A clean database -/

/-- Six parents in one page, chained in the order of the list and of their services; the
first one has a child chain starting at `firstChild`. -/
def cleanParents (page : Nat) (firstChild : QByteArray) : List MPNode :=
  (List.range 6).map fun i =>
    { address := [i + 1, page]
      previousParentAddress := if i = 0 then EmptyAddress else [i, page]
      nextParentAddress := if i = 5 then EmptyAddress else [i + 2, page]
      startChildAddress := if i = 0 then firstChild else EmptyAddress
      service := [97 + i] }

/-- A database in the state it has right after it was read and found valid: six credential
parents (the first with two children), six data parents (the first with two data children),
one favorite, and the clone equal to the live state. -/
def cleanDb : Session :=
  { startNode := [1, 8]
    loginNodes := cleanParents 8 [1, 9]
    loginChildNodes :=
      [{ address := [1, 9], nextChildAddress := [2, 9], login := [97] },
       { address := [2, 9], previousChildAddress := [1, 9], login := [98] }]
    startDataNode := [1, 10]
    dataNodes := cleanParents 10 [1, 11]
    dataChildNodes :=
      [{ address := [1, 11], nextChildDataAddress := [2, 11] }, { address := [2, 11] }]
    favoritesAddrs := [[1, 8, 1, 9], [0, 0, 0, 0]]
    ctrValue := [0, 0, 1]
    cpzCtrValue := [[1, 2, 3]]
    startNodeClone := [1, 8]
    loginNodesClone := cleanParents 8 [1, 9]
    loginChildNodesClone :=
      [{ address := [1, 9], nextChildAddress := [2, 9], login := [97] },
       { address := [2, 9], previousChildAddress := [1, 9], login := [98] }]
    startDataNodeClone := [1, 10]
    dataNodesClone := cleanParents 10 [1, 11]
    dataChildNodesClone :=
      [{ address := [1, 11], nextChildDataAddress := [2, 11] }, { address := [2, 11] }]
    favoritesAddrsClone := [[1, 8, 1, 9], [0, 0, 0, 0]]
    ctrValueClone := [0, 0, 1]
    cpzCtrValueClone := [[1, 2, 3]] }

/-- The clean database with the free addresses `testCodeAgainstCleanDBChanges` sets up: a
null entry, then the address of the second credential parent. -/
def cleanDbFree : Session := { cleanDb with freeAddresses := [[], [2, 8]] }

/-- The example database with one more credential child, which no node points to. -/
def orphanLoginChildDb : Session :=
  { exampleDb with
    loginChildNodes := exampleDb.loginChildNodes ++ [{ address := [0x03, 0x09], login := [100] }] }

/-- The example database with one favorite, made of the address of the first credential
parent and the address of the child of the second one. -/
def strayFavoriteDb : Session :=
  { exampleDb with favoritesAddrs := [[0x00, 0x08, 0x02, 0x09]] }

/-! ## What it means for the live state to equal the clone -/

/-- Two node lists have the same addresses and the same node data: every node of either
list has a node of the other list at its address, and two nodes at one address, one of each
list, have the same node data. The order of the lists does not matter. -/
def SameNodes (live clone : List MPNode) : Prop :=
  (∀ n ∈ live, ∃ m ∈ clone, m.address = n.address) ∧
  (∀ m ∈ clone, ∃ n ∈ live, n.address = m.address) ∧
  ∀ n ∈ live, ∀ m ∈ clone, m.address = n.address → n.getNodeData = m.getNodeData

/-- The addresses of a list name its nodes: every node has a physical address, and no two
nodes have the same one. -/
def AddressesDistinct (list : List MPNode) : Prop :=
  (∀ n ∈ list, n.address ≠ []) ∧ (list.map MPNode.address).Nodup

/-- The live state equals the clone: the four node lists agree with their clones in addresses
and node data, the favorites, the CTR value and the two start addresses are those of the
clone, and every CPZ/CTR entry is among those of the clone. -/
def LiveEqualsClone (s : Session) : Prop :=
  SameNodes s.loginNodes s.loginNodesClone ∧
  SameNodes s.loginChildNodes s.loginChildNodesClone ∧
  SameNodes s.dataNodes s.dataNodesClone ∧
  SameNodes s.dataChildNodes s.dataChildNodesClone ∧
  s.favoritesAddrs = s.favoritesAddrsClone ∧ s.ctrValue = s.ctrValueClone ∧
  s.startNode = s.startNodeClone ∧ s.startDataNode = s.startDataNodeClone ∧
  ∀ e ∈ s.cpzCtrValue, e ∈ s.cpzCtrValueClone

/-- In each of the four node lists the addresses name the nodes. -/
def AllDistinct (s : Session) : Prop :=
  AddressesDistinct s.loginNodes ∧ AddressesDistinct s.loginChildNodes ∧
  AddressesDistinct s.dataNodes ∧ AddressesDistinct s.dataChildNodes

/-- No node of the four clone lists has a null address. -/
def ClonePhysical (s : Session) : Prop :=
  (∀ n ∈ s.loginNodesClone, n.address ≠ []) ∧ (∀ n ∈ s.loginChildNodesClone, n.address ≠ []) ∧
  (∀ n ∈ s.dataNodesClone, n.address ≠ []) ∧ (∀ n ∈ s.dataChildNodesClone, n.address ≠ [])

/-- A state whose credential parents, live and clone, are a node without address (virtual
id 0) followed by a node at the address 0x0801. -/
def nullAddressDb : Session :=
  { loginNodes := [{ service := [97] }, { address := [1, 8], service := [98] }]
    loginNodesClone := [{ service := [97] }, { address := [1, 8], service := [98] }] }

/-- The position of the parent of rank `i`, by service, among the six node slots of its
page. -/
def scanSlot (i : Nat) : Nat := (5 * i + 2) % 6

/-- Six parents in one page, in the order of their services and chained in this order, as
`cleanParents`, but stored at the slots `scanSlot` gives: the order of the services is not
the order of the addresses. -/
def sortedParents (page : Nat) (firstChild : QByteArray) : List MPNode :=
  (List.range 6).map fun i =>
    { address := [scanSlot i + 1, page]
      previousParentAddress := if i = 0 then EmptyAddress else [scanSlot (i - 1) + 1, page]
      nextParentAddress := if i = 5 then EmptyAddress else [scanSlot (i + 1) + 1, page]
      startChildAddress := if i = 0 then firstChild else EmptyAddress
      service := [97 + i] }

/-- The parents of `sortedParents` in the order of their addresses, the order in which a
scan of the memory meets them. -/
def scannedParents (page : Nat) (firstChild : QByteArray) : List MPNode :=
  (List.range 6).map fun a => nodeAt (sortedParents page firstChild) (scanSlot a)

/-- A database in the state it has when the self-test starts: the live parent lists were
sorted by service, the clone lists are in the order of the scan. -/
def sortedDb : Session :=
  { cleanDb with
    startNode := [3, 8]
    loginNodes := sortedParents 8 [1, 9]
    startDataNode := [3, 10]
    dataNodes := sortedParents 10 [1, 11]
    favoritesAddrs := [[3, 8, 1, 9], [0, 0, 0, 0]]
    startNodeClone := [3, 8]
    loginNodesClone := scannedParents 8 [1, 9]
    startDataNodeClone := [3, 10]
    dataNodesClone := scannedParents 10 [1, 11]
    favoritesAddrsClone := [[3, 8, 1, 9], [0, 0, 0, 0]] }

/-- The clean database after the login of its first credential child was changed. -/
def changedLoginDb : Session :=
  { cleanDb with
    loginChildNodes :=
      [{ address := [1, 9], nextChildAddress := [2, 9], login := [120] },
       { address := [2, 9], previousChildAddress := [1, 9], login := [98] }] }

/-- The clean database after the service of its first credential parent was changed. -/
def changedServiceDb : Session :=
  { cleanDb with
    loginNodes := updateNode cleanDb.loginNodes 0 (fun n => { n with service := [96] }) }
/-! ## What the favorites check achieves -/

/-- The favorites check on the favorite `f0` in terms of the lookups it makes, given the node
lists of `s`: the favorite `f` it leaves is `f0` itself or `f0` with every byte set to 0; it
has been set to 0 when the parent address of `f0` is not empty and one of the two lookups
fails; and it has an empty parent address, or is made of zero bytes, or both lookups succeed
on it. -/
def FavoriteLookedUp (s : Session) (f0 f : QByteArray) : Prop :=
  (f = f0 ∨ f = f0.map fun _ => 0) ∧
  (f0.take 2 ≠ EmptyAddress →
    (findNodeWithAddressInList s.loginNodes (f0.take 2) 0 = none ∨
      findNodeWithAddressInList s.loginChildNodes ((f0.drop 2).take 2) 0 = none) →
    f = f0.map fun _ => 0) ∧
  (f.take 2 = EmptyAddress ∨ (∀ b ∈ f, b = 0) ∨
    ((findNodeWithAddressInList s.loginNodes (f.take 2) 0).isSome ∧
      (findNodeWithAddressInList s.loginChildNodes ((f.drop 2).take 2) 0).isSome))

/-- The favorite `f` is what the check is to leave of the favorite `f0`, given the node lists
of `s`. When the parent address of `f` is not empty, `f` is made of zero bytes or its parent
address is the address of a credential parent and its child address the address of a
credential child. When the parent address of `f0` is not empty and no credential parent has
it, or no credential child has the child address of `f0`, `f` is `f0` with every byte set
to 0. -/
def FavoriteChecked (s : Session) (f0 f : QByteArray) : Prop :=
  (f.take 2 ≠ EmptyAddress →
    (∀ b ∈ f, b = 0) ∨
    ((∃ n ∈ s.loginNodes, n.address = f.take 2) ∧
      ∃ n ∈ s.loginChildNodes, n.address = (f.drop 2).take 2)) ∧
  (f0.take 2 ≠ EmptyAddress →
    ((¬ ∃ n ∈ s.loginNodes, n.address = f0.take 2) ∨
      ¬ ∃ n ∈ s.loginChildNodes, n.address = (f0.drop 2).take 2) →
    f = f0.map fun _ => 0)

/-- A state with one credential parent that has no address (and the virtual id 0), one
credential child, and one favorite, whose parent address is the address of no node. -/
def virtualParentFavoriteDb : Session :=
  { loginNodes := [{ service := [97] }]
    loginChildNodes := [{ address := [1, 9] }]
    favoritesAddrs := [[5, 8, 1, 9]] }

/-! ## Flash geometry (MPDevice::getMemoryFirstNodeAddress and the functions after it) -/

/-- `MPDevice::getMemoryFirstNodeAddress`, as a function of `get_flashMbSize()`; the result
of `QByteArray::fromHex` is written out. -/
def getMemoryFirstNodeAddress (flashMbSize : Nat) : QByteArray :=
  match flashMbSize with
  | 1 => [0x00, 0x04]
  | 2 => [0x00, 0x04]
  | 4 => [0x00, 0x08]
  | 8 => [0x00, 0x08]
  | 16 => [0x00, 0x08]
  | 32 => [0x00, 0x04]
  | _ => [0x00, 0x08]

/-- `MPDevice::getNodesPerPage`, as a function of `get_flashMbSize()`. -/
def getNodesPerPage (flashMbSize : Nat) : Nat :=
  if flashMbSize ≥ 16 then 4 else 2

/-- `MPDevice::getNumberOfPages`, as a function of `get_flashMbSize()`; the result is a
`quint16`. -/
def getNumberOfPages (flashMbSize : Nat) : Nat :=
  if flashMbSize ≥ 16 then 256 * flashMbSize % 2 ^ 16 else 512 * flashMbSize % 2 ^ 16

/-- `MPDevice::getFlashPageFromAddress`. The masks keep only bits of the low eight bits of
each byte, so that the sign of `char` does not matter. -/
def getFlashPageFromAddress (address : QByteArray) : Nat :=
  (((byteAt address 1 % 256) <<< 5) &&& 0x1FE0) ||| (((byteAt address 0 % 256) >>> 3) &&& 0x001F)

/-- `MPDevice::getNodeIdFromAddress`. -/
def getNodeIdFromAddress (address : QByteArray) : Nat :=
  (byteAt address 0 % 256) &&& 0x07

/-! ## Knock sensitivity (MPDevice::loadParameters, MPDevice::updateKnockSensitivity) -/

/-- `MP_GET_MOOLTIPASS_PARM` (MooltipassCmds.h). -/
def MP_GET_MOOLTIPASS_PARM : Nat := 0xB2

/-- The value the callback of the `MINI_KNOCK_THRES_PARAM` query gives `knockSensitivity`
for the byte `data.at(2)`. -/
def knockSensitivityOf (b : Nat) : Nat :=
  if b = 11 then 0 else if b = 5 then 2 else 1

/-- The callback of the `MINI_KNOCK_THRES_PARAM` query in `loadParameters`: the returned
value and, when the reply carries the right command byte, the value handed to
`set_knockSensitivity`. -/
def knockSensitivityCb (data : QByteArray) : Bool × Option Nat :=
  if byteAt data MP_CMD_FIELD_INDEX ≠ MP_GET_MOOLTIPASS_PARM then (false, none)
  else (true, some (knockSensitivityOf (byteAt data 2)))

/-- `MPDevice::updateKnockSensitivity`: the byte handed to
`updateParam(MINI_KNOCK_THRES_PARAM, v)`. -/
def updateKnockSensitivity (s : Int) : Nat :=
  if s = 0 then 11 else if s = 2 then 5 else 8

/-! ## Leaving memory management (MPDevice::exitMemMgmtMode) -/

/-- The handler `exitMemMgmtMode` connects to `AsyncJobs::finished`. -/
def exitMemMgmtModeFinished (s : Session) : Session :=
  { s with
    -- cleaning all temp values
    ctrValue := [], cpzCtrValue := [], loginNodes := [], dataNodes := [], favoritesAddrs := []
    loginChildNodes := [], dataChildNodes := []
    -- cleaning the clones as well
    ctrValueClone := [], cpzCtrValueClone := [], loginNodesClone := [], dataNodesClone := []
    favoritesAddrsClone := [], loginChildNodesClone := [], dataChildNodesClone := []
    memMgmtMode := false }

/-- The handler `exitMemMgmtMode` connects to `AsyncJobs::failed`; `check_status` only
decides whether the failure is logged. -/
def exitMemMgmtModeFailed (_check_status : Bool) (s : Session) : Session :=
  { s with
    -- cleaning all temp values
    ctrValue := [], cpzCtrValue := [], loginNodes := [], dataNodes := [], favoritesAddrs := []
    loginChildNodes := [], dataChildNodes := []
    -- cleaning the clones as well
    ctrValueClone := [], cpzCtrValueClone := [], loginNodesClone := [], dataNodesClone := []
    favoritesAddrsClone := [], loginChildNodesClone := [], dataChildNodesClone := []
    memMgmtMode := false }

/-! ## Requests (MPDevice::cancelUserRequest, setCredential, getDataNode, setDataNode) -/

/-- `MP_CANCEL_USER_REQUEST` (MooltipassCmds.h). -/
def MP_CANCEL_USER_REQUEST : Nat := 0xC3

/-- `MPDevice::cancelUserRequest`. `isFw12` is the value of `isFw12()` and `getJobsId` gives
the request id of a job; `jobsQueue.removeAll(j)` removes every occurrence of the job. -/
def MPDevice.cancelUserRequest {W : Type} (d : MPDevice W) (isFw12 : Bool)
    (getJobsId : Nat → List Nat) (reqid : List Nat) : MPDevice W :=
  if !isFw12 then d
  else if d.currentJobs.any (fun j => getJobsId j = reqid) then
    { d with platformWritten := d.platformWritten ++ [[0, MP_CANCEL_USER_REQUEST]] }
  else
    -- search for an existing jobid in the queue
    match d.jobsQueue.find? (fun j => getJobsId j = reqid) with
    | some j => { d with jobsQueue := d.jobsQueue.filter (fun k => k ≠ j) }
    | none => d

/-- One call of the completion callback of a request: the `success` and `errstr` arguments;
the arguments after them are empty when `success` is false. -/
structure Completion where
  success : Bool
  errstr : String
  deriving DecidableEq, Repr

/-- `MPDevice::setCredential`, with `jobs` the job it builds for a valid input: the calls of
the completion callback made before it returns, and the state left. -/
def MPDevice.setCredential {W : Type} (d : MPDevice W) (service login : List Nat)
    (jobs : Nat) : List Completion × MPDevice W :=
  if service = [] ∨ login = [] then
    ([{ success := false, errstr := "service or login is empty" }], d)
  else ([], enqueueJobs jobs d)

/-- `MPDevice::getDataNode`, with `jobs` the job it builds for a valid input: the calls of
the completion callback made before it returns, and the state left. -/
def MPDevice.getDataNode {W : Type} (d : MPDevice W) (service : List Nat) (jobs : Nat) :
    List Completion × MPDevice W :=
  if service = [] then ([{ success := false, errstr := "context is empty" }], d)
  else ([], enqueueJobs jobs d)

/-- `MPDevice::setDataNode`, with `jobs` the job it builds for a valid input: the calls of
the completion callback made before it returns, and the state left. -/
def MPDevice.setDataNode {W : Type} (d : MPDevice W) (service : List Nat) (jobs : Nat) :
    List Completion × MPDevice W :=
  if service = [] then ([{ success := false, errstr := "context is empty" }], d)
  else ([], enqueueJobs jobs d)

/-! ## Jobs made of sub-commands (AsyncJobs) and the checks of getCredential and getDataNode -/

/-- `MP_CONTEXT` (MooltipassCmds.h). -/
def MP_CONTEXT : Nat := 0xA3

/-- `MP_GET_LOGIN` (MooltipassCmds.h). -/
def MP_GET_LOGIN : Nat := 0xA4

/-- `MP_GET_PASSWORD` (MooltipassCmds.h). -/
def MP_GET_PASSWORD : Nat := 0xA5

/-- `MP_GET_DESCRIPTION` (MooltipassCmds.h). -/
def MP_GET_DESCRIPTION : Nat := 0xD5

/-- `MP_LEN_FIELD_INDEX` (MooltipassCmds.h). -/
def MP_LEN_FIELD_INDEX : Nat := 0

/-- `MP_PAYLOAD_FIELD_INDEX` (MooltipassCmds.h). -/
def MP_PAYLOAD_FIELD_INDEX : Nat := 2

/-- The value of `(int)c` for a `char` holding the byte `b`, `char` being signed. -/
def charToInt (b : Nat) : Int :=
  if b % 256 < 128 then (b % 256 : Nat) else ((b % 256 : Nat) : Int) - 256

/-- `QByteArray::mid(pos, len)` for a length given as an `int`: a negative length stands
for everything from `pos` on. -/
def midInt (b : QByteArray) (pos : Nat) (len : Int) : QByteArray :=
  if len < 0 then b.drop pos else mid b pos len.toNat

/-- The payload of a reply, `data.mid(MP_PAYLOAD_FIELD_INDEX, data[MP_LEN_FIELD_INDEX])`. -/
def replyPayload (data : QByteArray) : QByteArray :=
  midInt data MP_PAYLOAD_FIELD_INDEX (charToInt (byteAt data MP_LEN_FIELD_INDEX))

/-- The conversion of UTF-8 bytes to the code units of a `QString`, `QString::fromUtf8`. It
is Qt's and not of these sources, and what the program does with a string is stated for every
conversion; the one thing used of it is that ASCII bytes are their own code units. -/
structure Utf8Codec where
  fromUtf8 : QByteArray → List Nat
  ascii : ∀ b : QByteArray, (∀ c ∈ b, c < 128) → fromUtf8 b = b

/-- The `QString` built from a byte array, `QString(const QByteArray &)`: the bytes up to the
first 0 byte, converted from UTF-8. A string is the list of its code units. -/
def qString (u : Utf8Codec) (b : QByteArray) : List Nat :=
  u.fromUtf8 (b.takeWhile (fun c => c ≠ 0))

/-- The code units of a code point: itself, or a surrogate pair from 0x10000 on. -/
def utf16Units (cp : Nat) : List Nat :=
  if cp < 0x10000 then [cp]
  else [0xD800 + (cp - 0x10000) / 1024, 0xDC00 + (cp - 0x10000) % 1024]

/-- The first byte of a UTF-8 sequence: the code units it gives at once, the number of
continuation bytes it asks for, the bits it brings, and the least code point a sequence of
that length may encode. A byte that starts no sequence gives U+FFFD. -/
def utf8Lead (b : Nat) : List Nat × Nat × Nat × Nat :=
  if b < 0x80 then ([b], 0, 0, 0)
  else if 0xC2 ≤ b ∧ b < 0xE0 then ([], 1, b - 0xC0, 0x80)
  else if 0xE0 ≤ b ∧ b < 0xF0 then ([], 2, b - 0xE0, 0x800)
  else if 0xF0 ≤ b ∧ b < 0xF5 then ([], 3, b - 0xF0, 0x10000)
  else ([0xFFFD], 0, 0, 0)

/-- A decoder of UTF-8 in the middle of its input: `need` continuation bytes are awaited
for the code point whose upper bits are `cp` and which is to be `least` at least, `seen`
bytes of its sequence having been read. Every byte of a sequence that is cut short, or that
encodes a code point below `least`, a surrogate or a code point above 0x10FFFF, gives
U+FFFD. -/
def utf8From : Nat → Nat → Nat → Nat → QByteArray → List Nat
  | _, seen, _, _, [] => List.replicate seen 0xFFFD
  | need, seen, cp, least, b :: rest =>
    if need = 0 then
      (utf8Lead b).1 ++
        utf8From (utf8Lead b).2.1 (if (utf8Lead b).2.1 = 0 then 0 else 1) (utf8Lead b).2.2.1
          (utf8Lead b).2.2.2 rest
    else if 0x80 ≤ b ∧ b < 0xC0 then
      if need = 1 then
        (if cp * 64 + (b - 0x80) < least ∨
            (0xD800 ≤ cp * 64 + (b - 0x80) ∧ cp * 64 + (b - 0x80) < 0xE000) ∨
            0x10FFFF < cp * 64 + (b - 0x80) then
          List.replicate (seen + 1) 0xFFFD
        else utf16Units (cp * 64 + (b - 0x80))) ++ utf8From 0 0 0 0 rest
      else utf8From (need - 1) (seen + 1) (cp * 64 + (b - 0x80)) least rest
    else
      List.replicate seen 0xFFFD ++ ((utf8Lead b).1 ++
        utf8From (utf8Lead b).2.1 (if (utf8Lead b).2.1 = 0 then 0 else 1) (utf8Lead b).2.2.1
          (utf8Lead b).2.2.2 rest)

/-- A UTF-8 decoder: a byte-order mark at the head of the input is skipped, a well-formed
sequence of one to four bytes becomes the code units of its code point, and every byte of a
sequence that is not well formed becomes U+FFFD. -/
def utf8Decode (b : QByteArray) : List Nat :=
  utf8From 0 0 0 0 (if b.take 3 = [0xEF, 0xBB, 0xBF] then b.drop 3 else b)

/-- A conversion of the kind `Utf8Codec` asks for: the UTF-8 decoder `utf8Decode`. -/
def utf8Codec : Utf8Codec where
  fromUtf8 := utf8Decode
  ascii := by
    intro b h
    have hbom : b.take 3 ≠ [0xEF, 0xBB, 0xBF] := by
      intro hb
      cases b with
      | nil => simp at hb
      | cons c rest =>
        have hc : c < 128 := h c (List.mem_cons_self _ _)
        simp only [List.take_succ_cons, List.cons.injEq] at hb
        omega
    unfold utf8Decode
    rw [if_neg hbom]
    induction b with
    | nil => rfl
    | cons c rest ih =>
      have hc : c < 0x80 := h c (List.mem_cons_self _ _)
      have hl : utf8Lead c = ([c], 0, 0, 0) := by simp [utf8Lead, hc]
      simp only [utf8From, if_true, hl, List.singleton_append]
      rw [ih (fun x hx => h x (List.mem_cons_of_mem _ hx))]
      intro hb
      cases rest with
      | nil => simp at hb
      | cons d rest2 =>
        have hd : d < 128 := h d (List.mem_cons_of_mem _ (List.mem_cons_self _ _))
        simp only [List.take_succ_cons, List.cons.injEq] at hb
        omega

/-- `qFromBigEndian<quint32>` on the first four bytes of an array. -/
def qFromBigEndian (b : QByteArray) : Nat :=
  ((byteAt b 0 % 256 * 256 + byteAt b 1 % 256) * 256 + byteAt b 2 % 256) * 256 + byteAt b 3 % 256

/-- Modelled from the spec: `jobs->user_data`, the map a job carries from one check to the
next (AsyncJobs.h is not among the sources). A key the map does not hold is `none`. -/
structure UserData where
  service : Option (List Nat) := none
  login : Option (List Nat) := none
  description : Option QByteArray := none
  data : Option QByteArray := none
  progress_total : Option Nat := none
  deriving DecidableEq, Repr

/-- The checks (the callbacks given to `MPCommandJob`) of `getCredential` and `getDataNode`,
each with the variables it captures. The first two serve both functions, with `cmd` the
command that selects a context: `MP_CONTEXT` or `MP_SET_DATA_SERVICE`. -/
inductive JobCheck where
  | context (cmd : Nat) (service fallback_service : List Nat)
  | fallbackContext (fallback_service : List Nat)
  | getLogin (login : List Nat)
  | getDescription
  | getPassword
  | getDataNodeCb
  deriving DecidableEq, Repr

/-- Modelled from the spec: `MPCommandJob`, a sub-command of a job (AsyncJobs.h is not among
the sources): the command, its payload and the check run on the reply. -/
structure SubCommand where
  cmd : Nat
  data : QByteArray
  check : JobCheck
  deriving DecidableEq, Repr

/-- What a check did: the value it returned, the error it set with `setCurrentJobError`, if
any, the `user_data` it left, and the sub-commands it handed to `jobs->prepend` and to
`jobs->append`. -/
structure CheckResult where
  ret : Bool
  error : Option String := none
  user_data : UserData
  prepended : List SubCommand := []
  appended : List SubCommand := []
  deriving DecidableEq, Repr

/-- The checks of `getCredential` and of `getDataNode` (with `getDataNodeCb`), run on the
reply `data` with `m` the value of `jobs->user_data`. -/
def runCheck (u : Utf8Codec) (check : JobCheck) (m : UserData) (data : QByteArray) :
    CheckResult :=
  match check with
  | JobCheck.context cmd service fallback_service =>
    if byteAt data 2 ≠ 1 then
      if fallback_service ≠ [] then
        { ret := true, user_data := m
          prepended := [{ cmd := cmd, data := fallback_service ++ [0]
                          check := JobCheck.fallbackContext fallback_service }] }
      else { ret := false, error := some "failed to select context on device", user_data := m }
    else { ret := true, user_data := { service := some service } }
  | JobCheck.fallbackContext fallback_service =>
    if byteAt data 2 ≠ 1 then
      { ret := false, error := some "failed to select context and fallback_context on device"
        user_data := m }
    else { ret := true, user_data := { service := some fallback_service } }
  | JobCheck.getLogin login =>
    if byteAt data 2 = 0 ∧ login ≠ [] then
      { ret := false, error := some "credential access refused by user", user_data := m }
    else
      let l := qString u (replyPayload data)
      if login ≠ [] ∧ l ≠ login then
        { ret := false, error := some "login mismatch", user_data := m }
      else { ret := true, user_data := { m with login := some l } }
  | JobCheck.getDescription =>
    if byteAt data 2 = 0 then
      -- do not fail if description is not available for this node
      { ret := true, error := some "failed to query description on device", user_data := m }
    else { ret := true, user_data := { m with description := some (replyPayload data) } }
  | JobCheck.getPassword =>
    if byteAt data 2 = 0 then
      { ret := false, error := some "failed to query password on device", user_data := m }
    else { ret := true, user_data := m }
  | JobCheck.getDataNodeCb =>
    if byteAt data 0 = 1 ∧ byteAt data 2 = 0 then
      -- data size is 1 and value is 0: end of data
      if m.data = none then
        { ret := false, error := some "reading data failed or no data", user_data := m }
      else { ret := true, user_data := m }
    else if byteAt data 0 ≠ 0 then
      let ba := m.data.getD []
      let ba1 := ba ++ replyPayload data
      let total := if ba = [] then some (qFromBigEndian ba1) else m.progress_total
      -- ask for the next 32 bytes packet
      { ret := true, user_data := { m with data := some ba1, progress_total := total }
        appended := [{ cmd := MP_READ_32B_IN_DN, data := [], check := JobCheck.getDataNodeCb }] }
    else { ret := true, user_data := m }

/-- Modelled from the spec: `AsyncJobs`, a job (AsyncJobs.cpp is not among the sources): the
sub-commands still to run, the first of which is the one the device is answering, and the
`user_data`. -/
structure AsyncJobs where
  remaining : List SubCommand
  user_data : UserData := {}
  deriving DecidableEq, Repr

/-- Where a job stands: still running, finished (with the `user_data` and the last reply,
the argument of `AsyncJobs::finished`) or failed (with the error of the failed
sub-command). -/
inductive JobsOutcome where
  | running (jobs : AsyncJobs)
  | finished (user_data : UserData) (data : QByteArray)
  | failed (errstr : String)
  deriving DecidableEq, Repr

/-- Modelled from the spec: a job receives the reply to its current sub-command. The check
of the sub-command runs; when it returns false the job fails; otherwise the sub-commands it
prepended come in front of the remaining ones and those it appended after them, and the job
finishes when none remains. -/
def AsyncJobs.reply (jobs : AsyncJobs) (u : Utf8Codec) (data : QByteArray) : JobsOutcome :=
  match jobs.remaining with
  | [] => JobsOutcome.running jobs
  | current :: rest =>
    let r := runCheck u current.check jobs.user_data data
    if !r.ret then JobsOutcome.failed (r.error.getD "")
    else
      match r.prepended ++ rest ++ r.appended with
      | [] => JobsOutcome.finished r.user_data data
      | remaining => JobsOutcome.running { remaining := remaining, user_data := r.user_data }

/-- The replies of the device reach a job one after the other, until it finishes or fails;
replies that come after that are not for this job. -/
def AsyncJobs.run (jobs : AsyncJobs) (u : Utf8Codec) : List QByteArray → JobsOutcome
  | [] => JobsOutcome.running jobs
  | data :: rest =>
    match jobs.reply u data with
    | JobsOutcome.running jobs1 => AsyncJobs.run jobs1 u rest
    | outcome => outcome

/-- The job `getCredential` builds. -/
def getCredentialJobs (service login fallback_service : List Nat) : AsyncJobs :=
  { remaining :=
      [{ cmd := MP_CONTEXT, data := service ++ [0]
         check := JobCheck.context MP_CONTEXT service fallback_service },
       { cmd := MP_GET_LOGIN, data := [], check := JobCheck.getLogin login },
       { cmd := MP_GET_DESCRIPTION, data := [], check := JobCheck.getDescription },
       { cmd := MP_GET_PASSWORD, data := [], check := JobCheck.getPassword }] }

/-- What `getCredential` hands its caller. -/
structure CredentialResult where
  success : Bool
  errstr : String
  service : List Nat
  login : List Nat
  pass : List Nat
  desc : List Nat
  deriving DecidableEq, Repr

/-- The handlers `getCredential` connects to `AsyncJobs::finished` and to
`AsyncJobs::failed`; a job still running has called neither. -/
def getCredentialResult (u : Utf8Codec) : JobsOutcome → Option CredentialResult
  | JobsOutcome.running _ => none
  | JobsOutcome.finished m data =>
    some { success := true, errstr := "", service := m.service.getD []
           login := m.login.getD [], pass := qString u (replyPayload data)
           desc := qString u (m.description.getD []) }
  | JobsOutcome.failed errstr =>
    some { success := false, errstr := errstr, service := [], login := [], pass := [], desc := [] }

/-- The job `getDataNode` builds for a service that is not empty. -/
def getDataNodeJobs (service fallback_service : List Nat) : AsyncJobs :=
  { remaining :=
      [{ cmd := MP_SET_DATA_SERVICE, data := service ++ [0]
         check := JobCheck.context MP_SET_DATA_SERVICE service fallback_service },
       { cmd := MP_READ_32B_IN_DN, data := [], check := JobCheck.getDataNodeCb }] }

/-- What `getDataNode` hands its caller. -/
structure DataNodeResult where
  success : Bool
  errstr : String
  serv : List Nat
  rawData : QByteArray
  deriving DecidableEq, Repr

/-- The handlers `getDataNode` connects to `AsyncJobs::finished` and to `AsyncJobs::failed`;
a job still running has called neither. The finished handler reads the size `sz` in the first
four bytes of the data gathered and hands `ndata.mid(4, sz)`, the size, a `quint32`, becoming
the `int` length given to `mid`. It does not look at the number of bytes gathered: with four
bytes or fewer `mid(4, sz)` is empty whatever is read as the size. -/
def getDataNodeResult : JobsOutcome → Option DataNodeResult
  | JobsOutcome.running _ => none
  | JobsOutcome.finished m _ =>
    let ndata := m.data.getD []
    let sz := qFromBigEndian ndata
    some { success := true, errstr := "", serv := m.service.getD []
           rawData := midInt ndata 4 (if sz < 2 ^ 31 then sz else (sz : Int) - 2 ^ 32) }
  | JobsOutcome.failed errstr =>
    some { success := false, errstr := errstr, serv := [], rawData := [] }

/-- The reply to `MP_READ_32B_IN_DN` that carries the 32 data bytes of a block sent by
`setDataNode` (the block without its end-of-data byte). -/
def blockReply (packet : QByteArray) : QByteArray :=
  32 :: MP_READ_32B_IN_DN :: packet.drop 1

/-- The reply to `MP_READ_32B_IN_DN` that ends the data: length 1, payload byte 0. -/
def endOfDataReply : QByteArray := [1, MP_READ_32B_IN_DN, 0]

/-- A reply is the end-of-data one: length 1 and first payload byte 0. -/
def isEndOfData (data : QByteArray) : Prop := byteAt data 0 = 1 ∧ byteAt data 2 = 0

/-- The replies to `MP_READ_32B_IN_DN` at which the read loop of `getDataNode` stops: the
end-of-data one, and one with length 0. -/
def stopsReading (data : QByteArray) : Prop := isEndOfData data ∨ byteAt data 0 = 0

/-- The job of `getDataNode` while it reads: the only sub-command that remains asks for the
next 32 bytes. -/
def readJobs (m : UserData) : AsyncJobs :=
  { remaining := [{ cmd := MP_READ_32B_IN_DN, data := [], check := JobCheck.getDataNodeCb }]
    user_data := m }

/-! ## Auxiliary notions for the proofs about repair -/

/-- Following the pointer `next` from the address `a` visits the nodes `path`, in this
order, and then arrives at the address `x`. -/
def SegLinks (list : List MPNode) (next : MPNode → QByteArray) :
    QByteArray → List Nat → QByteArray → Prop
  | a, [], x => a = x
  | a, i :: rest, x =>
    a ≠ EmptyAddress ∧ resolve list a = some i ∧ SegLinks list next (next (nodeAt list i)) rest x

/-- The parents `path` form a doubly-linked chain from the address `start`: following the
next-parent pointers from `start` visits `path` and ends at the empty address, the
previous-parent pointer of the first node is the empty address and that of every later node
is the address of its predecessor. -/
def Linked (list : List MPNode) (start : QByteArray) (path : List Nat) : Prop :=
  ChainLinks list MPNode.nextParentAddress start path ∧
  PrevLinks list MPNode.previousParentAddress EmptyAddress path

/-- What the repairing parent loop makes of a parent it visits, `e` being the previous
address it expects: a wrong previous address is replaced, and the node is tagged. -/
def fixParent (e : QByteArray) (n : MPNode) : MPNode :=
  (if n.previousParentAddress ≠ e then n.setPreviousParentAddress e 0 else n).setPointedToCheck

/-- What the repairing parent loop makes of the parents when it visits `path`, `e` being
the previous address expected of the first. -/
def walkParents : List MPNode → QByteArray → List Nat → List MPNode
  | l, _, [] => l
  | l, e, i :: rest => walkParents (updateNode l i (fixParent e)) (nodeAt l i).address rest

/-- The node visited last: the last of `path`, or `pt` when the path is empty. -/
def lastVisited (path : List Nat) (pt : Option Nat) : Option Nat :=
  path.foldl (fun _ i => some i) pt

/-- A node without its tag and without the virtual ids of its parent pointers. -/
def MPNode.core (n : MPNode) : MPNode :=
  { n with pointedToCheck := false, prevParentVirtualAddress := 0
           nextParentVirtualAddress := 0 }

/-- A node without its tag and without its parent pointers. -/
def MPNode.unlinked (n : MPNode) : MPNode :=
  { n with pointedToCheck := false, prevParentVirtualAddress := 0
           nextParentVirtualAddress := 0, previousParentAddress := [], nextParentAddress := [] }

/-- Two lists hold the same nodes up to the tags and the virtual ids of the parent
pointers. -/
def SameCore (l1 l2 : List MPNode) : Prop :=
  l1.map MPNode.core = l2.map MPNode.core

/-- Two lists hold the same nodes up to the tags and the parent pointers. -/
def SameButLinks (l1 l2 : List MPNode) : Prop :=
  l1.map MPNode.unlinked = l2.map MPNode.unlinked

/-- A chain a repairing walk can follow to its end: the next-parent pointers lead from the
start address through the distinct parents `path` to the address `x`, which is empty or
resolves to no parent; the child chain of the k-th parent met is the k-th list of
`childPaths`, without violation; and no child is met twice. The previous-parent pointers
are not asked to be right. -/
def Walkable (isData : Bool) (c : NodeChain) (path : List Nat) (childPaths : List (List Nat))
    (x : QByteArray) : Prop :=
  SegLinks c.parents MPNode.nextParentAddress c.start path x ∧
  (x = EmptyAddress ∨ resolve c.parents x = none) ∧ path.Nodup ∧
  List.Forall₂ (ChildChain isData c.parents c.children) path childPaths ∧
  childPaths.flatten.Nodup

/-- What a repairing walk along `path` makes of the chain `c`: the chain `c1` holds the
same nodes up to the parent links, the tags and the virtual ids of the parent links; its
parents `path` are linked both ways from its start address; they are the tagged parents;
and the other parents are as they were, tag apart. -/
def Walked (c c1 : NodeChain) (path : List Nat) : Prop :=
  SameButLinks c1.parents c.parents ∧ SameFields c1.children c.children ∧
  Linked c1.parents c1.start path ∧
  (∀ k, (nodeAt c1.parents k).pointedToCheck = true ↔ k ∈ path) ∧
  (∀ k, k ∉ path → (nodeAt c1.parents k).core = (nodeAt c.parents k).core)

/-! ## The self-test scenarios of the repair code (MPDevice::testCodeAgainstCleanDBChanges) -/

/-- A session up to what the repair code does not restore and the device does not store: the
tags, the virtual ids of the parent links, and the virtual ids of the two start addresses. -/
def Session.core (s : Session) : Session :=
  { s with
    virtualStartNode := 0
    virtualDataStartNode := 0
    loginNodes := s.loginNodes.map MPNode.core
    loginChildNodes := s.loginChildNodes.map MPNode.removePointedToCheck
    dataNodes := s.dataNodes.map MPNode.core
    dataChildNodes := s.dataChildNodes.map MPNode.removePointedToCheck }

/-- The chain `c1` is the chain `c` up to the tags and the virtual ids of the parent links. -/
def Restores (c c1 : NodeChain) : Prop :=
  c1.start = c.start ∧ SameCore c1.parents c.parents ∧ SameFields c1.children c.children

/-- The favorites check of `checkLoadedNodes` keeps every favorite of the session. -/
def FavoritesKept (s : Session) : Prop :=
  ∀ f ∈ s.favoritesAddrs, checkFavorite s f = f

/-- No violation on a chain, with the parents met and their child chains named: the body of
`ChainValid`. -/
def ChainValidAlong (isData : Bool) (c : NodeChain) (parentPath : List Nat)
    (childPaths : List (List Nat)) : Prop :=
  ChainLinks c.parents MPNode.nextParentAddress c.start parentPath ∧
  parentPath.Nodup ∧
  PrevLinks c.parents MPNode.previousParentAddress EmptyAddress parentPath ∧
  List.Forall₂ (ChildChain isData c.parents c.children) parentPath childPaths ∧
  childPaths.flatten.Nodup

/-- The chain of a session that holds the given parent list. -/
def Session.chain (s : Session) (isData : Bool) : NodeChain :=
  if isData then s.dataChain else s.credChain

/-- The test "Setting parent node loop": `parents[k]->setPreviousParentAddress(parents[m]->
getAddress())` on the credential parents or on the data parents. -/
def setParentLoop (isData : Bool) (k m : Nat) (s : Session) : Session :=
  s.setParentList isData (updateNode (s.parentList isData) k
    (fun n => n.setPreviousParentAddress (nodeAt (s.parentList isData) m).address 0))

/-! ## Auxiliary notions for the proofs about `addOrphanParentToDB` -/

/-- The address of the last node of a path, or `e` when the path is empty. -/
def lastAddress (l : List MPNode) (e : QByteArray) (path : List Nat) : QByteArray :=
  path.foldl (fun _ i => (nodeAt l i).address) e

/-- The address of the first node of a path, or `e` when the path is empty. -/
def firstAddress (l : List MPNode) (e : QByteArray) (path : List Nat) : QByteArray :=
  match path with
  | [] => e
  | i :: _ => (nodeAt l i).address

/-- The scan of `addOrphanParentToDB` seen on the tagged nodes only: `orphanScan` run over
the pointers of the tagged nodes, in the order of the list. -/
def scanPath (service : List Nat) (l : List MPNode) :
    List Nat → Option Nat → Option Nat × Option Nat
  | [], prevNodePt => (none, prevNodePt)
  | i :: rest, _ =>
    if (nodeAt l i).service > service then (some i, some i)
    else scanPath service l rest (some i)

/-- The pointers of the tagged nodes of a list, in the order of the list. -/
def taggedNodes (l : List MPNode) : List Nat :=
  (List.range l.length).filter fun i => (nodeAt l i).pointedToCheck

/-- The session without its two chains: what `tagPointedNodes` and `addOrphanParentToDB` do
not touch (the virtual ids of the start addresses are left out too). -/
def Session.others (s : Session) : Session :=
  { s with
    startNode := []
    virtualStartNode := 0
    startDataNode := []
    virtualDataStartNode := 0
    loginNodes := []
    loginChildNodes := []
    dataNodes := []
    dataChildNodes := [] }

/-- The parent list `addOrphanParentToDB` makes when the orphan `p` becomes the start node, in
front of the parent `i`. -/
def linkAsFirst (parentList : List MPNode) (p i : Nat) : List MPNode :=
  let l1 := updateNode parentList p (fun n => n.setPreviousParentAddress EmptyAddress 0)
  let l2 := updateNode l1 i (fun n => n.setPreviousParentAddress
    (nodeAt l1 p).address (nodeAt l1 p).virtualAddress)
  updateNode l2 p (fun n => n.setNextParentAddress
    (nodeAt l2 i).address (nodeAt l2 i).virtualAddress)

/-- The parent list `addOrphanParentToDB` makes when the orphan `p` is put between the
parents `prevNodePt` and `i`. -/
def linkBetween (parentList : List MPNode) (prevNodePt p i : Nat) : List MPNode :=
  let l1 := updateNode parentList prevNodePt (fun n => n.setNextParentAddress
    (nodeAt parentList p).address (nodeAt parentList p).virtualAddress)
  let l2 := updateNode l1 p (fun n => n.setPreviousParentAddress
    (nodeAt l1 prevNodePt).address (nodeAt l1 prevNodePt).virtualAddress)
  let l3 := updateNode l2 i (fun n => n.setPreviousParentAddress
    (nodeAt l2 p).address (nodeAt l2 p).virtualAddress)
  updateNode l3 p (fun n => n.setNextParentAddress
    (nodeAt l3 i).address (nodeAt l3 i).virtualAddress)

/-- The parent list `addOrphanParentToDB` makes when the orphan `p` is the only node of
the chain. -/
def linkAlone (parentList : List MPNode) (p : Nat) : List MPNode :=
  let l1 := updateNode parentList p (fun n => n.setPreviousParentAddress EmptyAddress 0)
  updateNode l1 p (fun n => n.setNextParentAddress EmptyAddress 0)

/-- The parent list `addOrphanParentToDB` makes when the orphan `p` takes the last spot,
behind the parent `prevNodePt`. -/
def linkLast (parentList : List MPNode) (prevNodePt p : Nat) : List MPNode :=
  let l1 := updateNode parentList prevNodePt (fun n => n.setNextParentAddress
    (nodeAt parentList p).address (nodeAt parentList p).virtualAddress)
  let l2 := updateNode l1 p (fun n => n.setPreviousParentAddress
    (nodeAt l1 prevNodePt).address (nodeAt l1 prevNodePt).virtualAddress)
  updateNode l2 p (fun n => n.setNextParentAddress EmptyAddress 0)

/-- What makes a parent's place in its chain: its address, its two parent links and its
service. -/
def MPNode.links (n : MPNode) : QByteArray × QByteArray × QByteArray × List Nat :=
  (n.address, n.previousParentAddress, n.nextParentAddress, n.service)

/-! ## Examples for `addOrphanParentToDB` -/

/-- Three credential parents in the order of their services: the first and the third are
tagged and linked to each other from the start address, the second is an orphan. -/
def orphanParentDb : Session :=
  { startNode := [1, 8]
    loginNodes :=
      [{ address := [1, 8], nextParentAddress := [3, 8], service := [97],
         pointedToCheck := true },
       { address := [2, 8], service := [98] },
       { address := [3, 8], previousParentAddress := [1, 8], service := [99],
         pointedToCheck := true }] }

/-- Two credential parents with the same service: the first one is the whole chain and is
tagged, the second one is an orphan. -/
def sameServiceDb : Session :=
  { startNode := [1, 8]
    loginNodes :=
      [{ address := [1, 8], service := [97], pointedToCheck := true },
       { address := [2, 8], service := [97] }] }

/-- Two credential parents in the order of their services. The first one has no address
(and the virtual id 0) and is an orphan; the second one is the whole chain and is tagged. -/
def nullOrphanDb : Session :=
  { startNode := [1, 8]
    loginNodes :=
      [{ service := [97] },
       { address := [1, 8], service := [98], pointedToCheck := true }] }

/-- Two credential parents at the same address, in the order of their services: the first
one is the whole chain and is tagged, the second one is an orphan. -/
def sameAddressDb : Session :=
  { startNode := [1, 8]
    loginNodes :=
      [{ address := [1, 8], service := [97], pointedToCheck := true },
       { address := [1, 8], service := [98] }] }

/-- Two credential parents in the order of their services: the first one is the whole chain
and is tagged, the second one is an orphan whose address is the empty address. -/
def emptyAddressOrphanDb : Session :=
  { startNode := [1, 8]
    loginNodes :=
      [{ address := [1, 8], service := [97], pointedToCheck := true },
       { address := [0, 0], service := [98] }] }

/-! ## Full scan of the flash (MPDevice::getNextNodeAddressInMemory,
MPDevice::loadSingleNodeAndScan) -/

/-- `MPDevice::getNextNodeAddressInMemory`, for an address of two bytes, as a function of
`get_flashMbSize()`. `curNodeInPage` is a `quint8` and `curPage` a `quint16`. -/
def getNextNodeAddressInMemory (flashMbSize : Nat) (address : QByteArray) : QByteArray :=
  let curNodeInPage := (byteAt address 0 % 256) &&& 0x07
  let curPage := getFlashPageFromAddress address
  -- Do the incrementation
  let incremented := (curNodeInPage + 1) % 2 ^ 8
  let curNodeInPage1 := if incremented = getNodesPerPage flashMbSize then 0 else incremented
  let curPage1 :=
    if incremented = getNodesPerPage flashMbSize then (curPage + 1) % 2 ^ 16 else curPage
  -- Reconstruct the address
  (address.set 0 (curNodeInPage1 ||| (((curPage1 <<< 3) % 2 ^ 8) &&& 0xF8))).set 1
    ((curPage1 >>> 5) % 2 ^ 8)

/-- The addresses `loadSingleNodeAndScan` reads, in order, from `address` on: it stops when
the page of the address is `getNumberOfPages()`, and goes on with
`getNextNodeAddressInMemory(address)` once the node is read (or refused). The first argument
bounds the number of calls; `none` means the bound was too small. -/
def scanFrom (flashMbSize : Nat) : Nat → QByteArray → Option (List QByteArray)
  | 0, _ => none
  | fuel + 1, address =>
    if getFlashPageFromAddress address = getNumberOfPages flashMbSize then some []
    else (scanFrom flashMbSize fuel (getNextNodeAddressInMemory flashMbSize address)).map
      fun l => address :: l

/-- The address of the node slot `slot` of the page `page`. -/
def slotAddress (page slot : Nat) : QByteArray :=
  [page % 32 * 8 + slot, page / 32]

/-- The node slots of the pages `firstPage`, ..., `pages - 1`, in ascending order, each page
with its slots `0`, ..., `nodesPerPage - 1` in ascending order: slot number `i` of the flash
is the slot `i % nodesPerPage` of the page `i / nodesPerPage`. -/
def slotsOf (firstPage pages nodesPerPage : Nat) : List (Nat × Nat) :=
  (List.range' (firstPage * nodesPerPage) ((pages - firstPage) * nodesPerPage)).map
    fun i => (i / nodesPerPage, i % nodesPerPage)

/-! ## Device parameters (MPDevice::updateParam and the setters that call it) -/

/-- `MP_SET_MOOLTIPASS_PARM` (MooltipassCmds.h). -/
def MP_SET_MOOLTIPASS_PARM : Nat := 0xB1

/-- `MPParams::KEYBOARD_LAYOUT_PARAM` (the enum `MPParams::Param` counts from 0). -/
def KEYBOARD_LAYOUT_PARAM : Nat := 1

/-- `MPParams::USER_INTER_TIMEOUT_PARAM`. -/
def USER_INTER_TIMEOUT_PARAM : Nat := 2

/-- `MPParams::LOCK_TIMEOUT_PARAM`. -/
def LOCK_TIMEOUT_PARAM : Nat := 4

/-- `MPParams::KEY_AFTER_LOGIN_SEND_PARAM`. -/
def KEY_AFTER_LOGIN_SEND_PARAM : Nat := 20

/-- `MPParams::KEY_AFTER_PASS_SEND_PARAM`. -/
def KEY_AFTER_PASS_SEND_PARAM : Nat := 22

/-- `MPParams::DELAY_AFTER_KEY_ENTRY_PARAM`. -/
def DELAY_AFTER_KEY_ENTRY_PARAM : Nat := 24

/-- `MPParams::MINI_OLED_CONTRAST_CURRENT_PARAM`. -/
def MINI_OLED_CONTRAST_CURRENT_PARAM : Nat := 26

/-- `MPParams::LOCK_UNLOCK_FEATURE_PARAM`. -/
def LOCK_UNLOCK_FEATURE_PARAM : Nat := 30

/-- The cast `(quint8)` of an `int`. -/
def toQuint8 (val : Int) : Nat := (val % 256).toNat

/-- `MPDevice::updateParam(param, int val)`: the payload `ba` of the
`MP_SET_MOOLTIPASS_PARM` command it queues. -/
def updateParam (param : Nat) (val : Int) : QByteArray :=
  [param % 256, toQuint8 val]

/-- `MPDevice::updateKeyboardLayout`. -/
def updateKeyboardLayout (lang : Int) : QByteArray :=
  updateParam KEYBOARD_LAYOUT_PARAM lang

/-- `MPDevice::updateLockTimeout`. -/
def updateLockTimeout (timeout : Int) : QByteArray :=
  let timeout1 := if timeout < 0 then 0 else timeout
  let timeout2 := if timeout1 > 0xFF then 0xFF else timeout1
  updateParam LOCK_TIMEOUT_PARAM timeout2

/-- `MPDevice::updateUserInteractionTimeout`. -/
def updateUserInteractionTimeout (timeout : Int) : QByteArray :=
  let timeout1 := if timeout < 0 then 0 else timeout
  let timeout2 := if timeout1 > 0xFF then 0xFF else timeout1
  updateParam USER_INTER_TIMEOUT_PARAM timeout2

/-- `MPDevice::updateScreenBrightness`. -/
def updateScreenBrightness (bval : Int) : QByteArray :=
  updateParam MINI_OLED_CONTRAST_CURRENT_PARAM bval

/-- `MPDevice::updateKeyAfterLoginSend`. -/
def updateKeyAfterLoginSend (value : Int) : QByteArray :=
  updateParam KEY_AFTER_LOGIN_SEND_PARAM value

/-- `MPDevice::updateKeyAfterPassSend`. -/
def updateKeyAfterPassSend (value : Int) : QByteArray :=
  updateParam KEY_AFTER_PASS_SEND_PARAM value

/-- `MPDevice::updateDelayAfterKeyEntry`. -/
def updateDelayAfterKeyEntry (val : Int) : QByteArray :=
  updateParam DELAY_AFTER_KEY_ENTRY_PARAM val

/-- `MPDevice::updateLockUnlockMode`. -/
def updateLockUnlockMode (val : Int) : QByteArray :=
  updateParam LOCK_UNLOCK_FEATURE_PARAM val

/-- The value the spec gives the setters: `v` clamped to the range 0 to 255. -/
def clampByte (v : Int) : Nat :=
  if v < 0 then 0 else if v > 255 then 255 else v.toNat

/-! ## CPZ/CTR records (the `MP_GET_CARD_CPZ_CTR` job of MPDevice::memMgmtModeReadFlash) -/

/-- `MP_CARD_CPZ_CTR_PACKET` (MooltipassCmds.h). -/
def MP_CARD_CPZ_CTR_PACKET : Nat := 0xCF

/-- What the callback of the `MP_GET_CARD_CPZ_CTR` job leaves: the returned value, the value
of `done` (which `newDataRead` sets to true before the call), whether
`setCurrentJobError` was called, and the session. -/
structure CpzCtrResult where
  ret : Bool
  done : Bool
  error : Bool
  session : Session
  deriving DecidableEq, Repr

/-- The callback of the `MP_GET_CARD_CPZ_CTR` job: a CPZ/CTR packet is appended to
`cpzCtrValue` and to `cpzCtrValueClone` unless `cpzCtrValue` holds it already, and the
command stays pending; the final `MP_GET_CARD_CPZ_CTR` packet ends the command; any other
packet is an error. -/
def cpzCtrCb (s : Session) (data : QByteArray) : CpzCtrResult :=
  if byteAt data 1 % 256 = MP_CARD_CPZ_CTR_PACKET then
    let cpz := replyPayload data
    if cpz ∈ s.cpzCtrValue then
      { ret := true, done := false, error := false, session := s }
    else
      { ret := true, done := false, error := false,
        session := { s with cpzCtrValue := s.cpzCtrValue ++ [cpz],
                            cpzCtrValueClone := s.cpzCtrValueClone ++ [cpz] } }
  else if byteAt data 1 % 256 = MP_GET_CARD_CPZ_CTR then
    -- Received packet indicating we received all CPZ CTR packets
    { ret := true, done := true, error := false, session := s }
  else
    { ret := false, done := true, error := true, session := s }

/-- The session after the callback has been given the packets of a list, one after the
other. -/
def cpzCtrRun (s : Session) (packets : List QByteArray) : Session :=
  packets.foldl (fun t data => (cpzCtrCb t data).session) s

/-! ## Version reply (the `MP_VERSION` job of MPDevice::loadParameters) -/

/-- `MP_VERSION` (MooltipassCmds.h). -/
def MP_VERSION : Nat := 0xA2

/-- What the version check sets: `flashMbSize`, `hwVersion` (the code units of the
string), `isFw12Flag` and `isMiniFlag`. -/
structure VersionInfo where
  flashMbSize : Nat := 0
  hwVersion : List Nat := []
  isFw12Flag : Bool := false
  isMiniFlag : Bool := false
  deriving DecidableEq, Repr

/-- The character class `[0-9]`. -/
def isDigit (c : Nat) : Bool := decide (48 ≤ c) && decide (c ≤ 57)

/-- The number a string of decimal digits writes. -/
def decimalValue (digits : List Nat) : Nat :=
  digits.foldl (fun a c => a * 10 + (c - 48)) 0

/-- `QString::toInt()` on a string of decimal digits: its value, or 0 when the value does
not fit an `int`. -/
def digitsToInt (digits : List Nat) : Int :=
  if decimalValue digits < 2 ^ 31 then (decimalValue digits : Int) else 0

/-- Arithmetic of `int`: the result modulo 2^32, read as a signed number. -/
def wrapInt (x : Int) : Int := (x + 2 ^ 31) % 2 ^ 32 - 2 ^ 31

/-- A match of `regVersion`, the pattern `v([0-9]+)\.([0-9]+)(.*)`, at the head of a
string: the three captured groups. Each group of digits takes all the digits there are (a
shorter group would be followed by a digit, not by what the pattern asks for), and `(.*)`
takes the rest of the line. -/
def matchVersionHere (s : List Nat) : Option (List Nat × List Nat × List Nat) :=
  match s with
  | 118 :: rest =>
    if rest.takeWhile isDigit = [] then none
    else
      match rest.dropWhile isDigit with
      | 46 :: rest2 =>
        if rest2.takeWhile isDigit = [] then none
        else some (rest.takeWhile isDigit, rest2.takeWhile isDigit,
          (rest2.dropWhile isDigit).takeWhile (fun c => c ≠ 10))
      | _ => none
  | _ => none

/-- The first match `regVersion.globalMatch(hw)` yields: the match at the leftmost position
that has one. -/
def firstVersionMatch : List Nat → Option (List Nat × List Nat × List Nat)
  | [] => none
  | c :: rest =>
    match matchVersionHere (c :: rest) with
    | some m => some m
    | none => firstVersionMatch rest

/-- The callback of the `MP_VERSION` job of `loadParameters`: the returned value and the
version data it leaves. A string is the list of its code units. -/
def versionCb (u : Utf8Codec) (old : VersionInfo) (data : QByteArray) : Bool × VersionInfo :=
  if byteAt data MP_CMD_FIELD_INDEX % 256 ≠ MP_VERSION then (false, old)
  else
    let hw := qString u (midInt data 3 (((byteAt data 0 % 256 : Nat) : Int) - 2))
    let info := { old with flashMbSize := byteAt data 2 % 256, hwVersion := hw }
    match firstVersionMatch hw with
    | some (g1, g2, g3) =>
      let v := wrapInt (wrapInt (digitsToInt g1 * 10) + digitsToInt g2)
      (true, { info with isFw12Flag := decide (v ≥ 12),
                         isMiniFlag := decide (g3 = [95, 109, 105, 110, 105]) })
    | none => (true, info)

/-- The string `v<major>.<minor><suffix>`. -/
def versionString (major minor suffix : List Nat) : List Nat :=
  118 :: (major ++ 46 :: (minor ++ suffix))

/-- The reply to `MP_VERSION` whose payload is a flash-size byte followed by a string, with
the length byte given: length, command, flash size, string. -/
def versionReply (len flash : Nat) (hw : List Nat) : QByteArray :=
  [len, MP_VERSION, flash] ++ hw

/-! ## The two walks of tagPointedNodes, and its iterations -/

/-- The first loop of `tagPointedNodes`: the walk of the credential chain, on the
detagged state. -/
def credentialWalk (repairAllowed : Bool) (s : Session) : Option TagLoop :=
  tagParentLoop false repairAllowed ((detagPointedNodes s).loginNodes.length + 1)
    (detagPointedNodes s).credChain (detagPointedNodes s).startNode
    (detagPointedNodes s).virtualStartNode none none true

/-- The second loop of `tagPointedNodes`, as a function of what it reads: the data chain
and `virtualStartNode`. -/
def dataWalk (repairAllowed : Bool) (c : NodeChain) (virtualStartNode : Nat) : Option TagLoop :=
  tagParentLoop true repairAllowed (c.parents.length + 1) c c.start virtualStartNode
    none none true

/-- What a walk leaves apart from `return_bool`: the chain, the two pointer variables and
whether the function returned inside the loop. -/
def TagLoop.walkState (r : TagLoop) : NodeChain × Option Nat × Option Nat × Bool :=
  (r.chain, r.tempParentNodePt, r.tempChildNodePt, r.returned)

/-- The child loop of `tagPointedNodes` together with the number of times its body is
executed: the loop of `tagChildLoop`, one step at a time, with a counter. -/
def tagChildLoopCounted (isData repairAllowed : Bool) (tempParentNodePt : Nat) :
    Nat → NodeChain → QByteArray → Option Nat → Bool → Option (TagLoop × Nat)
  | 0, _, _, _, _ => none
  | fuel + 1, c, tempChildAddress, tempChildNodePt, return_bool =>
    if tempChildAddress = EmptyAddress then
      some ({ chain := c, tempParentNodePt := some tempParentNodePt,
              tempChildNodePt := tempChildNodePt, return_bool := return_bool,
              returned := false }, 0)
    else
      match findNodeWithAddressInList c.children tempChildAddress 0 with
      | none =>
        some ({ chain := if repairAllowed then
                           cutChildLink isData c tempParentNodePt tempChildNodePt tempChildAddress
                         else c,
                tempParentNodePt := some tempParentNodePt,
                tempChildNodePt := tempChildNodePt, return_bool := false,
                returned := false }, 1)
      | some tempNextChildNodePt =>
        if (nodeAt c.children tempNextChildNodePt).pointedToCheck then
          some ({ chain := if repairAllowed then
                             cutChildLink isData c tempParentNodePt tempChildNodePt
                               tempChildAddress
                           else c,
                  tempParentNodePt := some tempParentNodePt,
                  tempChildNodePt := tempChildNodePt, return_bool := return_bool,
                  returned := true }, 1)
        else
          (tagChildLoopCounted isData repairAllowed tempParentNodePt fuel
            (childVisit isData repairAllowed c tempParentNodePt tempChildNodePt
              tempChildAddress tempNextChildNodePt)
            ((nodeAt (childVisit isData repairAllowed c tempParentNodePt tempChildNodePt
              tempChildAddress tempNextChildNodePt).children tempNextChildNodePt).nextChild isData)
            (some tempNextChildNodePt)
            (if childMismatch isData c tempParentNodePt tempChildNodePt tempChildAddress
              tempNextChildNodePt then false else return_bool)).map
            fun r => (r.1, r.2 + 1)

/-- The parent loop of `tagPointedNodes` together with the number of times a loop body is
executed, the bodies of the child loops it runs included. -/
def tagParentLoopCounted (isData repairAllowed : Bool) :
    Nat → NodeChain → QByteArray → Nat → Option Nat → Option Nat → Bool →
      Option (TagLoop × Nat)
  | 0, _, _, _, _, _, _ => none
  | fuel + 1, c, tempParentAddress, tempVirtualParentAddress, tempParentNodePt,
      tempChildNodePt, return_bool =>
    if tempParentAddress = EmptyAddress then
      some ({ chain := c, tempParentNodePt := tempParentNodePt,
              tempChildNodePt := tempChildNodePt, return_bool := return_bool,
              returned := false }, 0)
    else
      match findNodeWithAddressInList c.parents tempParentAddress tempVirtualParentAddress with
      | none =>
        some ({ chain := if repairAllowed then cutParentLink c tempParentNodePt tempParentAddress
                         else c,
                tempParentNodePt := tempParentNodePt,
                tempChildNodePt := tempChildNodePt, return_bool := return_bool,
                returned := true }, 1)
      | some tempNextParentNodePt =>
        if (nodeAt c.parents tempNextParentNodePt).pointedToCheck then
          some ({ chain := if repairAllowed then
                             cutParentLink c tempParentNodePt tempParentAddress
                           else c,
                  tempParentNodePt := tempParentNodePt,
                  tempChildNodePt := tempChildNodePt, return_bool := return_bool,
                  returned := true }, 1)
        else
          match tagChildLoopCounted isData repairAllowed tempNextParentNodePt
              ((parentVisit repairAllowed c tempParentNodePt tempParentAddress
                tempNextParentNodePt).children.length + 1)
              (parentVisit repairAllowed c tempParentNodePt tempParentAddress
                tempNextParentNodePt)
              (nodeAt (parentVisit repairAllowed c tempParentNodePt tempParentAddress
                tempNextParentNodePt).parents tempNextParentNodePt).startChildAddress
              tempChildNodePt
              (if parentMismatch c tempParentNodePt tempParentAddress tempNextParentNodePt
                then false else return_bool) with
          | none => none
          | some r =>
            if r.1.returned then some (r.1, r.2 + 1)
            else
              (tagParentLoopCounted isData repairAllowed fuel r.1.chain
                (nodeAt r.1.chain.parents tempNextParentNodePt).nextParentAddress
                (nodeAt r.1.chain.parents tempNextParentNodePt).nextParentVirtualAddress
                (some tempNextParentNodePt) r.1.tempChildNodePt r.1.return_bool).map
                fun r2 => (r2.1, r2.2 + r.2 + 1)

/-- `tagPointedNodes` together with the number of loop iterations of the call: those of
the credential walk and, when it runs, those of the data walk. -/
def tagPointedNodesCounted (repairAllowed : Bool) (s : Session) :
    Option ((Bool × Session) × Nat) :=
  let s0 := detagPointedNodes s
  match tagParentLoopCounted false repairAllowed (s0.loginNodes.length + 1) s0.credChain
      s0.startNode s0.virtualStartNode none none true with
  | none => none
  | some r1 =>
    let s1 := s0.setCredChain r1.1.chain
    if r1.1.returned then some ((false, s1), r1.2)
    else
      match tagParentLoopCounted true repairAllowed (s1.dataNodes.length + 1) s1.dataChain
          s1.startDataNode s1.virtualStartNode none none r1.1.return_bool with
      | none => none
      | some r2 =>
        let s2 := s1.setDataChain r2.1.chain
        if r2.1.returned then some ((false, s2), r1.2 + r2.2)
        else some ((r2.1.return_bool, s2), r1.2 + r2.2)

/-- The number of nodes of the four lists. -/
def Session.nodeCount (s : Session) : Nat :=
  s.loginNodes.length + s.loginChildNodes.length + s.dataNodes.length + s.dataChildNodes.length

/-- The number of parents of the two parent lists. -/
def Session.parentCount (s : Session) : Nat :=
  s.loginNodes.length + s.dataNodes.length

/-! ## Examples for the walks -/

/-- The example database whose credential start address names no node, and whose data
parent has a wrong previous address. -/
def credStartLostDb : Session :=
  { exampleDb with
    startNode := [0x07, 0x08]
    dataNodes := [{ address := [0x00, 0x0A], previousParentAddress := [0x05, 0x0A],
                    startChildAddress := [0x00, 0x0B], service := [107] }] }

/-- Two credential parents chained from the start address, the next address of the second
one leading back to the first. -/
def loopToFirstDb : Session :=
  { startNode := [1, 8]
    loginNodes :=
      [{ address := [1, 8], nextParentAddress := [2, 8], service := [97] },
       { address := [2, 8], previousParentAddress := [1, 8], nextParentAddress := [1, 8],
         service := [98] }] }

/-- Three credential parents chained from the start address, the next address of the third
one leading back to the second. -/
def loopToSecondDb : Session :=
  { startNode := [1, 8]
    loginNodes :=
      [{ address := [1, 8], nextParentAddress := [2, 8], service := [97] },
       { address := [2, 8], previousParentAddress := [1, 8], nextParentAddress := [3, 8],
         service := [98] },
       { address := [3, 8], previousParentAddress := [2, 8], nextParentAddress := [2, 8],
         service := [99] }] }

/-- The example database with one favorite, whose parent address names no node. -/
def lostFavoriteDb : Session :=
  { exampleDb with favoritesAddrs := [[0x07, 0x08, 0x00, 0x09]] }

/-- The database `brokenDb`, whose credential walk reports three violations without
stopping, with two violations in the data chain: the data parent has a wrong previous
address, and its next address is an address that no data parent has. -/
def brokenDataDb : Session :=
  { brokenDb with
    dataNodes := [{ address := [0x00, 0x0A], previousParentAddress := [0x05, 0x0A],
                    nextParentAddress := [0x07, 0x0A], startChildAddress := [0x00, 0x0B],
                    service := [107] }] }

/-- The example database with two data parents, the child chain of the first one leading
back to its first child. -/
def dataChildLoopDb : Session :=
  { exampleDb with
    dataNodes :=
      [{ address := [0x00, 0x0A], nextParentAddress := [0x01, 0x0A],
         startChildAddress := [0x00, 0x0B], service := [107] },
       { address := [0x01, 0x0A], previousParentAddress := [0x00, 0x0A], service := [108] }]
    dataChildNodes := [{ address := [0x00, 0x0B], nextChildDataAddress := [0x00, 0x0B] }] }

/-! ## Clean databases and the state of a repair under way -/

/-- A chain in the state the self-test asks of a clean database: the chain is valid and
visits all the parents of the list in the order of the list, which is the strictly
ascending order of the services. -/
def CleanList (isData : Bool) (c : NodeChain) : Prop :=
  (∃ childPaths, ChainValidAlong isData c (List.range c.parents.length) childPaths) ∧
  (c.parents.map MPNode.service).Pairwise (· < ·)

/-- A clean database: physical, pairwise distinct addresses in each list, both chains clean,
favorites that the favorites check keeps, the live state equal to the clone, and the write
flag unset. -/
def CleanDb (s : Session) : Prop :=
  AllDistinct s ∧ CleanList false s.credChain ∧ CleanList true s.dataChain ∧
  FavoritesKept s ∧ LiveEqualsClone s ∧ s.diagSavePacketsGenerated = false

/-- The state of a chain `c` while a database is being repaired, `c0` being the chain of
the clean database: the children, and the parents up to their links, are those of `c0`; the
tagged parents are `T`, in the order of the list; and the chain is linked both ways along
`W`, which is `T`, or, when no parent is tagged, possibly the whole list. -/
def ChainState (c0 c : NodeChain) : Prop :=
  SameFields c.children c0.children ∧ SameButLinks c.parents c0.parents ∧
  ∃ T W : List Nat, T.Pairwise (· < ·) ∧
    (∀ i, (nodeAt c.parents i).pointedToCheck = true ↔ i ∈ T) ∧
    Linked c.parents c.start W ∧
    (W = T ∨ (T = [] ∧ W = List.range c0.parents.length))

/-- The state of a session while `checkLoadedNodes` repairs it, `s0` being the clean
database: both chains are in a repair state, and nothing else differs. -/
def RepairInv (s0 s : Session) : Prop :=
  s.others = s0.others ∧ ChainState s0.credChain s.credChain ∧
  ChainState s0.dataChain s.dataChain

/-- A clean database `s0` damaged in the parent links of one chain (the credential chain or
the data chain): the session `s` differs from `s0` in the start address and the parent links
of that chain only, and following the next-parent addresses from its start address visits
the parents `P`, in the order of the list, and then arrives at `x`, the empty address or
an address that no parent has. -/
def Damaged (d : Bool) (s0 s : Session) (P : List Nat) (x : QByteArray) : Prop :=
  s.others = s0.others ∧ s.chain (!d) = s0.chain (!d) ∧
  (s.chain d).children = (s0.chain d).children ∧
  SameButLinks (s.chain d).parents (s0.chain d).parents ∧
  P.Pairwise (· < ·) ∧
  SegLinks (s.chain d).parents MPNode.nextParentAddress (s.chain d).start P x ∧
  (x = EmptyAddress ∨ resolve (s.chain d).parents x = none)

/-! ## The self-test scenarios that unlink parents (MPDevice::testCodeAgainstCleanDBChanges) -/

/-- Assign the start address of a chain: `startDataNode = a` or `startNode = a`. -/
def Session.setStart (s : Session) (isData : Bool) (a : QByteArray) : Session :=
  if isData then { s with startDataNode := a } else { s with startNode := a }

/-- The test "Skipping one parent node link in chain":
`parents[j]->setNextParentAddress(parents[j + 2]->getAddress())`, on the credential parents or
on the data parents. The self-test does it with `j = 1`. -/
def skipParentLink (isData : Bool) (j : Nat) (s : Session) : Session :=
  s.setParentList isData (updateNode (s.parentList isData) j
    (fun n => n.setNextParentAddress (nodeAt (s.parentList isData) (j + 2)).address 0))

/-- The test "Skipping first parent node": the start address becomes the address of
`parents[1]`, and `parents[1]->setPreviousParentAddress(MPNode::EmptyAddress)`. -/
def skipFirstParent (isData : Bool) (s : Session) : Session :=
  (s.setStart isData (nodeAt (s.parentList isData) 1).address).setParentList isData
    (updateNode (s.parentList isData) 1 (fun n => n.setPreviousParentAddress EmptyAddress 0))

/-- The test "Skipping last parent node":
`parents[parents.size()-2]->setNextParentAddress(MPNode::EmptyAddress)`. -/
def skipLastParent (isData : Bool) (s : Session) : Session :=
  s.setParentList isData (updateNode (s.parentList isData) ((s.parentList isData).length - 2)
    (fun n => n.setNextParentAddress EmptyAddress 0))

/-- The test "Setting invalid startNode": the start address becomes `invalidAddress`. -/
def setInvalidStart (isData : Bool) (invalidAddress : QByteArray) (s : Session) : Session :=
  s.setStart isData invalidAddress

/-- The test "Breaking linked list": `parents[k]->setPreviousParentAddress(invalidAddress)`
and `parents[k]->setNextParentAddress(invalidAddress)`. The self-test does it with `k = 5`. -/
def breakParentLinks (isData : Bool) (k : Nat) (invalidAddress : QByteArray) (s : Session) :
    Session :=
  s.setParentList isData (updateNode
    (updateNode (s.parentList isData) k (fun n => n.setPreviousParentAddress invalidAddress 0))
    k (fun n => n.setNextParentAddress invalidAddress 0))

/-- What the self-test asks of a repair: `checkLoadedNodes(true)` on the damaged database `s`
returns and leaves a database that is the clean one `s0` up to the tags and the virtual ids
of the parent links and of the start addresses; its live state equals the clone; and
`generateSavePackets` on it returns true and leaves the write flag unset. -/
def RepairRestores (s0 s : Session) : Prop :=
  ∃ b t, checkLoadedNodes true s = some (b, t) ∧ t.core = s0.core ∧ LiveEqualsClone t ∧
    generateSavePackets t = some (true, t) ∧ t.diagSavePacketsGenerated = false

/-! ## Theorems: command queue -/

theorem markHeadRunning_of_running {W : Type} (q : List (MPCommand W))
    (h : HeadOnlyRunning q) : markHeadRunning q = q := by
  cases q with
  | nil => rfl
  | cons head rest =>
    obtain ⟨h1, _⟩ := h
    cases head
    simp_all [markHeadRunning]

theorem headOnlyRunning_markHead {W : Type} (q : List (MPCommand W))
    (h : ∀ c ∈ q.tail, c.running = false) : HeadOnlyRunning (markHeadRunning q) := by
  cases q with
  | nil => trivial
  | cons head rest => exact ⟨rfl, h⟩

theorem sentCommands_not_running {W : Type} (sends : List (Nat × QByteArray × MPCommandCb W)) :
    ∀ c ∈ sentCommands sends, c.running = false := by
  intro c hc
  simp only [sentCommands, List.mem_map] at hc
  obtain ⟨r, _, rfl⟩ := hc
  rfl

/-- On an empty queue `sendData` sends the new command at once. -/
theorem sendData_empty {W : Type} (c : Nat) (data : QByteArray) (cb : MPCommandCb W)
    (s : MPDevice W) (h : s.commandQueue = []) :
    sendData c data cb s =
      { s with commandQueue := [{ data := mkPacket c data, cb := cb, running := true }]
               platformWritten := s.platformWritten ++ [mkPacket c data] } := by
  simp [sendData, sendDataDequeue, h]

/-- With a running head `sendData` only appends. -/
theorem sendData_running {W : Type} (c : Nat) (data : QByteArray) (cb : MPCommandCb W)
    (s : MPDevice W) (head : MPCommand W) (rest : List (MPCommand W))
    (h : s.commandQueue = head :: rest) (hr : head.running = true) :
    sendData c data cb s =
      { s with commandQueue := s.commandQueue ++ [{ data := mkPacket c data, cb := cb }] } := by
  simp [sendData, h, hr]

/-- With a running head the `sendData` calls of a callback only append. -/
theorem runSends_running {W : Type} (sends : List (Nat × QByteArray × MPCommandCb W)) :
    ∀ (s : MPDevice W) (head : MPCommand W) (rest : List (MPCommand W)),
      s.commandQueue = head :: rest → head.running = true →
      runSends sends s = { s with commandQueue := s.commandQueue ++ sentCommands sends } := by
  induction sends with
  | nil => intro s head rest h hr; simp [runSends, sentCommands]
  | cons r sends ih =>
    intro s head rest h hr
    obtain ⟨c, data, cb⟩ := r
    rw [runSends, sendData_running c data cb s head rest h hr]
    rw [ih _ head (rest ++ [{ data := mkPacket c data, cb := cb }]) (by simp [h]) hr]
    simp [sentCommands]

/-- The `sendData` calls of a callback that makes none change nothing. -/
theorem runSends_nil {W : Type} (s : MPDevice W) : runSends [] s = s := rfl

/-- The `sendData` calls of a callback leave the callback log alone. -/
theorem runSends_cbCalls {W : Type} (sends : List (Nat × QByteArray × MPCommandCb W)) :
    ∀ (s : MPDevice W), (runSends sends s).cbCalls = s.cbCalls := by
  induction sends with
  | nil => intro s; rfl
  | cons r sends ih =>
    intro s
    obtain ⟨c, data, cb⟩ := r
    rw [runSends, ih]
    simp only [sendData]
    split
    · rfl
    · split
      · simp only [sendDataDequeue]; split <;> rfl
      · rfl

/-- What `newDataRead` does on a queue whose head is running. -/
theorem newDataRead_running {W : Type} (data : QByteArray) (s : MPDevice W)
    (head : MPCommand W) (rest : List (MPCommand W))
    (h : s.commandQueue = head :: rest) (hr : head.running = true) :
    newDataRead data s =
      (if (head.cb.run s.world true data).done then
        sendDataDequeue
          { s with world := (head.cb.run s.world true data).world
                   cbCalls := s.cbCalls ++ [{ cmdData := head.data, success := true, reply := data }]
                   commandQueue := rest ++ sentCommands (head.cb.run s.world true data).sends }
      else
        { s with world := (head.cb.run s.world true data).world
                 cbCalls := s.cbCalls ++ [{ cmdData := head.data, success := true, reply := data }]
                 commandQueue := s.commandQueue ++ sentCommands (head.cb.run s.world true data).sends }) := by
  simp only [newDataRead, h]
  rw [runSends_running _ _ head rest (by simp [h]) hr]
  split <;> simp [h]

theorem headOnlyRunning_sendData {W : Type} (c : Nat) (data : QByteArray) (cb : MPCommandCb W)
    (s : MPDevice W) (h : HeadOnlyRunning s.commandQueue) :
    HeadOnlyRunning (sendData c data cb s).commandQueue := by
  cases hq : s.commandQueue with
  | nil => rw [sendData_empty c data cb s hq]; exact ⟨rfl, by simp⟩
  | cons head rest =>
    rw [hq] at h
    rw [sendData_running c data cb s head rest hq h.1]
    simp only [hq, List.cons_append]
    refine ⟨h.1, ?_⟩
    intro x hx
    rcases List.mem_append.mp hx with hx | hx
    · exact h.2 x hx
    · simp only [List.mem_singleton] at hx; subst hx; rfl

theorem headOnlyRunning_newDataRead {W : Type} (data : QByteArray)
    (s : MPDevice W) (h : HeadOnlyRunning s.commandQueue) :
    HeadOnlyRunning (newDataRead data s).commandQueue := by
  cases hq : s.commandQueue with
  | nil => simp [newDataRead, hq, HeadOnlyRunning]
  | cons head rest =>
    rw [hq] at h
    rw [newDataRead_running data s head rest hq h.1]
    have hrest : ∀ x ∈ rest ++ sentCommands (head.cb.run s.world true data).sends,
        x.running = false := by
      intro x hx
      rcases List.mem_append.mp hx with hx | hx
      · exact h.2 x hx
      · exact sentCommands_not_running _ x hx
    split
    · simp only [sendDataDequeue]
      split
      · next hnil => simp only [hnil]; trivial
      · next cur rest2 hcons =>
        refine ⟨rfl, ?_⟩
        intro x hx
        exact hrest x (by rw [hcons]; exact List.mem_cons_of_mem _ hx)
    · simp only [hq, List.cons_append]
      exact ⟨h.1, hrest⟩

theorem reachable_headOnlyRunning {W : Type} (s : MPDevice W) (h : Reachable s) :
    HeadOnlyRunning s.commandQueue := by
  induction h with
  | init s h0 => rw [h0]; trivial
  | send c data cb s _ ih => exact headOnlyRunning_sendData c data cb s ih
  | read data s _ ih => exact headOnlyRunning_newDataRead data s ih

/-- C1. In every state reachable from an empty command queue by `sendData` calls and
`newDataRead` deliveries (callbacks may call `sendData`), only the head of the queue is
running. A packet is written only for a command that becomes the head: `sendData` writes
its packet exactly when the queue was empty, and `newDataRead` writes exactly when the
callback left `done = true` and a command follows the removed head, namely the packet of
that new head. -/
theorem C1_only_head_running {W : Type} (s : MPDevice W) (h : Reachable s) :
    HeadOnlyRunning s.commandQueue ∧
    (∀ (c : Nat) (data : QByteArray) (cb : MPCommandCb W),
      (s.commandQueue = [] →
        (sendData c data cb s).commandQueue
            = [{ data := mkPacket c data, cb := cb, running := true }] ∧
        (sendData c data cb s).platformWritten = s.platformWritten ++ [mkPacket c data]) ∧
      (s.commandQueue ≠ [] →
        (sendData c data cb s).commandQueue
            = s.commandQueue ++ [{ data := mkPacket c data, cb := cb, running := false }] ∧
        (sendData c data cb s).platformWritten = s.platformWritten)) ∧
    (∀ (data : QByteArray) (head : MPCommand W) (rest : List (MPCommand W)),
      s.commandQueue = head :: rest →
      ((head.cb.run s.world true data).done = false →
        (newDataRead data s).platformWritten = s.platformWritten) ∧
      ((head.cb.run s.world true data).done = true →
        (newDataRead data s).commandQueue
            = markHeadRunning (rest ++ sentCommands (head.cb.run s.world true data).sends) ∧
        (newDataRead data s).platformWritten
            = s.platformWritten ++
              ((rest ++ sentCommands (head.cb.run s.world true data).sends).take 1).map
                (fun c => c.data))) := by
  have hinv := reachable_headOnlyRunning s h
  refine ⟨hinv, ?_, ?_⟩
  · intro c data cb
    constructor
    · intro h0
      rw [sendData_empty c data cb s h0]
      exact ⟨rfl, rfl⟩
    · intro hne
      cases hq : s.commandQueue with
      | nil => exact absurd hq hne
      | cons head rest =>
        rw [hq] at hinv
        rw [sendData_running c data cb s head rest hq hinv.1]
        simp [hq]
  · intro data head rest hq
    rw [hq] at hinv
    rw [newDataRead_running data s head rest hq hinv.1]
    constructor
    · intro hd
      simp [hd]
    · intro hd
      simp only [hd, if_true, sendDataDequeue]
      cases rest ++ sentCommands (head.cb.run s.world true data).sends with
      | nil => simp [markHeadRunning]
      | cons x xs => simp [markHeadRunning]

/-- Witness for C1: after `sendData` of a status poll and of a ping on a fresh device, the
status poll is the running head, the ping waits, and one packet has been written. -/
theorem C1_only_head_running_witness :
    HeadOnlyRunning
      (sendData MP_PING [] statusCb
        (sendData MP_MOOLTIPASS_STATUS [] statusCb { world := 0 })).commandQueue ∧
    (sendData MP_PING [] statusCb
        (sendData MP_MOOLTIPASS_STATUS [] statusCb { world := 0 })).platformWritten
      = [[0, 0xB9]] :=
  ⟨(C1_only_head_running _
      (Reachable.send MP_PING [] statusCb _
        (Reachable.send MP_MOOLTIPASS_STATUS [] statusCb _
          (Reachable.init { world := 0 } rfl)))).1, rfl⟩

/-- C2. On a non-empty command queue `newDataRead` invokes the callback of the head exactly
once, with the packet. With `s1` the state the callback leaves (its own `sendData` calls
done): if `done = true` the head is removed and the next command, if any, is marked running
and written; if `done = false` the result is `s1`, so `newDataRead` removes nothing and
writes nothing, and when the callback made no `sendData` call the queue and the written
packets are those before the call. -/
theorem C2_newDataRead_head {W : Type} (data : QByteArray) (s : MPDevice W)
    (head : MPCommand W) (rest : List (MPCommand W)) (h : s.commandQueue = head :: rest) :
    (newDataRead data s).cbCalls
        = s.cbCalls ++ [{ cmdData := head.data, success := true, reply := data }] ∧
    ((head.cb.run s.world true data).done = true →
      (newDataRead data s).commandQueue
        = markHeadRunning
            (runSends (head.cb.run s.world true data).sends
              { s with world := (head.cb.run s.world true data).world
                       cbCalls := s.cbCalls ++
                         [{ cmdData := head.data, success := true, reply := data }] }).commandQueue.tail ∧
      (newDataRead data s).platformWritten
        = (runSends (head.cb.run s.world true data).sends
              { s with world := (head.cb.run s.world true data).world
                       cbCalls := s.cbCalls ++
                         [{ cmdData := head.data, success := true, reply := data }] }).platformWritten
          ++ ((runSends (head.cb.run s.world true data).sends
              { s with world := (head.cb.run s.world true data).world
                       cbCalls := s.cbCalls ++
                         [{ cmdData := head.data, success := true, reply := data }] }).commandQueue.tail.take 1).map
                (fun c => c.data)) ∧
    ((head.cb.run s.world true data).done = true →
      (head.cb.run s.world true data).sends = [] →
      (newDataRead data s).commandQueue = markHeadRunning rest ∧
      (newDataRead data s).platformWritten
        = s.platformWritten ++ (rest.take 1).map (fun c => c.data)) ∧
    ((head.cb.run s.world true data).done = false →
      newDataRead data s
        = runSends (head.cb.run s.world true data).sends
            { s with world := (head.cb.run s.world true data).world
                     cbCalls := s.cbCalls ++
                       [{ cmdData := head.data, success := true, reply := data }] }) ∧
    ((head.cb.run s.world true data).done = false →
      (head.cb.run s.world true data).sends = [] →
      (newDataRead data s).commandQueue = s.commandQueue ∧
      (newDataRead data s).platformWritten = s.platformWritten) := by
  refine ⟨?_, ?_, ?_, ?_, ?_⟩
  · simp only [newDataRead, h]
    split
    · simp only [sendDataDequeue]
      split <;> simp [runSends_cbCalls]
    · simp [runSends_cbCalls]
  · intro hd
    simp only [newDataRead, h, hd, if_true, sendDataDequeue]
    split
    · next hnil => simp [hnil, markHeadRunning]
    · next cur rest2 hcons => simp [hcons, markHeadRunning]
  · intro hd hs
    simp only [newDataRead, h, hd, hs, runSends_nil, if_true, sendDataDequeue]
    cases rest with
    | nil => simp [h, markHeadRunning]
    | cons x xs => simp [h, markHeadRunning]
  · intro hd
    simp [newDataRead, h, hd]
  · intro hd hs
    simp [newDataRead, h, hd, hs, runSends_nil]

/-- Witness for C2: a status reply delivered to a queue holding a running status poll and a
waiting ping runs the callback once, removes the poll and sends the ping. -/
theorem C2_newDataRead_head_witness :
    (newDataRead [1, 0xB9, 5]
      (sendData MP_PING [] statusCb
        (sendData MP_MOOLTIPASS_STATUS [] statusCb { world := 0 }))).cbCalls
      = [{ cmdData := [0, 0xB9], success := true, reply := [1, 0xB9, 5] }] ∧
    (newDataRead [1, 0xB9, 5]
      (sendData MP_PING [] statusCb
        (sendData MP_MOOLTIPASS_STATUS [] statusCb { world := 0 }))).platformWritten
      = [[0, 0xB9], [0, 0xA1]] :=
  ⟨(C2_newDataRead_head [1, 0xB9, 5]
      (sendData MP_PING [] statusCb
        (sendData MP_MOOLTIPASS_STATUS [] statusCb { world := 0 }))
      { data := [0, 0xB9], cb := statusCb, running := true }
      [{ data := [0, 0xA1], cb := statusCb, running := false }] rfl).1, rfl⟩

/-- C3, as stated, fails: the head is a status poll (command byte 0xB9, not one of the
multi-packet commands), the reply carries command byte 0xA1, and the callback is invoked
with `success = true`. -/
theorem C3_mismatch_counterexample :
    byteAt (mkPacket MP_MOOLTIPASS_STATUS []) MP_CMD_FIELD_INDEX = 0xB9 ∧
    (0xB9 ≠ MP_GET_CARD_CPZ_CTR ∧ 0xB9 ≠ MP_READ_FLASH_NODE ∧ 0xB9 ≠ MP_READ_32B_IN_DN) ∧
    byteAt [1, 0xA1, 0] MP_CMD_FIELD_INDEX = 0xA1 ∧
    (newDataRead [1, 0xA1, 0]
      (sendData MP_MOOLTIPASS_STATUS [] statusCb { world := 0 })).cbCalls
      = [{ cmdData := [0, 0xB9], success := true, reply := [1, 0xA1, 0] }] ∧
    (newDataRead [1, 0xA1, 0]
      (sendData MP_MOOLTIPASS_STATUS [] statusCb { world := 0 })).cbCalls
      ≠ [{ cmdData := [0, 0xB9], success := false, reply := [1, 0xA1, 0] }] := by
  refine ⟨rfl, by decide, rfl, rfl, ?_⟩
  decide

/-- C3, amended. `newDataRead` compares no command bytes: on a non-empty queue the callback
of the head is invoked with `success = true` for every reply packet, whatever the command
bytes of the reply and of the head. -/
theorem C3_callback_always_success {W : Type} (data : QByteArray) (s : MPDevice W)
    (head : MPCommand W) (rest : List (MPCommand W)) (h : s.commandQueue = head :: rest) :
    (newDataRead data s).cbCalls
      = s.cbCalls ++ [{ cmdData := head.data, success := true, reply := data }] := by
  simp only [newDataRead, h]
  split
  · simp only [sendDataDequeue]
    split <;> simp [runSends_cbCalls]
  · simp [runSends_cbCalls]

/-- Witness for the amended C3: a reply with the command byte of the head. -/
theorem C3_callback_always_success_witness :
    (newDataRead [1, 0xB9, 5]
      (sendData MP_MOOLTIPASS_STATUS [] statusCb { world := 0 })).cbCalls
      = [] ++ [{ cmdData := [0, 0xB9], success := true, reply := [1, 0xB9, 5] }] :=
  C3_callback_always_success [1, 0xB9, 5]
    (sendData MP_MOOLTIPASS_STATUS [] statusCb { world := 0 })
    { data := [0, 0xB9], cb := statusCb, running := true } [] rfl

/-- C4, as stated, fails: with a status poll running and a ping waiting, a `PLEASE_RETRY`
reply removes the status poll from the queue and writes the ping. -/
theorem C4_please_retry_counterexample :
    byteAt [0, 0xC4] MP_CMD_FIELD_INDEX = MP_PLEASE_RETRY ∧
    (sendData MP_PING [] statusCb
      (sendData MP_MOOLTIPASS_STATUS [] statusCb { world := 0 })).commandQueue.map
        (fun c => (c.data, c.running)) = [([0, 0xB9], true), ([0, 0xA1], false)] ∧
    (newDataRead [0, 0xC4]
      (sendData MP_PING [] statusCb
        (sendData MP_MOOLTIPASS_STATUS [] statusCb { world := 0 }))).commandQueue.map
        (fun c => (c.data, c.running)) = [([0, 0xA1], true)] ∧
    (sendData MP_PING [] statusCb
      (sendData MP_MOOLTIPASS_STATUS [] statusCb { world := 0 })).platformWritten
      = [[0, 0xB9]] ∧
    (newDataRead [0, 0xC4]
      (sendData MP_PING [] statusCb
        (sendData MP_MOOLTIPASS_STATUS [] statusCb { world := 0 }))).platformWritten
      = [[0, 0xB9], [0, 0xA1]] :=
  ⟨rfl, rfl, rfl, rfl, rfl⟩

/-- C4, amended. `newDataRead` handles a `PLEASE_RETRY` packet like any other: the callback
of the head is invoked with it; if the callback sets `done = false` and sends nothing, the
queue and the written packets stay as they were, and if it leaves `done = true` the head is
dequeued and the next command sent. The callback of the status poll only logs such a
packet: it leaves the device status unchanged, and leaves `done = true`. -/
theorem C4_please_retry_like_any_reply {W : Type} (data : QByteArray) (s : MPDevice W)
    (head : MPCommand W) (rest : List (MPCommand W)) (h : s.commandQueue = head :: rest)
    (hretry : byteAt data MP_CMD_FIELD_INDEX = MP_PLEASE_RETRY) :
    (newDataRead data s).cbCalls
        = s.cbCalls ++ [{ cmdData := head.data, success := true, reply := data }] ∧
    ((head.cb.run s.world true data).done = false →
      (head.cb.run s.world true data).sends = [] →
      (newDataRead data s).commandQueue = s.commandQueue ∧
      (newDataRead data s).platformWritten = s.platformWritten) ∧
    ((head.cb.run s.world true data).done = true →
      (head.cb.run s.world true data).sends = [] →
      (newDataRead data s).commandQueue = markHeadRunning rest ∧
      (newDataRead data s).platformWritten
        = s.platformWritten ++ (rest.take 1).map (fun c => c.data)) ∧
    (∀ status : Nat, (statusCb.run status true data).world = status ∧
      (statusCb.run status true data).done = true ∧
      (statusCb.run status true data).sends = []) := by
  refine ⟨?_, ?_, ?_, ?_⟩
  · simp only [newDataRead, h]
    split
    · simp only [sendDataDequeue]
      split <;> simp [runSends_cbCalls]
    · simp [runSends_cbCalls]
  · intro hd hs
    simp [newDataRead, h, hd, hs, runSends_nil]
  · intro hd hs
    simp only [newDataRead, h, hd, hs, runSends_nil, if_true, sendDataDequeue]
    cases rest with
    | nil => simp [h, markHeadRunning]
    | cons x xs => simp [h, markHeadRunning]
  · intro status
    have hne : ¬ byteAt data 1 = MP_MOOLTIPASS_STATUS := by
      have h1 : byteAt data 1 = MP_PLEASE_RETRY := hretry
      rw [h1]; decide
    simp [statusCb, MPCommandCb.run, hne]

/-- Witness for the amended C4: a `PLEASE_RETRY` reply to a running status poll. -/
theorem C4_please_retry_like_any_reply_witness :
    (newDataRead [0, 0xC4]
      (sendData MP_MOOLTIPASS_STATUS [] statusCb { world := 3 })).cbCalls
      = [] ++ [{ cmdData := [0, 0xB9], success := true, reply := [0, 0xC4] }] ∧
    (statusCb.run 3 true [0, 0xC4]).world = 3 :=
  ⟨(C4_please_retry_like_any_reply [0, 0xC4]
      (sendData MP_MOOLTIPASS_STATUS [] statusCb { world := 3 })
      { data := [0, 0xB9], cb := statusCb, running := true } [] rfl rfl).1,
   ((C4_please_retry_like_any_reply [0, 0xC4]
      (sendData MP_MOOLTIPASS_STATUS [] statusCb { world := 3 })
      { data := [0, 0xB9], cb := statusCb, running := true } [] rfl rfl).2.2.2 3).1⟩

/-- C5. A packet received while the command queue is empty changes nothing: no callback is
invoked, nothing is written, and the command queue and the job queue are as before. -/
theorem C5_empty_queue_drop {W : Type} (data : QByteArray) (s : MPDevice W)
    (h : s.commandQueue = []) : newDataRead data s = s := by
  simp [newDataRead, h]

/-- Witness for C5: a packet delivered to a fresh device. -/
theorem C5_empty_queue_drop_witness :
    (newDataRead [0, 0xC4] ({ world := 0 } : MPDevice Nat)).cbCalls = [] ∧
    (newDataRead [0, 0xC4] ({ world := 0 } : MPDevice Nat)).platformWritten = [] := by
  rw [C5_empty_queue_drop [0, 0xC4] ({ world := 0 } : MPDevice Nat) rfl]
  exact ⟨rfl, rfl⟩

/-- C6. For a command code `c` (a byte) and a payload `p` of at most 62 bytes, `sendData`
appends one command to the tail of the queue, the commands already queued keeping their
order (only the head may have been marked running); byte 0 of its packet is the payload
length, byte 1 is `c` and bytes `2 .. 2 + |p|` are the payload. -/
theorem C6_sendData_packet {W : Type} (c : Nat) (p : QByteArray) (cb : MPCommandCb W)
    (s : MPDevice W) (hc : c < 256) (hp : p.length ≤ 62) :
    ((sendData c p cb s).commandQueue
        = s.commandQueue ++ [{ data := mkPacket c p, cb := cb, running := false }] ∨
     (sendData c p cb s).commandQueue
        = markHeadRunning
            (s.commandQueue ++ [{ data := mkPacket c p, cb := cb, running := false }])) ∧
    byteAt (mkPacket c p) 0 = p.length ∧
    byteAt (mkPacket c p) 1 = c ∧
    ((mkPacket c p).drop 2).take p.length = p ∧
    (∀ i, i < p.length → byteAt (mkPacket c p) (2 + i) = byteAt p i) := by
  refine ⟨?_, ?_, ?_, ?_, ?_⟩
  · simp only [sendData]
    split
    · next hnil => simp at hnil
    · next head tl hcons =>
      split
      · right
        simp only [sendDataDequeue, markHeadRunning]
        simp [hcons]
      · left; rfl
  · have : p.length % 256 = p.length := Nat.mod_eq_of_lt (by omega)
    simp [mkPacket, byteAt, this]
  · simp [mkPacket, byteAt, Nat.mod_eq_of_lt hc]
  · simp [mkPacket]
  · intro i _
    have : 2 + i = i + 1 + 1 := by omega
    simp [mkPacket, byteAt, this]

/-- Witness for C6: `sendData(0xA3, "ab")` on a fresh device. -/
theorem C6_sendData_packet_witness :
    byteAt (mkPacket 0xA3 [97, 98]) 0 = 2 ∧ byteAt (mkPacket 0xA3 [97, 98]) 1 = 0xA3 ∧
    ((mkPacket 0xA3 [97, 98]).drop 2).take 2 = [97, 98] :=
  ⟨(C6_sendData_packet 0xA3 [97, 98] statusCb { world := 0 } (by decide) (by decide)).2.1,
   (C6_sendData_packet 0xA3 [97, 98] statusCb { world := 0 } (by decide) (by decide)).2.2.1,
   (C6_sendData_packet 0xA3 [97, 98] statusCb { world := 0 } (by decide) (by decide)).2.2.2.1⟩

/-! ## Theorems: job queue -/

/-- Running one more event after a sequence of events. -/
theorem jobRun_append {W : Type} (s : MPDevice W) (events : List JobEvent) (e : JobEvent) :
    jobRun s (events ++ [e]) = jobStep (jobRun s events) e := by
  simp [jobRun, List.foldl_append]

/-- The invariant of the job queue kept by every event. -/
theorem jobStep_invariant {W : Type} (s : MPDevice W) (e : JobEvent) (n : Nat)
    (h1 : s.jobsEnqueued = s.jobsStarted ++ s.jobsQueue)
    (h2 : ∀ j, s.currentJobs = some j → s.jobsStarted.getLast? = some j)
    (h3 : s.currentJobs = none → s.jobsQueue = [])
    (h4 : s.jobsStarted.length ≤ n + (if s.currentJobs.isSome then 1 else 0)) :
    (jobStep s e).jobsEnqueued = (jobStep s e).jobsStarted ++ (jobStep s e).jobsQueue ∧
    (∀ j, (jobStep s e).currentJobs = some j → (jobStep s e).jobsStarted.getLast? = some j) ∧
    ((jobStep s e).currentJobs = none → (jobStep s e).jobsQueue = []) ∧
    (jobStep s e).jobsStarted.length
      ≤ (n + (if e = JobEvent.finished ∨ e = JobEvent.failed then 1 else 0))
        + (if (jobStep s e).currentJobs.isSome then 1 else 0) := by
  cases e with
  | enqueue job =>
    cases hc : s.currentJobs with
    | none =>
      have hq := h3 hc
      simp [jobStep, enqueueJobs, runAndDequeueJobs, hc, hq, h1] at h4 ⊢
      omega
    | some j =>
      have hl := h2 j hc
      cases hq : s.jobsQueue with
      | nil => simp [jobStep, enqueueJobs, runAndDequeueJobs, hc, hq, h1, hl] at h4 ⊢; omega
      | cons x xs =>
        simp [jobStep, enqueueJobs, runAndDequeueJobs, hc, hq, h1, hl] at h4 ⊢; omega
  | finished =>
    cases hq : s.jobsQueue with
    | nil =>
      simp only [jobStep, jobsDone, runAndDequeueJobs, hq]
      simp [h1, hq]
      split at h4 <;> omega
    | cons x xs =>
      simp only [jobStep, jobsDone, runAndDequeueJobs, hq]
      simp [h1, hq]
      split at h4 <;> omega
  | failed =>
    cases hq : s.jobsQueue with
    | nil =>
      simp only [jobStep, jobsDone, runAndDequeueJobs, hq]
      simp [h1, hq]
      split at h4 <;> omega
    | cons x xs =>
      simp only [jobStep, jobsDone, runAndDequeueJobs, hq]
      simp [h1, hq]
      split at h4 <;> omega

theorem jobRun_invariant {W : Type} (w : W) (events : List JobEvent) :
    (jobRun { world := w } events).jobsEnqueued
      = (jobRun { world := w } events).jobsStarted ++ (jobRun { world := w } events).jobsQueue ∧
    (∀ j, (jobRun { world := w } events).currentJobs = some j →
      (jobRun { world := w } events).jobsStarted.getLast? = some j) ∧
    ((jobRun { world := w } events).currentJobs = none →
      (jobRun { world := w } events).jobsQueue = []) ∧
    (jobRun { world := w } events).jobsStarted.length
      ≤ (events.filter (fun e => decide (e = JobEvent.finished ∨ e = JobEvent.failed))).length
        + (if (jobRun { world := w } events).currentJobs.isSome then 1 else 0) := by
  induction events using List.reverseRecOn with
  | nil => simp [jobRun]
  | append_singleton events e ih =>
    rw [jobRun_append]
    obtain ⟨h1, h2, h3, h4⟩ := ih
    have := jobStep_invariant (jobRun { world := w } events) e _ h1 h2 h3 h4
    refine ⟨this.1, this.2.1, this.2.2.1, ?_⟩
    refine le_trans this.2.2.2 ?_
    rw [List.filter_append, List.length_append]
    have : (List.filter (fun e => decide (e = JobEvent.finished ∨ e = JobEvent.failed)) [e]).length
        = (if e = JobEvent.finished ∨ e = JobEvent.failed then 1 else 0) := by
      cases e <;> simp
    rw [this]

/-- C7. `runAndDequeueJobs` changes nothing when a job is current or the job queue is
empty; otherwise it removes exactly the head of the job queue, makes it the current job and
starts it. Hence, after any sequence of enqueue, finished and failed events on a fresh
device: the jobs enqueued so far are the jobs started so far, in the same order, followed
by the waiting ones; the current job (there is at most one, `currentJobs` holds one job or
none) is the job started last; and the number of jobs started is at most one more than the
number of finished and failed events, so a job starts only after its predecessor ended. -/
theorem C7_jobs_one_at_a_time {W : Type} (w : W) (s : MPDevice W) (events : List JobEvent) :
    (s.currentJobs.isSome = true ∨ s.jobsQueue = [] → runAndDequeueJobs s = s) ∧
    (∀ (job : Nat) (rest : List Nat), s.currentJobs = none → s.jobsQueue = job :: rest →
      runAndDequeueJobs s
        = { s with currentJobs := some job, jobsQueue := rest,
                   jobsStarted := s.jobsStarted ++ [job] }) ∧
    (jobRun { world := w } events).jobsEnqueued
      = (jobRun { world := w } events).jobsStarted ++ (jobRun { world := w } events).jobsQueue ∧
    (∀ j, (jobRun { world := w } events).currentJobs = some j →
      (jobRun { world := w } events).jobsStarted.getLast? = some j) ∧
    (jobRun { world := w } events).jobsStarted.length
      ≤ (events.filter (fun e => decide (e = JobEvent.finished ∨ e = JobEvent.failed))).length
        + 1 := by
  refine ⟨?_, ?_, (jobRun_invariant w events).1, (jobRun_invariant w events).2.1, ?_⟩
  · intro h
    rcases h with h | h
    · simp only [runAndDequeueJobs]
      split
      · rfl
      · simp [h]
    · simp [runAndDequeueJobs, h]
  · intro job rest hc hq
    simp [runAndDequeueJobs, hc, hq]
  · have := (jobRun_invariant w events).2.2.2
    split at this <;> omega

/-- Witness for C7: three jobs enqueued on a fresh device, the first one finishing: jobs 7
and 8 were started in that order, job 8 is current and job 9 waits. -/
theorem C7_jobs_one_at_a_time_witness :
    runAndDequeueJobs ({ world := 0, jobsQueue := [7, 8] } : MPDevice Nat)
      = { world := 0, jobsQueue := [8], currentJobs := some 7, jobsStarted := [7] } ∧
    (jobRun ({ world := 0 } : MPDevice Nat)
      [JobEvent.enqueue 7, JobEvent.enqueue 8, JobEvent.enqueue 9, JobEvent.finished]).jobsStarted
      = [7, 8] :=
  ⟨(C7_jobs_one_at_a_time 0 ({ world := 0, jobsQueue := [7, 8] } : MPDevice Nat) []).2.1
      7 [8] rfl rfl, rfl⟩

/-! ## Lemmas: node lists -/

theorem length_updateNode (l : List MPNode) (i : Nat) (f : MPNode → MPNode) :
    (updateNode l i f).length = l.length := by
  simp [updateNode]

theorem length_updatePtr (l : List MPNode) (pt : Option Nat) (f : MPNode → MPNode) :
    (updatePtr l pt f).length = l.length := by
  cases pt <;> simp [updatePtr, length_updateNode]

theorem nodeAt_eq_getElem (l : List MPNode) (i : Nat) (h : i < l.length) :
    nodeAt l i = l[i] := by
  simp [nodeAt, List.getD_eq_getElem?_getD, List.getElem?_eq_getElem h]

theorem nodeAt_of_le (l : List MPNode) (i : Nat) (h : l.length ≤ i) :
    nodeAt l i = default := by
  simp [nodeAt, List.getD_eq_getElem?_getD, List.getElem?_eq_none h]

theorem nodeAt_updateNode_same (l : List MPNode) (i : Nat) (f : MPNode → MPNode)
    (h : i < l.length) : nodeAt (updateNode l i f) i = f (nodeAt l i) := by
  simp [nodeAt, updateNode, List.getD_eq_getElem?_getD, List.getElem?_set, h]

theorem nodeAt_updateNode_ne (l : List MPNode) (i j : Nat) (f : MPNode → MPNode)
    (h : i ≠ j) : nodeAt (updateNode l i f) j = nodeAt l j := by
  simp [nodeAt, updateNode, List.getD_eq_getElem?_getD, List.getElem?_set, h]

theorem updateNode_of_le (l : List MPNode) (i : Nat) (f : MPNode → MPNode)
    (h : l.length ≤ i) : updateNode l i f = l := by
  simp [updateNode, List.set_eq_of_length_le h]

theorem nodeAt_mem (l : List MPNode) (i : Nat) (h : i < l.length) : nodeAt l i ∈ l := by
  rw [nodeAt_eq_getElem l i h]
  exact List.getElem_mem h

/-- A list is determined by its length and its nodes. -/
theorem list_ext_nodeAt (l1 l2 : List MPNode) (hl : l1.length = l2.length)
    (h : ∀ i, i < l1.length → nodeAt l1 i = nodeAt l2 i) : l1 = l2 := by
  apply List.ext_getElem hl
  intro i h1 h2
  have := h i h1
  rwa [nodeAt_eq_getElem l1 i h1, nodeAt_eq_getElem l2 i h2] at this

theorem map_updateNode (l : List MPNode) (i : Nat) (f : MPNode → MPNode) {β : Type}
    (g : MPNode → β) (h : ∀ n, g (f n) = g n) : (updateNode l i f).map g = l.map g := by
  apply List.ext_getElem
  · simp [length_updateNode]
  · intro k h1 h2
    simp only [List.getElem_map]
    simp only [List.length_map] at h1 h2
    by_cases hk : i = k
    · subst hk
      have := nodeAt_updateNode_same l i f h2
      rw [nodeAt_eq_getElem _ i (by simpa [length_updateNode] using h2),
        nodeAt_eq_getElem l i h2] at this
      rw [this, h]
    · have := nodeAt_updateNode_ne l i k f hk
      rw [nodeAt_eq_getElem _ k (by simpa [length_updateNode] using h2),
        nodeAt_eq_getElem l k h2] at this
      rw [this]

theorem map_updatePtr (l : List MPNode) (pt : Option Nat) (f : MPNode → MPNode) {β : Type}
    (g : MPNode → β) (h : ∀ n, g (f n) = g n) : (updatePtr l pt f).map g = l.map g := by
  cases pt with
  | none => rfl
  | some i => exact map_updateNode l i f g h

/-! ### SameFields -/

theorem sameFields_refl (l : List MPNode) : SameFields l l := rfl

theorem sameFields_symm {l1 l2 : List MPNode} (h : SameFields l1 l2) : SameFields l2 l1 :=
  Eq.symm h

theorem sameFields_trans {l1 l2 l3 : List MPNode} (h1 : SameFields l1 l2)
    (h2 : SameFields l2 l3) : SameFields l1 l3 :=
  Eq.trans h1 h2

theorem sameFields_length {l1 l2 : List MPNode} (h : SameFields l1 l2) :
    l1.length = l2.length := by
  have := congrArg List.length h
  simpa using this

theorem sameFields_nodeAt {l1 l2 : List MPNode} (h : SameFields l1 l2) (i : Nat) :
    (nodeAt l1 i).removePointedToCheck = (nodeAt l2 i).removePointedToCheck := by
  by_cases hi : i < l1.length
  · have hi2 : i < l2.length := sameFields_length h ▸ hi
    rw [nodeAt_eq_getElem l1 i hi, nodeAt_eq_getElem l2 i hi2]
    have h1 : (l1.map MPNode.removePointedToCheck)[i]? = (l2.map MPNode.removePointedToCheck)[i]? := by
      rw [h]
    simpa [List.getElem?_map, List.getElem?_eq_getElem hi, List.getElem?_eq_getElem hi2] using h1
  · have hi2 : ¬ i < l2.length := sameFields_length h ▸ hi
    rw [nodeAt_of_le l1 i (by omega), nodeAt_of_le l2 i (by omega)]

theorem sameFields_address {l1 l2 : List MPNode} (h : SameFields l1 l2) (i : Nat) :
    (nodeAt l1 i).address = (nodeAt l2 i).address := by
  have := congrArg MPNode.address (sameFields_nodeAt h i)
  simpa [MPNode.removePointedToCheck] using this

theorem sameFields_updateNode (l : List MPNode) (i : Nat) (f : MPNode → MPNode)
    (h : ∀ n, (f n).removePointedToCheck = n.removePointedToCheck) :
    SameFields (updateNode l i f) l :=
  map_updateNode l i f _ h

theorem sameFields_tag (l : List MPNode) (i : Nat) :
    SameFields (updateNode l i MPNode.setPointedToCheck) l :=
  sameFields_updateNode l i _ (fun _ => rfl)

theorem sameFields_map_detag (l : List MPNode) :
    SameFields (l.map MPNode.removePointedToCheck) l := by
  simp only [SameFields, List.map_map]
  congr 1

theorem sameFields_tagAll (path : List Nat) : ∀ l : List MPNode, SameFields (tagAll path l) l := by
  induction path with
  | nil => intro l; rfl
  | cons i rest ih =>
    intro l
    exact sameFields_trans (ih _) (sameFields_tag l i)

theorem tagAll_cons (i : Nat) (path : List Nat) (l : List MPNode) :
    tagAll (i :: path) l = tagAll path (updateNode l i MPNode.setPointedToCheck) := rfl

theorem tagAll_append (p1 p2 : List Nat) (l : List MPNode) :
    tagAll (p1 ++ p2) l = tagAll p2 (tagAll p1 l) := by
  simp [tagAll, List.foldl_append]

/-- The tag of a node after tagging a path. -/
theorem tagged_tagAll (path : List Nat) : ∀ (l : List MPNode) (j : Nat),
    (nodeAt (tagAll path l) j).pointedToCheck = true ↔
      (j ∈ path ∧ j < l.length) ∨ (nodeAt l j).pointedToCheck = true := by
  induction path with
  | nil => intro l j; simp [tagAll]
  | cons i rest ih =>
    intro l j
    rw [tagAll_cons, ih, length_updateNode]
    by_cases hij : i = j
    · subst hij
      by_cases hi : i < l.length
      · rw [nodeAt_updateNode_same l i _ hi]
        simp [MPNode.setPointedToCheck, hi]
      · rw [updateNode_of_le l i _ (by omega)]
        simp [hi]
    · rw [nodeAt_updateNode_ne l i j _ hij]
      have : j ≠ i := fun h => hij h.symm
      simp [this]

/-! ### Untagged count -/

theorem untagged_le_length (l : List MPNode) : untagged l ≤ l.length := by
  unfold untagged
  exact le_trans (List.length_filter_le _ _) (by simp)

theorem untagged_updateNode (l : List MPNode) (i : Nat) (f : MPNode → MPNode)
    (h : ∀ n, (f n).pointedToCheck = n.pointedToCheck) :
    untagged (updateNode l i f) = untagged l := by
  unfold untagged
  rw [map_updateNode l i f _ h]

theorem untagged_updatePtr (l : List MPNode) (pt : Option Nat) (f : MPNode → MPNode)
    (h : ∀ n, (f n).pointedToCheck = n.pointedToCheck) :
    untagged (updatePtr l pt f) = untagged l := by
  unfold untagged
  rw [map_updatePtr l pt f _ h]

/-- Tagging an untagged node leaves one untagged node less. -/
theorem untagged_tag (l : List MPNode) (i : Nat) (hi : i < l.length)
    (h : (nodeAt l i).pointedToCheck = false) :
    untagged (updateNode l i MPNode.setPointedToCheck) + 1 = untagged l := by
  induction l generalizing i with
  | nil => simp at hi
  | cons n rest ih =>
    cases i with
    | zero =>
      have hn : n.pointedToCheck = false := by simpa [nodeAt] using h
      simp [untagged, updateNode, nodeAt, MPNode.setPointedToCheck, hn]
    | succ k =>
      have hk : k < rest.length := by simpa using hi
      have h2 : (nodeAt rest k).pointedToCheck = false := by simpa [nodeAt] using h
      have := ih k hk h2
      simp only [untagged, updateNode, nodeAt, List.getD_cons_succ, List.set_cons_succ,
        List.map_cons] at this ⊢
      by_cases hn : n.pointedToCheck = true
      · simp only [List.filter_cons, hn, Bool.not_true]
        simpa using this
      · simp only [Bool.not_eq_true] at hn
        simp only [List.filter_cons, hn, Bool.not_false, if_true, List.length_cons]
        omega

/-! ## Lemmas: finding nodes, chains up to tags -/

theorem findNodeFrom_some (a : QByteArray) (v : Nat) (l : List MPNode) :
    ∀ (k i : Nat), findNodeFrom a v l k = some i → k ≤ i ∧ i - k < l.length := by
  induction l with
  | nil => intro k i h; simp [findNodeFrom] at h
  | cons n rest ih =>
    intro k i h
    simp only [findNodeFrom] at h
    split at h
    · simp only [Option.some.injEq] at h
      subst h
      simp
    · have := ih (k + 1) i h
      simp only [List.length_cons]
      omega

theorem findNodeWithAddressInList_lt (l : List MPNode) (a : QByteArray) (v i : Nat)
    (h : findNodeWithAddressInList l a v = some i) : i < l.length := by
  have := findNodeFrom_some a v l 0 i h
  omega

theorem findNodeFrom_eq_resolveFrom (a : QByteArray) (v : Nat) (l : List MPNode)
    (hphys : ∀ n ∈ l, n.address ≠ []) :
    ∀ k, findNodeFrom a v l k = resolveFrom a l k := by
  induction l with
  | nil => intro k; rfl
  | cons n rest ih =>
    intro k
    have hn : n.address ≠ [] := hphys n (List.mem_cons_self _ _)
    have ih2 := ih (fun m hm => hphys m (List.mem_cons_of_mem _ hm)) (k + 1)
    by_cases ha : n.address = a
    · subst ha
      simp [findNodeFrom, resolveFrom, nodeMatches, hn]
    · simp [findNodeFrom, resolveFrom, nodeMatches, hn, ha, ih2]

/-- On a list of nodes with physical addresses `findNodeWithAddressInList` resolves the
address, whatever the virtual id. -/
theorem find_eq_resolve (l : List MPNode) (a : QByteArray) (v : Nat)
    (hphys : ∀ n ∈ l, n.address ≠ []) : findNodeWithAddressInList l a v = resolve l a :=
  findNodeFrom_eq_resolveFrom a v l hphys 0

theorem resolveFrom_some (a : QByteArray) (l : List MPNode) :
    ∀ (k i : Nat), resolveFrom a l k = some i →
      k ≤ i ∧ i - k < l.length ∧ (nodeAt l (i - k)).address = a := by
  induction l with
  | nil => intro k i h; simp [resolveFrom] at h
  | cons n rest ih =>
    intro k i h
    simp only [resolveFrom] at h
    split at h
    · next hn =>
      simp only [Option.some.injEq] at h
      subst h
      simp [nodeAt, hn]
    · obtain ⟨h1, h2, h3⟩ := ih (k + 1) i h
      have : i - k = (i - (k + 1)) + 1 := by omega
      refine ⟨by omega, by simp only [List.length_cons]; omega, ?_⟩
      rw [this]
      simpa [nodeAt] using h3

theorem resolve_some (l : List MPNode) (a : QByteArray) (i : Nat) (h : resolve l a = some i) :
    i < l.length ∧ (nodeAt l i).address = a := by
  have := resolveFrom_some a l 0 i h
  simpa using this.2

theorem resolveFrom_congr (a : QByteArray) (l1 : List MPNode) :
    ∀ (l2 : List MPNode) (k : Nat), l1.map MPNode.address = l2.map MPNode.address →
      resolveFrom a l1 k = resolveFrom a l2 k := by
  induction l1 with
  | nil =>
    intro l2 k h
    cases l2 with
    | nil => rfl
    | cons m rest => simp at h
  | cons n rest ih =>
    intro l2 k h
    cases l2 with
    | nil => simp at h
    | cons m rest2 =>
      simp only [List.map_cons, List.cons.injEq] at h
      simp only [resolveFrom, h.1]
      rw [ih rest2 (k + 1) h.2]

theorem sameFields_map_address {l1 l2 : List MPNode} (h : SameFields l1 l2) :
    l1.map MPNode.address = l2.map MPNode.address := by
  have := congrArg (List.map MPNode.address) h
  simpa [List.map_map, Function.comp_def, MPNode.removePointedToCheck] using this

theorem sameFields_resolve {l1 l2 : List MPNode} (h : SameFields l1 l2) (a : QByteArray) :
    resolve l1 a = resolve l2 a :=
  resolveFrom_congr a l1 l2 0 (sameFields_map_address h)

theorem sameFields_phys {l1 l2 : List MPNode} (h : SameFields l1 l2)
    (hphys : ∀ n ∈ l2, n.address ≠ []) : ∀ n ∈ l1, n.address ≠ [] := by
  intro n hn
  have h1 : n.address ∈ l1.map MPNode.address := List.mem_map_of_mem _ hn
  rw [sameFields_map_address h] at h1
  obtain ⟨m, hm, hma⟩ := List.mem_map.mp h1
  rw [← hma]
  exact hphys m hm

/-- A field other than the tag is the same in two lists that agree up to the tags. -/
theorem sameFields_field {l1 l2 : List MPNode} (h : SameFields l1 l2) {β : Type}
    (g : MPNode → β) (hg : ∀ n, g n.removePointedToCheck = g n) (i : Nat) :
    g (nodeAt l1 i) = g (nodeAt l2 i) := by
  rw [← hg (nodeAt l1 i), ← hg (nodeAt l2 i), sameFields_nodeAt h i]

theorem chainLinks_congr {l1 l2 : List MPNode} (h : SameFields l1 l2)
    (next : MPNode → QByteArray) (hnext : ∀ n, next n.removePointedToCheck = next n)
    (path : List Nat) :
    ∀ a, ChainLinks l1 next a path ↔ ChainLinks l2 next a path := by
  induction path with
  | nil => intro a; rfl
  | cons i rest ih =>
    intro a
    simp only [ChainLinks]
    rw [sameFields_resolve h a, sameFields_field h next hnext i, ih]

theorem prevLinks_congr {l1 l2 : List MPNode} (h : SameFields l1 l2)
    (prev : MPNode → QByteArray) (hprev : ∀ n, prev n.removePointedToCheck = prev n)
    (path : List Nat) :
    ∀ e, PrevLinks l1 prev e path ↔ PrevLinks l2 prev e path := by
  induction path with
  | nil => intro e; rfl
  | cons i rest ih =>
    intro e
    simp only [PrevLinks]
    rw [sameFields_field h prev hprev i, sameFields_address h i, ih]

theorem nextChild_removePointedToCheck (isData : Bool) (n : MPNode) :
    n.removePointedToCheck.nextChild isData = n.nextChild isData := by
  cases isData <;> rfl

theorem childChain_congr (isData : Bool) {p1 p2 c1 c2 : List MPNode}
    (hp : SameFields p1 p2) (hc : SameFields c1 c2) (p : Nat) (path : List Nat) :
    ChildChain isData p1 c1 p path ↔ ChildChain isData p2 c2 p path := by
  simp only [ChildChain]
  rw [sameFields_field hp MPNode.startChildAddress (fun _ => rfl) p,
    chainLinks_congr hc _ (nextChild_removePointedToCheck isData) path,
    prevLinks_congr hc MPNode.previousChildAddress (fun _ => rfl) path]

theorem forall₂_childChain_congr (isData : Bool) {p1 p2 c1 c2 : List MPNode}
    (hp : SameFields p1 p2) (hc : SameFields c1 c2) (pp : List Nat) (cps : List (List Nat)) :
    List.Forall₂ (ChildChain isData p1 c1) pp cps ↔
      List.Forall₂ (ChildChain isData p2 c2) pp cps := by
  constructor
  · intro h
    exact h.imp (fun {p} {path} hx => (childChain_congr isData hp hc p path).mp hx)
  · intro h
    exact h.imp (fun {p} {path} hx => (childChain_congr isData hp hc p path).mpr hx)

/-- Following a chain from an address gives one path only. -/
theorem chainLinks_unique (l : List MPNode) (next : MPNode → QByteArray) (p1 : List Nat) :
    ∀ (p2 : List Nat) (a : QByteArray), ChainLinks l next a p1 → ChainLinks l next a p2 →
      p1 = p2 := by
  induction p1 with
  | nil =>
    intro p2 a h1 h2
    cases p2 with
    | nil => rfl
    | cons j rest => exact absurd h1 h2.1
  | cons i rest ih =>
    intro p2 a h1 h2
    cases p2 with
    | nil => exact absurd h2 h1.1
    | cons j rest2 =>
      obtain ⟨_, hr1, ht1⟩ := h1
      obtain ⟨_, hr2, ht2⟩ := h2
      rw [hr1] at hr2
      simp only [Option.some.injEq] at hr2
      subst hr2
      rw [ih rest2 _ ht1 ht2]

/-! ## Lemmas: one iteration of the loops of tagPointedNodes -/

/-- The child loop at the empty address. -/
theorem tagChildLoop_empty (isData repairAllowed : Bool) (p fuel : Nat) (c : NodeChain)
    (pt : Option Nat) (rb : Bool) :
    tagChildLoop isData repairAllowed p (fuel + 1) c EmptyAddress pt rb
      = some { chain := c, tempParentNodePt := some p, tempChildNodePt := pt,
               return_bool := rb, returned := false } := by
  simp [tagChildLoop]

/-- The child loop at an address that is not found. -/
theorem tagChildLoop_missing (isData repairAllowed : Bool) (p fuel : Nat) (c : NodeChain)
    (a : QByteArray) (pt : Option Nat) (rb : Bool) (ha : a ≠ EmptyAddress)
    (hfind : findNodeWithAddressInList c.children a 0 = none) :
    tagChildLoop isData repairAllowed p (fuel + 1) c a pt rb
      = some { chain := if repairAllowed then cutChildLink isData c p pt a else c,
               tempParentNodePt := some p, tempChildNodePt := pt,
               return_bool := false, returned := false } := by
  simp [tagChildLoop, ha, hfind]

/-- The child loop at the address of a tagged child. -/
theorem tagChildLoop_tagged (isData repairAllowed : Bool) (p fuel : Nat) (c : NodeChain)
    (a : QByteArray) (pt : Option Nat) (rb : Bool) (i : Nat) (ha : a ≠ EmptyAddress)
    (hfind : findNodeWithAddressInList c.children a 0 = some i)
    (htag : (nodeAt c.children i).pointedToCheck = true) :
    tagChildLoop isData repairAllowed p (fuel + 1) c a pt rb
      = some { chain := if repairAllowed then cutChildLink isData c p pt a else c,
               tempParentNodePt := some p, tempChildNodePt := pt,
               return_bool := rb, returned := true } := by
  simp [tagChildLoop, ha, hfind, htag]

/-- The child loop at the address of an untagged child. -/
theorem tagChildLoop_visit (isData repairAllowed : Bool) (p fuel : Nat) (c : NodeChain)
    (a : QByteArray) (pt : Option Nat) (rb : Bool) (i : Nat) (ha : a ≠ EmptyAddress)
    (hfind : findNodeWithAddressInList c.children a 0 = some i)
    (htag : (nodeAt c.children i).pointedToCheck = false) :
    tagChildLoop isData repairAllowed p (fuel + 1) c a pt rb
      = tagChildLoop isData repairAllowed p fuel (childVisit isData repairAllowed c p pt a i)
          ((nodeAt (childVisit isData repairAllowed c p pt a i).children i).nextChild isData)
          (some i) (if childMismatch isData c p pt a i then false else rb) := by
  rw [tagChildLoop]
  simp only [ha, if_false, hfind, htag, Bool.false_eq_true]
  unfold childVisit childMismatch childExpected
  split_ifs <;> rfl

/-- The parent loop at the empty address. -/
theorem tagParentLoop_empty (isData repairAllowed : Bool) (fuel : Nat) (c : NodeChain)
    (va : Nat) (ppt cpt : Option Nat) (rb : Bool) :
    tagParentLoop isData repairAllowed (fuel + 1) c EmptyAddress va ppt cpt rb
      = some { chain := c, tempParentNodePt := ppt, tempChildNodePt := cpt,
               return_bool := rb, returned := false } := by
  simp [tagParentLoop]

/-- The parent loop at an address that is not found. -/
theorem tagParentLoop_missing (isData repairAllowed : Bool) (fuel : Nat) (c : NodeChain)
    (a : QByteArray) (va : Nat) (ppt cpt : Option Nat) (rb : Bool) (ha : a ≠ EmptyAddress)
    (hfind : findNodeWithAddressInList c.parents a va = none) :
    tagParentLoop isData repairAllowed (fuel + 1) c a va ppt cpt rb
      = some { chain := if repairAllowed then cutParentLink c ppt a else c,
               tempParentNodePt := ppt, tempChildNodePt := cpt,
               return_bool := rb, returned := true } := by
  simp [tagParentLoop, ha, hfind]

/-- The parent loop at the address of a tagged parent. -/
theorem tagParentLoop_tagged (isData repairAllowed : Bool) (fuel : Nat) (c : NodeChain)
    (a : QByteArray) (va : Nat) (ppt cpt : Option Nat) (rb : Bool) (i : Nat)
    (ha : a ≠ EmptyAddress) (hfind : findNodeWithAddressInList c.parents a va = some i)
    (htag : (nodeAt c.parents i).pointedToCheck = true) :
    tagParentLoop isData repairAllowed (fuel + 1) c a va ppt cpt rb
      = some { chain := if repairAllowed then cutParentLink c ppt a else c,
               tempParentNodePt := ppt, tempChildNodePt := cpt,
               return_bool := rb, returned := true } := by
  simp [tagParentLoop, ha, hfind, htag]

/-- The parent loop at the address of an untagged parent. -/
theorem tagParentLoop_visit (isData repairAllowed : Bool) (fuel : Nat) (c : NodeChain)
    (a : QByteArray) (va : Nat) (ppt cpt : Option Nat) (rb : Bool) (i : Nat)
    (ha : a ≠ EmptyAddress) (hfind : findNodeWithAddressInList c.parents a va = some i)
    (htag : (nodeAt c.parents i).pointedToCheck = false) :
    tagParentLoop isData repairAllowed (fuel + 1) c a va ppt cpt rb
      = match tagChildLoop isData repairAllowed i
            ((parentVisit repairAllowed c ppt a i).children.length + 1)
            (parentVisit repairAllowed c ppt a i)
            (nodeAt (parentVisit repairAllowed c ppt a i).parents i).startChildAddress cpt
            (if parentMismatch c ppt a i then false else rb) with
        | none => none
        | some r =>
          if r.returned then some r
          else tagParentLoop isData repairAllowed fuel r.chain
            (nodeAt r.chain.parents i).nextParentAddress
            (nodeAt r.chain.parents i).nextParentVirtualAddress (some i) r.tempChildNodePt
            r.return_bool := by
  rw [tagParentLoop]
  simp only [ha, if_false, hfind, htag, Bool.false_eq_true]
  unfold parentVisit parentMismatch parentExpected
  split_ifs <;> rfl

/-! ## Lemmas: the loops of tagPointedNodes end within their bounds -/

theorem cutChildLink_tags (isData : Bool) (c : NodeChain) (p : Nat) (pt : Option Nat)
    (a : QByteArray) :
    (cutChildLink isData c p pt a).parents.map MPNode.pointedToCheck
        = c.parents.map MPNode.pointedToCheck ∧
    (cutChildLink isData c p pt a).children.map MPNode.pointedToCheck
        = c.children.map MPNode.pointedToCheck := by
  unfold cutChildLink
  split
  · exact ⟨map_updateNode c.parents p (fun n => n.setStartChildAddress EmptyAddress)
      MPNode.pointedToCheck (fun _ => rfl), rfl⟩
  · refine ⟨rfl, map_updatePtr c.children pt (fun n => n.setNextChild isData EmptyAddress)
      MPNode.pointedToCheck (fun n => ?_)⟩
    cases isData <;> rfl

theorem cutParentLink_tags (c : NodeChain) (pt : Option Nat) (a : QByteArray) :
    (cutParentLink c pt a).parents.map MPNode.pointedToCheck
        = c.parents.map MPNode.pointedToCheck ∧
    (cutParentLink c pt a).children = c.children := by
  unfold cutParentLink
  split
  · exact ⟨rfl, rfl⟩
  · exact ⟨map_updatePtr c.parents pt (fun n => n.setNextParentAddress EmptyAddress 0)
      MPNode.pointedToCheck (fun _ => rfl), rfl⟩

theorem untagged_childVisit (isData repairAllowed : Bool) (c : NodeChain) (p : Nat)
    (pt : Option Nat) (a : QByteArray) (i : Nat) (hi : i < c.children.length)
    (htag : (nodeAt c.children i).pointedToCheck = false) :
    untagged (childVisit isData repairAllowed c p pt a i).children + 1 = untagged c.children := by
  unfold childVisit
  simp only
  split
  · rw [untagged_tag _ i (by simpa [length_updateNode] using hi)
      (by rw [nodeAt_updateNode_same _ _ _ hi]; exact htag)]
    exact untagged_updateNode _ _ _ (fun _ => rfl)
  · exact untagged_tag _ i hi htag

theorem untagged_parentVisit (repairAllowed : Bool) (c : NodeChain)
    (pt : Option Nat) (a : QByteArray) (i : Nat) (hi : i < c.parents.length)
    (htag : (nodeAt c.parents i).pointedToCheck = false) :
    untagged (parentVisit repairAllowed c pt a i).parents + 1 = untagged c.parents := by
  unfold parentVisit
  simp only
  split
  · rw [untagged_tag _ i (by simpa [length_updateNode] using hi)
      (by rw [nodeAt_updateNode_same _ _ _ hi]; exact htag)]
    exact untagged_updateNode _ _ _ (fun _ => rfl)
  · exact untagged_tag _ i hi htag

theorem untagged_congr {l1 l2 : List MPNode}
    (h : l1.map MPNode.pointedToCheck = l2.map MPNode.pointedToCheck) :
    untagged l1 = untagged l2 := by
  unfold untagged
  have h1 : (l1.map fun n => n.pointedToCheck) = l1.map MPNode.pointedToCheck := rfl
  have h2 : (l2.map fun n => n.pointedToCheck) = l2.map MPNode.pointedToCheck := rfl
  rw [h1, h2, h]

/-- The child loop ends within its bound when the bound exceeds the number of untagged
children; it leaves the tags of the parents alone. -/
theorem tagChildLoop_total (isData repairAllowed : Bool) (p : Nat) :
    ∀ (fuel : Nat) (c : NodeChain) (a : QByteArray) (pt : Option Nat) (rb : Bool),
      untagged c.children < fuel →
      ∃ r, tagChildLoop isData repairAllowed p fuel c a pt rb = some r ∧
        r.chain.parents.map MPNode.pointedToCheck = c.parents.map MPNode.pointedToCheck := by
  intro fuel
  induction fuel with
  | zero => intro c a pt rb h; omega
  | succ fuel ih =>
    intro c a pt rb h
    by_cases ha : a = EmptyAddress
    · subst ha
      rw [tagChildLoop_empty]
      exact ⟨_, rfl, rfl⟩
    · cases hfind : findNodeWithAddressInList c.children a 0 with
      | none =>
        rw [tagChildLoop_missing _ _ _ _ _ _ _ _ ha hfind]
        refine ⟨_, rfl, ?_⟩
        cases repairAllowed
        · rfl
        · exact (cutChildLink_tags isData c p pt a).1
      | some i =>
        cases htag : (nodeAt c.children i).pointedToCheck with
        | true =>
          rw [tagChildLoop_tagged _ _ _ _ _ _ _ _ i ha hfind htag]
          refine ⟨_, rfl, ?_⟩
          cases repairAllowed
          · rfl
          · exact (cutChildLink_tags isData c p pt a).1
        | false =>
          rw [tagChildLoop_visit _ _ _ _ _ _ _ _ i ha hfind htag]
          have hi : i < c.children.length := findNodeWithAddressInList_lt _ _ _ _ hfind
          have h1 := untagged_childVisit isData repairAllowed c p pt a i hi htag
          exact ih _ _ _ _ (by omega)

/-- The parent loop ends within its bound when the bound exceeds the number of untagged
parents. -/
theorem tagParentLoop_total (isData repairAllowed : Bool) :
    ∀ (fuel : Nat) (c : NodeChain) (a : QByteArray) (va : Nat) (ppt cpt : Option Nat)
      (rb : Bool), untagged c.parents < fuel →
      ∃ r, tagParentLoop isData repairAllowed fuel c a va ppt cpt rb = some r := by
  intro fuel
  induction fuel with
  | zero => intro c a va ppt cpt rb h; omega
  | succ fuel ih =>
    intro c a va ppt cpt rb h
    by_cases ha : a = EmptyAddress
    · subst ha
      rw [tagParentLoop_empty]
      exact ⟨_, rfl⟩
    · cases hfind : findNodeWithAddressInList c.parents a va with
      | none =>
        rw [tagParentLoop_missing _ _ _ _ _ _ _ _ _ ha hfind]
        exact ⟨_, rfl⟩
      | some i =>
        cases htag : (nodeAt c.parents i).pointedToCheck with
        | true =>
          rw [tagParentLoop_tagged _ _ _ _ _ _ _ _ _ i ha hfind htag]
          exact ⟨_, rfl⟩
        | false =>
          rw [tagParentLoop_visit _ _ _ _ _ _ _ _ _ i ha hfind htag]
          have hi : i < c.parents.length := findNodeWithAddressInList_lt _ _ _ _ hfind
          have h1 := untagged_parentVisit repairAllowed c ppt a i hi htag
          obtain ⟨r, hr, hrp⟩ := tagChildLoop_total isData repairAllowed i
            ((parentVisit repairAllowed c ppt a i).children.length + 1)
            (parentVisit repairAllowed c ppt a i)
            (nodeAt (parentVisit repairAllowed c ppt a i).parents i).startChildAddress cpt
            (if parentMismatch c ppt a i then false else rb)
            (Nat.lt_succ_of_le (untagged_le_length _))
          rw [hr]
          simp only
          split
          · exact ⟨_, rfl⟩
          · have h2 := untagged_congr hrp
            exact ih _ _ _ _ _ _ (by omega)

/-- `tagPointedNodes` returns: its iteration bounds are never too small. -/
theorem tagPointedNodes_total (repairAllowed : Bool) (s : Session) :
    ∃ r, tagPointedNodes repairAllowed s = some r := by
  unfold tagPointedNodes
  simp only
  obtain ⟨r1, h1⟩ := tagParentLoop_total false repairAllowed
    ((detagPointedNodes s).loginNodes.length + 1) (detagPointedNodes s).credChain
    (detagPointedNodes s).startNode (detagPointedNodes s).virtualStartNode none none true
    (Nat.lt_succ_of_le (untagged_le_length _))
  rw [h1]
  simp only
  split
  · exact ⟨_, rfl⟩
  · obtain ⟨r2, h2⟩ := tagParentLoop_total true repairAllowed
      (((detagPointedNodes s).setCredChain r1.chain).dataNodes.length + 1)
      ((detagPointedNodes s).setCredChain r1.chain).dataChain
      ((detagPointedNodes s).setCredChain r1.chain).startDataNode
      ((detagPointedNodes s).setCredChain r1.chain).virtualStartNode none none r1.return_bool
      (Nat.lt_succ_of_le (untagged_le_length _))
    rw [h2]
    simp only
    split <;> exact ⟨_, rfl⟩

/-! ## Lemmas: what the walk without repair accepts -/

theorem childVisit_false (isData : Bool) (c : NodeChain) (p : Nat) (pt : Option Nat)
    (a : QByteArray) (i : Nat) :
    childVisit isData false c p pt a i
      = { start := c.start, parents := c.parents,
          children := updateNode c.children i MPNode.setPointedToCheck } := by
  simp [childVisit]

theorem parentVisit_false (c : NodeChain) (pt : Option Nat) (a : QByteArray) (i : Nat) :
    parentVisit false c pt a i
      = { start := c.start, children := c.children,
          parents := updateNode c.parents i MPNode.setPointedToCheck } := by
  simp [parentVisit]

theorem chainLinks_lt (l : List MPNode) (next : MPNode → QByteArray) (path : List Nat) :
    ∀ a, ChainLinks l next a path → ∀ i ∈ path, i < l.length := by
  induction path with
  | nil => intro a _ i hi; simp at hi
  | cons j rest ih =>
    intro a h i hi
    rcases List.mem_cons.mp hi with rfl | hi
    · exact (resolve_some l a i h.2.1).1
    · exact ih _ h.2.2 i hi

/-- The expected previous address, as the code computes it, is the one the position in
the chain calls for. -/
theorem expected_of_firstOrLater (list : List MPNode) (sa a e : QByteArray)
    (pt : Option Nat) (i : Nat) (h : FirstOrLater list sa a e pt)
    (hres : resolve list a = some i) (htag : (nodeAt list i).pointedToCheck = false) :
    (if a = sa then EmptyAddress else ptrAddress list pt) = e := by
  rcases h with ⟨h1, h2⟩ | ⟨h1, h2⟩
  · simp [h1, h2]
  · by_cases ha : a = sa
    · subst ha
      have := h1 i hres
      rw [htag] at this
      exact absurd this (by decide)
    · simp [ha, h2]

/-- After the visit of node `i`, found at `a`, the walk is past its first node. -/
theorem firstOrLater_next (list : List MPNode) (sa a e a2 : QByteArray)
    (pt : Option Nat) (i : Nat) (h : FirstOrLater list sa a e pt)
    (hres : resolve list a = some i) :
    FirstOrLater (updateNode list i MPNode.setPointedToCheck) sa a2 (nodeAt list i).address
      (some i) := by
  right
  have hs := sameFields_tag list i
  have hi := (resolve_some list a i hres).1
  constructor
  · intro j hj
    rw [sameFields_resolve hs] at hj
    have hj2 : (nodeAt (tagAll [i] list) j).pointedToCheck = true := by
      rw [tagged_tagAll]
      rcases h with ⟨h1, _⟩ | ⟨h1, _⟩
      · subst h1
        rw [hres] at hj
        simp only [Option.some.injEq] at hj
        subst hj
        left; exact ⟨List.mem_singleton_self _, hi⟩
      · right; exact h1 j hj
    exact hj2
  · simp only [ptrAddress]
    exact (sameFields_address hs i).symm

theorem untagged_of_tag {list : List MPNode} {i j : Nat}
    (h : (nodeAt (updateNode list i MPNode.setPointedToCheck) j).pointedToCheck = false) :
    (nodeAt list j).pointedToCheck = false ∧ (i < list.length → j ≠ i) := by
  have h1 := tagged_tagAll [i] list j
  have h2 : tagAll [i] list = updateNode list i MPNode.setPointedToCheck := rfl
  rw [h2, h] at h1
  simp only [Bool.false_eq_true, List.mem_singleton, false_iff, not_or, not_and,
    Bool.not_eq_true] at h1
  refine ⟨h1.2, ?_⟩
  intro hi hji
  exact h1.1 hji (hji ▸ hi)

theorem untagged_after_tag {list : List MPNode} {i j : Nat}
    (h : (nodeAt list j).pointedToCheck = false) (hne : j ≠ i) :
    (nodeAt (updateNode list i MPNode.setPointedToCheck) j).pointedToCheck = false := by
  rw [nodeAt_updateNode_ne list i j _ (fun h => hne h.symm)]
  exact h

/-- The child loop without repair: it only sets tags, and it ends without a report exactly
when the rest of the child chain is without violation; it then has tagged that rest. -/
theorem tagChildLoop_spec (isData : Bool) (p : Nat) :
    ∀ (fuel : Nat) (c : NodeChain) (a : QByteArray) (pt : Option Nat) (rb : Bool)
      (e : QByteArray),
      untagged c.children < fuel →
      (∀ n ∈ c.children, n.address ≠ []) →
      FirstOrLater c.children (nodeAt c.parents p).startChildAddress a e pt →
      ∃ r, tagChildLoop isData false p fuel c a pt rb = some r ∧
        r.chain.start = c.start ∧ r.chain.parents = c.parents ∧
        SameFields r.chain.children c.children ∧
        ((r.returned = false ∧ r.return_bool = true) →
          rb = true ∧ ∃ path, ChildPathOK isData c.children e a path ∧
            r.chain.children = tagAll path c.children) ∧
        (rb = true → ∀ path, ChildPathOK isData c.children e a path →
          r.returned = false ∧ r.return_bool = true) := by
  intro fuel
  induction fuel with
  | zero => intro c a pt rb e h; omega
  | succ fuel ih =>
    intro c a pt rb e hfuel hphys hfl
    by_cases ha : a = EmptyAddress
    · subst ha
      rw [tagChildLoop_empty]
      refine ⟨_, rfl, rfl, rfl, sameFields_refl _, ?_, ?_⟩
      · intro h
        exact ⟨h.2, [], ⟨rfl, List.nodup_nil, by simp, fun _ => trivial⟩, rfl⟩
      · intro hrb path _
        exact ⟨rfl, hrb⟩
    · have hfr := find_eq_resolve c.children a 0 hphys
      cases hfind : findNodeWithAddressInList c.children a 0 with
      | none =>
        rw [tagChildLoop_missing _ _ _ _ _ _ _ _ ha hfind]
        refine ⟨_, rfl, rfl, rfl, sameFields_refl _, ?_, ?_⟩
        · intro h; simp at h
        · intro _ path hpath
          cases path with
          | nil => exact absurd hpath.1 ha
          | cons j rest =>
            have := hpath.1.2.1
            rw [← hfr, hfind] at this
            simp at this
      | some i =>
        have hres : resolve c.children a = some i := by rw [← hfr, hfind]
        cases htag : (nodeAt c.children i).pointedToCheck with
        | true =>
          rw [tagChildLoop_tagged _ _ _ _ _ _ _ _ i ha hfind htag]
          refine ⟨_, rfl, rfl, rfl, sameFields_refl _, ?_, ?_⟩
          · intro h; simp at h
          · intro _ path hpath
            cases path with
            | nil => exact absurd hpath.1 ha
            | cons j rest =>
              have h1 := hpath.1.2.1
              rw [hres] at h1
              simp only [Option.some.injEq] at h1
              subst h1
              have := hpath.2.2.1 i (List.mem_cons_self _ _)
              rw [htag] at this
              simp at this
        | false =>
          rw [tagChildLoop_visit _ _ _ _ _ _ _ _ i ha hfind htag, childVisit_false]
          have hi : i < c.children.length := (resolve_some _ _ _ hres).1
          have hs := sameFields_tag c.children i
          have hexp : childExpected c p pt a = e :=
            expected_of_firstOrLater c.children _ a e pt i hfl hres htag
          have hnext : (nodeAt (updateNode c.children i MPNode.setPointedToCheck) i).nextChild isData
              = (nodeAt c.children i).nextChild isData :=
            sameFields_field hs (MPNode.nextChild isData) (nextChild_removePointedToCheck isData) i
          have h1 := untagged_tag c.children i hi htag
          obtain ⟨r, hr, hstart, hpar, hsame, hfwd, hbwd⟩ :=
            ih { start := c.start, parents := c.parents,
                 children := updateNode c.children i MPNode.setPointedToCheck }
              ((nodeAt (updateNode c.children i MPNode.setPointedToCheck) i).nextChild isData)
              (some i) (if childMismatch isData c p pt a i then false else rb)
              (nodeAt c.children i).address (by simp only; omega)
              (sameFields_phys hs hphys)
              (firstOrLater_next c.children _ a e _ pt i hfl hres)
          refine ⟨r, hr, hstart, hpar, sameFields_trans hsame hs, ?_, ?_⟩
          · intro hsucc
            obtain ⟨hrb2, path, ⟨hcl, hnd, hunt, hprev⟩, hch⟩ := hfwd hsucc
            have hmis : childMismatch isData c p pt a i = false := by
              cases hm : childMismatch isData c p pt a i
              · rfl
              · rw [hm] at hrb2; simp at hrb2
            rw [hmis] at hrb2
            simp only [Bool.false_eq_true, if_false] at hrb2
            refine ⟨hrb2, i :: path, ⟨?_, ?_, ?_, ?_⟩, ?_⟩
            · refine ⟨ha, hres, ?_⟩
              rw [hnext] at hcl
              exact (chainLinks_congr hs _ (nextChild_removePointedToCheck isData) path _).mp hcl
            · refine List.nodup_cons.mpr ⟨?_, hnd⟩
              intro hmem
              exact (untagged_of_tag (hunt i hmem)).2 hi rfl
            · intro j hj
              rcases List.mem_cons.mp hj with rfl | hj
              · exact htag
              · exact (untagged_of_tag (hunt j hj)).1
            · intro hd
              refine ⟨?_, ?_⟩
              · have : (nodeAt c.children i).previousChildAddress = childExpected c p pt a := by
                  simpa [childMismatch, hd] using hmis
                rw [this, hexp]
              · exact (prevLinks_congr hs MPNode.previousChildAddress (fun _ => rfl) path _).mp (hprev hd)
            · rw [hch]; rfl
          · intro hrb path hpath
            cases path with
            | nil => exact absurd hpath.1 ha
            | cons j rest =>
              obtain ⟨hcl, hnd, hunt, hprev⟩ := hpath
              have hj : j = i := by
                have := hcl.2.1
                rw [hres] at this
                simp only [Option.some.injEq] at this
                exact this.symm
              subst hj
              have hmis : childMismatch isData c p pt a j = false := by
                cases hd : isData
                · have := (hprev hd).1
                  simp [childMismatch, hd, hexp, this]
                · simp [childMismatch]
              apply hbwd (by simp [hmis, hrb]) rest
              refine ⟨?_, (List.nodup_cons.mp hnd).2, ?_, ?_⟩
              · rw [hnext]
                exact (chainLinks_congr hs _ (nextChild_removePointedToCheck isData) rest _).mpr
                  hcl.2.2
              · intro k hk
                refine untagged_after_tag (hunt k (List.mem_cons_of_mem _ hk)) ?_
                intro hkj
                subst hkj
                exact (List.nodup_cons.mp hnd).1 hk
              · intro hd
                exact (prevLinks_congr hs MPNode.previousChildAddress (fun _ => rfl) rest _).mpr (hprev hd).2

/-- The child chain of a parent, read as the rest of a chain from its first address. -/
theorem childPathOK_of_childChain (isData : Bool) (parents children : List MPNode) (i : Nat)
    (cp : List Nat) (h : ChildChain isData parents children i cp) (hnd : cp.Nodup)
    (hunt : ∀ j ∈ cp, (nodeAt children j).pointedToCheck = false) :
    ChildPathOK isData children EmptyAddress (nodeAt parents i).startChildAddress cp :=
  ⟨h.1, hnd, hunt, h.2⟩

/-- The parent loop without repair: it only sets tags, and it ends without a report exactly
when the rest of the chain is without violation; it then has tagged that rest. -/
theorem tagParentLoop_spec (isData : Bool) :
    ∀ (fuel : Nat) (c : NodeChain) (a : QByteArray) (va : Nat) (ppt cpt : Option Nat)
      (rb : Bool) (e : QByteArray),
      untagged c.parents < fuel →
      (∀ n ∈ c.parents, n.address ≠ []) → (∀ n ∈ c.children, n.address ≠ []) →
      FirstOrLater c.parents c.start a e ppt →
      ∃ r, tagParentLoop isData false fuel c a va ppt cpt rb = some r ∧
        r.chain.start = c.start ∧ SameFields r.chain.parents c.parents ∧
        SameFields r.chain.children c.children ∧
        ((r.returned = false ∧ r.return_bool = true) →
          rb = true ∧ ∃ pp cps, ParentPathOK isData c e a pp cps ∧
            r.chain.parents = tagAll pp c.parents ∧
            r.chain.children = tagAll cps.flatten c.children) ∧
        (rb = true → ∀ pp cps, ParentPathOK isData c e a pp cps →
          r.returned = false ∧ r.return_bool = true) := by
  intro fuel
  induction fuel with
  | zero => intro c a va ppt cpt rb e h; omega
  | succ fuel ih =>
    intro c a va ppt cpt rb e hfuel hphys hphysc hfl
    by_cases ha : a = EmptyAddress
    · subst ha
      rw [tagParentLoop_empty]
      refine ⟨_, rfl, rfl, sameFields_refl _, sameFields_refl _, ?_, ?_⟩
      · intro h
        exact ⟨h.2, [], [], ⟨rfl, List.nodup_nil, by simp, trivial, List.Forall₂.nil,
          by simp, by simp⟩, rfl, rfl⟩
      · intro hrb pp cps _
        exact ⟨rfl, hrb⟩
    · have hfr := find_eq_resolve c.parents a va hphys
      cases hfind : findNodeWithAddressInList c.parents a va with
      | none =>
        rw [tagParentLoop_missing _ _ _ _ _ _ _ _ _ ha hfind]
        refine ⟨_, rfl, rfl, sameFields_refl _, sameFields_refl _, ?_, ?_⟩
        · intro h; simp at h
        · intro _ pp cps hpath
          cases pp with
          | nil => exact absurd hpath.1 ha
          | cons j rest =>
            have := hpath.1.2.1
            rw [← hfr, hfind] at this
            simp at this
      | some i =>
        have hres : resolve c.parents a = some i := by rw [← hfr, hfind]
        cases htag : (nodeAt c.parents i).pointedToCheck with
        | true =>
          rw [tagParentLoop_tagged _ _ _ _ _ _ _ _ _ i ha hfind htag]
          refine ⟨_, rfl, rfl, sameFields_refl _, sameFields_refl _, ?_, ?_⟩
          · intro h; simp at h
          · intro _ pp cps hpath
            cases pp with
            | nil => exact absurd hpath.1 ha
            | cons j rest =>
              have h1 := hpath.1.2.1
              rw [hres] at h1
              simp only [Option.some.injEq] at h1
              subst h1
              have := hpath.2.2.1 i (List.mem_cons_self _ _)
              rw [htag] at this
              simp at this
        | false =>
          rw [tagParentLoop_visit _ _ _ _ _ _ _ _ _ i ha hfind htag, parentVisit_false]
          have hi : i < c.parents.length := (resolve_some _ _ _ hres).1
          have hs := sameFields_tag c.parents i
          have hexp : parentExpected c ppt a = e :=
            expected_of_firstOrLater c.parents _ a e ppt i hfl hres htag
          have hsc : (nodeAt (updateNode c.parents i MPNode.setPointedToCheck) i).startChildAddress
              = (nodeAt c.parents i).startChildAddress :=
            sameFields_field hs MPNode.startChildAddress (fun _ => rfl) i
          have h1 := untagged_tag c.parents i hi htag
          obtain ⟨rc, hrc, hcstart, hcpar, hcsame, hcfwd, hcbwd⟩ :=
            tagChildLoop_spec isData i (c.children.length + 1)
              { start := c.start, children := c.children,
                parents := updateNode c.parents i MPNode.setPointedToCheck }
              (nodeAt (updateNode c.parents i MPNode.setPointedToCheck) i).startChildAddress
              cpt (if parentMismatch c ppt a i then false else rb) EmptyAddress
              (Nat.lt_succ_of_le (untagged_le_length _)) hphysc (Or.inl ⟨rfl, rfl⟩)
          simp only at hrc hcstart hcpar hcsame hcfwd hcbwd
          simp only [hrc]
          have hmis_of : ∀ pp cps, ParentPathOK isData c e a pp cps →
              ∃ pp2 cp cps2, pp = i :: pp2 ∧ cps = cp :: cps2 ∧
                parentMismatch c ppt a i = false := by
            intro pp cps hpath
            cases pp with
            | nil => exact absurd hpath.1 ha
            | cons j pp2 =>
              have hj : j = i := by
                have := hpath.1.2.1
                rw [hres] at this
                simp only [Option.some.injEq] at this
                exact this.symm
              subst hj
              cases cps with
              | nil => cases hpath.2.2.2.2.1
              | cons cp cps2 =>
                refine ⟨pp2, cp, cps2, rfl, rfl, ?_⟩
                simp [parentMismatch, hexp, hpath.2.2.2.1.1]
          have hchild_of : ∀ pp2 cp cps2, ParentPathOK isData c e a (i :: pp2) (cp :: cps2) →
              ChildPathOK isData c.children EmptyAddress
                (nodeAt (updateNode c.parents i MPNode.setPointedToCheck) i).startChildAddress
                cp := by
            intro pp2 cp cps2 hpath
            obtain ⟨_, _, _, _, hf, hnd, hunt⟩ := hpath
            rw [hsc]
            cases hf with
            | cons hhead _ =>
              refine childPathOK_of_childChain isData c.parents c.children i cp hhead ?_ ?_
              · simp only [List.flatten_cons] at hnd
                exact (List.nodup_append.mp hnd).1
              · intro j hj
                exact hunt j (by simp [hj])
          by_cases hret : rc.returned = true
          · simp only [hret, if_true]
            refine ⟨rc, rfl, hcstart, hcpar ▸ hs, hcsame, ?_, ?_⟩
            · intro h; rw [hret] at h; simp at h
            · intro hrb pp cps hpath
              obtain ⟨pp2, cp, cps2, rfl, rfl, hmis⟩ := hmis_of pp cps hpath
              have := hcbwd (by simp [hmis, hrb]) cp (hchild_of pp2 cp cps2 hpath)
              rw [hret] at this
              simp at this
          · simp only [hret, if_false, Bool.false_eq_true]
            simp only [Bool.not_eq_true] at hret
            have hsp : SameFields rc.chain.parents c.parents := hcpar ▸ hs
            have hnpa : (nodeAt rc.chain.parents i).nextParentAddress
                = (nodeAt c.parents i).nextParentAddress :=
              sameFields_field hsp MPNode.nextParentAddress (fun _ => rfl) i
            have hfl2 : FirstOrLater rc.chain.parents rc.chain.start
                (nodeAt rc.chain.parents i).nextParentAddress (nodeAt c.parents i).address
                (some i) := by
              rw [hcpar, hcstart]
              exact firstOrLater_next c.parents _ a e _ ppt i hfl hres
            obtain ⟨r, hr, hstart, hpar, hsame, hfwd, hbwd⟩ :=
              ih rc.chain (nodeAt rc.chain.parents i).nextParentAddress
                (nodeAt rc.chain.parents i).nextParentVirtualAddress (some i)
                rc.tempChildNodePt rc.return_bool (nodeAt c.parents i).address
                (by rw [hcpar]; omega) (sameFields_phys hsp hphys)
                (sameFields_phys hcsame hphysc) hfl2
            refine ⟨r, hr, hstart.trans hcstart, sameFields_trans hpar hsp,
              sameFields_trans hsame hcsame, ?_, ?_⟩
            · intro hsucc
              obtain ⟨hrb2, pp2, cps2, ⟨hcl, hnd, hunt, hprev, hf, hcnd, hcunt⟩, hpp, hcc⟩ :=
                hfwd hsucc
              obtain ⟨hrbm, cp, ⟨hccl, hcpnd, hcpunt, hcpprev⟩, hcch⟩ := hcfwd ⟨hret, hrb2⟩
              have hmis : parentMismatch c ppt a i = false := by
                cases hm : parentMismatch c ppt a i
                · rfl
                · rw [hm] at hrbm; simp at hrbm
              rw [hmis] at hrbm
              simp only [Bool.false_eq_true, if_false] at hrbm
              have hcplt := chainLinks_lt _ _ _ _ hccl
              refine ⟨hrbm, i :: pp2, cp :: cps2, ⟨?_, ?_, ?_, ?_, ?_, ?_, ?_⟩, ?_, ?_⟩
              · refine ⟨ha, hres, ?_⟩
                rw [hnpa] at hcl
                exact (chainLinks_congr hsp MPNode.nextParentAddress (fun _ => rfl) pp2 _).mp hcl
              · refine List.nodup_cons.mpr ⟨?_, hnd⟩
                intro hmem
                have := hunt i hmem
                rw [hcpar] at this
                exact (untagged_of_tag this).2 hi rfl
              · intro j hj
                rcases List.mem_cons.mp hj with rfl | hj
                · exact htag
                · have := hunt j hj
                  rw [hcpar] at this
                  exact (untagged_of_tag this).1
              · refine ⟨?_, ?_⟩
                · have : (nodeAt c.parents i).previousParentAddress = parentExpected c ppt a := by
                    simpa [parentMismatch] using hmis
                  rw [this, hexp]
                · exact (prevLinks_congr hsp MPNode.previousParentAddress (fun _ => rfl)
                    pp2 _).mp hprev
              · refine List.Forall₂.cons ?_ ?_
                · rw [hsc] at hccl
                  exact ⟨hccl, hcpprev⟩
                · exact (forall₂_childChain_congr isData hsp hcsame pp2 cps2).mp hf
              · simp only [List.flatten_cons]
                refine List.nodup_append.mpr ⟨hcpnd, hcnd, ?_⟩
                intro j hj1 hj2
                have := hcunt j hj2
                rw [hcch] at this
                have h3 := (tagged_tagAll cp c.children j).mpr (Or.inl ⟨hj1, hcplt j hj1⟩)
                rw [h3] at this
                simp at this
              · intro j hj
                simp only [List.flatten_cons, List.mem_append] at hj
                rcases hj with hj | hj
                · exact hcpunt j hj
                · have := hcunt j (by simpa using hj)
                  rw [hcch] at this
                  cases h4 : (nodeAt c.children j).pointedToCheck
                  · rfl
                  · have h3 := (tagged_tagAll cp c.children j).mpr (Or.inr h4)
                    rw [h3] at this
                    simp at this
              · rw [hpp, hcpar]; rfl
              · rw [hcc, hcch, List.flatten_cons, tagAll_append]
            · intro hrb pp cps hpath
              obtain ⟨pp2, cp, cps2, rfl, rfl, hmis⟩ := hmis_of pp cps hpath
              have hcp := hchild_of pp2 cp cps2 hpath
              have hcsucc := hcbwd (by simp [hmis, hrb]) cp hcp
              obtain ⟨_, cp', hcp', hcch⟩ := hcfwd hcsucc
              have hcpeq : cp' = cp := chainLinks_unique _ _ _ _ _ hcp'.1 hcp.1
              subst hcpeq
              obtain ⟨hcl, hnd, hunt, hprev, hf, hcnd, hcunt⟩ := hpath
              apply hbwd hcsucc.2 pp2 cps2
              refine ⟨?_, (List.nodup_cons.mp hnd).2, ?_, ?_, ?_, ?_, ?_⟩
              · rw [hnpa]
                exact (chainLinks_congr hsp MPNode.nextParentAddress (fun _ => rfl) pp2 _).mpr hcl.2.2
              · intro k hk
                rw [hcpar]
                refine untagged_after_tag (hunt k (List.mem_cons_of_mem _ hk)) ?_
                intro hki
                subst hki
                exact (List.nodup_cons.mp hnd).1 hk
              · exact (prevLinks_congr hsp MPNode.previousParentAddress (fun _ => rfl)
                  pp2 _).mpr hprev.2
              · cases hf with
                | cons _ htail =>
                  exact (forall₂_childChain_congr isData hsp hcsame pp2 cps2).mpr htail
              · simp only [List.flatten_cons] at hcnd
                exact (List.nodup_append.mp hcnd).2.1
              · intro j hj
                simp only [List.flatten_cons] at hcnd hcunt
                have hdis := (List.nodup_append.mp hcnd).2.2
                rw [hcch]
                cases h4 : (nodeAt (tagAll cp' c.children) j).pointedToCheck
                · rfl
                · rcases (tagged_tagAll cp' c.children j).mp h4 with ⟨h5, _⟩ | h5
                  · exact absurd hj (fun hj => hdis h5 hj)
                  · have := hcunt j (List.mem_append_right _ hj)
                    rw [this] at h5
                    simp at h5

/-! ## Lemmas: tagPointedNodes without repair and the validity of the chains -/

theorem nodeAt_map_detag (l : List MPNode) (i : Nat) :
    (nodeAt (l.map MPNode.removePointedToCheck) i).pointedToCheck = false := by
  by_cases hi : i < l.length
  · rw [nodeAt_eq_getElem _ i (by simpa using hi)]
    simp [MPNode.removePointedToCheck]
  · rw [nodeAt_of_le _ i (by simpa using hi)]
    rfl

/-- On a chain without tags, being valid is being without violation from the start on. -/
theorem chainValid_iff_parentPathOK (isData : Bool) (c c0 : NodeChain)
    (hstart : c0.start = c.start) (hp : SameFields c0.parents c.parents)
    (hc : SameFields c0.children c.children)
    (hup : ∀ i, (nodeAt c0.parents i).pointedToCheck = false)
    (huc : ∀ i, (nodeAt c0.children i).pointedToCheck = false) :
    ChainValid isData c ↔
      ∃ pp cps, ParentPathOK isData c0 EmptyAddress c0.start pp cps := by
  constructor
  · rintro ⟨pp, cps, h1, h2, h3, h4, h5⟩
    refine ⟨pp, cps, ?_, h2, fun i _ => hup i, ?_, ?_, h5, fun j _ => huc j⟩
    · rw [hstart]
      exact (chainLinks_congr hp MPNode.nextParentAddress (fun _ => rfl) pp _).mpr h1
    · exact (prevLinks_congr hp MPNode.previousParentAddress (fun _ => rfl) pp _).mpr h3
    · exact (forall₂_childChain_congr isData hp hc pp cps).mpr h4
  · rintro ⟨pp, cps, h1, h2, _, h3, h4, h5, _⟩
    refine ⟨pp, cps, ?_, h2, ?_, ?_, h5⟩
    · rw [hstart] at h1
      exact (chainLinks_congr hp MPNode.nextParentAddress (fun _ => rfl) pp _).mp h1
    · exact (prevLinks_congr hp MPNode.previousParentAddress (fun _ => rfl) pp _).mp h3
    · exact (forall₂_childChain_congr isData hp hc pp cps).mp h4

/-- `tagPointedNodes(false)` returns, and returns true exactly when both chains are valid,
provided every node has a physical address. -/
theorem tagPointedNodes_false_iff (s : Session) (hphys : AllPhysical s) :
    (∃ r, tagPointedNodes false s = some r) ∧
    ((∃ s2, tagPointedNodes false s = some (true, s2)) ↔ ChainsValid s) := by
  refine ⟨tagPointedNodes_total false s, ?_⟩
  obtain ⟨hp1, hp2, hp3, hp4⟩ := hphys
  unfold tagPointedNodes ChainsValid
  simp only
  obtain ⟨r1, hr1, hstart1, hpar1, hch1, hfwd1, hbwd1⟩ :=
    tagParentLoop_spec false ((detagPointedNodes s).loginNodes.length + 1)
      (detagPointedNodes s).credChain (detagPointedNodes s).startNode
      (detagPointedNodes s).virtualStartNode none none true EmptyAddress
      (Nat.lt_succ_of_le (untagged_le_length _))
      (sameFields_phys (sameFields_map_detag _) hp1)
      (sameFields_phys (sameFields_map_detag _) hp2) (Or.inl ⟨rfl, rfl⟩)
  rw [hr1]
  simp only
  have hv1 := chainValid_iff_parentPathOK false s.credChain (detagPointedNodes s).credChain rfl
    (sameFields_map_detag _) (sameFields_map_detag _) (nodeAt_map_detag _) (nodeAt_map_detag _)
  rw [hv1]
  have hv2 := chainValid_iff_parentPathOK true s.dataChain (detagPointedNodes s).dataChain rfl
    (sameFields_map_detag _) (sameFields_map_detag _) (nodeAt_map_detag _) (nodeAt_map_detag _)
  rw [hv2]
  by_cases hret1 : r1.returned = true
  · simp only [hret1, if_true]
    constructor
    · rintro ⟨s2, h⟩
      simp at h
    · rintro ⟨⟨pp, cps, h⟩, _⟩
      have := hbwd1 rfl pp cps h
      rw [hret1] at this
      simp at this
  · simp only [hret1, if_false, Bool.false_eq_true]
    simp only [Bool.not_eq_true] at hret1
    obtain ⟨r2, hr2, hstart2, hpar2, hch2, hfwd2, hbwd2⟩ :=
      tagParentLoop_spec true
        (((detagPointedNodes s).setCredChain r1.chain).dataNodes.length + 1)
        ((detagPointedNodes s).setCredChain r1.chain).dataChain
        ((detagPointedNodes s).setCredChain r1.chain).startDataNode
        ((detagPointedNodes s).setCredChain r1.chain).virtualStartNode none none
        r1.return_bool EmptyAddress
        (Nat.lt_succ_of_le (untagged_le_length _))
        (sameFields_phys (sameFields_map_detag _) hp3)
        (sameFields_phys (sameFields_map_detag _) hp4) (Or.inl ⟨rfl, rfl⟩)
    rw [hr2]
    simp only
    have hdc : ((detagPointedNodes s).setCredChain r1.chain).dataChain
        = (detagPointedNodes s).dataChain := rfl
    rw [hdc] at hfwd2 hbwd2
    by_cases hret2 : r2.returned = true
    · simp only [hret2, if_true]
      constructor
      · rintro ⟨s2, h⟩
        simp at h
      · rintro ⟨⟨pp1, cps1, h1⟩, ⟨pp, cps, h⟩⟩
        have hs1 := hbwd1 rfl pp1 cps1 h1
        have := hbwd2 hs1.2 pp cps h
        rw [hret2] at this
        simp at this
    · simp only [hret2, if_false, Bool.false_eq_true]
      simp only [Bool.not_eq_true] at hret2
      constructor
      · rintro ⟨s2, h⟩
        simp only [Option.some.injEq, Prod.mk.injEq] at h
        obtain ⟨hrb1, pp2, cps2, hok2, _⟩ := hfwd2 ⟨hret2, h.1⟩
        obtain ⟨_, pp1, cps1, hok1, _⟩ := hfwd1 ⟨hret1, hrb1⟩
        exact ⟨⟨pp1, cps1, hok1⟩, ⟨pp2, cps2, hok2⟩⟩
      · rintro ⟨⟨pp1, cps1, h1⟩, ⟨pp, cps, h⟩⟩
        have hs1 := hbwd1 rfl pp1 cps1 h1
        have hs2 := hbwd2 hs1.2 pp cps h
        exact ⟨_, by rw [hs2.2]⟩

/-! ## Lemmas: a walk that reports nothing repairs nothing -/

/-- Once `return_bool` is false the child loop leaves it false. -/
theorem tagChildLoop_return_bool (isData repairAllowed : Bool) (p : Nat) :
    ∀ (fuel : Nat) (c : NodeChain) (a : QByteArray) (pt : Option Nat) (r : TagLoop),
      tagChildLoop isData repairAllowed p fuel c a pt false = some r →
      r.return_bool = false := by
  intro fuel
  induction fuel with
  | zero => intro c a pt r h; simp [tagChildLoop] at h
  | succ fuel ih =>
    intro c a pt r h
    by_cases ha : a = EmptyAddress
    · subst ha
      rw [tagChildLoop_empty] at h
      simp only [Option.some.injEq] at h
      rw [← h]
    · cases hfind : findNodeWithAddressInList c.children a 0 with
      | none =>
        rw [tagChildLoop_missing _ _ _ _ _ _ _ _ ha hfind] at h
        simp only [Option.some.injEq] at h
        rw [← h]
      | some i =>
        cases htag : (nodeAt c.children i).pointedToCheck with
        | true =>
          rw [tagChildLoop_tagged _ _ _ _ _ _ _ _ i ha hfind htag] at h
          simp only [Option.some.injEq] at h
          rw [← h]
        | false =>
          rw [tagChildLoop_visit _ _ _ _ _ _ _ _ i ha hfind htag] at h
          simp only [ite_self] at h
          exact ih _ _ _ _ h

/-- Once `return_bool` is false the parent loop leaves it false. -/
theorem tagParentLoop_return_bool (isData repairAllowed : Bool) :
    ∀ (fuel : Nat) (c : NodeChain) (a : QByteArray) (va : Nat) (ppt cpt : Option Nat)
      (r : TagLoop),
      tagParentLoop isData repairAllowed fuel c a va ppt cpt false = some r →
      r.return_bool = false := by
  intro fuel
  induction fuel with
  | zero => intro c a va ppt cpt r h; simp [tagParentLoop] at h
  | succ fuel ih =>
    intro c a va ppt cpt r h
    by_cases ha : a = EmptyAddress
    · subst ha
      rw [tagParentLoop_empty] at h
      simp only [Option.some.injEq] at h
      rw [← h]
    · cases hfind : findNodeWithAddressInList c.parents a va with
      | none =>
        rw [tagParentLoop_missing _ _ _ _ _ _ _ _ _ ha hfind] at h
        simp only [Option.some.injEq] at h
        rw [← h]
      | some i =>
        cases htag : (nodeAt c.parents i).pointedToCheck with
        | true =>
          rw [tagParentLoop_tagged _ _ _ _ _ _ _ _ _ i ha hfind htag] at h
          simp only [Option.some.injEq] at h
          rw [← h]
        | false =>
          rw [tagParentLoop_visit _ _ _ _ _ _ _ _ _ i ha hfind htag] at h
          simp only [ite_self] at h
          cases hc : tagChildLoop isData repairAllowed i
              ((parentVisit repairAllowed c ppt a i).children.length + 1)
              (parentVisit repairAllowed c ppt a i)
              (nodeAt (parentVisit repairAllowed c ppt a i).parents i).startChildAddress cpt
              false with
          | none => rw [hc] at h; simp at h
          | some rc =>
            rw [hc] at h
            simp only at h
            have hrc := tagChildLoop_return_bool _ _ _ _ _ _ _ _ hc
            split at h
            · simp only [Option.some.injEq] at h
              rw [← h]; exact hrc
            · rw [hrc] at h
              exact ih _ _ _ _ _ _ h

/-- A child loop with repair allowed that ends without a report did what the loop without
repair does. -/
theorem tagChildLoop_repair_free (isData : Bool) (p : Nat) :
    ∀ (fuel : Nat) (c : NodeChain) (a : QByteArray) (pt : Option Nat) (rb : Bool)
      (r : TagLoop),
      tagChildLoop isData true p fuel c a pt rb = some r →
      r.returned = false → r.return_bool = true →
      tagChildLoop isData false p fuel c a pt rb = some r := by
  intro fuel
  induction fuel with
  | zero => intro c a pt rb r h; simp [tagChildLoop] at h
  | succ fuel ih =>
    intro c a pt rb r h hret hrb
    by_cases ha : a = EmptyAddress
    · subst ha
      rw [tagChildLoop_empty] at h ⊢
      exact h
    · cases hfind : findNodeWithAddressInList c.children a 0 with
      | none =>
        rw [tagChildLoop_missing _ _ _ _ _ _ _ _ ha hfind] at h
        simp only [Option.some.injEq] at h
        rw [← h] at hrb
        simp at hrb
      | some i =>
        cases htag : (nodeAt c.children i).pointedToCheck with
        | true =>
          rw [tagChildLoop_tagged _ _ _ _ _ _ _ _ i ha hfind htag] at h
          simp only [Option.some.injEq] at h
          rw [← h] at hret
          simp at hret
        | false =>
          rw [tagChildLoop_visit _ _ _ _ _ _ _ _ i ha hfind htag] at h ⊢
          cases hm : childMismatch isData c p pt a i with
          | true =>
            rw [hm] at h
            simp only [if_true] at h
            have := tagChildLoop_return_bool _ _ _ _ _ _ _ _ h
            rw [this] at hrb
            simp at hrb
          | false =>
            have hv : childVisit isData true c p pt a i = childVisit isData false c p pt a i := by
              simp [childVisit, hm]
            rw [hv, hm] at h
            exact ih _ _ _ _ _ h hret hrb

/-- A parent loop with repair allowed that ends without a report did what the loop without
repair does. -/
theorem tagParentLoop_repair_free (isData : Bool) :
    ∀ (fuel : Nat) (c : NodeChain) (a : QByteArray) (va : Nat) (ppt cpt : Option Nat)
      (rb : Bool) (r : TagLoop),
      tagParentLoop isData true fuel c a va ppt cpt rb = some r →
      r.returned = false → r.return_bool = true →
      tagParentLoop isData false fuel c a va ppt cpt rb = some r := by
  intro fuel
  induction fuel with
  | zero => intro c a va ppt cpt rb r h; simp [tagParentLoop] at h
  | succ fuel ih =>
    intro c a va ppt cpt rb r h hret hrb
    by_cases ha : a = EmptyAddress
    · subst ha
      rw [tagParentLoop_empty] at h ⊢
      exact h
    · cases hfind : findNodeWithAddressInList c.parents a va with
      | none =>
        rw [tagParentLoop_missing _ _ _ _ _ _ _ _ _ ha hfind] at h
        simp only [Option.some.injEq] at h
        rw [← h] at hret
        simp at hret
      | some i =>
        cases htag : (nodeAt c.parents i).pointedToCheck with
        | true =>
          rw [tagParentLoop_tagged _ _ _ _ _ _ _ _ _ i ha hfind htag] at h
          simp only [Option.some.injEq] at h
          rw [← h] at hret
          simp at hret
        | false =>
          rw [tagParentLoop_visit _ _ _ _ _ _ _ _ _ i ha hfind htag] at h ⊢
          cases hc : tagChildLoop isData true i
              ((parentVisit true c ppt a i).children.length + 1)
              (parentVisit true c ppt a i)
              (nodeAt (parentVisit true c ppt a i).parents i).startChildAddress cpt
              (if parentMismatch c ppt a i then false else rb) with
          | none => rw [hc] at h; simp at h
          | some rc =>
            rw [hc] at h
            simp only at h
            by_cases hrcret : rc.returned = true
            · simp only [hrcret, if_true, Option.some.injEq] at h
              rw [← h, hrcret] at hret
              simp at hret
            · simp only [hrcret, if_false, Bool.false_eq_true] at h
              simp only [Bool.not_eq_true] at hrcret
              have hrcrb : rc.return_bool = true := by
                cases hb : rc.return_bool
                · rw [hb] at h
                  have := tagParentLoop_return_bool _ _ _ _ _ _ _ _ _ h
                  rw [this] at hrb
                  simp at hrb
                · rfl
              have hm : parentMismatch c ppt a i = false := by
                cases hm : parentMismatch c ppt a i
                · rfl
                · rw [hm] at hc
                  simp only [if_true] at hc
                  have := tagChildLoop_return_bool _ _ _ _ _ _ _ _ hc
                  rw [this] at hrcrb
                  simp at hrcrb
              have hv : parentVisit true c ppt a i = parentVisit false c ppt a i := by
                simp [parentVisit, hm]
              rw [hv] at hc
              rw [tagChildLoop_repair_free isData i _ _ _ _ _ rc hc hrcret hrcrb]
              simp only [hrcret, if_false, Bool.false_eq_true]
              exact ih _ _ _ _ _ _ _ h hret hrb

/-- When `tagPointedNodes(true)` returns true it did what `tagPointedNodes(false)` does. -/
theorem tagPointedNodes_repair_free (s s2 : Session)
    (h : tagPointedNodes true s = some (true, s2)) :
    tagPointedNodes false s = some (true, s2) := by
  unfold tagPointedNodes at h ⊢
  simp only at h ⊢
  cases h1 : tagParentLoop false true ((detagPointedNodes s).loginNodes.length + 1)
      (detagPointedNodes s).credChain (detagPointedNodes s).startNode
      (detagPointedNodes s).virtualStartNode none none true with
  | none => rw [h1] at h; simp at h
  | some r1 =>
    rw [h1] at h
    simp only at h
    by_cases hret1 : r1.returned = true
    · simp [hret1] at h
    · simp only [hret1, if_false, Bool.false_eq_true] at h
      simp only [Bool.not_eq_true] at hret1
      cases h2 : tagParentLoop true true
          (((detagPointedNodes s).setCredChain r1.chain).dataNodes.length + 1)
          ((detagPointedNodes s).setCredChain r1.chain).dataChain
          ((detagPointedNodes s).setCredChain r1.chain).startDataNode
          ((detagPointedNodes s).setCredChain r1.chain).virtualStartNode none none
          r1.return_bool with
      | none => rw [h2] at h; simp at h
      | some r2 =>
        rw [h2] at h
        simp only at h
        by_cases hret2 : r2.returned = true
        · simp [hret2] at h
        · simp only [hret2, if_false, Bool.false_eq_true, Option.some.injEq,
            Prod.mk.injEq] at h
          simp only [Bool.not_eq_true] at hret2
          have hrb1 : r1.return_bool = true := by
            cases hb : r1.return_bool
            · rw [hb] at h2
              have := tagParentLoop_return_bool _ _ _ _ _ _ _ _ _ h2
              rw [this] at h
              simp at h
            · rfl
          rw [tagParentLoop_repair_free false _ _ _ _ _ _ _ r1 h1 hret1 hrb1]
          simp only [hret1, if_false, Bool.false_eq_true]
          rw [tagParentLoop_repair_free true _ _ _ _ _ _ _ r2 h2 hret2 h.1]
          simp only [hret2, if_false, Bool.false_eq_true, Option.some.injEq, Prod.mk.injEq]
          exact h

/-! ## Lemmas: the walk without repair changes tags only -/

theorem tagChildLoop_frame (isData : Bool) (p : Nat) :
    ∀ (fuel : Nat) (c : NodeChain) (a : QByteArray) (pt : Option Nat) (rb : Bool)
      (r : TagLoop),
      tagChildLoop isData false p fuel c a pt rb = some r →
      r.chain.start = c.start ∧ r.chain.parents = c.parents ∧
      SameFields r.chain.children c.children := by
  intro fuel
  induction fuel with
  | zero => intro c a pt rb r h; simp [tagChildLoop] at h
  | succ fuel ih =>
    intro c a pt rb r h
    by_cases ha : a = EmptyAddress
    · subst ha
      rw [tagChildLoop_empty] at h
      simp only [Option.some.injEq] at h
      rw [← h]
      exact ⟨rfl, rfl, sameFields_refl _⟩
    · cases hfind : findNodeWithAddressInList c.children a 0 with
      | none =>
        rw [tagChildLoop_missing _ _ _ _ _ _ _ _ ha hfind] at h
        simp only [Option.some.injEq] at h
        rw [← h]
        exact ⟨rfl, rfl, sameFields_refl _⟩
      | some i =>
        cases htag : (nodeAt c.children i).pointedToCheck with
        | true =>
          rw [tagChildLoop_tagged _ _ _ _ _ _ _ _ i ha hfind htag] at h
          simp only [Option.some.injEq] at h
          rw [← h]
          exact ⟨rfl, rfl, sameFields_refl _⟩
        | false =>
          rw [tagChildLoop_visit _ _ _ _ _ _ _ _ i ha hfind htag, childVisit_false] at h
          obtain ⟨h1, h2, h3⟩ := ih _ _ _ _ _ h
          exact ⟨h1, h2, sameFields_trans h3 (sameFields_tag _ _)⟩

theorem tagParentLoop_frame (isData : Bool) :
    ∀ (fuel : Nat) (c : NodeChain) (a : QByteArray) (va : Nat) (ppt cpt : Option Nat)
      (rb : Bool) (r : TagLoop),
      tagParentLoop isData false fuel c a va ppt cpt rb = some r →
      r.chain.start = c.start ∧ SameFields r.chain.parents c.parents ∧
      SameFields r.chain.children c.children := by
  intro fuel
  induction fuel with
  | zero => intro c a va ppt cpt rb r h; simp [tagParentLoop] at h
  | succ fuel ih =>
    intro c a va ppt cpt rb r h
    by_cases ha : a = EmptyAddress
    · subst ha
      rw [tagParentLoop_empty] at h
      simp only [Option.some.injEq] at h
      rw [← h]
      exact ⟨rfl, sameFields_refl _, sameFields_refl _⟩
    · cases hfind : findNodeWithAddressInList c.parents a va with
      | none =>
        rw [tagParentLoop_missing _ _ _ _ _ _ _ _ _ ha hfind] at h
        simp only [Option.some.injEq] at h
        rw [← h]
        exact ⟨rfl, sameFields_refl _, sameFields_refl _⟩
      | some i =>
        cases htag : (nodeAt c.parents i).pointedToCheck with
        | true =>
          rw [tagParentLoop_tagged _ _ _ _ _ _ _ _ _ i ha hfind htag] at h
          simp only [Option.some.injEq] at h
          rw [← h]
          exact ⟨rfl, sameFields_refl _, sameFields_refl _⟩
        | false =>
          rw [tagParentLoop_visit _ _ _ _ _ _ _ _ _ i ha hfind htag, parentVisit_false] at h
          cases hc : tagChildLoop isData false i (c.children.length + 1)
              { start := c.start, children := c.children,
                parents := updateNode c.parents i MPNode.setPointedToCheck }
              (nodeAt (updateNode c.parents i MPNode.setPointedToCheck) i).startChildAddress
              cpt (if parentMismatch c ppt a i then false else rb) with
          | none => simp only [hc] at h; simp at h
          | some rc =>
            simp only [hc] at h
            obtain ⟨hc1, hc2, hc3⟩ := tagChildLoop_frame isData i _ _ _ _ _ _ hc
            simp only at hc1 hc2 hc3
            have hsp : SameFields rc.chain.parents c.parents := hc2 ▸ sameFields_tag _ _
            split at h
            · simp only [Option.some.injEq] at h
              rw [← h]
              exact ⟨hc1, hsp, hc3⟩
            · obtain ⟨h1, h2, h3⟩ := ih _ _ _ _ _ _ _ h
              exact ⟨h1.trans hc1, sameFields_trans h2 hsp, sameFields_trans h3 hc3⟩

theorem detag_of_sameFields {l1 l2 : List MPNode} (h : SameFields l1 l2) :
    l1.map MPNode.removePointedToCheck = l2.map MPNode.removePointedToCheck := h

/-- `tagPointedNodes(false)` leaves everything but the tags as it was. -/
theorem tagPointedNodes_false_frame (s s2 : Session) (b : Bool)
    (h : tagPointedNodes false s = some (b, s2)) :
    detagPointedNodes s2 = detagPointedNodes s := by
  unfold tagPointedNodes at h
  simp only at h
  cases h1 : tagParentLoop false false ((detagPointedNodes s).loginNodes.length + 1)
      (detagPointedNodes s).credChain (detagPointedNodes s).startNode
      (detagPointedNodes s).virtualStartNode none none true with
  | none => rw [h1] at h; simp at h
  | some r1 =>
    rw [h1] at h
    simp only at h
    obtain ⟨f1, f2, f3⟩ := tagParentLoop_frame false _ _ _ _ _ _ _ _ h1
    have g2 := sameFields_trans f2 (sameFields_map_detag s.loginNodes)
    have g3 := sameFields_trans f3 (sameFields_map_detag s.loginChildNodes)
    have e1 : detagPointedNodes ((detagPointedNodes s).setCredChain r1.chain)
        = detagPointedNodes s := by
      simp only [detagPointedNodes, Session.setCredChain, List.map_map]
      have f1' : r1.chain.start = s.startNode := f1
      rw [f1', detag_of_sameFields g2, detag_of_sameFields g3]
      simp [Function.comp_def, MPNode.removePointedToCheck]
    split at h
    · simp only [Option.some.injEq, Prod.mk.injEq] at h
      rw [← h.2, e1]
    · cases h2 : tagParentLoop true false
          (((detagPointedNodes s).setCredChain r1.chain).dataNodes.length + 1)
          ((detagPointedNodes s).setCredChain r1.chain).dataChain
          ((detagPointedNodes s).setCredChain r1.chain).startDataNode
          ((detagPointedNodes s).setCredChain r1.chain).virtualStartNode none none
          r1.return_bool with
      | none => rw [h2] at h; simp at h
      | some r2 =>
        rw [h2] at h
        simp only at h
        obtain ⟨k1, k2, k3⟩ := tagParentLoop_frame true _ _ _ _ _ _ _ _ h2
        have e2 : detagPointedNodes
            (((detagPointedNodes s).setCredChain r1.chain).setDataChain r2.chain)
            = detagPointedNodes ((detagPointedNodes s).setCredChain r1.chain) := by
          simp only [detagPointedNodes, Session.setCredChain, Session.setDataChain,
            List.map_map]
          have k1' : r2.chain.start = s.startDataNode := k1
          have k2' : SameFields r2.chain.parents
              (s.dataNodes.map MPNode.removePointedToCheck) := k2
          have k3' : SameFields r2.chain.children
              (s.dataChildNodes.map MPNode.removePointedToCheck) := k3
          rw [k1', detag_of_sameFields k2', detag_of_sameFields k3']
          simp [Function.comp_def, MPNode.removePointedToCheck]
        have hs2 : s2 = ((detagPointedNodes s).setCredChain r1.chain).setDataChain r2.chain := by
          split at h
          · simp only [Option.some.injEq, Prod.mk.injEq] at h; exact h.2.symm
          · simp only [Option.some.injEq, Prod.mk.injEq] at h; exact h.2.symm
        rw [hs2, e2, e1]

theorem detag_idem (s : Session) : detagPointedNodes (detagPointedNodes s) = detagPointedNodes s := by
  simp [detagPointedNodes, List.map_map, Function.comp_def, MPNode.removePointedToCheck]

/-- `tagPointedNodes` starts by removing the tags, so the tags it finds do not count. -/
theorem tagPointedNodes_detag (b : Bool) (s : Session) :
    tagPointedNodes b (detagPointedNodes s) = tagPointedNodes b s := by
  unfold tagPointedNodes
  rw [detag_idem]

/-- Tagging again, without repair, a state tagged without repair gives the same verdict
and the same state. -/
theorem tagPointedNodes_false_again (s s2 : Session) (b : Bool)
    (h : tagPointedNodes false s = some (b, s2)) :
    tagPointedNodes false s2 = some (b, s2) := by
  rw [← tagPointedNodes_detag, tagPointedNodes_false_frame s s2 b h, tagPointedNodes_detag, h]

/-! ## Lemmas: the orphan loops of checkLoadedNodes -/

/-- The orphan-parent loop counts upwards; when it counts nothing it changed nothing and
every parent it looked at was tagged. -/
theorem orphanParentsLoop_count (repairAllowed isDataParent : Bool) (idxs : List Nat) :
    ∀ (s : Session) (nb : Nat) (s2 : Session) (nb2 : Nat),
      orphanParentsLoop repairAllowed isDataParent idxs s nb = some (s2, nb2) →
      nb ≤ nb2 ∧ (nb2 = nb → s2 = s ∧
        ∀ i ∈ idxs, (nodeAt (s.parentList isDataParent) i).pointedToCheck = true) := by
  induction idxs with
  | nil =>
    intro s nb s2 nb2 h
    simp only [orphanParentsLoop, Option.some.injEq, Prod.mk.injEq] at h
    refine ⟨by omega, fun _ => ⟨h.1.symm, by simp⟩⟩
  | cons i rest ih =>
    intro s nb s2 nb2 h
    rw [orphanParentsLoop] at h
    split at h
    · next htag =>
      obtain ⟨h1, h2⟩ := ih _ _ _ _ h
      refine ⟨h1, fun heq => ⟨(h2 heq).1, ?_⟩⟩
      intro j hj
      rcases List.mem_cons.mp hj with rfl | hj
      · exact htag
      · exact (h2 heq).2 j hj
    · split at h
      · cases ha : addOrphanParentToDB i isDataParent s with
        | none => rw [ha] at h; simp at h
        | some r =>
          rw [ha] at h
          simp only at h
          have := (ih _ _ _ _ h).1
          exact ⟨by omega, fun heq => by omega⟩
      · have := (ih _ _ _ _ h).1
        exact ⟨by omega, fun heq => by omega⟩

/-- On parents that are all tagged the orphan-parent loop does nothing. -/
theorem orphanParentsLoop_tagged (repairAllowed isDataParent : Bool) (idxs : List Nat)
    (s : Session) (nb : Nat)
    (h : ∀ i ∈ idxs, (nodeAt (s.parentList isDataParent) i).pointedToCheck = true) :
    orphanParentsLoop repairAllowed isDataParent idxs s nb = some (s, nb) := by
  induction idxs with
  | nil => rfl
  | cons i rest ih =>
    rw [orphanParentsLoop]
    simp only [h i (List.mem_cons_self _ _), if_true]
    exact ih (fun j hj => h j (List.mem_cons_of_mem _ hj))

/-- The orphan-child loop leaves the state as it is and counts upwards; when it counts
nothing every child it looked at was tagged. -/
theorem orphanChildrenLoop_count (repairAllowed : Bool) (idxs : List Nat) :
    ∀ (s : Session) (nb : Nat),
      (orphanChildrenLoop repairAllowed idxs s nb).1 = s ∧
      nb ≤ (orphanChildrenLoop repairAllowed idxs s nb).2 ∧
      ((orphanChildrenLoop repairAllowed idxs s nb).2 = nb →
        ∀ i ∈ idxs, (nodeAt s.loginChildNodes i).pointedToCheck = true) := by
  induction idxs with
  | nil => intro s nb; simp [orphanChildrenLoop]
  | cons i rest ih =>
    intro s nb
    rw [orphanChildrenLoop]
    split
    · next htag =>
      obtain ⟨h1, h2, h3⟩ := ih s nb
      refine ⟨h1, h2, fun heq j hj => ?_⟩
      rcases List.mem_cons.mp hj with rfl | hj
      · exact htag
      · exact h3 heq j hj
    · split
      · obtain ⟨h1, h2, _⟩ := ih (addOrphanChildToDB i s).2 (nb + 1)
        exact ⟨h1, by omega, fun heq => by omega⟩
      · obtain ⟨h1, h2, _⟩ := ih s (nb + 1)
        exact ⟨h1, by omega, fun heq => by omega⟩

/-- On children that are all tagged the orphan-child loop counts nothing. -/
theorem orphanChildrenLoop_tagged (repairAllowed : Bool) (idxs : List Nat)
    (s : Session) (nb : Nat)
    (h : ∀ i ∈ idxs, (nodeAt s.loginChildNodes i).pointedToCheck = true) :
    orphanChildrenLoop repairAllowed idxs s nb = (s, nb) := by
  induction idxs with
  | nil => rfl
  | cons i rest ih =>
    rw [orphanChildrenLoop]
    simp only [h i (List.mem_cons_self _ _), if_true]
    exact ih (fun j hj => h j (List.mem_cons_of_mem _ hj))

/-- The favorites play no part in `tagPointedNodes`. -/
theorem tagPointedNodes_favorites (b : Bool) (s : Session) (f : List QByteArray) :
    tagPointedNodes b { s with favoritesAddrs := f }
      = (tagPointedNodes b s).map fun r => (r.1, { r.2 with favoritesAddrs := f }) := by
  unfold tagPointedNodes
  simp only
  have e1 : (detagPointedNodes { s with favoritesAddrs := f }).credChain
      = (detagPointedNodes s).credChain := rfl
  have e2 : (detagPointedNodes { s with favoritesAddrs := f }).loginNodes
      = (detagPointedNodes s).loginNodes := rfl
  have e3 : (detagPointedNodes { s with favoritesAddrs := f }).startNode
      = (detagPointedNodes s).startNode := rfl
  have e4 : (detagPointedNodes { s with favoritesAddrs := f }).virtualStartNode
      = (detagPointedNodes s).virtualStartNode := rfl
  rw [e1, e2, e3, e4]
  cases tagParentLoop false b ((detagPointedNodes s).loginNodes.length + 1)
      (detagPointedNodes s).credChain (detagPointedNodes s).startNode
      (detagPointedNodes s).virtualStartNode none none true with
  | none => rfl
  | some r1 =>
    simp only
    by_cases hret1 : r1.returned = true
    · simp only [hret1, if_true, Option.map_some']
      rfl
    · simp only [hret1, if_false, Bool.false_eq_true]
      have e5 : ((detagPointedNodes { s with favoritesAddrs := f }).setCredChain r1.chain).dataChain
          = ((detagPointedNodes s).setCredChain r1.chain).dataChain := rfl
      have e6 : ((detagPointedNodes { s with favoritesAddrs := f }).setCredChain r1.chain).dataNodes
          = ((detagPointedNodes s).setCredChain r1.chain).dataNodes := rfl
      have e7 : ((detagPointedNodes { s with favoritesAddrs := f }).setCredChain r1.chain).startDataNode
          = ((detagPointedNodes s).setCredChain r1.chain).startDataNode := rfl
      have e8 : ((detagPointedNodes { s with favoritesAddrs := f }).setCredChain r1.chain).virtualStartNode
          = ((detagPointedNodes s).setCredChain r1.chain).virtualStartNode := rfl
      rw [e5, e6, e7, e8]
      cases tagParentLoop true b
          (((detagPointedNodes s).setCredChain r1.chain).dataNodes.length + 1)
          ((detagPointedNodes s).setCredChain r1.chain).dataChain
          ((detagPointedNodes s).setCredChain r1.chain).startDataNode
          ((detagPointedNodes s).setCredChain r1.chain).virtualStartNode none none
          r1.return_bool with
      | none => rfl
      | some r2 =>
        simp only
        split <;> rfl

theorem orphanDataChildren_zero (s : Session) (h : orphanDataChildren s = 0) :
    ∀ n ∈ s.dataChildNodes, n.pointedToCheck = true := by
  intro n hn
  unfold orphanDataChildren at h
  have h1 := List.length_eq_zero.mp h
  cases hb : n.pointedToCheck
  · have : n ∈ s.dataChildNodes.filter fun i => !i.pointedToCheck := by
      simp [List.mem_filter, hn, hb]
    rw [h1] at this
    simp at this
  · rfl

theorem orphanDataChildren_tagged (s : Session)
    (h : ∀ n ∈ s.dataChildNodes, n.pointedToCheck = true) : orphanDataChildren s = 0 := by
  unfold orphanDataChildren
  rw [List.length_eq_zero, List.filter_eq_nil_iff]
  intro n hn
  simp [h n hn]

/-- What a pass of `checkLoadedNodes` that returns true found and left: the tag walk
returned true, every node of the four lists is tagged, and only the favorites may have
changed since the walk. -/
theorem checkLoadedNodesPass_true (repairAllowed : Bool) (s s1 : Session)
    (h : checkLoadedNodesPass repairAllowed s = some (true, s1)) :
    ∃ t, tagPointedNodes repairAllowed s = some (true, t) ∧
      s1 = { t with favoritesAddrs := t.favoritesAddrs.map (checkFavorite t) } ∧
      (∀ i ∈ List.range t.loginNodes.length, (nodeAt t.loginNodes i).pointedToCheck = true) ∧
      (∀ i ∈ List.range t.loginChildNodes.length,
        (nodeAt t.loginChildNodes i).pointedToCheck = true) ∧
      (∀ i ∈ List.range t.dataNodes.length, (nodeAt t.dataNodes i).pointedToCheck = true) ∧
      (∀ n ∈ t.dataChildNodes, n.pointedToCheck = true) := by
  unfold checkLoadedNodesPass at h
  cases ht : tagPointedNodes repairAllowed s with
  | none => rw [ht] at h; simp at h
  | some r =>
    rw [ht] at h
    simp only at h
    cases hp1 : orphanParentsLoop repairAllowed false (List.range r.2.loginNodes.length) r.2 0 with
    | none => rw [hp1] at h; simp at h
    | some p1 =>
      rw [hp1] at h
      simp only at h
      cases hp3 : orphanParentsLoop repairAllowed true
          (List.range (orphanChildrenLoop repairAllowed
            (List.range p1.1.loginChildNodes.length) p1.1 0).1.dataNodes.length)
          (orphanChildrenLoop repairAllowed
            (List.range p1.1.loginChildNodes.length) p1.1 0).1 0 with
      | none => rw [hp3] at h; simp at h
      | some p3 =>
        rw [hp3] at h
        simp only at h
        split at h
        · simp at h
        · next hsum =>
          simp only [ne_eq, Decidable.not_not] at hsum
          simp only [Option.some.injEq, Prod.mk.injEq] at h
          obtain ⟨c1, c2, c3⟩ := orphanChildrenLoop_count repairAllowed
            (List.range p1.1.loginChildNodes.length) p1.1 0
          have z1 : p1.2 = 0 := by omega
          have z2 : (orphanChildrenLoop repairAllowed
            (List.range p1.1.loginChildNodes.length) p1.1 0).2 = 0 := by omega
          have z3 : p3.2 = 0 := by omega
          have z4 : orphanDataChildren p3.1 = 0 := by omega
          obtain ⟨_, q1⟩ := orphanParentsLoop_count repairAllowed false _ r.2 0 p1.1 p1.2
            (by rw [hp1])
          obtain ⟨q1a, q1b⟩ := q1 z1
          rw [c1] at hp3
          obtain ⟨_, q3⟩ := orphanParentsLoop_count repairAllowed true _ p1.1 0 p3.1 p3.2
            (by rw [hp3])
          obtain ⟨q3a, q3b⟩ := q3 z3
          have q2 := c3 z2
          rw [q3a, q1a] at h z4
          rw [q1a] at q2 q3b
          refine ⟨r.2, ?_, h.2.symm, q1b, q2, q3b, orphanDataChildren_zero r.2 z4⟩
          rw [← h.1]

/-! ## Lemmas: addresses and tags of node lists -/

theorem addrSame_refl (l : List MPNode) : AddrSame l l := rfl

theorem addrSame_symm {l1 l2 : List MPNode} (h : AddrSame l1 l2) : AddrSame l2 l1 :=
  Eq.symm h

theorem addrSame_trans {l1 l2 l3 : List MPNode} (h1 : AddrSame l1 l2) (h2 : AddrSame l2 l3) :
    AddrSame l1 l3 :=
  Eq.trans h1 h2

theorem addrSame_length {l1 l2 : List MPNode} (h : AddrSame l1 l2) : l1.length = l2.length := by
  have := congrArg List.length h
  simpa using this

theorem addrSame_updateNode (l : List MPNode) (i : Nat) (f : MPNode → MPNode)
    (h : ∀ n, ((f n).address, (f n).virtualAddress) = (n.address, n.virtualAddress)) :
    AddrSame (updateNode l i f) l :=
  map_updateNode l i f _ h

theorem addrSame_updatePtr (l : List MPNode) (pt : Option Nat) (f : MPNode → MPNode)
    (h : ∀ n, ((f n).address, (f n).virtualAddress) = (n.address, n.virtualAddress)) :
    AddrSame (updatePtr l pt f) l :=
  map_updatePtr l pt f _ h

theorem addrSame_of_sameFields {l1 l2 : List MPNode} (h : SameFields l1 l2) :
    AddrSame l1 l2 := by
  have := congrArg (List.map fun n : MPNode => (n.address, n.virtualAddress)) h
  simpa [AddrSame, List.map_map, Function.comp_def, MPNode.removePointedToCheck] using this

theorem addrSame_nodeAt {l1 l2 : List MPNode} (h : AddrSame l1 l2) (i : Nat) :
    (nodeAt l1 i).address = (nodeAt l2 i).address ∧
    (nodeAt l1 i).virtualAddress = (nodeAt l2 i).virtualAddress := by
  by_cases hi : i < l1.length
  · have hi2 : i < l2.length := addrSame_length h ▸ hi
    rw [nodeAt_eq_getElem l1 i hi, nodeAt_eq_getElem l2 i hi2]
    have h1 : (l1.map fun n => (n.address, n.virtualAddress))[i]?
        = (l2.map fun n => (n.address, n.virtualAddress))[i]? := by
      rw [h]
    simpa [List.getElem?_map, List.getElem?_eq_getElem hi, List.getElem?_eq_getElem hi2]
      using h1
  · have hi2 : ¬ i < l2.length := addrSame_length h ▸ hi
    rw [nodeAt_of_le l1 i (by omega), nodeAt_of_le l2 i (by omega)]
    exact ⟨rfl, rfl⟩

theorem addrSame_ptrAddress {l1 l2 : List MPNode} (h : AddrSame l1 l2) (pt : Option Nat) :
    ptrAddress l1 pt = ptrAddress l2 pt := by
  cases pt with
  | none => rfl
  | some i => exact (addrSame_nodeAt h i).1

theorem findNodeFrom_congr (a : QByteArray) (v : Nat) (l1 : List MPNode) :
    ∀ (l2 : List MPNode) (k : Nat), AddrSame l1 l2 →
      findNodeFrom a v l1 k = findNodeFrom a v l2 k := by
  induction l1 with
  | nil =>
    intro l2 k h
    cases l2 with
    | nil => rfl
    | cons m rest => simp [AddrSame] at h
  | cons n rest ih =>
    intro l2 k h
    cases l2 with
    | nil => simp [AddrSame] at h
    | cons m rest2 =>
      simp only [AddrSame, List.map_cons, List.cons.injEq, Prod.mk.injEq] at h
      have hm : nodeMatches a v n = nodeMatches a v m := by
        simp [nodeMatches, h.1.1, h.1.2]
      simp only [findNodeFrom, hm]
      rw [ih rest2 (k + 1) h.2]

theorem addrSame_find {l1 l2 : List MPNode} (h : AddrSame l1 l2) (a : QByteArray) (v : Nat) :
    findNodeWithAddressInList l1 a v = findNodeWithAddressInList l2 a v :=
  findNodeFrom_congr a v l1 l2 0 h

theorem sameTags_refl (l : List MPNode) : SameTags l l := rfl

theorem sameTags_symm {l1 l2 : List MPNode} (h : SameTags l1 l2) : SameTags l2 l1 :=
  Eq.symm h

theorem sameTags_trans {l1 l2 l3 : List MPNode} (h1 : SameTags l1 l2) (h2 : SameTags l2 l3) :
    SameTags l1 l3 :=
  Eq.trans h1 h2

theorem sameTags_length {l1 l2 : List MPNode} (h : SameTags l1 l2) : l1.length = l2.length := by
  have := congrArg List.length h
  simpa using this

theorem sameTags_nodeAt {l1 l2 : List MPNode} (h : SameTags l1 l2) (i : Nat) :
    (nodeAt l1 i).pointedToCheck = (nodeAt l2 i).pointedToCheck := by
  by_cases hi : i < l1.length
  · have hi2 : i < l2.length := sameTags_length h ▸ hi
    rw [nodeAt_eq_getElem l1 i hi, nodeAt_eq_getElem l2 i hi2]
    have h1 : (l1.map MPNode.pointedToCheck)[i]? = (l2.map MPNode.pointedToCheck)[i]? := by
      rw [h]
    simpa [List.getElem?_map, List.getElem?_eq_getElem hi, List.getElem?_eq_getElem hi2]
      using h1
  · have hi2 : ¬ i < l2.length := sameTags_length h ▸ hi
    rw [nodeAt_of_le l1 i (by omega), nodeAt_of_le l2 i (by omega)]

theorem sameTags_tag {l1 l2 : List MPNode} (h : SameTags l1 l2) (i : Nat) :
    SameTags (updateNode l1 i MPNode.setPointedToCheck)
      (updateNode l2 i MPNode.setPointedToCheck) := by
  have hl := sameTags_length h
  apply List.ext_getElem
  · simp [length_updateNode, hl]
  · intro k h1 h2
    simp only [List.length_map, length_updateNode] at h1 h2
    simp only [List.getElem_map]
    rw [← nodeAt_eq_getElem _ k (by simpa [length_updateNode] using h1),
      ← nodeAt_eq_getElem _ k (by simpa [length_updateNode] using h2)]
    by_cases hik : i = k
    · subst hik
      rw [nodeAt_updateNode_same l1 i _ h1, nodeAt_updateNode_same l2 i _ h2]
      rfl
    · rw [nodeAt_updateNode_ne l1 i k _ hik, nodeAt_updateNode_ne l2 i k _ hik]
      exact sameTags_nodeAt h k

/-- Nodes with the same fields and the same tag are equal. -/
theorem node_eq_of_fields_tag (n m : MPNode)
    (h1 : n.removePointedToCheck = m.removePointedToCheck)
    (h2 : n.pointedToCheck = m.pointedToCheck) : n = m := by
  cases n
  cases m
  simp only [MPNode.removePointedToCheck, MPNode.mk.injEq] at h1 h2 ⊢
  simp_all

/-- Lists with the same fields and the same tags are equal. -/
theorem eq_of_sameFields_sameTags {l1 l2 : List MPNode} (h1 : SameFields l1 l2)
    (h2 : SameTags l1 l2) : l1 = l2 := by
  apply list_ext_nodeAt l1 l2 (sameFields_length h1)
  intro i _
  exact node_eq_of_fields_tag _ _ (sameFields_nodeAt h1 i) (sameTags_nodeAt h2 i)

/-- Lists whose nodes agree one by one are equal up to the tags. -/
theorem sameFields_of_nodeAt {l1 l2 : List MPNode} (hl : l1.length = l2.length)
    (h : ∀ k, (nodeAt l1 k).removePointedToCheck = (nodeAt l2 k).removePointedToCheck) :
    SameFields l1 l2 := by
  apply List.ext_getElem
  · simp [hl]
  · intro k h1 h2
    simp only [List.length_map] at h1 h2
    simp only [List.getElem_map]
    rw [← nodeAt_eq_getElem l1 k h1, ← nodeAt_eq_getElem l2 k h2]
    exact h k

/-! ## Lemmas: what a repairing walk leaves untouched -/

theorem nodeAt_updateNode (l : List MPNode) (i k : Nat) (f : MPNode → MPNode) :
    nodeAt (updateNode l i f) k = if i = k ∧ k < l.length then f (nodeAt l k) else nodeAt l k := by
  by_cases hik : i = k
  · subst hik
    by_cases hi : i < l.length
    · simp [nodeAt_updateNode_same l i f hi, hi]
    · simp [updateNode_of_le l i f (by omega), hi]
  · simp [nodeAt_updateNode_ne l i k f hik, hik]

/-- A setter that leaves `g` alone leaves `g` of every node alone. -/
theorem field_updateNode (l : List MPNode) (i k : Nat) (f : MPNode → MPNode) {β : Type}
    (g : MPNode → β) (h : ∀ n, g (f n) = g n) :
    g (nodeAt (updateNode l i f) k) = g (nodeAt l k) := by
  rw [nodeAt_updateNode]
  split
  · exact h _
  · rfl

theorem field_updatePtr (l : List MPNode) (pt : Option Nat) (k : Nat) (f : MPNode → MPNode)
    {β : Type} (g : MPNode → β) (h : ∀ n, g (f n) = g n) :
    g (nodeAt (updatePtr l pt f) k) = g (nodeAt l k) := by
  cases pt with
  | none => rfl
  | some i => exact field_updateNode l i k f g h

theorem nodeAt_updatePtr_ne (l : List MPNode) (pt : Option Nat) (k : Nat) (f : MPNode → MPNode)
    (h : pt ≠ some k) : nodeAt (updatePtr l pt f) k = nodeAt l k := by
  cases pt with
  | none => rfl
  | some i =>
    exact nodeAt_updateNode_ne l i k f (fun hik => h (by rw [hik]))

theorem setNextChild_setNextChild (isData : Bool) (n : MPNode) (x y : QByteArray) :
    (n.setNextChild isData x).setNextChild isData y = n.setNextChild isData y := by
  cases isData <;> rfl

theorem childVisit_addr (isData repairAllowed : Bool) (c : NodeChain) (p : Nat)
    (pt : Option Nat) (a : QByteArray) (i : Nat) :
    AddrSame (childVisit isData repairAllowed c p pt a i).children c.children := by
  unfold childVisit
  simp only
  refine addrSame_trans (addrSame_updateNode _ _ _ (fun _ => rfl)) ?_
  split
  · exact addrSame_updateNode _ _ _ (fun _ => rfl)
  · exact addrSame_refl _

theorem childVisit_ne (isData repairAllowed : Bool) (c : NodeChain) (p : Nat)
    (pt : Option Nat) (a : QByteArray) (i k : Nat) (h : i ≠ k) :
    nodeAt (childVisit isData repairAllowed c p pt a i).children k = nodeAt c.children k := by
  unfold childVisit
  simp only
  rw [nodeAt_updateNode_ne _ i k _ h]
  split
  · exact nodeAt_updateNode_ne _ i k _ h
  · rfl

theorem childVisit_tagged (isData repairAllowed : Bool) (c : NodeChain) (p : Nat)
    (pt : Option Nat) (a : QByteArray) (i : Nat) (hi : i < c.children.length) :
    (nodeAt (childVisit isData repairAllowed c p pt a i).children i).pointedToCheck = true := by
  unfold childVisit
  simp only
  rw [nodeAt_updateNode_same]
  · rfl
  · split
    · simpa [length_updateNode] using hi
    · exact hi

/-- After the visit of a credential child with repair allowed its previous address is the
expected one. -/
theorem childVisit_prev (c : NodeChain) (p : Nat) (pt : Option Nat) (a : QByteArray) (i : Nat)
    (hi : i < c.children.length) :
    (nodeAt (childVisit false true c p pt a i).children i).previousChildAddress
      = childExpected c p pt a := by
  unfold childVisit
  simp only
  rw [nodeAt_updateNode_same]
  · by_cases hm : childMismatch false c p pt a i = true
    · simp only [hm, Bool.and_self, if_true]
      rw [nodeAt_updateNode_same _ _ _ hi]
      rfl
    · simp only [hm, Bool.false_and, Bool.false_eq_true, if_false]
      simp only [childMismatch, Bool.not_false, Bool.true_and, decide_eq_true_eq,
        Decidable.not_not] at hm
      exact hm
  · split
    · simpa [length_updateNode] using hi
    · exact hi

/-- The visit of a child changes nothing but its previous address and its tag. -/
theorem childVisit_next (isData repairAllowed : Bool) (c : NodeChain) (p : Nat)
    (pt : Option Nat) (a : QByteArray) (i k : Nat) :
    (nodeAt (childVisit isData repairAllowed c p pt a i).children k).nextChild isData
      = (nodeAt c.children k).nextChild isData := by
  unfold childVisit
  simp only
  rw [field_updateNode _ _ _ _ (MPNode.nextChild isData) (fun n => by cases isData <;> rfl)]
  split
  · exact field_updateNode _ _ _ _ (MPNode.nextChild isData) (fun n => by cases isData <;> rfl)
  · rfl

theorem parentVisit_addr (repairAllowed : Bool) (c : NodeChain)
    (pt : Option Nat) (a : QByteArray) (i : Nat) :
    AddrSame (parentVisit repairAllowed c pt a i).parents c.parents := by
  unfold parentVisit
  simp only
  refine addrSame_trans (addrSame_updateNode _ _ _ (fun _ => rfl)) ?_
  split
  · exact addrSame_updateNode _ _ _ (fun _ => rfl)
  · exact addrSame_refl _

theorem parentVisit_ne (repairAllowed : Bool) (c : NodeChain)
    (pt : Option Nat) (a : QByteArray) (i k : Nat) (h : i ≠ k) :
    nodeAt (parentVisit repairAllowed c pt a i).parents k = nodeAt c.parents k := by
  unfold parentVisit
  simp only
  rw [nodeAt_updateNode_ne _ i k _ h]
  split
  · exact nodeAt_updateNode_ne _ i k _ h
  · rfl

theorem parentVisit_tagged (repairAllowed : Bool) (c : NodeChain)
    (pt : Option Nat) (a : QByteArray) (i : Nat) (hi : i < c.parents.length) :
    (nodeAt (parentVisit repairAllowed c pt a i).parents i).pointedToCheck = true := by
  unfold parentVisit
  simp only
  rw [nodeAt_updateNode_same]
  · rfl
  · split
    · simpa [length_updateNode] using hi
    · exact hi

/-- After the visit of a parent with repair allowed its previous address is the expected
one. -/
theorem parentVisit_prev (c : NodeChain) (pt : Option Nat) (a : QByteArray) (i : Nat)
    (hi : i < c.parents.length) :
    (nodeAt (parentVisit true c pt a i).parents i).previousParentAddress
      = parentExpected c pt a := by
  unfold parentVisit
  simp only
  rw [nodeAt_updateNode_same]
  · by_cases hm : parentMismatch c pt a i = true
    · simp only [hm, Bool.and_self, if_true]
      rw [nodeAt_updateNode_same _ _ _ hi]
      rfl
    · simp only [hm, Bool.false_and, Bool.false_eq_true, if_false]
      simp only [parentMismatch, decide_eq_true_eq, Decidable.not_not] at hm
      exact hm
  · split
    · simpa [length_updateNode] using hi
    · exact hi

/-- The visit of a parent changes nothing but its previous address and its tag. -/
theorem parentVisit_field (repairAllowed : Bool) (c : NodeChain) (pt : Option Nat)
    (a : QByteArray) (i k : Nat) {β : Type} (g : MPNode → β)
    (h1 : ∀ n, g n.setPointedToCheck = g n)
    (h2 : ∀ n x v, g (n.setPreviousParentAddress x v) = g n) :
    g (nodeAt (parentVisit repairAllowed c pt a i).parents k) = g (nodeAt c.parents k) := by
  unfold parentVisit
  simp only
  rw [field_updateNode _ _ _ _ g h1]
  split
  · exact field_updateNode _ _ _ _ g (fun n => h2 n _ _)
  · rfl

/-- What the repair of a child link leaves untouched. -/
theorem cutChildLink_frame (isData : Bool) (c : NodeChain) (p : Nat) (pt : Option Nat)
    (a : QByteArray) :
    (cutChildLink isData c p pt a).start = c.start ∧
    AddrSame (cutChildLink isData c p pt a).parents c.parents ∧
    AddrSame (cutChildLink isData c p pt a).children c.children ∧
    (∀ k, k ≠ p → nodeAt (cutChildLink isData c p pt a).parents k = nodeAt c.parents k) ∧
    (∀ k, (nodeAt (cutChildLink isData c p pt a).parents k).setStartChildAddress EmptyAddress
      = (nodeAt c.parents k).setStartChildAddress EmptyAddress) ∧
    (a ≠ (nodeAt c.parents p).startChildAddress →
      (cutChildLink isData c p pt a).parents = c.parents) ∧
    (∀ k, (a = (nodeAt c.parents p).startChildAddress ∨ pt ≠ some k) →
      nodeAt (cutChildLink isData c p pt a).children k = nodeAt c.children k) ∧
    (∀ k, (nodeAt (cutChildLink isData c p pt a).children k).setNextChild isData EmptyAddress
      = (nodeAt c.children k).setNextChild isData EmptyAddress) := by
  unfold cutChildLink
  by_cases ha : a = (nodeAt c.parents p).startChildAddress
  · rw [if_pos ha]
    dsimp only
    refine ⟨rfl, addrSame_updateNode c.parents p
      (fun n => n.setStartChildAddress EmptyAddress) (fun _ => rfl), addrSame_refl _,
      ?_, ?_, ?_, ?_, ?_⟩
    · intro k hk
      exact nodeAt_updateNode_ne _ _ _ _ (fun h => hk h.symm)
    · intro k
      exact field_updateNode _ _ _ _ (fun n => n.setStartChildAddress EmptyAddress)
        (fun _ => rfl)
    · intro h; exact absurd ha h
    · intro k _; rfl
    · intro k; rfl
  · rw [if_neg ha]
    dsimp only
    refine ⟨rfl, addrSame_refl _, addrSame_updatePtr c.children pt
      (fun n => n.setNextChild isData EmptyAddress) ?_, ?_, ?_, ?_, ?_, ?_⟩
    · intro n; cases isData <;> rfl
    · intro k _; rfl
    · intro k; rfl
    · intro _; rfl
    · intro k hk
      rcases hk with hk | hk
      · exact absurd hk ha
      · exact nodeAt_updatePtr_ne _ _ _ _ hk
    · intro k
      exact field_updatePtr _ _ _ _ (fun n => n.setNextChild isData EmptyAddress)
        (fun n => setNextChild_setNextChild isData n _ _)

theorem firstChildFound_congr {c1 c2 : NodeChain} (p : Nat) (hp : c1.parents = c2.parents)
    (hc : AddrSame c1.children c2.children) : FirstChildFound c1 p ↔ FirstChildFound c2 p := by
  unfold FirstChildFound
  rw [hp, addrSame_find hc]

/-- What the child loop with repair allowed leaves untouched. -/
theorem tagChildLoop_frameT (isData : Bool) (p : Nat) :
    ∀ (fuel : Nat) (c : NodeChain) (a : QByteArray) (pt : Option Nat) (rb : Bool)
      (r : TagLoop),
      tagChildLoop isData true p fuel c a pt rb = some r →
      r.chain.start = c.start ∧
      AddrSame r.chain.parents c.parents ∧ AddrSame r.chain.children c.children ∧
      (∀ k, k ≠ p → nodeAt r.chain.parents k = nodeAt c.parents k) ∧
      (∀ k, (nodeAt r.chain.parents k).setStartChildAddress EmptyAddress
        = (nodeAt c.parents k).setStartChildAddress EmptyAddress) ∧
      (r.returned = false → FirstChildFound c p → r.chain.parents = c.parents) ∧
      (∀ k, (nodeAt c.children k).pointedToCheck = true →
        (a = (nodeAt c.parents p).startChildAddress ∨ pt ≠ some k) →
        nodeAt r.chain.children k = nodeAt c.children k) ∧
      (∀ k, (nodeAt c.children k).pointedToCheck = true →
        (nodeAt r.chain.children k).setNextChild isData EmptyAddress
          = (nodeAt c.children k).setNextChild isData EmptyAddress) := by
  intro fuel
  induction fuel with
  | zero => intro c a pt rb r h; simp [tagChildLoop] at h
  | succ fuel ih =>
    intro c a pt rb r h
    by_cases ha : a = EmptyAddress
    · subst ha
      rw [tagChildLoop_empty] at h
      simp only [Option.some.injEq] at h
      rw [← h]
      exact ⟨rfl, addrSame_refl _, addrSame_refl _, fun _ _ => rfl, fun _ => rfl,
        fun _ _ => rfl, fun _ _ _ => rfl, fun _ _ => rfl⟩
    · cases hfind : findNodeWithAddressInList c.children a 0 with
      | none =>
        rw [tagChildLoop_missing _ _ _ _ _ _ _ _ ha hfind] at h
        simp only [Option.some.injEq, if_true] at h
        rw [← h]
        obtain ⟨f1, f2, f3, f4, f5, f6, f7, f8⟩ := cutChildLink_frame isData c p pt a
        refine ⟨f1, f2, f3, f4, f5, ?_, fun k _ hk => f7 k hk, fun k _ => f8 k⟩
        intro _ hfound
        apply f6
        intro hEq
        unfold FirstChildFound at hfound
        rw [← hEq, hfind] at hfound
        simp at hfound
      | some i =>
        cases htag : (nodeAt c.children i).pointedToCheck with
        | true =>
          rw [tagChildLoop_tagged _ _ _ _ _ _ _ _ i ha hfind htag] at h
          simp only [Option.some.injEq, if_true] at h
          rw [← h]
          obtain ⟨f1, f2, f3, f4, f5, _, f7, f8⟩ := cutChildLink_frame isData c p pt a
          refine ⟨f1, f2, f3, f4, f5, ?_, fun k _ hk => f7 k hk, fun k _ => f8 k⟩
          intro hret
          simp at hret
        | false =>
          rw [tagChildLoop_visit _ _ _ _ _ _ _ _ i ha hfind htag] at h
          obtain ⟨g1, g2, g3, g4, g5, g6, g7, g8⟩ := ih _ _ _ _ _ h
          have hi : i < c.children.length := findNodeWithAddressInList_lt _ _ _ _ hfind
          have hne : ∀ k, (nodeAt c.children k).pointedToCheck = true → i ≠ k := by
            intro k hk hik
            subst hik
            rw [htag] at hk
            simp at hk
          refine ⟨g1, g2, addrSame_trans g3 (childVisit_addr _ _ _ _ _ _ _), g4, g5, ?_, ?_, ?_⟩
          · intro hret hfound
            have hcg : FirstChildFound (childVisit isData true c p pt a i) p ↔
                FirstChildFound c p :=
              firstChildFound_congr p rfl (childVisit_addr _ _ _ _ _ _ _)
            exact g6 hret (hcg.mpr hfound)
          · intro k hk _
            have hik := hne k hk
            have hk1 : (nodeAt (childVisit isData true c p pt a i).children k).pointedToCheck
                = true := by
              rw [childVisit_ne _ _ _ _ _ _ _ _ hik]; exact hk
            rw [g7 k hk1 (Or.inr (fun h => hik (Option.some.inj h))),
              childVisit_ne _ _ _ _ _ _ _ _ hik]
          · intro k hk
            have hik := hne k hk
            have hk1 : (nodeAt (childVisit isData true c p pt a i).children k).pointedToCheck
                = true := by
              rw [childVisit_ne _ _ _ _ _ _ _ _ hik]; exact hk
            rw [g8 k hk1, childVisit_ne _ _ _ _ _ _ _ _ hik]

theorem sameTags_of_nodeAt {l1 l2 : List MPNode} (hl : l1.length = l2.length)
    (h : ∀ k, (nodeAt l1 k).pointedToCheck = (nodeAt l2 k).pointedToCheck) :
    SameTags l1 l2 := by
  apply List.ext_getElem
  · simp [hl]
  · intro k h1 h2
    simp only [List.length_map] at h1 h2
    simp only [List.getElem_map]
    rw [← nodeAt_eq_getElem l1 k h1, ← nodeAt_eq_getElem l2 k h2]
    exact h k

/-- The child loop leaves the tags of the parents alone. -/
theorem tagChildLoop_parentTags (isData : Bool) (p fuel : Nat) (c : NodeChain)
    (a : QByteArray) (pt : Option Nat) (rb : Bool) (r : TagLoop)
    (h : tagChildLoop isData true p fuel c a pt rb = some r) :
    SameTags r.chain.parents c.parents := by
  obtain ⟨_, f2, _, _, f5, _, _, _⟩ := tagChildLoop_frameT isData p fuel c a pt rb r h
  apply sameTags_of_nodeAt (addrSame_length f2)
  intro k
  have := congrArg MPNode.pointedToCheck (f5 k)
  simpa [MPNode.setStartChildAddress] using this

/-- What the parent loop with repair allowed leaves untouched when it runs to its end. -/
theorem tagParentLoop_frameT (isData : Bool) :
    ∀ (fuel : Nat) (c : NodeChain) (a : QByteArray) (va : Nat) (ppt cpt : Option Nat)
      (rb : Bool) (r : TagLoop),
      tagParentLoop isData true fuel c a va ppt cpt rb = some r → r.returned = false →
      r.chain.start = c.start ∧
      AddrSame r.chain.parents c.parents ∧ AddrSame r.chain.children c.children ∧
      (∀ k, (nodeAt c.parents k).pointedToCheck = true →
        nodeAt r.chain.parents k = nodeAt c.parents k) ∧
      (∀ k, (nodeAt c.children k).pointedToCheck = true →
        nodeAt r.chain.children k = nodeAt c.children k) := by
  intro fuel
  induction fuel with
  | zero => intro c a va ppt cpt rb r h; simp [tagParentLoop] at h
  | succ fuel ih =>
    intro c a va ppt cpt rb r h hret
    by_cases ha : a = EmptyAddress
    · subst ha
      rw [tagParentLoop_empty] at h
      simp only [Option.some.injEq] at h
      rw [← h]
      exact ⟨rfl, addrSame_refl _, addrSame_refl _, fun _ _ => rfl, fun _ _ => rfl⟩
    · cases hfind : findNodeWithAddressInList c.parents a va with
      | none =>
        rw [tagParentLoop_missing _ _ _ _ _ _ _ _ _ ha hfind] at h
        simp only [Option.some.injEq] at h
        rw [← h] at hret
        simp at hret
      | some i =>
        cases htag : (nodeAt c.parents i).pointedToCheck with
        | true =>
          rw [tagParentLoop_tagged _ _ _ _ _ _ _ _ _ i ha hfind htag] at h
          simp only [Option.some.injEq] at h
          rw [← h] at hret
          simp at hret
        | false =>
          rw [tagParentLoop_visit _ _ _ _ _ _ _ _ _ i ha hfind htag] at h
          cases hc : tagChildLoop isData true i
              ((parentVisit true c ppt a i).children.length + 1)
              (parentVisit true c ppt a i)
              (nodeAt (parentVisit true c ppt a i).parents i).startChildAddress cpt
              (if parentMismatch c ppt a i then false else rb) with
          | none => rw [hc] at h; simp at h
          | some rc =>
            rw [hc] at h
            simp only at h
            by_cases hrcret : rc.returned = true
            · simp only [hrcret, if_true, Option.some.injEq] at h
              rw [← h, hrcret] at hret
              simp at hret
            · simp only [hrcret, if_false, Bool.false_eq_true] at h
              obtain ⟨g1, g2, g3, g4, g5⟩ := ih _ _ _ _ _ _ _ h hret
              obtain ⟨f1, f2, f3, f4, _, _, f7, _⟩ := tagChildLoop_frameT isData i _ _ _ _ _ _ hc
              have hne : ∀ k, (nodeAt c.parents k).pointedToCheck = true → i ≠ k := by
                intro k hk hik
                subst hik
                rw [htag] at hk
                simp at hk
              refine ⟨g1.trans f1, addrSame_trans g2 (addrSame_trans f2 (parentVisit_addr _ _ _ _ _)),
                addrSame_trans g3 f3, ?_, ?_⟩
              · intro k hk
                have hik := hne k hk
                have e1 : nodeAt rc.chain.parents k = nodeAt c.parents k := by
                  rw [f4 k (fun h => hik h.symm), parentVisit_ne _ _ _ _ _ _ hik]
                rw [g4 k (by rw [e1]; exact hk), e1]
              · intro k hk
                have e1 : nodeAt rc.chain.children k = nodeAt c.children k :=
                  f7 k hk (Or.inl rfl)
                rw [g5 k (by rw [e1]; exact hk), e1]

/-! ## Lemmas: the walk without repair replays a repairing walk that ran to its end -/

theorem lt_of_tagged (l : List MPNode) (k : Nat) (h : (nodeAt l k).pointedToCheck = true) :
    k < l.length := by
  by_contra hk
  rw [nodeAt_of_le l k (by omega)] at h
  exact absurd h (by decide)

theorem replays_parent (c cF fin rch : NodeChain) (hR : Replays c cF fin)
    (hF : FinAgrees rch fin) (k : Nat) (hk : (nodeAt rch.parents k).pointedToCheck = true) :
    (nodeAt cF.parents k).removePointedToCheck = (nodeAt rch.parents k).removePointedToCheck := by
  have e := hF.parents k hk
  rw [hR.fieldsParents k (by rw [e]; exact hk), e]

theorem replays_child (c cF fin rch : NodeChain) (hR : Replays c cF fin)
    (hF : FinAgrees rch fin) (k : Nat) (hk : (nodeAt rch.children k).pointedToCheck = true) :
    (nodeAt cF.children k).removePointedToCheck
      = (nodeAt rch.children k).removePointedToCheck := by
  have e := hF.children k hk
  rw [hR.fieldsChildren k (by rw [e]; exact hk), e]

theorem field_of_removePointedToCheck {n m : MPNode} {β : Type} (g : MPNode → β)
    (hg : ∀ x, g x.removePointedToCheck = g x)
    (h : n.removePointedToCheck = m.removePointedToCheck) : g n = g m := by
  rw [← hg n, ← hg m, h]

/-- The child loop without repair, run on the end state of a child loop with repair that
ran to its end, visits the same children and reports nothing. -/
theorem tagChildLoop_replay (isData : Bool) (p : Nat) :
    ∀ (fuel : Nat) (c : NodeChain) (a : QByteArray) (pt : Option Nat) (rb : Bool)
      (r : TagLoop),
      tagChildLoop isData true p fuel c a pt rb = some r → r.returned = false →
      ∀ (src : ChildSource) (cF fin : NodeChain) (rb2 : Bool),
        a = readSource isData c p src →
        p < c.parents.length → (nodeAt c.parents p).pointedToCheck = true →
        (src = ChildSource.parent ∨ ∃ j, src = ChildSource.child j ∧ pt = some j ∧
            (nodeAt c.children j).pointedToCheck = true ∧ FirstChildFound c p) →
        FinAgrees r.chain fin → Replays c cF fin →
        ∃ rF, tagChildLoop isData false p fuel cF (readSource isData cF p src) pt rb2
            = some rF ∧
          rF.returned = false ∧ rF.return_bool = rb2 ∧
          rF.tempChildNodePt = r.tempChildNodePt ∧
          rF.chain.start = cF.start ∧ rF.chain.parents = cF.parents ∧
          SameFields rF.chain.children cF.children ∧
          SameTags rF.chain.children r.chain.children := by
  intro fuel
  induction fuel with
  | zero => intro c a pt rb r h; simp [tagChildLoop] at h
  | succ fuel ih =>
    intro c a pt rb r h hret src cF fin rb2 hsrc hp hptag hmode hF hR
    obtain ⟨t1, t2, t3, t4, t5, t6, t7, t8⟩ := tagChildLoop_frameT isData p _ _ _ _ _ _ h
    -- tags of r.chain
    have hptag_r : (nodeAt r.chain.parents p).pointedToCheck = true := by
      have := congrArg MPNode.pointedToCheck (t5 p)
      simp only [MPNode.setStartChildAddress] at this
      rw [this]; exact hptag
    have htag_r : ∀ k, (nodeAt c.children k).pointedToCheck = true →
        (nodeAt r.chain.children k).pointedToCheck = true := by
      intro k hk
      have := congrArg MPNode.pointedToCheck (t8 k hk)
      have e : ∀ n : MPNode, (n.setNextChild isData EmptyAddress).pointedToCheck
          = n.pointedToCheck := by intro n; cases isData <;> rfl
      rw [e, e] at this
      rw [this]; exact hk
    -- the source as the replay reads it
    have hsrcF : readSource isData cF p src = readSource isData r.chain p src := by
      rcases hmode with hm | ⟨j, hm, _, hj, _⟩
      · subst hm
        exact field_of_removePointedToCheck MPNode.startChildAddress (fun _ => rfl)
          (replays_parent c cF fin r.chain hR hF p hptag_r)
      · subst hm
        exact field_of_removePointedToCheck (MPNode.nextChild isData)
          (nextChild_removePointedToCheck isData)
          (replays_child c cF fin r.chain hR hF j (htag_r j hj))
    by_cases ha : a = EmptyAddress
    · subst ha
      rw [tagChildLoop_empty] at h
      simp only [Option.some.injEq] at h
      subst h
      rw [hsrcF, ← hsrc, tagChildLoop_empty]
      exact ⟨_, rfl, rfl, rfl, rfl, rfl, rfl, sameFields_refl _, hR.tagsChildren⟩
    · cases hfind : findNodeWithAddressInList c.children a 0 with
      | none =>
        rw [tagChildLoop_missing _ _ _ _ _ _ _ _ ha hfind] at h
        simp only [Option.some.injEq, if_true] at h
        subst h
        simp only at hsrcF hF
        have hcut : readSource isData (cutChildLink isData c p pt a) p src = EmptyAddress := by
          unfold cutChildLink
          rcases hmode with hm | ⟨j, hm, hpt, hj, hfound⟩
          · subst hm
            have hea : a = (nodeAt c.parents p).startChildAddress := hsrc
            rw [if_pos hea]
            simp only [readSource]
            rw [nodeAt_updateNode_same _ _ _ hp]
            rfl
          · subst hm
            have hne : a ≠ (nodeAt c.parents p).startChildAddress := by
              intro hEq
              unfold FirstChildFound at hfound
              rw [← hEq, hfind] at hfound
              simp at hfound
            rw [if_neg hne, hpt]
            simp only [readSource, updatePtr]
            rw [nodeAt_updateNode_same _ _ _ (lt_of_tagged _ _ hj)]
            cases isData <;> rfl
        rw [hsrcF, hcut, tagChildLoop_empty]
        refine ⟨_, rfl, rfl, rfl, rfl, rfl, rfl, sameFields_refl _, ?_⟩
        exact sameTags_trans hR.tagsChildren (sameTags_symm (cutChildLink_tags isData c p pt a).2)
      | some i =>
        cases htag : (nodeAt c.children i).pointedToCheck with
        | true =>
          rw [tagChildLoop_tagged _ _ _ _ _ _ _ _ i ha hfind htag] at h
          simp only [Option.some.injEq] at h
          rw [← h] at hret
          simp at hret
        | false =>
          have hi : i < c.children.length := findNodeWithAddressInList_lt _ _ _ _ hfind
          have hfound : FirstChildFound c p := by
            rcases hmode with hm | ⟨j, _, _, _, hf⟩
            · subst hm
              unfold FirstChildFound
              have hea : a = (nodeAt c.parents p).startChildAddress := hsrc
              rw [← hea, hfind]
              rfl
            · exact hf
          rw [tagChildLoop_visit _ _ _ _ _ _ _ _ i ha hfind htag] at h
          obtain ⟨g1, g2, g3, g4, g5, g6, g7, g8⟩ := tagChildLoop_frameT isData p _ _ _ _ _ _ h
          have hcg : FirstChildFound (childVisit isData true c p pt a i) p ↔
              FirstChildFound c p :=
            firstChildFound_congr p rfl (childVisit_addr _ _ _ _ _ _ _)
          have hfound1 : FirstChildFound (childVisit isData true c p pt a i) p :=
            hcg.mpr hfound
          have hpar : r.chain.parents = c.parents := g6 hret hfound1
          have hi1 : (nodeAt (childVisit isData true c p pt a i).children i).pointedToCheck
              = true := childVisit_tagged _ _ _ _ _ _ _ hi
          have hne : ∀ k, (nodeAt c.children k).pointedToCheck = true → i ≠ k := by
            intro k hk hik
            subst hik
            rw [htag] at hk
            simp at hk
          -- addresses
          have haddr : AddrSame cF.children c.children :=
            addrSame_trans hR.addrChildren (addrSame_trans hF.addrChildren t3)
          -- the source is still what it was
          have hsrc_r : readSource isData r.chain p src = a := by
            rcases hmode with hm | ⟨j, hm, _, hj, _⟩
            · subst hm
              simp only [readSource, hpar]
              exact hsrc.symm
            · subst hm
              have hij := hne j hj
              have hj1 : (nodeAt (childVisit isData true c p pt a i).children j).pointedToCheck
                  = true := by
                rw [childVisit_ne _ _ _ _ _ _ _ _ hij]; exact hj
              simp only [readSource]
              rw [g7 j hj1 (Or.inr (fun h => hij (Option.some.inj h))),
                childVisit_ne _ _ _ _ _ _ _ _ hij]
              exact hsrc.symm
          have hfindF : findNodeWithAddressInList cF.children a 0 = some i := by
            rw [addrSame_find haddr, hfind]
          have htagF : (nodeAt cF.children i).pointedToCheck = false := by
            rw [sameTags_nodeAt hR.tagsChildren i, htag]
          -- the expected previous address is the same in both walks
          have hexp : childExpected cF p pt a = childExpected c p pt a := by
            unfold childExpected
            have e1 : (nodeAt cF.parents p).startChildAddress
                = (nodeAt c.parents p).startChildAddress := by
              rw [field_of_removePointedToCheck MPNode.startChildAddress (fun _ => rfl)
                (replays_parent c cF fin r.chain hR hF p hptag_r), hpar]
            rw [e1, addrSame_ptrAddress haddr]
          have hi_r : (nodeAt r.chain.children i).pointedToCheck = true := by
            have := congrArg MPNode.pointedToCheck (g8 i hi1)
            have e : ∀ n : MPNode, (n.setNextChild isData EmptyAddress).pointedToCheck
                = n.pointedToCheck := by intro n; cases isData <;> rfl
            rw [e, e] at this
            rw [this]; exact hi1
          have hmisF : childMismatch isData cF p pt a i = false := by
            cases hd : isData with
            | true => simp [childMismatch]
            | false =>
              subst hd
              have e1 : (nodeAt cF.children i).previousChildAddress
                  = (nodeAt r.chain.children i).previousChildAddress :=
                field_of_removePointedToCheck MPNode.previousChildAddress (fun _ => rfl)
                  (replays_child c cF fin r.chain hR hF i hi_r)
              have e2 : (nodeAt r.chain.children i).previousChildAddress
                  = (nodeAt (childVisit false true c p pt a i).children i).previousChildAddress := by
                have := congrArg MPNode.previousChildAddress (g8 i hi1)
                exact this
              simp only [childMismatch, Bool.not_false, Bool.true_and, decide_eq_false_iff_not,
                not_not]
              rw [e1, e2, childVisit_prev c p pt a i hi, hexp]
          rw [hsrcF, hsrc_r, tagChildLoop_visit _ _ _ _ _ _ _ _ i ha hfindF htagF,
            childVisit_false, hmisF]
          simp only [Bool.false_eq_true, if_false]
          -- the replay relation after the visit
          have hR1 : Replays (childVisit isData true c p pt a i)
              { start := cF.start, parents := cF.parents,
                children := updateNode cF.children i MPNode.setPointedToCheck } fin := by
            refine ⟨hR.start, hR.addrParents, ?_, hR.tagsParents, ?_, hR.fieldsParents, ?_⟩
            · exact addrSame_trans (addrSame_updateNode _ _ _ (fun _ => rfl)) hR.addrChildren
            · unfold childVisit
              simp only
              apply sameTags_tag
              split
              · exact sameTags_trans hR.tagsChildren
                  (sameTags_symm (map_updateNode c.children i _ MPNode.pointedToCheck
                    (fun _ => rfl)))
              · exact hR.tagsChildren
            · intro k hk
              rw [sameFields_nodeAt (sameFields_tag cF.children i) k]
              exact hR.fieldsChildren k hk
          obtain ⟨rF, hrF, q1, q2, q3, q4, q5, q6, q7⟩ :=
            ih _ _ _ _ r h hret (ChildSource.child i)
              { start := cF.start, parents := cF.parents,
                children := updateNode cF.children i MPNode.setPointedToCheck } fin rb2
              rfl hp hptag (Or.inr ⟨i, rfl, rfl, hi1, hfound1⟩) hF hR1
          refine ⟨rF, hrF, q1, q2, q3, q4, q5, ?_, q7⟩
          exact sameFields_trans q6 (sameFields_tag cF.children i)

/-- The parent loop without repair, run on the end state of a parent loop with repair that
ran to its end, visits the same nodes and reports nothing. -/
theorem tagParentLoop_replay (isData : Bool) :
    ∀ (fuel : Nat) (c : NodeChain) (a : QByteArray) (va : Nat) (ppt cpt : Option Nat)
      (rb : Bool) (r : TagLoop),
      tagParentLoop isData true fuel c a va ppt cpt rb = some r → r.returned = false →
      ∀ (cF : NodeChain) (rb2 : Bool), Replays c cF r.chain →
        ∃ rF, tagParentLoop isData false fuel cF a va ppt cpt rb2 = some rF ∧
          rF.returned = false ∧ rF.return_bool = rb2 ∧
          rF.chain.start = cF.start ∧
          SameFields rF.chain.parents cF.parents ∧
          SameFields rF.chain.children cF.children ∧
          SameTags rF.chain.parents r.chain.parents ∧
          SameTags rF.chain.children r.chain.children := by
  intro fuel
  induction fuel with
  | zero => intro c a va ppt cpt rb r h; simp [tagParentLoop] at h
  | succ fuel ih =>
    intro c a va ppt cpt rb r h hret cF rb2 hR
    by_cases ha : a = EmptyAddress
    · subst ha
      rw [tagParentLoop_empty] at h
      simp only [Option.some.injEq] at h
      subst h
      rw [tagParentLoop_empty]
      exact ⟨_, rfl, rfl, rfl, rfl, sameFields_refl _, sameFields_refl _, hR.tagsParents,
        hR.tagsChildren⟩
    · cases hfind : findNodeWithAddressInList c.parents a va with
      | none =>
        rw [tagParentLoop_missing _ _ _ _ _ _ _ _ _ ha hfind] at h
        simp only [Option.some.injEq] at h
        rw [← h] at hret
        simp at hret
      | some i =>
        cases htag : (nodeAt c.parents i).pointedToCheck with
        | true =>
          rw [tagParentLoop_tagged _ _ _ _ _ _ _ _ _ i ha hfind htag] at h
          simp only [Option.some.injEq] at h
          rw [← h] at hret
          simp at hret
        | false =>
          have hi : i < c.parents.length := findNodeWithAddressInList_lt _ _ _ _ hfind
          rw [tagParentLoop_visit _ _ _ _ _ _ _ _ _ i ha hfind htag] at h
          cases hc : tagChildLoop isData true i
              ((parentVisit true c ppt a i).children.length + 1)
              (parentVisit true c ppt a i)
              (nodeAt (parentVisit true c ppt a i).parents i).startChildAddress cpt
              (if parentMismatch c ppt a i then false else rb) with
          | none => rw [hc] at h; simp at h
          | some rc =>
            rw [hc] at h
            simp only at h
            by_cases hrcret : rc.returned = true
            · simp only [hrcret, if_true, Option.some.injEq] at h
              rw [← h, hrcret] at hret
              simp at hret
            · simp only [hrcret, if_false, Bool.false_eq_true] at h
              simp only [Bool.not_eq_true] at hrcret
              obtain ⟨p1, p2, p3, p4, p5⟩ := tagParentLoop_frameT isData _ _ _ _ _ _ _ _ h hret
              have hF : FinAgrees rc.chain r.chain := ⟨p1, p2, p3, p4, p5⟩
              obtain ⟨t1, t2, t3, t4, t5, _, _, _⟩ := tagChildLoop_frameT isData i _ _ _ _ _ _ hc
              have hlen2 : i < (parentVisit true c ppt a i).parents.length := by
                rw [addrSame_length (parentVisit_addr _ _ _ _ _)]; exact hi
              have hi2 : (nodeAt (parentVisit true c ppt a i).parents i).pointedToCheck = true :=
                parentVisit_tagged _ _ _ _ _ hi
              have hi_rc : (nodeAt rc.chain.parents i).pointedToCheck = true := by
                have := congrArg MPNode.pointedToCheck (t5 i)
                simp only [MPNode.setStartChildAddress] at this
                rw [this]; exact hi2
              have hi_r : (nodeAt r.chain.parents i).pointedToCheck = true := by
                rw [p4 i hi_rc]; exact hi_rc
              have hfieldsF : (nodeAt cF.parents i).removePointedToCheck
                  = (nodeAt rc.chain.parents i).removePointedToCheck := by
                rw [hR.fieldsParents i hi_r, p4 i hi_rc]
              -- addresses
              have haddr : AddrSame cF.parents c.parents :=
                addrSame_trans hR.addrParents (addrSame_trans p2
                  (addrSame_trans t2 (parentVisit_addr _ _ _ _ _)))
              have haddrc : AddrSame cF.children c.children :=
                addrSame_trans hR.addrChildren (addrSame_trans p3 t3)
              have hstart : cF.start = c.start := by
                rw [hR.start, p1, t1]; rfl
              have hfindF : findNodeWithAddressInList cF.parents a va = some i := by
                rw [addrSame_find haddr, hfind]
              have htagF : (nodeAt cF.parents i).pointedToCheck = false := by
                rw [sameTags_nodeAt hR.tagsParents i, htag]
              have hexp : parentExpected cF ppt a = parentExpected c ppt a := by
                unfold parentExpected
                rw [hstart, addrSame_ptrAddress haddr]
              have hmisF : parentMismatch cF ppt a i = false := by
                have e1 : (nodeAt cF.parents i).previousParentAddress
                    = (nodeAt rc.chain.parents i).previousParentAddress :=
                  field_of_removePointedToCheck MPNode.previousParentAddress (fun _ => rfl)
                    hfieldsF
                have e2 : (nodeAt rc.chain.parents i).previousParentAddress
                    = (nodeAt (parentVisit true c ppt a i).parents i).previousParentAddress := by
                  have := congrArg MPNode.previousParentAddress (t5 i)
                  exact this
                simp only [parentMismatch, decide_eq_false_iff_not, not_not]
                rw [e1, e2, parentVisit_prev c ppt a i hi, hexp]
              rw [tagParentLoop_visit _ _ _ _ _ _ _ _ _ i ha hfindF htagF, parentVisit_false,
                hmisF]
              simp only [Bool.false_eq_true, if_false]
              -- the replay relation after the visit of the parent
              have hR2 : Replays (parentVisit true c ppt a i)
                  { start := cF.start, children := cF.children,
                    parents := updateNode cF.parents i MPNode.setPointedToCheck } r.chain := by
                refine ⟨hR.start, ?_, hR.addrChildren, ?_, hR.tagsChildren, ?_,
                  hR.fieldsChildren⟩
                · exact addrSame_trans (addrSame_updateNode _ _ _ (fun _ => rfl)) hR.addrParents
                · unfold parentVisit
                  simp only
                  apply sameTags_tag
                  split
                  · exact sameTags_trans hR.tagsParents
                      (sameTags_symm (map_updateNode c.parents i _ MPNode.pointedToCheck
                        (fun _ => rfl)))
                  · exact hR.tagsParents
                · intro k hk
                  rw [sameFields_nodeAt (sameFields_tag cF.parents i) k]
                  exact hR.fieldsParents k hk
              have hlenc : cF.children.length = (parentVisit true c ppt a i).children.length :=
                addrSame_length haddrc
              obtain ⟨rcF, hrcF, q1, q2, q3, q4, q5, q6, q7⟩ :=
                tagChildLoop_replay isData i _ _ _ _ _ rc hc hrcret ChildSource.parent
                  { start := cF.start, children := cF.children,
                    parents := updateNode cF.parents i MPNode.setPointedToCheck } r.chain rb2
                  rfl hlen2 hi2 (Or.inl rfl) hF hR2
              simp only [readSource] at hrcF
              simp only [hlenc]
              rw [hrcF]
              simp only [q1, Bool.false_eq_true, if_false]
              -- the state of the replay after the child loop
              have hsf : SameFields rcF.chain.parents cF.parents := by
                rw [q5]; exact sameFields_tag cF.parents i
              have hR3 : Replays rc.chain rcF.chain r.chain := by
                refine ⟨?_, ?_, ?_, ?_, q7, ?_, ?_⟩
                · rw [q4]; exact hR.start
                · exact addrSame_trans (addrSame_of_sameFields hsf) hR.addrParents
                · exact addrSame_trans (addrSame_of_sameFields q6) hR.addrChildren
                · rw [q5]
                  exact sameTags_trans hR2.tagsParents
                    (sameTags_symm (tagChildLoop_parentTags isData i _ _ _ _ _ rc hc))
                · intro k hk
                  rw [sameFields_nodeAt hsf k]
                  exact hR.fieldsParents k hk
                · intro k hk
                  rw [sameFields_nodeAt q6 k]
                  exact hR.fieldsChildren k hk
              have hnext : (nodeAt rcF.chain.parents i).removePointedToCheck
                  = (nodeAt rc.chain.parents i).removePointedToCheck := by
                rw [sameFields_nodeAt hsf i]; exact hfieldsF
              have e3 : (nodeAt rcF.chain.parents i).nextParentAddress
                  = (nodeAt rc.chain.parents i).nextParentAddress :=
                field_of_removePointedToCheck MPNode.nextParentAddress (fun _ => rfl) hnext
              have e4 : (nodeAt rcF.chain.parents i).nextParentVirtualAddress
                  = (nodeAt rc.chain.parents i).nextParentVirtualAddress :=
                field_of_removePointedToCheck MPNode.nextParentVirtualAddress (fun _ => rfl)
                  hnext
              rw [e3, e4, q2, q3]
              obtain ⟨rF, hrF, u1, u2, u3, u4, u5, u6, u7⟩ :=
                ih _ _ _ _ _ _ r h hret rcF.chain rb2 hR3
              refine ⟨rF, hrF, u1, u2, ?_, sameFields_trans u4 hsf, sameFields_trans u5 q6,
                u6, u7⟩
              rw [u3, q4]

theorem sameTags_map_detag (l1 l2 : List MPNode) (h : l1.length = l2.length) :
    SameTags (l1.map MPNode.removePointedToCheck) (l2.map MPNode.removePointedToCheck) := by
  apply sameTags_of_nodeAt (by simpa using h)
  intro k
  rw [nodeAt_map_detag, nodeAt_map_detag]

theorem nodeChain_eq (c1 c2 : NodeChain) (h1 : c1.start = c2.start)
    (h2 : c1.parents = c2.parents) (h3 : c1.children = c2.children) : c1 = c2 := by
  cases c1
  cases c2
  simp only at h1 h2 h3
  rw [h1, h2, h3]

/-- The replay of a whole walk: on the detagged end state of a parent loop with repair
that ran to its end, the loop without repair ends in that end state and reports nothing. -/
theorem tagParentLoop_replay_detag (isData : Bool) (fuel : Nat) (c : NodeChain)
    (va : Nat) (rb : Bool) (r : TagLoop)
    (h : tagParentLoop isData true fuel c c.start va none none rb = some r)
    (hret : r.returned = false)
    (hc1 : ∀ k, (nodeAt c.parents k).pointedToCheck = false)
    (hc2 : ∀ k, (nodeAt c.children k).pointedToCheck = false) (rb2 : Bool) :
    ∃ rF, tagParentLoop isData false fuel
        { start := r.chain.start, parents := r.chain.parents.map MPNode.removePointedToCheck,
          children := r.chain.children.map MPNode.removePointedToCheck }
        r.chain.start va none none rb2 = some rF ∧
      rF.returned = false ∧ rF.return_bool = rb2 ∧ rF.chain = r.chain := by
  obtain ⟨p1, p2, p3, _, _⟩ := tagParentLoop_frameT isData _ _ _ _ _ _ _ _ h hret
  have hR : Replays c
      { start := r.chain.start, parents := r.chain.parents.map MPNode.removePointedToCheck,
        children := r.chain.children.map MPNode.removePointedToCheck } r.chain := by
    refine ⟨rfl, addrSame_of_sameFields (sameFields_map_detag _),
      addrSame_of_sameFields (sameFields_map_detag _), ?_, ?_, ?_, ?_⟩
    · apply sameTags_of_nodeAt (by simpa using addrSame_length p2)
      intro k
      rw [nodeAt_map_detag, hc1 k]
    · apply sameTags_of_nodeAt (by simpa using addrSame_length p3)
      intro k
      rw [nodeAt_map_detag, hc2 k]
    · intro k _
      exact sameFields_nodeAt (sameFields_map_detag _) k
    · intro k _
      exact sameFields_nodeAt (sameFields_map_detag _) k
  obtain ⟨rF, hrF, u1, u2, u3, u4, u5, u6, u7⟩ :=
    tagParentLoop_replay isData fuel c c.start va none none rb r h hret _ rb2 hR
  rw [← p1] at hrF
  refine ⟨rF, ?_, u1, u2, ?_⟩
  · rw [p1]; rw [p1] at hrF; exact hrF
  · apply nodeChain_eq
    · exact u3
    · exact eq_of_sameFields_sameTags (sameFields_trans u4 (sameFields_map_detag _)) u6
    · exact eq_of_sameFields_sameTags (sameFields_trans u5 (sameFields_map_detag _)) u7

/-- When `tagPointedNodes(true)` runs to its end, `tagPointedNodes(false)` on the state it
leaves returns true and leaves that state. -/
theorem tagPointedNodes_replay (s s1 : Session) (b : Bool)
    (hstop : tagPointedNodesStopped true s = some false)
    (h : tagPointedNodes true s = some (b, s1)) :
    tagPointedNodes false s1 = some (true, s1) := by
  unfold tagPointedNodesStopped at hstop
  unfold tagPointedNodes at h
  simp only at hstop h
  cases h1 : tagParentLoop false true ((detagPointedNodes s).loginNodes.length + 1)
      (detagPointedNodes s).credChain (detagPointedNodes s).startNode
      (detagPointedNodes s).virtualStartNode none none true with
  | none => rw [h1] at h; simp at h
  | some r1 =>
    rw [h1] at h hstop
    simp only at h hstop
    by_cases hret1 : r1.returned = true
    · simp [hret1] at hstop
    · simp only [hret1, if_false, Bool.false_eq_true] at h hstop
      simp only [Bool.not_eq_true] at hret1
      cases h2 : tagParentLoop true true
          (((detagPointedNodes s).setCredChain r1.chain).dataNodes.length + 1)
          ((detagPointedNodes s).setCredChain r1.chain).dataChain
          ((detagPointedNodes s).setCredChain r1.chain).startDataNode
          ((detagPointedNodes s).setCredChain r1.chain).virtualStartNode none none
          r1.return_bool with
      | none => rw [h2] at h; simp at h
      | some r2 =>
        rw [h2] at h hstop
        simp only [Option.some.injEq] at hstop
        simp only [hstop, Bool.false_eq_true, if_false, Option.some.injEq, Prod.mk.injEq] at h
        obtain ⟨_, hs1⟩ := h
        obtain ⟨a1, a2, a3, _, _⟩ := tagParentLoop_frameT false _ _ _ _ _ _ _ _ h1 hret1
        obtain ⟨b1, b2, b3, _, _⟩ := tagParentLoop_frameT true _ _ _ _ _ _ _ _ h2 hstop
        obtain ⟨rF1, hrF1, v1, v2, v3⟩ :=
          tagParentLoop_replay_detag false _ (detagPointedNodes s).credChain
            (detagPointedNodes s).virtualStartNode true r1 h1 hret1
            (nodeAt_map_detag _) (nodeAt_map_detag _) true
        obtain ⟨rF2, hrF2, w1, w2, w3⟩ :=
          tagParentLoop_replay_detag true _
            ((detagPointedNodes s).setCredChain r1.chain).dataChain
            ((detagPointedNodes s).setCredChain r1.chain).virtualStartNode r1.return_bool r2 h2
            hstop (nodeAt_map_detag _) (nodeAt_map_detag _) true
        have l1 : r1.chain.parents.length = s.loginNodes.length := by
          have := addrSame_length a2
          simpa [Session.credChain, detagPointedNodes] using this
        have l2 : r2.chain.parents.length = s.dataNodes.length := by
          have := addrSame_length b2
          simpa [Session.dataChain, Session.setCredChain, detagPointedNodes] using this
        subst hs1
        unfold tagPointedNodes
        simp only [detagPointedNodes, Session.setCredChain, Session.setDataChain,
          Session.credChain, Session.dataChain, List.length_map] at hrF1 hrF2 l1 l2 ⊢
        rw [l1, hrF1]
        simp only [v1, Bool.false_eq_true, if_false, v2, v3]
        rw [l2, hrF2]
        simp only [w1, Bool.false_eq_true, if_false, w2, w3]

/-! ## Lemmas: checkLoadedNodes on a state without orphans -/

theorem allTagged_range (l : List MPNode) (h : ∀ n ∈ l, n.pointedToCheck = true) :
    ∀ i ∈ List.range l.length, (nodeAt l i).pointedToCheck = true := by
  intro i hi
  exact h _ (nodeAt_mem l i (List.mem_range.mp hi))

theorem allTagged_of_range (l : List MPNode)
    (h : ∀ i ∈ List.range l.length, (nodeAt l i).pointedToCheck = true) :
    ∀ n ∈ l, n.pointedToCheck = true := by
  intro n hn
  obtain ⟨i, hi, rfl⟩ := List.getElem_of_mem hn
  rw [← nodeAt_eq_getElem l i hi]
  exact h i (List.mem_range.mpr hi)

/-- A pass of `checkLoadedNodes` whose tag walk leaves no node untagged returns the verdict
of the walk and changes nothing after it but the favorites. -/
theorem checkLoadedNodesPass_allTagged (repairAllowed : Bool) (s t : Session) (b0 : Bool)
    (htag : tagPointedNodes repairAllowed s = some (b0, t)) (hall : AllTagged t) :
    checkLoadedNodesPass repairAllowed s = some (b0, checkFavorites t) := by
  obtain ⟨q1, q2, q3, q4⟩ := hall
  unfold checkLoadedNodesPass
  rw [htag]
  simp only
  rw [orphanParentsLoop_tagged repairAllowed false _ t 0
    (by simpa [Session.parentList] using allTagged_range _ q1)]
  simp only
  rw [orphanChildrenLoop_tagged repairAllowed _ t 0 (allTagged_range _ q2)]
  simp only
  rw [orphanParentsLoop_tagged repairAllowed true _ t 0
    (by simpa [Session.parentList] using allTagged_range _ q3)]
  simp only
  rw [orphanDataChildren_tagged t q4]
  simp [checkFavorites]

theorem tagPointedNodes_checkFavorites (t : Session)
    (h : tagPointedNodes false t = some (true, t)) :
    tagPointedNodes false (checkFavorites t) = some (true, checkFavorites t) := by
  unfold checkFavorites
  rw [tagPointedNodes_favorites, h]
  rfl

theorem allTagged_checkFavorites (t : Session) (h : AllTagged t) :
    AllTagged (checkFavorites t) := h

/-- On a state without orphan that `tagPointedNodes(false)` accepts,
`checkLoadedNodes(false)` returns true. -/
theorem checkLoadedNodes_false_clean (t : Session)
    (h : tagPointedNodes false t = some (true, t)) (hall : AllTagged t) :
    checkLoadedNodes false t = some (true, checkFavorites t) := by
  unfold checkLoadedNodes
  rw [checkLoadedNodesPass_allTagged false t t true h hall]
  simp

/-- What `checkLoadedNodes(true)` leaves when its tag walk leaves no node untagged and a
further `tagPointedNodes(false)` accepts the tagged state. -/
theorem checkLoadedNodes_true_allTagged (s t : Session) (b0 : Bool)
    (htag : tagPointedNodes true s = some (b0, t)) (hall : AllTagged t)
    (hre : tagPointedNodes false t = some (true, t)) :
    checkLoadedNodes true s
      = some (b0, if b0 then checkFavorites t else checkFavorites (checkFavorites t)) := by
  unfold checkLoadedNodes
  rw [checkLoadedNodesPass_allTagged true s t b0 htag hall]
  cases b0 with
  | true => simp
  | false =>
    simp only [Bool.false_eq_true, if_false, Bool.not_true]
    rw [checkLoadedNodesPass_allTagged false (checkFavorites t) (checkFavorites t) true
      (tagPointedNodes_checkFavorites t hre) (allTagged_checkFavorites t hall)]

/-! ## Theorems: integrity checker and repair -/

/-- C8. For a session state in which all nodes have physical addresses,
`tagPointedNodes(false)` returns, and it returns true if and only if there is no violation
on the canonical chains: from each start address the parent addresses resolve in the
parent list, no parent being met twice; the first parent's previous address is empty and
every later one's is the address of its predecessor; the child chain of each parent met
resolves in the child list, no child being met twice in the whole walk; and, for
credential children only, the previous-child address is empty for a first child and the
address of the predecessor otherwise. -/
theorem C8_tag_true_iff_chains_valid (s : Session) (hphys : AllPhysical s) :
    (∃ r, tagPointedNodes false s = some r) ∧
    ((∃ s2, tagPointedNodes false s = some (true, s2)) ↔ ChainsValid s) :=
  tagPointedNodes_false_iff s hphys

/-- Witness for C8: the example database has physical addresses only, is accepted by
`tagPointedNodes(false)`, and so has valid chains. -/
theorem C8_tag_true_iff_chains_valid_witness :
    AllPhysical exampleDb ∧ ChainsValid exampleDb :=
  ⟨by simp [AllPhysical, exampleDb],
   (C8_tag_true_iff_chains_valid exampleDb (by simp [AllPhysical, exampleDb])).2.mp
     ⟨exampleDbTagged, by decide⟩⟩

/-- C9, as stated, fails: on a state whose only node is an orphan data child,
`checkLoadedNodes(true)` returns false and leaves the state as it is, and
`checkLoadedNodes(false)` on that state returns false again. -/
theorem C9_one_round_counterexample :
    checkLoadedNodes true orphanDataChild = some (false, orphanDataChild) ∧
    checkLoadedNodes false orphanDataChild = some (false, orphanDataChild) := by
  decide

/-- C9, amended. `checkLoadedNodes(true)` followed by `checkLoadedNodes(false)` returns
true whenever the first call returns true, and also whenever the tag walk of the first
call runs to its end (it does not stop at a missing or already tagged node) and leaves no
node of the four lists untagged, so that the only repairs are those of the walk itself. -/
theorem C9_check_after_repairing_walk (s s1 : Session) (b : Bool)
    (h : checkLoadedNodes true s = some (b, s1))
    (hclean : b = true ∨
      (tagPointedNodesStopped true s = some false ∧
        ∀ b0 t, tagPointedNodes true s = some (b0, t) → AllTagged t)) :
    ∃ s2, checkLoadedNodes false s1 = some (true, s2) := by
  rcases hclean with hb | ⟨hstop, hall⟩
  · subst hb
    have hpass : checkLoadedNodesPass true s = some (true, s1) := by
      unfold checkLoadedNodes at h
      cases hp : checkLoadedNodesPass true s with
      | none => rw [hp] at h; simp at h
      | some r =>
        rw [hp] at h
        simp only at h
        by_cases hr : r.1 = true
        · simp only [hr, if_true, Option.some.injEq, Prod.mk.injEq, true_and] at h
          rw [← h, ← hr]
        · simp only [hr, if_false, Bool.false_eq_true, Bool.not_true] at h
          cases hp2 : checkLoadedNodesPass false r.2 with
          | none => rw [hp2] at h; simp at h
          | some r2 => rw [hp2] at h; simp at h
    obtain ⟨t, ht, hs1, q1, q2, q3, q4⟩ := checkLoadedNodesPass_true true s s1 hpass
    have hallt : AllTagged t :=
      ⟨allTagged_of_range _ q1, allTagged_of_range _ q2, allTagged_of_range _ q3, q4⟩
    have ht2 : tagPointedNodes false t = some (true, t) :=
      tagPointedNodes_false_again s t true (tagPointedNodes_repair_free s t ht)
    have hs1' : s1 = checkFavorites t := hs1
    rw [hs1']
    exact ⟨_, checkLoadedNodes_false_clean _ (tagPointedNodes_checkFavorites t ht2)
      (allTagged_checkFavorites t hallt)⟩
  · obtain ⟨r, hr⟩ := tagPointedNodes_total true s
    have hr' : tagPointedNodes true s = some (r.1, r.2) := hr
    have hallt := hall r.1 r.2 hr'
    have hre := tagPointedNodes_replay s r.2 r.1 hstop hr'
    rw [checkLoadedNodes_true_allTagged s r.2 r.1 hr' hallt hre] at h
    simp only [Option.some.injEq, Prod.mk.injEq] at h
    have h1 := tagPointedNodes_checkFavorites r.2 hre
    have a1 := allTagged_checkFavorites r.2 hallt
    rw [← h.2]
    split
    · exact ⟨_, checkLoadedNodes_false_clean _ h1 a1⟩
    · exact ⟨_, checkLoadedNodes_false_clean _ (tagPointedNodes_checkFavorites _ h1)
        (allTagged_checkFavorites _ a1)⟩

/-- Witness for the amended C9: on the example database with a wrong previous-parent
address, a wrong previous-child address and a child link to a missing node,
`checkLoadedNodes(true)` returns false and leaves the repaired database, on which
`checkLoadedNodes(false)` returns true. -/
theorem C9_check_after_repairing_walk_witness :
    checkLoadedNodes true brokenDb = some (false, exampleDbTagged) ∧
    ∃ s2, checkLoadedNodes false exampleDbTagged = some (true, s2) :=
  ⟨by decide,
   C9_check_after_repairing_walk brokenDb exampleDbTagged false (by decide)
     (Or.inr ⟨by decide, by
       intro b0 t ht
       have e : tagPointedNodes true brokenDb = some (false, exampleDbTagged) := by decide
       rw [e] at ht
       simp only [Option.some.injEq, Prod.mk.injEq] at ht
       rw [← ht.2]
       simp [AllTagged, exampleDbTagged, exampleDb, MPNode.setPointedToCheck]⟩)⟩

/-- C10, as stated, fails: on a state whose two start addresses resolve to no node,
`tagPointedNodes(true)` clears the credential start address and returns false at once, and
`tagPointedNodes(false)` on the state it leaves returns false, the data start address
still resolving to no node. -/
theorem C10_retag_counterexample :
    tagPointedNodes true danglingStarts
      = some (false, { startNode := EmptyAddress, startDataNode := [0x02, 0x00] }) ∧
    tagPointedNodes false { startNode := EmptyAddress, startDataNode := [0x02, 0x00] }
      = some (false, { startNode := EmptyAddress, startDataNode := [0x02, 0x00] }) := by
  decide

/-- C10, amended. For any session state on which `tagPointedNodes(true)` runs to its end,
that is on which it does not stop at a parent address that is missing or already tagged or
at a child that is already tagged (in particular whenever it returns true), re-tagging the
state it leaves with repair not allowed returns true and leaves that state. -/
theorem C10_retag_after_completed_tag (s s1 : Session) (b : Bool)
    (h : tagPointedNodes true s = some (b, s1))
    (hrun : b = true ∨ tagPointedNodesStopped true s = some false) :
    tagPointedNodes false s1 = some (true, s1) := by
  rcases hrun with hb | hstop
  · subst hb
    exact tagPointedNodes_false_again s s1 true (tagPointedNodes_repair_free s s1 h)
  · exact tagPointedNodes_replay s s1 b hstop h

/-- Witness for the amended C10: on the example database with a wrong previous-parent
address, a wrong previous-child address and a child link to a missing node,
`tagPointedNodes(true)` runs to its end, returns false and leaves the repaired database,
which `tagPointedNodes(false)` accepts. -/
theorem C10_retag_after_completed_tag_witness :
    tagPointedNodesStopped true brokenDb = some false ∧
    tagPointedNodes true brokenDb = some (false, exampleDbTagged) ∧
    tagPointedNodes false exampleDbTagged = some (true, exampleDbTagged) :=
  ⟨by decide, by decide,
   C10_retag_after_completed_tag brokenDb exampleDbTagged false (by decide)
     (Or.inr (by decide))⟩

/-! ## Writing a data node -/



theorem length_resize (fill : Nat → Nat) (b : QByteArray) (size : Nat) :
    (resize fill b size).length = size := by
  simp [resize]

theorem getD_resize (fill : Nat → Nat) (b : QByteArray) (size i : Nat) (h : i < size) :
    (resize fill b size).getD i 0 = if i < b.length then b.getD i 0 else fill i := by
  simp [resize, List.getD_eq_getElem?_getD, List.getElem?_map, List.getElem?_range h]

theorem getD_mid (b : QByteArray) (pos len i : Nat) (h : i < len) :
    (mid b pos len).getD i 0 = b.getD (pos + i) 0 := by
  simp [mid, List.getD_eq_getElem?_getD, List.getElem?_take, h, List.getElem?_drop]

theorem length_mid (b : QByteArray) (pos len : Nat) :
    (mid b pos len).length = min len (b.length - pos) := by
  simp [mid]

theorem runWriteJobs_blocks (fill : Nat → Nat) (cdn : QByteArray) (replies : Nat → QByteArray)
    (hr : ∀ k, byteAt (replies k) 2 ≠ 0) :
    ∀ (m c k fuel : Nat) (P : QByteArray), cdn.length ≤ c + 32 * m →
      (m = 0 ∨ c + 32 * (m - 1) < cdn.length) → m + 1 ≤ fuel →
      runWriteJobs fill cdn replies fuel k ⟨P, c⟩ = some (P :: (List.range m).map fun j =>
        resize fill ((if cdn.length - (c + 32 * j) ≤ 32 then 1 else 0) ::
          mid cdn (c + 32 * j) 32) 33) := by
  intro m
  induction m with
  | zero =>
    intro c k fuel P h1 _ hf
    obtain ⟨f, rfl⟩ : ∃ f, fuel = f + 1 := ⟨fuel - 1, by omega⟩
    have hc : c ≥ cdn.length := by omega
    simp [runWriteJobs, setDataNodeCb, hr k, hc]
  | succ m ih =>
    intro c k fuel P h1 h2 hf
    obtain ⟨f, rfl⟩ : ∃ f, fuel = f + 1 := ⟨fuel - 1, by omega⟩
    have hc : ¬ c ≥ cdn.length := by
      rcases h2 with h2 | h2
      · omega
      · simp at h2; omega
    have hrec := ih (c + 32) (k + 1) f
      (resize fill ((if cdn.length - c ≤ 32 then 1 else 0) :: mid cdn c 32) 33)
      (by omega) (by rcases h2 with h2 | h2; · omega
                     · simp at h2; rcases m with _ | m; · left; rfl
                       · right; simp; omega) (by omega)
    simp only [runWriteJobs, setDataNodeCb, hr k, if_false, hc, MOOLTIPASS_BLOCK_SIZE]
    rw [hrec]
    simp only [Option.map_some', List.range_succ_eq_map, List.map_cons, List.map_map]
    congr 3
    apply List.map_congr_left
    intro j _
    simp only [Function.comp, Nat.mul_succ, Nat.succ_eq_add_one]
    have : c + 32 + 32 * j = c + (32 * j + 32) := by omega
    rw [this]


theorem setDataNodePackets_eq (fill : Nat → Nat) (service : List Nat) (nodeData : QByteArray)
    (replies : Nat → QByteArray) (hs : service ≠ []) (hr : ∀ k, byteAt (replies k) 2 ≠ 0) :
    setDataNodePackets fill service nodeData replies =
      some ((List.range ((nodeData.length + 4 + 31) / 32)).map fun j =>
        resize fill ((if (dataNodeStream nodeData).length - 32 * j ≤ 32 then 1 else 0) ::
          mid (dataNodeStream nodeData) (32 * j) 32) 33) := by
  have hL : (dataNodeStream nodeData).length = nodeData.length + 4 := by
    simp [dataNodeStream, qToBigEndian]
  have hcount : (nodeData.length + 4 + 31) / 32 = (nodeData.length + 3) / 32 + 1 := by omega
  simp only [setDataNodePackets, setDataNode, hs, if_false, MOOLTIPASS_BLOCK_SIZE,
    MP_DATA_HEADER_SIZE]
  rw [runWriteJobs_blocks fill _ replies hr ((nodeData.length + 3) / 32) 32 0 _ _
    (by have := hL; omega) (by have := hL; omega) (by have := hL; omega)]
  rw [hcount, List.range_succ_eq_map]
  simp only [List.map_cons, List.map_map, Nat.mul_zero, Nat.sub_zero, hL]
  congr 2
  apply List.map_congr_left
  intro j _
  simp only [Function.comp, Nat.mul_succ, Nat.succ_eq_add_one]
  have : 32 + 32 * j = 32 * j + 32 := by omega
  rw [this]

/-- C20: for a payload of `n` bytes and a device that answers every `MP_WRITE_32B_IN_DN` with a
non-zero status, `setDataNode` followed by `setDataNodeCb` sends exactly `ceil((n+4)/32)`
payloads of 33 bytes; the first byte is 1 on the last payload and 0 on every earlier one; byte
`i+1` of payload `k` is byte `32k+i` of the stream made of the 32-bit big-endian size and the
node data, and past the end of the stream it is a padding byte. -/
theorem C20_setDataNode_blocks (fill : Nat → Nat) (service : List Nat) (nodeData : QByteArray)
    (replies : Nat → QByteArray) (hs : service ≠ []) (hr : ∀ k, byteAt (replies k) 2 ≠ 0) :
    ∃ sent, setDataNodePackets fill service nodeData replies = some sent ∧
      sent.length = (nodeData.length + 4 + 31) / 32 ∧
      ∀ k, k < sent.length →
        (sent.getD k []).length = 33 ∧
        (sent.getD k []).getD 0 0 = (if k + 1 = sent.length then 1 else 0) ∧
        (∀ i, i < 32 → 32 * k + i < nodeData.length + 4 →
          (sent.getD k []).getD (i + 1) 0 =
            (qToBigEndian (nodeData.length % 2 ^ 32) ++ nodeData).getD (32 * k + i) 0) ∧
        (∀ i, i < 32 → nodeData.length + 4 ≤ 32 * k + i →
          (sent.getD k []).getD (i + 1) 0 = fill (i + 1)) := by
  have hL : (dataNodeStream nodeData).length = nodeData.length + 4 := by
    simp [dataNodeStream, qToBigEndian]
  refine ⟨_, setDataNodePackets_eq fill service nodeData replies hs hr, by simp, ?_⟩
  intro k hk
  simp only [List.length_map, List.length_range] at hk ⊢
  have hget : ((List.range ((nodeData.length + 4 + 31) / 32)).map fun j =>
        resize fill ((if (dataNodeStream nodeData).length - 32 * j ≤ 32 then 1 else 0) ::
          mid (dataNodeStream nodeData) (32 * j) 32) 33).getD k [] =
      resize fill ((if (dataNodeStream nodeData).length - 32 * k ≤ 32 then 1 else 0) ::
          mid (dataNodeStream nodeData) (32 * k) 32) 33 := by
    simp [List.getD_eq_getElem?_getD, List.getElem?_map, List.getElem?_range hk]
  rw [hget]
  refine ⟨length_resize _ _ _, ?_, ?_, ?_⟩
  · rw [getD_resize _ _ _ _ (by omega)]
    simp only [List.length_cons, Nat.zero_lt_succ, if_true, List.getD_cons_zero, hL]
    by_cases h1 : nodeData.length + 4 - 32 * k ≤ 32
    · rw [if_pos h1, if_pos (by omega)]
    · rw [if_neg h1, if_neg (by omega)]
  · intro i hi hlt
    rw [getD_resize _ _ _ _ (by omega)]
    have : i + 1 < ((if (dataNodeStream nodeData).length - 32 * k ≤ 32 then 1 else 0) ::
          mid (dataNodeStream nodeData) (32 * k) 32).length := by
      simp only [List.length_cons, length_mid, hL]; omega
    rw [if_pos this, List.getD_cons_succ, getD_mid _ _ _ _ hi]
    rfl
  · intro i hi hge
    rw [getD_resize _ _ _ _ (by omega)]
    have : ¬ i + 1 < ((if (dataNodeStream nodeData).length - 32 * k ≤ 32 then 1 else 0) ::
          mid (dataNodeStream nodeData) (32 * k) 32).length := by
      simp only [List.length_cons, length_mid, hL]; omega
    rw [if_neg this]

/-- C20 at a payload of 100 bytes: four payloads, the end-of-data byte being 0, 0, 0, 1, the
first one made of 0, the size 00 00 00 64 and the first 28 bytes of the node data. -/
theorem C20_setDataNode_blocks_witness :
    (([115] : List Nat) ≠ [] ∧ ∀ _k : Nat, byteAt ([1, 0xC0, 1] : List Nat) 2 ≠ 0) ∧
    (∃ sent, setDataNodePackets (fun _ => 0) [115] (List.range 100) (fun _ => [1, 0xC0, 1]) =
        some sent ∧
      sent.length = ((List.range 100).length + 4 + 31) / 32 ∧
      ∀ k, k < sent.length →
        (sent.getD k []).length = 33 ∧
        (sent.getD k []).getD 0 0 = (if k + 1 = sent.length then 1 else 0) ∧
        (∀ i, i < 32 → 32 * k + i < (List.range 100).length + 4 →
          (sent.getD k []).getD (i + 1) 0 =
            (qToBigEndian ((List.range 100).length % 2 ^ 32) ++ List.range 100).getD
              (32 * k + i) 0) ∧
        (∀ i, i < 32 → (List.range 100).length + 4 ≤ 32 * k + i →
          (sent.getD k []).getD (i + 1) 0 = (fun _ => 0) (i + 1))) ∧
    (setDataNodePackets (fun _ => 0) [115] (List.range 100) (fun _ => [1, 0xC0, 1])).map
        (fun sent => (sent.length, sent.map (fun p => p.getD 0 0), sent.getD 0 [])) =
      some (4, [0, 0, 0, 1], [0, 0, 0, 0, 100] ++ List.range 28) :=
  ⟨⟨by decide, fun _ => by decide⟩,
    C20_setDataNode_blocks (fun _ => 0) [115] (List.range 100) (fun _ => [1, 0xC0, 1])
      (by decide) (fun _ => (by decide : byteAt ([1, 0xC0, 1] : List Nat) 2 ≠ 0)),
    by rfl⟩


/-! ## Resolving virtual addresses -/

theorem forEachNode_eq_some (body : MPNode → Option MPNode) :
    ∀ (l l1 : List MPNode), forEachNode body l = some l1 ↔
      List.Forall₂ (fun n n1 => body n = some n1) l l1 := by
  intro l
  induction l with
  | nil => intro l1; cases l1 <;> simp [forEachNode]
  | cons n rest ih =>
    intro l1
    cases hb : body n with
    | none =>
      simp only [forEachNode, hb]
      constructor
      · intro h; cases h
      · intro h; cases h with
        | cons h1 _ => rw [hb] at h1; cases h1
    | some n1 =>
      simp only [forEachNode, hb]
      cases hr : forEachNode body rest with
      | none =>
        simp only [Option.map_none']
        constructor
        · intro h; cases h
        · intro h; cases h with
          | cons h1 h2 => rw [(ih _).mpr h2] at hr; cases hr
      | some r =>
        simp only [Option.map_some', Option.some.injEq]
        constructor
        · intro h; subst h; exact List.Forall₂.cons hb ((ih r).mp hr)
        · intro h; cases h with
          | cons h1 h2 =>
            rw [hb] at h1; cases h1
            rw [(ih _).mpr h2] at hr; cases hr; rfl

theorem forEachNode_total (body : MPNode → Option MPNode) (P : MPNode → Prop)
    (R : MPNode → MPNode → Prop) (hb : ∀ n, P n → ∃ n1, body n = some n1 ∧ R n n1) :
    ∀ l : List MPNode, (∀ n ∈ l, P n) →
      ∃ l1, forEachNode body l = some l1 ∧ List.Forall₂ R l l1 := by
  intro l
  induction l with
  | nil => intro _; exact ⟨[], rfl, List.Forall₂.nil⟩
  | cons n rest ih =>
    intro h
    obtain ⟨n1, h1, h2⟩ := hb n (h n (List.mem_cons_self _ _))
    obtain ⟨r, h3, h4⟩ := ih (fun m hm => h m (List.mem_cons_of_mem _ hm))
    exact ⟨n1 :: r, by simp [forEachNode, h1, h3], List.Forall₂.cons h2 h4⟩

theorem freeAddressFor_eq (free : List QByteArray) (addr : QByteArray) (virt : Nat)
    (set : QByteArray → MPNode) (node : MPNode) (h : VirtualIdValid free addr virt) :
    freeAddressFor free addr virt set node =
      some (if addr = [] then set (free.getD virt []) else node) := by
  unfold freeAddressFor
  by_cases ha : addr = []
  · have := h ha
    simp [ha, List.getD_eq_getElem?_getD, List.getElem?_eq_getElem this]
  · simp [ha]

theorem parentToFreeAddresses_spec (free : List QByteArray) (n : MPNode)
    (h : ParentFields (VirtualIdValid free) n) :
    ∃ n1, parentToFreeAddresses free n = some n1 ∧
      (ParentResolved free n n1 ∧
        (ParentFields (FreeAddressPhysical free) n → ParentFields (fun a _ => a ≠ []) n1)) := by
  obtain ⟨h1, h2, h3, h4⟩ := h
  unfold parentToFreeAddresses
  rw [freeAddressFor_eq _ _ _ _ _ h1]
  simp only [Option.some_bind]
  rw [freeAddressFor_eq _ _ _ _ _ (by split_ifs <;> simpa [MPNode.setAddress] using h2)]
  simp only [Option.some_bind]
  rw [freeAddressFor_eq _ _ _ _ _ (by
    split_ifs <;> simpa [MPNode.setAddress, MPNode.setNextParentAddress] using h3)]
  simp only [Option.some_bind]
  rw [freeAddressFor_eq _ _ _ _ _ (by
    split_ifs <;> simpa [MPNode.setAddress, MPNode.setNextParentAddress,
      MPNode.setPreviousParentAddress] using h4)]
  refine ⟨_, rfl, ?_, ?_⟩
  · unfold ParentResolved resolvedAddress
    split_ifs <;> simp_all [MPNode.setAddress, MPNode.setNextParentAddress,
      MPNode.setPreviousParentAddress, MPNode.setStartChildAddress]
  · rintro ⟨p1, p2, p3, p4⟩
    unfold ParentFields
    unfold FreeAddressPhysical at p1 p2 p3 p4
    split_ifs <;> simp_all [MPNode.setAddress, MPNode.setNextParentAddress,
      MPNode.setPreviousParentAddress, MPNode.setStartChildAddress]

theorem childToFreeAddresses_spec (free : List QByteArray) (n : MPNode)
    (h : ChildFields (VirtualIdValid free) n) :
    ∃ n1, childToFreeAddresses free n = some n1 ∧
      (ChildResolved free n n1 ∧
        (ChildFields (FreeAddressPhysical free) n → ChildFields (fun a _ => a ≠ []) n1)) := by
  obtain ⟨h1, h2, h3⟩ := h
  unfold childToFreeAddresses
  rw [freeAddressFor_eq _ _ _ _ _ h1]
  simp only [Option.some_bind]
  rw [freeAddressFor_eq _ _ _ _ _ (by split_ifs <;> simpa [MPNode.setAddress] using h2)]
  simp only [Option.some_bind]
  rw [freeAddressFor_eq _ _ _ _ _ (by
    split_ifs <;> simpa [MPNode.setAddress, MPNode.setNextChildAddress] using h3)]
  refine ⟨_, rfl, ?_, ?_⟩
  · unfold ChildResolved resolvedAddress
    split_ifs <;> simp_all [MPNode.setAddress, MPNode.setNextChildAddress,
      MPNode.setPreviousChildAddress]
  · rintro ⟨p1, p2, p3⟩
    unfold ChildFields
    unfold FreeAddressPhysical at p1 p2 p3
    split_ifs <;> simp_all [MPNode.setAddress, MPNode.setNextChildAddress,
      MPNode.setPreviousChildAddress]

theorem dataChildToFreeAddresses_spec (free : List QByteArray) (n : MPNode)
    (h : DataChildFields (VirtualIdValid free) n) :
    ∃ n1, dataChildToFreeAddresses free n = some n1 ∧
      (DataChildResolved free n n1 ∧
        (DataChildFields (FreeAddressPhysical free) n →
          DataChildFields (fun a _ => a ≠ []) n1)) := by
  obtain ⟨h1, h2⟩ := h
  unfold dataChildToFreeAddresses
  rw [freeAddressFor_eq _ _ _ _ _ h1]
  simp only [Option.some_bind]
  rw [freeAddressFor_eq _ _ _ _ _ (by split_ifs <;> simpa [MPNode.setAddress] using h2)]
  refine ⟨_, rfl, ?_, ?_⟩
  · unfold DataChildResolved resolvedAddress
    split_ifs <;> simp_all [MPNode.setAddress, MPNode.setNextChildDataAddress]
  · rintro ⟨p1, p2⟩
    unfold DataChildFields
    unfold FreeAddressPhysical at p1 p2
    split_ifs <;> simp_all [MPNode.setAddress, MPNode.setNextChildDataAddress]


theorem forall₂_of_nodeAt (R : MPNode → MPNode → Prop) (l l1 : List MPNode)
    (hl : l.length = l1.length) (h : ∀ i, i < l.length → R (nodeAt l i) (nodeAt l1 i)) :
    List.Forall₂ R l l1 := by
  rw [List.forall₂_iff_get]
  refine ⟨hl, fun i h1 h2 => ?_⟩
  have := h i h1
  rw [nodeAt_eq_getElem l i h1, nodeAt_eq_getElem l1 i h2] at this
  exact this

theorem parentToFreeAddresses_physical (free : List QByteArray) (n : MPNode)
    (hp : ParentFields (fun a _ => a ≠ []) n) : parentToFreeAddresses free n = some n := by
  obtain ⟨h1, h2, h3, h4⟩ := hp
  simp [parentToFreeAddresses, freeAddressFor, h1, h2, h3, h4]

theorem childToFreeAddresses_physical (free : List QByteArray) (n : MPNode)
    (hp : ChildFields (fun a _ => a ≠ []) n) : childToFreeAddresses free n = some n := by
  obtain ⟨h1, h2, h3⟩ := hp
  simp [childToFreeAddresses, freeAddressFor, h1, h2, h3]

theorem dataChildToFreeAddresses_physical (free : List QByteArray) (n : MPNode)
    (hp : DataChildFields (fun a _ => a ≠ []) n) :
    dataChildToFreeAddresses free n = some n := by
  obtain ⟨h1, h2⟩ := hp
  simp [dataChildToFreeAddresses, freeAddressFor, h1, h2]

theorem forEachNode_id (body : MPNode → Option MPNode) (l : List MPNode)
    (h : ∀ n ∈ l, body n = some n) : forEachNode body l = some l := by
  induction l with
  | nil => rfl
  | cons n rest ih =>
    simp [forEachNode, h n (List.mem_cons_self _ _),
      ih (fun m hm => h m (List.mem_cons_of_mem _ hm))]

theorem parent_round_trip (free : List QByteArray) (n : MPNode) (k : Nat) (A : QByteArray)
    (b1 b2 b3 : Prop) [Decidable b1] [Decidable b2] [Decidable b3]
    (hfree : free[k]? = some A) (hp : ParentFields (fun a _ => a ≠ []) n)
    (h1 : b1 → n.address = A ∧ n.virtualAddress = 0)
    (h2 : b2 → n.nextParentAddress = A ∧ n.nextParentVirtualAddress = 0)
    (h3 : b3 → n.previousParentAddress = A ∧ n.prevParentVirtualAddress = 0) :
    parentToFreeAddresses free
      ((fun m : MPNode => if b3 then m.setPreviousParentAddress [] k else m)
        ((fun m : MPNode => if b2 then m.setNextParentAddress [] k else m)
          (if b1 then n.setAddress [] k else n))) = some n := by
  obtain ⟨p1, p2, p3, p4⟩ := hp
  cases n
  by_cases c1 : b1 <;> by_cases c2 : b2 <;> by_cases c3 : b3 <;>
    simp_all [parentToFreeAddresses, freeAddressFor, MPNode.setAddress,
      MPNode.setNextParentAddress, MPNode.setPreviousParentAddress]

theorem changeVirtualAddresses_round_trip (s : Session) (isData : Bool) (j i l k : Nat)
    (hp : AllFields (fun a _ => a ≠ []) s)
    (hfree : s.freeAddresses[k]? = some (nodeAt (s.parentList isData) j).address)
    (hj : (nodeAt (s.parentList isData) j).virtualAddress = 0)
    (hi : (nodeAt (s.parentList isData) i).nextParentAddress =
        (nodeAt (s.parentList isData) j).address ∧
      (nodeAt (s.parentList isData) i).nextParentVirtualAddress = 0)
    (hl : (nodeAt (s.parentList isData) l).previousParentAddress =
        (nodeAt (s.parentList isData) j).address ∧
      (nodeAt (s.parentList isData) l).prevParentVirtualAddress = 0) :
    changeVirtualAddressesToFreeAddresses (virtualiseParent s isData j i l k) = some s := by
  obtain ⟨q1, q2, q3, q4⟩ := hp
  have hlist : ∀ L : List MPNode, (∀ n ∈ L, ParentFields (fun a _ => a ≠ []) n) →
      s.freeAddresses[k]? = some (nodeAt L j).address → (nodeAt L j).virtualAddress = 0 →
      ((nodeAt L i).nextParentAddress = (nodeAt L j).address ∧
        (nodeAt L i).nextParentVirtualAddress = 0) →
      ((nodeAt L l).previousParentAddress = (nodeAt L j).address ∧
        (nodeAt L l).prevParentVirtualAddress = 0) →
      forEachNode (parentToFreeAddresses s.freeAddresses)
        (updateNode (updateNode (updateNode L j (fun n => n.setAddress [] k)) i
          (fun n => n.setNextParentAddress [] k)) l
          (fun n => n.setPreviousParentAddress [] k)) = some L := by
    intro L hL hfree hj hi hl
    rw [forEachNode_eq_some]
    apply forall₂_of_nodeAt
    · simp [length_updateNode]
    · intro idx hidx
      simp only [length_updateNode] at hidx
      rw [nodeAt_updateNode, nodeAt_updateNode, nodeAt_updateNode]
      simp only [length_updateNode, hidx, and_true]
      have := parent_round_trip s.freeAddresses (nodeAt L idx) k (nodeAt L j).address
        (j = idx) (i = idx) (l = idx) hfree (hL _ (nodeAt_mem L idx hidx))
        (fun h => by subst h; exact ⟨rfl, hj⟩) (fun h => by subst h; exact hi)
        (fun h => by subst h; exact hl)
      by_cases c1 : j = idx <;> by_cases c2 : i = idx <;> by_cases c3 : l = idx <;>
        simpa [c1, c2, c3] using this
  cases isData with
  | false =>
    simp only [Session.parentList, Bool.false_eq_true, if_false] at hfree hj hi hl
    simp only [changeVirtualAddressesToFreeAddresses, virtualiseParent, Session.parentList,
      Session.setParentList, Bool.false_eq_true, if_false]
    rw [hlist s.loginNodes q1 hfree hj hi hl,
      forEachNode_id _ _ (fun n hn => childToFreeAddresses_physical _ n (q2 n hn)),
      forEachNode_id _ _ (fun n hn => parentToFreeAddresses_physical _ n (q3 n hn)),
      forEachNode_id _ _ (fun n hn => dataChildToFreeAddresses_physical _ n (q4 n hn))]
    rfl
  | true =>
    simp only [Session.parentList, if_true] at hfree hj hi hl
    simp only [changeVirtualAddressesToFreeAddresses, virtualiseParent, Session.parentList,
      Session.setParentList, if_true]
    rw [hlist s.dataNodes q3 hfree hj hi hl,
      forEachNode_id _ _ (fun n hn => childToFreeAddresses_physical _ n (q2 n hn)),
      forEachNode_id _ _ (fun n hn => parentToFreeAddresses_physical _ n (q1 n hn)),
      forEachNode_id _ _ (fun n hn => dataChildToFreeAddresses_physical _ n (q4 n hn))]
    rfl

theorem changeVirtualAddresses_resolved (s : Session)
    (h : AllFields (VirtualIdValid s.freeAddresses) s) :
    ∃ s1, changeVirtualAddressesToFreeAddresses s = some s1 ∧
      List.Forall₂ (ParentResolved s.freeAddresses) s.loginNodes s1.loginNodes ∧
      List.Forall₂ (ChildResolved s.freeAddresses) s.loginChildNodes s1.loginChildNodes ∧
      List.Forall₂ (ParentResolved s.freeAddresses) s.dataNodes s1.dataNodes ∧
      List.Forall₂ (DataChildResolved s.freeAddresses) s.dataChildNodes s1.dataChildNodes ∧
      (AllFields (FreeAddressPhysical s.freeAddresses) s →
        AllFields (fun a _ => a ≠ []) s1) := by
  obtain ⟨h1, h2, h3, h4⟩ := h
  obtain ⟨l1, e1, r1⟩ := forEachNode_total _ _ _
    (parentToFreeAddresses_spec s.freeAddresses) s.loginNodes h1
  obtain ⟨l2, e2, r2⟩ := forEachNode_total _ _ _
    (childToFreeAddresses_spec s.freeAddresses) s.loginChildNodes h2
  obtain ⟨l3, e3, r3⟩ := forEachNode_total _ _ _
    (parentToFreeAddresses_spec s.freeAddresses) s.dataNodes h3
  obtain ⟨l4, e4, r4⟩ := forEachNode_total _ _ _
    (dataChildToFreeAddresses_spec s.freeAddresses) s.dataChildNodes h4
  have e : changeVirtualAddressesToFreeAddresses s = some
      { s with loginNodes := l1, loginChildNodes := l2, dataNodes := l3, dataChildNodes := l4 } := by
    simp only [changeVirtualAddressesToFreeAddresses, e1, e2, e3, e4, Option.some_bind,
      Option.map_some']
  refine ⟨_, e, ?_, ?_, ?_, ?_, ?_⟩
  · exact r1.imp (fun _ _ h => h.1)
  · exact r2.imp (fun _ _ h => h.1)
  · exact r3.imp (fun _ _ h => h.1)
  · exact r4.imp (fun _ _ h => h.1)
  · rintro ⟨p1, p2, p3, p4⟩
    have key : ∀ (A B : MPNode → Prop) (R : MPNode → MPNode → Prop) (l l1 : List MPNode),
        List.Forall₂ (fun n n1 => R n n1 ∧ (A n → B n1)) l l1 → (∀ n ∈ l, A n) →
        ∀ n ∈ l1, B n := by
      intro A B R l l1 hf
      induction hf with
      | nil => intro _ n hn; cases hn
      | cons hh _ ih =>
        intro ha n hn
        rcases List.mem_cons.mp hn with rfl | hn
        · exact hh.2 (ha _ (List.mem_cons_self _ _))
        · exact ih (fun m hm => ha m (List.mem_cons_of_mem _ hm)) n hn
    exact ⟨key _ _ _ _ _ r1 p1, key _ _ _ _ _ r2 p2, key _ _ _ _ _ r3 p3,
      key _ _ _ _ _ r4 p4⟩


/-- C19: when every virtual id a null address field carries is an index of `freeAddresses`,
`changeVirtualAddressesToFreeAddresses` gives every address field of every node of the four
lists (own address, next-parent, previous-parent and first-child pointers of parents,
next-child and previous-child pointers of children) the free address its virtual id indexes
when it was null and leaves it alone otherwise, and no such field is null afterwards provided
the free addresses referenced are physical. And when in a state without null field the address
of a parent is replaced by the virtual id `k`, in the node and in the pointers of its
neighbours, with `freeAddresses[k]` being that address, resolving gives the state back. -/
theorem C19_virtual_addresses_resolved (s : Session) :
    (AllFields (VirtualIdValid s.freeAddresses) s →
      ∃ s1, changeVirtualAddressesToFreeAddresses s = some s1 ∧
        List.Forall₂ (ParentResolved s.freeAddresses) s.loginNodes s1.loginNodes ∧
        List.Forall₂ (ChildResolved s.freeAddresses) s.loginChildNodes s1.loginChildNodes ∧
        List.Forall₂ (ParentResolved s.freeAddresses) s.dataNodes s1.dataNodes ∧
        List.Forall₂ (DataChildResolved s.freeAddresses) s.dataChildNodes s1.dataChildNodes ∧
        (AllFields (FreeAddressPhysical s.freeAddresses) s →
          AllFields (fun a _ => a ≠ []) s1)) ∧
    (∀ (isData : Bool) (j i l k : Nat), AllFields (fun a _ => a ≠ []) s →
      s.freeAddresses[k]? = some (nodeAt (s.parentList isData) j).address →
      (nodeAt (s.parentList isData) j).virtualAddress = 0 →
      ((nodeAt (s.parentList isData) i).nextParentAddress =
          (nodeAt (s.parentList isData) j).address ∧
        (nodeAt (s.parentList isData) i).nextParentVirtualAddress = 0) →
      ((nodeAt (s.parentList isData) l).previousParentAddress =
          (nodeAt (s.parentList isData) j).address ∧
        (nodeAt (s.parentList isData) l).prevParentVirtualAddress = 0) →
      changeVirtualAddressesToFreeAddresses (virtualiseParent s isData j i l k) = some s) :=
  ⟨changeVirtualAddresses_resolved s,
    fun isData j i l k hp hfree hj hi hl =>
      changeVirtualAddresses_round_trip s isData j i l k hp hfree hj hi hl⟩

/-- C19 on the clean database whose second credential parent has been given the virtual
id 1: resolving succeeds, and gives the clean database back. -/
theorem C19_virtual_addresses_resolved_witness :
    AllFields (VirtualIdValid (virtualiseParent cleanDbFree false 1 0 2 1).freeAddresses)
      (virtualiseParent cleanDbFree false 1 0 2 1) ∧
    (∃ s1, changeVirtualAddressesToFreeAddresses (virtualiseParent cleanDbFree false 1 0 2 1) =
      some s1) ∧
    AllFields (fun a _ => a ≠ []) cleanDbFree ∧
    changeVirtualAddressesToFreeAddresses (virtualiseParent cleanDbFree false 1 0 2 1) =
      some cleanDbFree := by
  have h1 : AllFields (VirtualIdValid (virtualiseParent cleanDbFree false 1 0 2 1).freeAddresses)
      (virtualiseParent cleanDbFree false 1 0 2 1) := by
    unfold AllFields ParentFields ChildFields DataChildFields VirtualIdValid
    decide
  have h2 : AllFields (fun a _ => a ≠ []) cleanDbFree := by
    unfold AllFields ParentFields ChildFields DataChildFields
    decide
  obtain ⟨s1, e, -⟩ := (C19_virtual_addresses_resolved
    (virtualiseParent cleanDbFree false 1 0 2 1)).1 h1
  exact ⟨h1, ⟨s1, e⟩, h2,
    (C19_virtual_addresses_resolved cleanDbFree).2 false 1 0 2 1 h2 (by decide) (by decide)
      (by decide) (by decide)⟩


/-! ## Saving -/

theorem resolveFrom_nodup (l : List MPNode) :
    ∀ (k0 k : Nat), (l.map MPNode.address).Nodup → k < l.length →
      resolveFrom (nodeAt l k).address l k0 = some (k0 + k) := by
  induction l with
  | nil => intro k0 k _ hk; simp at hk
  | cons n rest ih =>
    intro k0 k hnd hk
    simp only [List.map_cons, List.nodup_cons] at hnd
    cases k with
    | zero => simp [resolveFrom, nodeAt]
    | succ k =>
      have hk2 : k < rest.length := by simpa using hk
      have hne : n.address ≠ (nodeAt (n :: rest) (k + 1)).address := by
        intro h
        apply hnd.1
        rw [h]
        have : nodeAt (n :: rest) (k + 1) = nodeAt rest k := by simp [nodeAt]
        rw [this]
        exact List.mem_map_of_mem _ (nodeAt_mem rest k hk2)
      simp only [resolveFrom, hne, if_false]
      have : nodeAt (n :: rest) (k + 1) = nodeAt rest k := by simp [nodeAt]
      rw [this, ih (k0 + 1) k hnd.2 hk2]
      congr 1; omega

/-- With distinct addresses, the address of a node resolves to that node. -/
theorem resolve_nodup (l : List MPNode) (k : Nat) (hnd : (l.map MPNode.address).Nodup)
    (hk : k < l.length) : resolve l (nodeAt l k).address = some k := by
  have := resolveFrom_nodup l 0 k hnd hk
  simpa [resolve] using this

/-- An address that a node of the list has resolves. -/
theorem resolveFrom_of_mem (a : QByteArray) (l : List MPNode) :
    ∀ k : Nat, (∃ m ∈ l, m.address = a) → ∃ j, resolveFrom a l k = some j := by
  induction l with
  | nil => intro k ⟨m, hm, _⟩; cases hm
  | cons n rest ih =>
    intro k ⟨m, hm, hma⟩
    by_cases hn : n.address = a
    · exact ⟨k, by simp [resolveFrom, hn]⟩
    · have hm2 : m ∈ rest := by
        rcases List.mem_cons.mp hm with h | h
        · exact absurd (h ▸ hma) hn
        · exact h
      obtain ⟨j, hj⟩ := ih (k + 1) ⟨m, hm2, hma⟩
      exact ⟨j, by simp [resolveFrom, hn, hj]⟩

/-- A physical address that a node of the list has is found, whatever the other nodes of
the list are. -/
theorem findNodeFrom_of_mem (a : QByteArray) (v : Nat) (ha : a ≠ []) (l : List MPNode) :
    ∀ k : Nat, (∃ m ∈ l, m.address = a) → ∃ j, findNodeFrom a v l k = some j := by
  induction l with
  | nil => intro k ⟨m, hm, _⟩; cases hm
  | cons n rest ih =>
    intro k ⟨m, hm, hma⟩
    by_cases hn : nodeMatches a v n = true
    · exact ⟨k, by simp [findNodeFrom, hn]⟩
    · have hm2 : m ∈ rest := by
        rcases List.mem_cons.mp hm with h | h
        · subst h
          exfalso
          apply hn
          have hne : m.address ≠ [] := by rw [hma]; exact ha
          unfold nodeMatches
          rw [if_neg hne]
          exact decide_eq_true hma
        · exact h
      obtain ⟨j, hj⟩ := ih (k + 1) ⟨m, hm2, hma⟩
      exact ⟨j, by simp [findNodeFrom, hn, hj]⟩

/-- A node of the live list is found in a clone list of physical addresses, with the same
node data. -/
theorem sameNodes_find {live clone : List MPNode} (h : SameNodes live clone)
    (hp : ∀ m ∈ clone, m.address ≠ []) (n : MPNode) (hn : n ∈ live) (v : Nat) :
    ∃ j, findNodeWithAddressInList clone n.address v = some j ∧
      (nodeAt clone j).getNodeData = n.getNodeData := by
  obtain ⟨j, hj⟩ := resolveFrom_of_mem n.address clone 0 (h.1 n hn)
  have hj2 : resolve clone n.address = some j := hj
  obtain ⟨hlt, haddr⟩ := resolve_some clone n.address j hj2
  refine ⟨j, by rw [find_eq_resolve clone _ v hp]; exact hj2, ?_⟩
  exact (h.2.2 n hn (nodeAt clone j) (nodeAt_mem clone j hlt) haddr).symm

/-- A node of a clone list of physical addresses is found in the live list. -/
theorem sameNodes_find_live {live clone : List MPNode} (h : SameNodes live clone)
    (hp : ∀ m ∈ clone, m.address ≠ []) (m : MPNode) (hm : m ∈ clone) (v : Nat) :
    ∃ j, findNodeWithAddressInList live m.address v = some j :=
  findNodeFrom_of_mem m.address v (hp m hm) live 0 (h.2.1 m hm)

/-- The clone of a list of physical addresses that has the same nodes has physical
addresses. -/
theorem sameNodes_phys {live clone : List MPNode} (h : SameNodes live clone)
    (hp : ∀ n ∈ live, n.address ≠ []) : ∀ m ∈ clone, m.address ≠ [] := by
  intro m hm
  obtain ⟨n, hn, hnm⟩ := h.2.1 m hm
  rw [← hnm]
  exact hp n hn

/-- Lists with the same addresses and node data, position by position, have the same
nodes as a third list. -/
theorem sameNodes_congr {l1 l2 c : List MPNode}
    (h : l1.map (fun n => (n.address, n.getNodeData)) =
      l2.map (fun n => (n.address, n.getNodeData)))
    (hn : SameNodes l2 c) : SameNodes l1 c := by
  have key : ∀ n ∈ l1, ∃ n2 ∈ l2, n2.address = n.address ∧ n2.getNodeData = n.getNodeData := by
    intro n hn1
    have h1 : (n.address, n.getNodeData) ∈ l1.map (fun n => (n.address, n.getNodeData)) :=
      List.mem_map_of_mem _ hn1
    rw [h] at h1
    obtain ⟨n2, hn2, e⟩ := List.mem_map.mp h1
    simp only [Prod.mk.injEq] at e
    exact ⟨n2, hn2, e.1, e.2⟩
  have key2 : ∀ n2 ∈ l2, ∃ n ∈ l1, n.address = n2.address := by
    intro n2 hn2
    have h1 : (n2.address, n2.getNodeData) ∈ l2.map (fun n => (n.address, n.getNodeData)) :=
      List.mem_map_of_mem _ hn2
    rw [← h] at h1
    obtain ⟨n, hn1, e⟩ := List.mem_map.mp h1
    simp only [Prod.mk.injEq] at e
    exact ⟨n, hn1, e.1⟩
  refine ⟨?_, ?_, ?_⟩
  · intro n hn1
    obtain ⟨n2, hn2, ea, _⟩ := key n hn1
    obtain ⟨m, hm, hma⟩ := hn.1 n2 hn2
    exact ⟨m, hm, hma.trans ea⟩
  · intro m hm
    obtain ⟨n2, hn2, hnm⟩ := hn.2.1 m hm
    obtain ⟨n, hn1, e⟩ := key2 n2 hn2
    exact ⟨n, hn1, e.trans hnm⟩
  · intro n hn1 m hm hma
    obtain ⟨n2, hn2, ea, ed⟩ := key n hn1
    rw [← ed]
    exact hn.2.2 n2 hn2 m hm (hma.trans ea.symm)

theorem foldl_savePassChanged (live clone : List MPNode) (flag : Bool)
    (h : ∀ n ∈ live, ∃ j, findNodeWithAddressInList clone n.address 0 = some j ∧
      (nodeAt clone j).getNodeData = n.getNodeData) :
    live.foldl (savePassChanged clone) flag = flag := by
  induction live with
  | nil => rfl
  | cons n rest ih =>
    obtain ⟨j, h1, h2⟩ := h n (List.mem_cons_self _ _)
    simp only [List.foldl_cons, savePassChanged, h1, h2, ne_eq, not_true_eq_false, if_false]
    exact ih (fun m hm => h m (List.mem_cons_of_mem _ hm))

theorem foldl_savePassChangedLogin (live clone : List MPNode) (flag : Bool)
    (h : ∀ n ∈ live, ∃ j, findNodeWithAddressInList clone n.address 0 = some j) :
    live.foldl (savePassChangedLogin clone) flag = flag := by
  induction live with
  | nil => rfl
  | cons n rest ih =>
    obtain ⟨j, h1⟩ := h n (List.mem_cons_self _ _)
    simp only [List.foldl_cons, savePassChangedLogin, h1, ne_eq, not_true_eq_false, if_false]
    exact ih (fun m hm => h m (List.mem_cons_of_mem _ hm))

theorem foldl_savePassRemoved (live clone : List MPNode) (flag : Bool)
    (h : ∀ n ∈ clone, ∃ j, findNodeWithAddressInList live n.address 0 = some j) :
    clone.foldl (savePassRemoved live) flag = flag := by
  induction clone with
  | nil => rfl
  | cons n rest ih =>
    obtain ⟨j, h1⟩ := h n (List.mem_cons_self _ _)
    simp only [List.foldl_cons, savePassRemoved, h1]
    exact ih (fun m hm => h m (List.mem_cons_of_mem _ hm))

theorem saveFavorites_same (clone : List QByteArray) :
    ∀ (favs : List QByteArray) (i : Nat) (flag : Bool), clone.drop i = favs →
      saveFavorites clone favs i flag = some flag := by
  intro favs
  induction favs with
  | nil => intro i flag _; rfl
  | cons f rest ih =>
    intro i flag h
    have hi : i < clone.length := by
      by_contra hc
      rw [List.drop_eq_nil_of_le (by omega)] at h
      cases h
    have h1 : clone[i]? = some f := by
      have := congrArg (fun l => l[0]?) h
      simpa [List.getElem?_drop] using this
    have h2 : clone.drop (i + 1) = rest := by
      have := congrArg List.tail h
      simpa [List.tail_drop] using this
    simp only [saveFavorites, h1, ne_eq, not_true_eq_false, if_false]
    exact ih (i + 1) flag h2

theorem foldl_saveCpzCtr (entries clone : List QByteArray) (flag : Bool)
    (h : ∀ e ∈ entries, e ∈ clone) : entries.foldl (saveCpzCtr clone) flag = flag := by
  induction entries with
  | nil => rfl
  | cons e rest ih =>
    have h1 : clone.any (fun c => decide (e = c)) = true := by
      rw [List.any_eq_true]
      exact ⟨e, h e (List.mem_cons_self _ _), by simp⟩
    simp only [List.foldl_cons, saveCpzCtr, h1, if_true]
    exact ih (fun m hm => h m (List.mem_cons_of_mem _ hm))

theorem generateSavePackets_same (s : Session) (hp : ClonePhysical s) (h : LiveEqualsClone s) :
    generateSavePackets s = some (true, s) := by
  obtain ⟨p1, p2, p3, p4⟩ := hp
  obtain ⟨n1, n2, n3, n4, hf, hc, hs, hsd, hz⟩ := h
  have k1 := foldl_savePassChanged s.loginNodes s.loginNodesClone
    s.diagSavePacketsGenerated (fun n hn => sameNodes_find n1 p1 n hn 0)
  have k2 := foldl_savePassChangedLogin s.loginChildNodes s.loginChildNodesClone
    s.diagSavePacketsGenerated (fun n hn => (sameNodes_find n2 p2 n hn 0).imp fun _ h => h.1)
  have k3 := foldl_savePassChanged s.dataNodes s.dataNodesClone
    s.diagSavePacketsGenerated (fun n hn => sameNodes_find n3 p3 n hn 0)
  have k4 := foldl_savePassChanged s.dataChildNodes s.dataChildNodesClone
    s.diagSavePacketsGenerated (fun n hn => sameNodes_find n4 p4 n hn 0)
  have k5 := foldl_savePassRemoved s.loginNodes s.loginNodesClone
    s.diagSavePacketsGenerated (fun n hn => sameNodes_find_live n1 p1 n hn 0)
  have k6 := foldl_savePassRemoved s.loginChildNodes s.loginChildNodesClone
    s.diagSavePacketsGenerated (fun n hn => sameNodes_find_live n2 p2 n hn 0)
  have k7 := foldl_savePassRemoved s.dataNodes s.dataNodesClone
    s.diagSavePacketsGenerated (fun n hn => sameNodes_find_live n3 p3 n hn 0)
  have k8 := foldl_savePassRemoved s.dataChildNodes s.dataChildNodesClone
    s.diagSavePacketsGenerated (fun n hn => sameNodes_find_live n4 p4 n hn 0)
  have k9 := saveFavorites_same s.favoritesAddrsClone s.favoritesAddrs 0
    s.diagSavePacketsGenerated (by simpa using hf.symm)
  have k13 := foldl_saveCpzCtr s.cpzCtrValue s.cpzCtrValueClone s.diagSavePacketsGenerated hz
  simp only [generateSavePackets, k1, k2, k3, k4, k5, k6, k7, k8, k9, hc, hs, hsd, ne_eq,
    not_true_eq_false, if_false, k13]
  cases s
  simp_all

/-- When the live lists have physical addresses and the live state equals the clone, the
clone lists have physical addresses. -/
theorem clonePhysical_of_distinct {s : Session} (hd : AllDistinct s) (h : LiveEqualsClone s) :
    ClonePhysical s :=
  ⟨sameNodes_phys h.1 hd.1.1, sameNodes_phys h.2.1 hd.2.1.1, sameNodes_phys h.2.2.1 hd.2.2.1.1,
    sameNodes_phys h.2.2.2.1 hd.2.2.2.1⟩

/-- C14, as stated, fails on a state with a node that has no address: in `nullAddressDb`
the live state is the clone state, list by list and node by node, and the write flag is
unset; looking in the clone list for the address of the second credential parent,
`generateSavePackets` finds the first node, which has no address and the virtual id 0, and
sets the write flag because its node data is not that of the second parent. -/
theorem C14_null_address_counterexample :
    LiveEqualsClone nullAddressDb ∧
    nullAddressDb.loginNodes = nullAddressDb.loginNodesClone ∧
    nullAddressDb.diagSavePacketsGenerated = false ∧
    findNodeWithAddressInList nullAddressDb.loginNodesClone
      (nodeAt nullAddressDb.loginNodes 1).address 0 = some 0 ∧
    generateSavePackets nullAddressDb =
      some (true, { nullAddressDb with diagSavePacketsGenerated := true }) := by
  refine ⟨?_, rfl, rfl, by decide, by rfl⟩
  unfold LiveEqualsClone SameNodes
  decide

/-- C14, amended: when the live state equals the clone (each of the four live lists has the
addresses of its clone list, with the same node data at each address, in whatever order;
the favorites, the CTR value and the two start addresses are those of the clone; every
CPZ/CTR entry is among those of the clone) and no node of the clone lists has a null
address, `generateSavePackets` returns true and leaves the state as it is: a flag
`diagSavePacketsGenerated` that was not set stays unset. -/
theorem C14_no_write_when_live_equals_clone (s : Session) (hp : ClonePhysical s)
    (h : LiveEqualsClone s) (hflag : s.diagSavePacketsGenerated = false) :
    ∃ s1, generateSavePackets s = some (true, s1) ∧ s1.diagSavePacketsGenerated = false ∧
      s1 = s :=
  ⟨s, generateSavePackets_same s hp h, hflag, rfl⟩

theorem cleanDb_distinct : AllDistinct cleanDb := by
  unfold AllDistinct AddressesDistinct
  decide

theorem cleanDb_liveEqualsClone : LiveEqualsClone cleanDb := by
  unfold LiveEqualsClone SameNodes
  decide

theorem sortedDb_distinct : AllDistinct sortedDb := by
  unfold AllDistinct AddressesDistinct
  decide

theorem sortedDb_liveEqualsClone : LiveEqualsClone sortedDb := by
  unfold LiveEqualsClone SameNodes
  decide

theorem sortedDb_clonePhysical : ClonePhysical sortedDb := by
  unfold ClonePhysical
  decide

/-- C14 on the database of the self-test, whose live parent lists are sorted by service and
whose clone lists are in the order of the scan. -/
theorem C14_no_write_when_live_equals_clone_witness :
    ClonePhysical sortedDb ∧ LiveEqualsClone sortedDb ∧
    sortedDb.diagSavePacketsGenerated = false ∧
    sortedDb.loginNodes ≠ sortedDb.loginNodesClone ∧
    ∃ s1, generateSavePackets sortedDb = some (true, s1) ∧ s1.diagSavePacketsGenerated = false ∧
      s1 = sortedDb :=
  ⟨sortedDb_clonePhysical, sortedDb_liveEqualsClone, rfl, by decide,
    C14_no_write_when_live_equals_clone sortedDb sortedDb_clonePhysical
      sortedDb_liveEqualsClone rfl⟩

/-- C15, the change `generateSavePackets` misses: in `changedLoginDb` the first credential
child has other node data than the clone node at its address, every other part of the live
state is that of the clone, and `generateSavePackets` leaves the flag unset; the same change
made to a credential parent sets it. -/
theorem C15_changed_login_child_not_saved :
    (∃ j, findNodeWithAddressInList changedLoginDb.loginChildNodesClone
        (nodeAt changedLoginDb.loginChildNodes 0).address 0 = some j ∧
      (nodeAt changedLoginDb.loginChildNodes 0).getNodeData ≠
        (nodeAt changedLoginDb.loginChildNodesClone j).getNodeData) ∧
    changedLoginDb.diagSavePacketsGenerated = false ∧
    generateSavePackets changedLoginDb = some (true, changedLoginDb) ∧
    generateSavePackets changedServiceDb =
      some (true, { changedServiceDb with diagSavePacketsGenerated := true }) :=
  ⟨⟨0, by decide, by decide⟩, rfl, by decide, by decide⟩


/-! ## Orphan children and favorites -/

theorem tagPointedNodes_favs (b : Bool) (s : Session) (r : Bool × Session)
    (h : tagPointedNodes b s = some r) : r.2.favoritesAddrs = s.favoritesAddrs := by
  have h1 := tagPointedNodes_favorites b s s.favoritesAddrs
  have h2 : ({ s with favoritesAddrs := s.favoritesAddrs } : Session) = s := rfl
  rw [h2, h] at h1
  simp only [Option.map_some', Option.some.injEq] at h1
  rw [h1]

theorem addOrphanParentToDB_favs (i : Nat) (d : Bool) (s : Session) (r : Bool × Session)
    (h : addOrphanParentToDB i d s = some r) : r.2.favoritesAddrs = s.favoritesAddrs := by
  have key : ∀ (t : Session), t.favoritesAddrs = s.favoritesAddrs →
      (tagPointedNodes true t).map (fun r => (true, r.2)) = some r →
      r.2.favoritesAddrs = s.favoritesAddrs := by
    intro t ht hr
    cases hq : tagPointedNodes true t with
    | none => rw [hq] at hr; cases hr
    | some q =>
      rw [hq] at hr
      simp only [Option.map_some', Option.some.injEq] at hr
      rw [← hr, ← ht]
      exact tagPointedNodes_favs true t q hq
  have hset : ∀ (t : Session) (l : List MPNode),
      (t.setParentList d l).favoritesAddrs = t.favoritesAddrs := by
    intro t l; cases d <;> rfl
  have hstart : ∀ (t : Session) (a : QByteArray) (v : Nat),
      (t.setStartParent d a v).favoritesAddrs = t.favoritesAddrs := by
    intro t a v; cases d <;> rfl
  unfold addOrphanParentToDB at h
  simp only at h
  split_ifs at h with h1
  · cases h; rfl
  · split at h
    · split_ifs at h with h2
      · exact key _ (by rw [hset, hstart]) h
      · split at h
        · cases h; rfl
        · exact key _ (by rw [hset]) h
    · exact key _ (by rw [hset, hstart]) h
    · exact key _ (by rw [hset]) h

theorem orphanParentsLoop_favs (rep d : Bool) (idxs : List Nat) :
    ∀ (s : Session) (nb : Nat) (r : Session × Nat),
      orphanParentsLoop rep d idxs s nb = some r → r.1.favoritesAddrs = s.favoritesAddrs := by
  induction idxs with
  | nil => intro s nb r h; simp only [orphanParentsLoop, Option.some.injEq] at h; rw [← h]
  | cons i rest ih =>
    intro s nb r h
    simp only [orphanParentsLoop] at h
    split_ifs at h with h1 h2
    · exact ih s nb r h
    · cases ha : addOrphanParentToDB i d s with
      | none => rw [ha] at h; cases h
      | some q =>
        rw [ha] at h
        rw [ih q.2 (nb + 1) r h]
        exact addOrphanParentToDB_favs i d s q ha
    · exact ih s (nb + 1) r h

theorem checkFavorite_congr (s t : Session) (h1 : s.loginNodes = t.loginNodes)
    (h2 : s.loginChildNodes = t.loginChildNodes) (f : QByteArray) :
    checkFavorite s f = checkFavorite t f := by
  simp only [checkFavorite, h1, h2]

/-- What a pass of `checkLoadedNodes` makes of the favorites. -/
theorem checkLoadedNodesPass_favs (rep : Bool) (s : Session) (r : Bool × Session)
    (h : checkLoadedNodesPass rep s = some r) :
    r.2.favoritesAddrs = s.favoritesAddrs.map (checkFavorite r.2) := by
  unfold checkLoadedNodesPass at h
  cases ht : tagPointedNodes rep s with
  | none => rw [ht] at h; cases h
  | some t =>
    rw [ht] at h
    simp only at h
    cases h1 : orphanParentsLoop rep false (List.range t.2.loginNodes.length) t.2 0 with
    | none => rw [h1] at h; cases h
    | some p1 =>
      rw [h1] at h
      simp only at h
      have e2 := (orphanChildrenLoop_count rep (List.range p1.1.loginChildNodes.length) p1.1 0).1
      cases h3 : orphanParentsLoop rep true
          (List.range (orphanChildrenLoop rep (List.range p1.1.loginChildNodes.length)
            p1.1 0).1.dataNodes.length)
          (orphanChildrenLoop rep (List.range p1.1.loginChildNodes.length) p1.1 0).1 0 with
      | none => rw [h3] at h; cases h
      | some p3 =>
        rw [h3] at h
        simp only at h
        have hf : p3.1.favoritesAddrs = s.favoritesAddrs := by
          rw [orphanParentsLoop_favs _ _ _ _ _ _ h3, e2, orphanParentsLoop_favs _ _ _ _ _ _ h1,
            tagPointedNodes_favs rep s t ht]
        have hr : r.2 = checkFavorites p3.1 := by
          split_ifs at h <;> (cases h; rfl)
        rw [hr]
        simp only [checkFavorites]
        rw [hf]
        apply List.map_congr_left
        intro f _
        exact checkFavorite_congr _ _ rfl rfl f

theorem checkFavorite_cases (s : Session) (f : QByteArray) :
    (checkFavorite s f = f ∨ checkFavorite s f = f.map fun _ => 0) ∧
    (f.take 2 ≠ EmptyAddress →
      (findNodeWithAddressInList s.loginNodes (f.take 2) 0 = none ∨
        findNodeWithAddressInList s.loginChildNodes ((f.drop 2).take 2) 0 = none) →
      checkFavorite s f = f.map fun _ => 0) ∧
    (f.take 2 ≠ EmptyAddress → checkFavorite s f ≠ (f.map fun _ => 0) →
      (findNodeWithAddressInList s.loginNodes (f.take 2) 0).isSome ∧
        (findNodeWithAddressInList s.loginChildNodes ((f.drop 2).take 2) 0).isSome) := by
  unfold checkFavorite
  simp only [or_self]
  by_cases hp : f.take 2 = EmptyAddress
  · simp [hp]
  · simp only [ne_eq, hp, not_false_eq_true, if_true, forall_true_left]
    cases h1 : findNodeWithAddressInList s.loginNodes (f.take 2) 0 <;>
      cases h2 : findNodeWithAddressInList s.loginChildNodes ((f.drop 2).take 2) 0 <;>
      simp


theorem favoriteLookedUp_one (s : Session) (f0 : QByteArray) :
    FavoriteLookedUp s f0 (checkFavorite s f0) := by
  obtain ⟨h1, h2, h3⟩ := checkFavorite_cases s f0
  refine ⟨h1, h2, ?_⟩
  by_cases hz : checkFavorite s f0 = f0.map fun _ => 0
  · right; left
    rw [hz]
    intro b hb
    obtain ⟨_, _, rfl⟩ := List.mem_map.mp hb
    rfl
  · have he : checkFavorite s f0 = f0 := h1.resolve_right hz
    by_cases hp : f0.take 2 = EmptyAddress
    · left; rw [he]; exact hp
    · right; right; rw [he]; exact h3 hp hz

theorem favoriteLookedUp_two (s t : Session) (f0 : QByteArray) :
    FavoriteLookedUp s f0 (checkFavorite s (checkFavorite t f0)) := by
  have hzz : (f0.map fun _ => 0).map (fun _ => 0) = f0.map fun _ => 0 := by
    simp [List.map_map]
  obtain ⟨g1, g2, g3⟩ := favoriteLookedUp_one s (checkFavorite t f0)
  rcases (checkFavorite_cases t f0).1 with e | e
  · rw [e] at g1 g2 g3 ⊢
    exact ⟨g1, g2, g3⟩
  · rw [e] at g1 g2 g3 ⊢
    rw [hzz] at g1
    exact ⟨Or.inr (g1.elim id id), fun _ _ => g1.elim id id, g3⟩

theorem checkLoadedNodes_favorites (rep : Bool) (s s1 : Session) (b : Bool)
    (h : checkLoadedNodes rep s = some (b, s1)) :
    List.Forall₂ (FavoriteLookedUp s1) s.favoritesAddrs s1.favoritesAddrs := by
  unfold checkLoadedNodes at h
  cases hp : checkLoadedNodesPass rep s with
  | none => rw [hp] at h; cases h
  | some r =>
    rw [hp] at h
    simp only at h
    have e1 := checkLoadedNodesPass_favs rep s r hp
    have one : ∀ t : Session, t.favoritesAddrs = s.favoritesAddrs.map (checkFavorite t) →
        List.Forall₂ (FavoriteLookedUp t) s.favoritesAddrs t.favoritesAddrs := by
      intro t ht
      rw [ht, List.forall₂_map_right_iff]
      exact List.forall₂_same.mpr fun f _ => favoriteLookedUp_one t f
    split_ifs at h with h1 h2
    · cases h; exact one _ e1
    · cases h; exact one _ e1
    · cases hq : checkLoadedNodesPass false r.2 with
      | none => rw [hq] at h; cases h
      | some r2 =>
        rw [hq] at h
        cases h
        have e2 := checkLoadedNodesPass_favs false r.2 r2 hq
        rw [e2, e1, List.map_map, List.forall₂_map_right_iff]
        exact List.forall₂_same.mpr fun f _ => favoriteLookedUp_two r2.2 r.2 f

/-- In a list of physical addresses the lookup of an address succeeds exactly when a node
of the list has the address. -/
theorem find_isSome_iff (l : List MPNode) (a : QByteArray) (v : Nat)
    (hp : ∀ n ∈ l, n.address ≠ []) :
    (findNodeWithAddressInList l a v).isSome = true ↔ ∃ n ∈ l, n.address = a := by
  rw [find_eq_resolve l a v hp]
  constructor
  · intro h
    obtain ⟨i, hi⟩ := Option.isSome_iff_exists.mp h
    obtain ⟨hlt, haddr⟩ := resolve_some l a i hi
    exact ⟨nodeAt l i, nodeAt_mem l i hlt, haddr⟩
  · intro h
    obtain ⟨j, hj⟩ := resolveFrom_of_mem a l 0 h
    exact Option.isSome_iff_exists.mpr ⟨j, hj⟩

theorem find_none_iff (l : List MPNode) (a : QByteArray) (v : Nat)
    (hp : ∀ n ∈ l, n.address ≠ []) :
    findNodeWithAddressInList l a v = none ↔ ¬ ∃ n ∈ l, n.address = a := by
  rw [← find_isSome_iff l a v hp]
  cases findNodeWithAddressInList l a v <;> simp

/-- On credential lists of physical addresses, what the lookups of the favorites check
achieve is what the check is to achieve. -/
theorem favoriteChecked_of_lookedUp (s : Session) (f0 f : QByteArray)
    (hp : ∀ n ∈ s.loginNodes, n.address ≠ []) (hc : ∀ n ∈ s.loginChildNodes, n.address ≠ [])
    (h : FavoriteLookedUp s f0 f) : FavoriteChecked s f0 f := by
  obtain ⟨_, h2, h3⟩ := h
  constructor
  · intro hne
    rcases h3 with h | h | h
    · exact absurd h hne
    · exact Or.inl h
    · exact Or.inr ⟨(find_isSome_iff _ _ 0 hp).mp h.1, (find_isSome_iff _ _ 0 hc).mp h.2⟩
  · intro hne hmiss
    apply h2 hne
    rcases hmiss with h | h
    · exact Or.inl ((find_none_iff _ _ 0 hp).mpr h)
    · exact Or.inr ((find_none_iff _ _ 0 hc).mpr h)

/-- C12, the orphan that stays one: in `orphanLoginChildDb` the fourth credential child is
left untagged by the tag walk, and after `checkLoadedNodes(true)` it still is, no credential
parent has the service `_recovered_`, and no first-child or next-child pointer holds its
address. -/
theorem C12_orphan_child_not_rehomed :
    (tagPointedNodes true orphanLoginChildDb).map
        (fun r => (nodeAt r.2.loginChildNodes 3).pointedToCheck) = some false ∧
    (checkLoadedNodes true orphanLoginChildDb).map
        (fun r => (r.1, (nodeAt r.2.loginChildNodes 3).pointedToCheck,
          findNodeWithServiceInList r.2 ("_recovered_".toList.map Char.toNat),
          r.2.loginNodes.map MPNode.service,
          r.2.loginNodes.map MPNode.startChildAddress,
          r.2.loginChildNodes.map MPNode.nextChildAddress)) =
      some (false, false, none, [[103, 105, 116], [104, 110]], [[0x00, 0x09], [0x02, 0x09]],
        [[0x01, 0x09], [0, 0], [0, 0], [0, 0]]) :=
  ⟨by decide, by rfl⟩

/-- C13, two favorites the check keeps. In `strayFavoriteDb` the favorite names the first
credential parent and a child that is not on the child chain of that parent (the chain is
made of the first two children), and `checkLoadedNodes` keeps it. In
`virtualParentFavoriteDb` the parent address of the favorite is the address of no credential
parent, and `checkLoadedNodes` keeps it: the lookup of the address arrives at the parent
without address, whose virtual id is the one the lookup asks for. -/
theorem C13_stray_favorite_counterexample :
    ((checkLoadedNodes true strayFavoriteDb).map (fun r => r.2.favoritesAddrs) =
      some [[0x00, 0x08, 0x02, 0x09]] ∧
    resolve strayFavoriteDb.loginNodes [0x00, 0x08] = some 0 ∧
    ChildChain false strayFavoriteDb.loginNodes strayFavoriteDb.loginChildNodes 0 [0, 1] ∧
    (nodeAt strayFavoriteDb.loginChildNodes 0).address ≠ [0x02, 0x09] ∧
    (nodeAt strayFavoriteDb.loginChildNodes 1).address ≠ [0x02, 0x09]) ∧
    ((checkLoadedNodes false virtualParentFavoriteDb).map
        (fun r => (r.2.favoritesAddrs, r.2.loginNodes.map MPNode.address)) =
      some ([[5, 8, 1, 9]], [[]]) ∧
    (checkLoadedNodes true virtualParentFavoriteDb).map
        (fun r => (r.2.favoritesAddrs, r.2.loginNodes.map MPNode.address)) =
      some ([[5, 8, 1, 9]], [[]]) ∧
    (¬ ∃ n ∈ virtualParentFavoriteDb.loginNodes, n.address = [5, 8]) ∧
    findNodeWithAddressInList virtualParentFavoriteDb.loginNodes [5, 8] 0 = some 0) := by
  refine ⟨⟨by decide, by decide, ?_, by decide, by decide⟩, by rfl, by rfl, by decide, by rfl⟩
  unfold ChildChain ChainLinks PrevLinks
  simp only [ChainLinks, PrevLinks]
  decide

/-- C13, amended: when `checkLoadedNodes` has run and no node of the credential lists it
leaves has a null address, every favorite whose parent address is not empty is made of zero
bytes or has the address of a credential parent as its parent address and the address of a
credential child as its child address; and every favorite that had a parent address other
than the empty one, and a parent address that no credential parent has or a child address
that no credential child has, has been set to 0. -/
theorem C13_favorites_after_check (repairAllowed : Bool) (s s1 : Session) (b : Bool)
    (h : checkLoadedNodes repairAllowed s = some (b, s1))
    (hp : ∀ n ∈ s1.loginNodes, n.address ≠ [])
    (hc : ∀ n ∈ s1.loginChildNodes, n.address ≠ []) :
    List.Forall₂ (FavoriteChecked s1) s.favoritesAddrs s1.favoritesAddrs :=
  (checkLoadedNodes_favorites repairAllowed s s1 b h).imp
    (fun {f0 f} hf => favoriteChecked_of_lookedUp s1 f0 f hp hc hf)

/-- C13 on the example database, whose first favorite names the first credential parent
and its first child, and on the same database with the parent address of that favorite
replaced by an address no credential parent has: the favorite is set to 0. -/
theorem C13_favorites_after_check_witness :
    checkLoadedNodes true exampleDb = some (true, exampleDbTagged) ∧
    (∀ n ∈ exampleDbTagged.loginNodes, n.address ≠ []) ∧
    (∀ n ∈ exampleDbTagged.loginChildNodes, n.address ≠ []) ∧
    List.Forall₂ (FavoriteChecked exampleDbTagged) exampleDb.favoritesAddrs
      exampleDbTagged.favoritesAddrs ∧
    (checkLoadedNodes true { exampleDb with favoritesAddrs := [[5, 8, 0, 9]] }).map
      (fun r => r.2.favoritesAddrs) = some [[0, 0, 0, 0]] :=
  ⟨by decide, by decide, by decide,
    C13_favorites_after_check true exampleDb exampleDbTagged true (by decide) (by decide)
      (by decide), by decide⟩

/-! ## Flash geometry, knock sensitivity, leaving memory management -/

/-- C28, the flash size the table has wrong: with 32 Mb `getNodesPerPage` gives 4 and
`getNumberOfPages` gives 256 * 32, not 2 and 512 * 32. -/
theorem C28_flash_32_counterexample :
    getNodesPerPage 32 = 4 ∧ getNumberOfPages 32 = 256 * 32 ∧
    getNodesPerPage 32 ≠ 2 ∧ getNumberOfPages 32 ≠ 512 * 32 := by
  decide

/-- C28 as the code has it: for a flash size of 1, 2, 4 or 8 Mb `getNodesPerPage` gives 2 and
`getNumberOfPages` gives 512 times the size; for 16 or 32 Mb they give 4 and 256 times the
size. -/
theorem C28_flash_geometry (flashMbSize : Nat) :
    (flashMbSize ∈ [1, 2, 4, 8] →
      getNodesPerPage flashMbSize = 2 ∧ getNumberOfPages flashMbSize = 512 * flashMbSize) ∧
    (flashMbSize ∈ [16, 32] →
      getNodesPerPage flashMbSize = 4 ∧ getNumberOfPages flashMbSize = 256 * flashMbSize) := by
  constructor
  · intro h
    simp only [List.mem_cons, List.mem_singleton, List.not_mem_nil, or_false] at h
    rcases h with rfl | rfl | rfl | rfl <;> decide
  · intro h
    simp only [List.mem_cons, List.mem_singleton, List.not_mem_nil, or_false] at h
    rcases h with rfl | rfl <;> decide

/-- C28 at 8 Mb and at 32 Mb. -/
theorem C28_flash_geometry_witness :
    (8 ∈ [1, 2, 4, 8] ∧ getNodesPerPage 8 = 2 ∧ getNumberOfPages 8 = 512 * 8) ∧
    (32 ∈ [16, 32] ∧ getNodesPerPage 32 = 4 ∧ getNumberOfPages 32 = 256 * 32) :=
  ⟨⟨by decide, (C28_flash_geometry 8).1 (by decide)⟩,
    ⟨by decide, (C28_flash_geometry 32).2 (by decide)⟩⟩

/-- C29: for a flash size of 1, 2 or 32 Mb `getMemoryFirstNodeAddress` is the bytes 00 04,
the little-endian address 0x0400, which `getFlashPageFromAddress` and
`getNodeIdFromAddress` place at page 128, node 0; for 4, 8 or 16 Mb it is the bytes 00 08,
the address 0x0800, at page 256, node 0. -/
theorem C29_first_node_address (flashMbSize : Nat) :
    (flashMbSize ∈ [1, 2, 32] →
      getMemoryFirstNodeAddress flashMbSize = [0x00, 0x04] ∧
      byteAt (getMemoryFirstNodeAddress flashMbSize) 0 +
        256 * byteAt (getMemoryFirstNodeAddress flashMbSize) 1 = 0x0400 ∧
      getFlashPageFromAddress (getMemoryFirstNodeAddress flashMbSize) = 128 ∧
      getNodeIdFromAddress (getMemoryFirstNodeAddress flashMbSize) = 0) ∧
    (flashMbSize ∈ [4, 8, 16] →
      getMemoryFirstNodeAddress flashMbSize = [0x00, 0x08] ∧
      byteAt (getMemoryFirstNodeAddress flashMbSize) 0 +
        256 * byteAt (getMemoryFirstNodeAddress flashMbSize) 1 = 0x0800 ∧
      getFlashPageFromAddress (getMemoryFirstNodeAddress flashMbSize) = 256 ∧
      getNodeIdFromAddress (getMemoryFirstNodeAddress flashMbSize) = 0) := by
  constructor
  · intro h
    simp only [List.mem_cons, List.mem_singleton, List.not_mem_nil, or_false] at h
    rcases h with rfl | rfl | rfl <;> decide
  · intro h
    simp only [List.mem_cons, List.mem_singleton, List.not_mem_nil, or_false] at h
    rcases h with rfl | rfl | rfl <;> decide

/-- C29 at 32 Mb and at 16 Mb. -/
theorem C29_first_node_address_witness :
    (32 ∈ [1, 2, 32] ∧ getMemoryFirstNodeAddress 32 = [0x00, 0x04] ∧
      getFlashPageFromAddress (getMemoryFirstNodeAddress 32) = 128) ∧
    (16 ∈ [4, 8, 16] ∧ getMemoryFirstNodeAddress 16 = [0x00, 0x08] ∧
      getFlashPageFromAddress (getMemoryFirstNodeAddress 16) = 256) :=
  ⟨⟨by decide, ((C29_first_node_address 32).1 (by decide)).1,
      ((C29_first_node_address 32).1 (by decide)).2.2.1⟩,
    ⟨by decide, ((C29_first_node_address 16).2 (by decide)).1,
      ((C29_first_node_address 16).2 (by decide)).2.2.1⟩⟩

/-- C30: the check of the knock-threshold query maps the device byte 11 to 0, 8 to 1 and 5
to 2, `updateKnockSensitivity` maps 0 to 11, 1 to 8 and 2 to 5, and each undoes the other on
these values. -/
theorem C30_knock_sensitivity :
    (knockSensitivityCb [1, MP_GET_MOOLTIPASS_PARM, 11] = (true, some 0) ∧
      knockSensitivityCb [1, MP_GET_MOOLTIPASS_PARM, 8] = (true, some 1) ∧
      knockSensitivityCb [1, MP_GET_MOOLTIPASS_PARM, 5] = (true, some 2)) ∧
    (updateKnockSensitivity 0 = 11 ∧ updateKnockSensitivity 1 = 8 ∧
      updateKnockSensitivity 2 = 5) ∧
    (∀ s : Nat, s ∈ [0, 1, 2] →
      knockSensitivityCb [1, MP_GET_MOOLTIPASS_PARM, updateKnockSensitivity s] =
        (true, some s)) ∧
    (∀ b : Nat, b ∈ [11, 8, 5] →
      ∀ data : QByteArray, byteAt data MP_CMD_FIELD_INDEX = MP_GET_MOOLTIPASS_PARM →
        byteAt data 2 = b →
        ∃ s : Nat, knockSensitivityCb data = (true, some s) ∧ updateKnockSensitivity s = b) := by
  refine ⟨by decide, by decide, ?_, ?_⟩
  · intro s h
    simp only [List.mem_cons, List.mem_singleton, List.not_mem_nil, or_false] at h
    rcases h with rfl | rfl | rfl <;> decide
  · intro b h data hc hb
    simp only [List.mem_cons, List.mem_singleton, List.not_mem_nil, or_false] at h
    refine ⟨knockSensitivityOf b, by simp [knockSensitivityCb, hc, hb], ?_⟩
    rcases h with rfl | rfl | rfl <;> decide

/-- C30 at the sensitivity 2 and at the device byte 11. -/
theorem C30_knock_sensitivity_witness :
    ((2 : Nat) ∈ [0, 1, 2] ∧
      knockSensitivityCb [1, MP_GET_MOOLTIPASS_PARM, updateKnockSensitivity 2] =
        (true, some 2)) ∧
    ((11 : Nat) ∈ [11, 8, 5] ∧
      ∃ s : Nat, knockSensitivityCb [1, MP_GET_MOOLTIPASS_PARM, 11] = (true, some s) ∧
        updateKnockSensitivity s = 11) :=
  ⟨⟨by decide, C30_knock_sensitivity.2.2.1 2 (by decide)⟩,
    ⟨by decide, C30_knock_sensitivity.2.2.2 11 (by decide) [1, MP_GET_MOOLTIPASS_PARM, 11]
      (by decide) (by decide)⟩⟩

/-- C27, what the handlers leave: after the finished handler the clean database still has
its two start addresses and their clones, which are neither null nor the empty address. -/
theorem C27_start_addresses_counterexample :
    (exitMemMgmtModeFinished cleanDb).startNode = [1, 8] ∧
    (exitMemMgmtModeFinished cleanDb).startDataNode = [1, 10] ∧
    (exitMemMgmtModeFinished cleanDb).startNodeClone = [1, 8] ∧
    (exitMemMgmtModeFinished cleanDb).startDataNodeClone = [1, 10] ∧
    ([1, 8] : QByteArray) ≠ [] ∧ ([1, 8] : QByteArray) ≠ EmptyAddress ∧
    (exitMemMgmtModeFailed true cleanDb).startNode = [1, 8] := by
  decide

/-- C27 as the code has it: the finished handler and the failed handler of the job that
leaves memory management give the same state, in which the CTR value, the CPZ/CTR entries, the
favorites, the four node lists and the clone of each of these are empty and `memMgmtMode` is
false; the two start addresses and their clones are what they were. -/
theorem C27_exit_clears_session (s : Session) (check_status : Bool) :
    exitMemMgmtModeFinished s = exitMemMgmtModeFailed check_status s ∧
    ((exitMemMgmtModeFinished s).ctrValue = [] ∧ (exitMemMgmtModeFinished s).cpzCtrValue = [] ∧
      (exitMemMgmtModeFinished s).favoritesAddrs = [] ∧
      (exitMemMgmtModeFinished s).loginNodes = [] ∧
      (exitMemMgmtModeFinished s).loginChildNodes = [] ∧
      (exitMemMgmtModeFinished s).dataNodes = [] ∧
      (exitMemMgmtModeFinished s).dataChildNodes = []) ∧
    ((exitMemMgmtModeFinished s).ctrValueClone = [] ∧
      (exitMemMgmtModeFinished s).cpzCtrValueClone = [] ∧
      (exitMemMgmtModeFinished s).favoritesAddrsClone = [] ∧
      (exitMemMgmtModeFinished s).loginNodesClone = [] ∧
      (exitMemMgmtModeFinished s).loginChildNodesClone = [] ∧
      (exitMemMgmtModeFinished s).dataNodesClone = [] ∧
      (exitMemMgmtModeFinished s).dataChildNodesClone = []) ∧
    (exitMemMgmtModeFinished s).memMgmtMode = false ∧
    ((exitMemMgmtModeFinished s).startNode = s.startNode ∧
      (exitMemMgmtModeFinished s).startDataNode = s.startDataNode ∧
      (exitMemMgmtModeFinished s).startNodeClone = s.startNodeClone ∧
      (exitMemMgmtModeFinished s).startDataNodeClone = s.startDataNodeClone) :=
  ⟨rfl, ⟨rfl, rfl, rfl, rfl, rfl, rfl, rfl⟩, ⟨rfl, rfl, rfl, rfl, rfl, rfl, rfl⟩, rfl,
    ⟨rfl, rfl, rfl, rfl⟩⟩


/-! ## Requests and checks -/

/-- C25: `setCredential` with an empty service or an empty login, and `getDataNode` and
`setDataNode` with an empty service, call the completion callback once, with success false
and an error message that is not empty, and leave the state, queues included, as it is. -/
theorem C25_invalid_input_rejected {W : Type} (d : MPDevice W) (service login : List Nat)
    (jobs : Nat) :
    (service = [] ∨ login = [] →
      ∃ c, d.setCredential service login jobs = ([c], d) ∧ c.success = false ∧ c.errstr ≠ "") ∧
    (service = [] →
      (∃ c, d.getDataNode service jobs = ([c], d) ∧ c.success = false ∧ c.errstr ≠ "") ∧
      (∃ c, d.setDataNode service jobs = ([c], d) ∧ c.success = false ∧ c.errstr ≠ "")) := by
  refine ⟨fun h => ⟨{ success := false, errstr := "service or login is empty" },
      by simp only [MPDevice.setCredential, h, if_true], rfl, by decide⟩,
    fun h => ⟨⟨{ success := false, errstr := "context is empty" },
        by simp only [MPDevice.getDataNode, h, if_true], rfl, by decide⟩,
      ⟨{ success := false, errstr := "context is empty" },
        by simp only [MPDevice.setDataNode, h, if_true], rfl, by decide⟩⟩⟩

/-- C25 on a device with one job waiting and one command queued. -/
theorem C25_invalid_input_rejected_witness :
    (([] : List Nat) = [] ∨ ([97] : List Nat) = []) ∧
    (∃ c, ({ world := 0, jobsQueue := [4], currentJobs := some 3,
             commandQueue := [{ data := [0, 0xB9], cb := statusCb, running := true }] } :
          MPDevice Nat).setCredential [] [97] 5 =
        ([c], { world := 0, jobsQueue := [4], currentJobs := some 3,
                commandQueue := [{ data := [0, 0xB9], cb := statusCb, running := true }] }) ∧
      c.success = false ∧ c.errstr ≠ "") :=
  ⟨Or.inl rfl, (C25_invalid_input_rejected _ [] [97] 5).1 (Or.inl rfl)⟩

/-- C26, the firmware that ignores the request: when `isFw12()` is false,
`cancelUserRequest` with the request id of the running job writes nothing. -/
theorem C26_old_firmware_counterexample :
    (({ world := 0, currentJobs := some 3, jobsQueue := [4] } : MPDevice Nat).cancelUserRequest
      false (fun j => [j]) [3]).platformWritten = [] ∧
    (({ world := 0, currentJobs := some 3, jobsQueue := [4] } : MPDevice Nat).cancelUserRequest
      false (fun j => [j]) [4]).jobsQueue = [4] := by
  constructor <;> rfl

/-- C26 as the code has it: on a firmware older than 1.2 `cancelUserRequest` does nothing.
On a firmware 1.2 or later: when the request id is that of the running job, the frame
[0x00, 0xC3] is written to the transport and nothing else changes; otherwise, when it is that
of a job of the job queue, the first such job is removed from the queue, the other jobs keeping
their order, and nothing else changes. -/
theorem C26_cancelUserRequest {W : Type} (d : MPDevice W) (getJobsId : Nat → List Nat)
    (reqid : List Nat) :
    d.cancelUserRequest false getJobsId reqid = d ∧
    ((∃ j, d.currentJobs = some j ∧ getJobsId j = reqid) →
      d.cancelUserRequest true getJobsId reqid =
        { d with platformWritten := d.platformWritten ++ [[0x00, 0xC3]] }) ∧
    ((¬ ∃ j, d.currentJobs = some j ∧ getJobsId j = reqid) →
      (∃ j ∈ d.jobsQueue, getJobsId j = reqid) →
      ∃ j ∈ d.jobsQueue, getJobsId j = reqid ∧
        d.cancelUserRequest true getJobsId reqid =
          { d with jobsQueue := d.jobsQueue.filter (fun k => k ≠ j) } ∧
        j ∉ (d.cancelUserRequest true getJobsId reqid).jobsQueue ∧
        (d.cancelUserRequest true getJobsId reqid).jobsQueue.Sublist d.jobsQueue) := by
  refine ⟨rfl, ?_, ?_⟩
  · rintro ⟨j, hj, hid⟩
    simp [MPDevice.cancelUserRequest, hj, hid, MP_CANCEL_USER_REQUEST]
  · intro hcur ⟨j, hj, hid⟩
    have hany : d.currentJobs.any (fun j => decide (getJobsId j = reqid)) = false := by
      cases hc : d.currentJobs with
      | none => rfl
      | some k =>
        simp only [Option.any_some, decide_eq_false_iff_not]
        intro hk
        exact hcur ⟨k, hc, hk⟩
    cases hf : d.jobsQueue.find? (fun j => decide (getJobsId j = reqid)) with
    | none =>
      rw [List.find?_eq_none] at hf
      have := hf j hj
      simp [hid] at this
    | some k =>
      have hk1 := List.mem_of_find?_eq_some hf
      have hk2 := List.find?_some hf
      simp only [decide_eq_true_eq] at hk2
      have e : d.cancelUserRequest true getJobsId reqid =
          { d with jobsQueue := d.jobsQueue.filter (fun i => i ≠ k) } := by
        simp only [MPDevice.cancelUserRequest, Bool.not_true, Bool.false_eq_true, if_false,
          hany, hf]
      refine ⟨k, hk1, hk2, e, ?_, ?_⟩
      · rw [e]; simp
      · rw [e]; exact List.filter_sublist _

/-- C26 on a device running the job 3 with the jobs 4, 5, 6 waiting: cancelling 3 writes
the frame, cancelling 5 leaves the jobs 4, 6. -/
theorem C26_cancelUserRequest_witness :
    ((∃ j, ({ world := 0, currentJobs := some 3, jobsQueue := [4, 5, 6] } :
        MPDevice Nat).currentJobs = some j ∧ (fun j => [j]) j = [3]) ∧
      (({ world := 0, currentJobs := some 3, jobsQueue := [4, 5, 6] } :
        MPDevice Nat).cancelUserRequest true (fun j => [j]) [3]).platformWritten =
          [[0x00, 0xC3]]) ∧
    (({ world := 0, currentJobs := some 3, jobsQueue := [4, 5, 6] } :
        MPDevice Nat).cancelUserRequest true (fun j => [j]) [5]).jobsQueue = [4, 6] :=
  ⟨⟨⟨3, rfl, rfl⟩, by
      rw [(C26_cancelUserRequest ({ world := 0, currentJobs := some 3, jobsQueue := [4, 5, 6] } :
        MPDevice Nat) (fun j => [j]) [3]).2.1 ⟨3, rfl, rfl⟩]
      rfl⟩, by rfl⟩

theorem replyPayload_head (data : QByteArray) (x : Nat) (rest : QByteArray)
    (h : replyPayload data = x :: rest) : byteAt data 2 = x := by
  unfold replyPayload midInt mid MP_PAYLOAD_FIELD_INDEX at h
  have hd : ∀ l : QByteArray, data.drop 2 = l → (∃ r, l = x :: r) → byteAt data 2 = x := by
    intro l hl ⟨r, hr⟩
    subst hr
    have : (data.drop 2)[0]? = some x := by rw [hl]; simp
    rw [List.getElem?_drop] at this
    simp only [byteAt, List.getD_eq_getElem?_getD]
    simpa using congrArg (fun o => o.getD 0) this
  split_ifs at h
  · exact hd _ rfl ⟨rest, h⟩
  · cases hdrop : data.drop 2 with
    | nil => rw [hdrop] at h; simp at h
    | cons y ys =>
      rw [hdrop] at h
      cases hn : (charToInt (byteAt data MP_LEN_FIELD_INDEX)).toNat with
      | zero => rw [hn] at h; simp at h
      | succ n =>
        rw [hn] at h
        simp only [List.take_succ_cons, List.cons.injEq] at h
        exact hd _ hdrop ⟨ys, by rw [h.1]⟩

/-- C24: the check of `MP_GET_LOGIN` in `getCredential`, whatever the conversion of bytes
to a string. With a login supplied, the check succeeds exactly when the login string of the
reply (the payload, bytes 2 to 2+L of the reply, read as a string) is the supplied login, and
fails with "credential access refused by user" when the first payload byte is 0, with "login
mismatch" otherwise; with no login supplied it succeeds; and on success the login kept for
the caller is the login string of the reply. -/
theorem C24_login_check (u : Utf8Codec) (login : List Nat) (m : UserData) (data : QByteArray) :
    (login ≠ [] →
      ((runCheck u (JobCheck.getLogin login) m data).ret = true ↔
        qString u (replyPayload data) = login) ∧
      ((runCheck u (JobCheck.getLogin login) m data).ret = false →
        (runCheck u (JobCheck.getLogin login) m data).error =
          some (if byteAt data 2 = 0 then "credential access refused by user"
            else "login mismatch"))) ∧
    (login = [] → (runCheck u (JobCheck.getLogin login) m data).ret = true) ∧
    ((runCheck u (JobCheck.getLogin login) m data).ret = true →
      (runCheck u (JobCheck.getLogin login) m data).user_data.login =
        some (qString u (replyPayload data))) ∧
    (byteAt data 0 < 128 → replyPayload data = mid data 2 (byteAt data 0)) := by
  have hz : byteAt data 2 = 0 → qString u (replyPayload data) = [] := by
    intro h0
    have e : (replyPayload data).takeWhile (fun c => decide (c ≠ 0)) = [] := by
      cases hp : replyPayload data with
      | nil => rfl
      | cons x rest =>
        have := replyPayload_head data x rest hp
        rw [h0] at this
        subst this
        simp
    unfold qString
    rw [e]
    exact u.ascii [] (fun c hc => absurd hc (List.not_mem_nil c))
  refine ⟨?_, ?_, ?_, ?_⟩
  · intro hl
    by_cases h0 : byteAt data 2 = 0
    · have hne : qString u (replyPayload data) ≠ login := by
        rw [hz h0]; exact fun h => hl h.symm
      simp [runCheck, h0, hl, hne]
    · by_cases he : qString u (replyPayload data) = login
      · simp [runCheck, h0, hl, he]
      · simp [runCheck, h0, hl, he]
  · intro hl
    simp [runCheck, hl]
  · intro h
    simp only [runCheck] at h ⊢
    split_ifs at h ⊢
    rfl
  · intro h
    have h1 : byteAt data 0 % 256 = byteAt data 0 := Nat.mod_eq_of_lt (by omega)
    simp only [replyPayload, midInt, charToInt, MP_LEN_FIELD_INDEX, MP_PAYLOAD_FIELD_INDEX, h1,
      h, if_true]
    simp

/-- C24 on the reply carrying the login "é" as its two UTF-8 bytes 0xC3, 0xA9 (with the
final 0), checked against the supplied login "é", the one code unit 0xE9. -/
theorem C24_login_check_witness :
    ([0xE9] : List Nat) ≠ [] ∧
    (runCheck utf8Codec (JobCheck.getLogin [0xE9]) {} [3, MP_GET_LOGIN, 0xC3, 0xA9, 0]).ret
      = true ∧
    qString utf8Codec (replyPayload [3, MP_GET_LOGIN, 0xC3, 0xA9, 0]) = [0xE9] :=
  ⟨by decide,
    ((C24_login_check utf8Codec [0xE9] {} [3, MP_GET_LOGIN, 0xC3, 0xA9, 0]).1 (by decide)).1.mpr
      (by decide), by decide⟩


theorem run_plain_service {u : Utf8Codec} (replies : List QByteArray) :
    ∀ (jobs : AsyncJobs),
      (∀ c ∈ jobs.remaining, (∃ login, c.check = JobCheck.getLogin login) ∨
        c.check = JobCheck.getDescription ∨ c.check = JobCheck.getPassword) →
      ∀ (m : UserData) (data : QByteArray),
        jobs.run u replies = JobsOutcome.finished m data → m.service = jobs.user_data.service := by
  induction replies with
  | nil => intro jobs _ m data h; simp [AsyncJobs.run] at h
  | cons d rest ih =>
    intro jobs hp m data h
    cases hrem : jobs.remaining with
    | nil =>
      have e : jobs.reply u d = JobsOutcome.running jobs := by simp [AsyncJobs.reply, hrem]
      simp only [AsyncJobs.run, e] at h
      exact ih jobs hp m data h
    | cons c cs =>
      have hc := hp c (by rw [hrem]; exact List.mem_cons_self _ _)
      have hcs : ∀ c1 ∈ cs, (∃ login, c1.check = JobCheck.getLogin login) ∨
          c1.check = JobCheck.getDescription ∨ c1.check = JobCheck.getPassword :=
        fun c1 h1 => hp c1 (by rw [hrem]; exact List.mem_cons_of_mem _ h1)
      have key : ∀ r : CheckResult, runCheck u c.check jobs.user_data d = r →
          r.prepended = [] → r.appended = [] →
          (r.ret = true → r.user_data.service = jobs.user_data.service) →
          m.service = jobs.user_data.service := by
        intro r hr hpre happ hserv
        simp only [AsyncJobs.run, AsyncJobs.reply, hrem, hr, hpre, happ, List.nil_append,
          List.append_nil] at h
        cases hret : r.ret with
        | false => simp [hret] at h
        | true =>
          simp only [hret, Bool.not_true, Bool.false_eq_true, if_false] at h
          cases cs with
          | nil =>
            simp only [JobsOutcome.finished.injEq] at h
            rw [← h.1]; exact hserv hret
          | cons c2 cs2 =>
            simp only at h
            have := ih { remaining := c2 :: cs2, user_data := r.user_data } hcs m data h
            rw [this]; exact hserv hret
      rcases hc with ⟨login, hc⟩ | hc | hc
      · refine key _ rfl ?_ ?_ ?_ <;> (rw [hc]; simp only [runCheck]; split_ifs <;> simp)
      · refine key _ rfl ?_ ?_ ?_ <;> (rw [hc]; simp only [runCheck]; split_ifs <;> simp)
      · refine key _ rfl ?_ ?_ ?_ <;> (rw [hc]; simp only [runCheck]; split_ifs <;> simp)

/-- C23: the check of `MP_CONTEXT` in `getCredential` on a reply whose first payload byte is
not 1. Without fallback service the job fails with "failed to select context on device".
With one, the check succeeds and exactly one `MP_CONTEXT` sub-command for the fallback
service comes in front of the sub-commands that remain, and a reply other than 1 to that one
fails the job with "failed to select context and fallback_context on device". And whenever
the job succeeds, the service handed to the caller is the service when the first reply has
1 as first payload byte, the fallback service otherwise. -/
theorem C23_context_fallback (u : Utf8Codec) (service login fallback_service : List Nat) :
    (∀ data : QByteArray, byteAt data 2 ≠ 1 →
      (fallback_service = [] →
        (getCredentialJobs service login fallback_service).reply u data =
          JobsOutcome.failed "failed to select context on device") ∧
      (fallback_service ≠ [] →
        (getCredentialJobs service login fallback_service).reply u data =
          JobsOutcome.running
            { remaining :=
                { cmd := MP_CONTEXT, data := fallback_service ++ [0],
                  check := JobCheck.fallbackContext fallback_service } ::
                (getCredentialJobs service login fallback_service).remaining.tail } ∧
        ∀ (data2 : QByteArray) (rest : List QByteArray), byteAt data2 2 ≠ 1 →
          (getCredentialJobs service login fallback_service).run u (data :: data2 :: rest) =
            JobsOutcome.failed "failed to select context and fallback_context on device")) ∧
    (∀ (data : QByteArray) (rest : List QByteArray) (r : CredentialResult),
      getCredentialResult u
        ((getCredentialJobs service login fallback_service).run u (data :: rest)) = some r →
      r.success = true →
      r.service = if byteAt data 2 = 1 then service else fallback_service) := by
  constructor
  · intro data h
    constructor
    · intro hf
      simp [getCredentialJobs, AsyncJobs.reply, runCheck, h, hf]
    · intro hf
      have e : (getCredentialJobs service login fallback_service).reply u data =
          JobsOutcome.running
            { remaining :=
                { cmd := MP_CONTEXT, data := fallback_service ++ [0],
                  check := JobCheck.fallbackContext fallback_service } ::
                (getCredentialJobs service login fallback_service).remaining.tail } := by
        simp [getCredentialJobs, AsyncJobs.reply, runCheck, h, hf]
      refine ⟨e, ?_⟩
      intro data2 rest h2
      simp only [AsyncJobs.run, e]
      simp [getCredentialJobs, AsyncJobs.reply, runCheck, h2]
  · intro data rest r hr hs
    have plain : ∀ c ∈ (getCredentialJobs service login fallback_service).remaining.tail,
        (∃ login, c.check = JobCheck.getLogin login) ∨
        c.check = JobCheck.getDescription ∨ c.check = JobCheck.getPassword := by
      intro c hc
      simp only [getCredentialJobs, List.tail_cons, List.mem_cons, List.mem_singleton,
        List.not_mem_nil, or_false] at hc
      rcases hc with rfl | rfl | rfl
      · exact Or.inl ⟨login, rfl⟩
      · exact Or.inr (Or.inl rfl)
      · exact Or.inr (Or.inr rfl)
    have fin : ∀ (jobs : AsyncJobs) (replies : List QByteArray),
        jobs.remaining = (getCredentialJobs service login fallback_service).remaining.tail →
        getCredentialResult u (jobs.run u replies) = some r →
        r.service = jobs.user_data.service.getD [] := by
      intro jobs replies hrem hres
      cases ho : jobs.run u replies with
      | running j => rw [ho] at hres; simp [getCredentialResult] at hres
      | failed e =>
        rw [ho] at hres
        simp only [getCredentialResult, Option.some.injEq] at hres
        rw [← hres] at hs
        cases hs
      | finished m d =>
        rw [ho] at hres
        simp only [getCredentialResult, Option.some.injEq] at hres
        rw [← hres]
        simp only
        rw [run_plain_service replies jobs (by rw [hrem]; exact plain) m d ho]
    by_cases h1 : byteAt data 2 = 1
    · have e : (getCredentialJobs service login fallback_service).reply u data =
          JobsOutcome.running
            { remaining := (getCredentialJobs service login fallback_service).remaining.tail,
              user_data := { service := some service } } := by
        simp [getCredentialJobs, AsyncJobs.reply, runCheck, h1]
      simp only [AsyncJobs.run, e] at hr
      rw [fin _ rest rfl hr, if_pos h1]
      rfl
    · rw [if_neg h1]
      by_cases hf : fallback_service = []
      · have e : (getCredentialJobs service login fallback_service).reply u data =
            JobsOutcome.failed "failed to select context on device" := by
          simp [getCredentialJobs, AsyncJobs.reply, runCheck, h1, hf]
        simp only [AsyncJobs.run, e, getCredentialResult, Option.some.injEq] at hr
        rw [← hr] at hs
        cases hs
      · have e : (getCredentialJobs service login fallback_service).reply u data =
            JobsOutcome.running
              { remaining :=
                  { cmd := MP_CONTEXT, data := fallback_service ++ [0],
                    check := JobCheck.fallbackContext fallback_service } ::
                  (getCredentialJobs service login fallback_service).remaining.tail } := by
          simp [getCredentialJobs, AsyncJobs.reply, runCheck, h1, hf]
        simp only [AsyncJobs.run, e] at hr
        cases rest with
        | nil => simp [AsyncJobs.run, getCredentialResult] at hr
        | cons data2 rest2 =>
          by_cases h2 : byteAt data2 2 = 1
          · have e2 : ({ remaining :=
                  { cmd := MP_CONTEXT, data := fallback_service ++ [0],
                    check := JobCheck.fallbackContext fallback_service } ::
                  (getCredentialJobs service login fallback_service).remaining.tail } :
                  AsyncJobs).reply u data2 =
                JobsOutcome.running
                  { remaining :=
                      (getCredentialJobs service login fallback_service).remaining.tail,
                    user_data := { service := some fallback_service } } := by
              simp [getCredentialJobs, AsyncJobs.reply, runCheck, h2]
            simp only [AsyncJobs.run, e2] at hr
            rw [fin _ rest2 rfl hr]
            rfl
          · have e2 : ({ remaining :=
                  { cmd := MP_CONTEXT, data := fallback_service ++ [0],
                    check := JobCheck.fallbackContext fallback_service } ::
                  (getCredentialJobs service login fallback_service).remaining.tail } :
                  AsyncJobs).reply u data2 =
                JobsOutcome.failed "failed to select context and fallback_context on device" := by
              simp [getCredentialJobs, AsyncJobs.reply, runCheck, h2]
            simp only [AsyncJobs.run, e2, getCredentialResult, Option.some.injEq] at hr
            rw [← hr] at hs
            cases hs

/-- C23 on a run in which the service "a" is refused and the fallback service "b" is
selected: the caller is handed the service "b". -/
theorem C23_context_fallback_witness :
    byteAt [1, MP_CONTEXT, 0] 2 ≠ 1 ∧ ([98] : List Nat) ≠ [] ∧
    (getCredentialJobs [97] [] [98]).reply utf8Codec [1, MP_CONTEXT, 0] =
      JobsOutcome.running
        { remaining :=
            { cmd := MP_CONTEXT, data := [98] ++ [0],
              check := JobCheck.fallbackContext [98] } ::
            (getCredentialJobs [97] [] [98]).remaining.tail } ∧
    getCredentialResult utf8Codec ((getCredentialJobs [97] [] [98]).run utf8Codec
      [[1, MP_CONTEXT, 0], [1, MP_CONTEXT, 1], [2, MP_GET_LOGIN, 108, 0],
        [2, MP_GET_DESCRIPTION, 100, 0], [2, MP_GET_PASSWORD, 112, 0]]) =
      some { success := true, errstr := "", service := [98], login := [108], pass := [112],
             desc := [100] } :=
  ⟨by decide, by decide,
    (((C23_context_fallback utf8Codec [97] [] [98]).1 [1, MP_CONTEXT, 0] (by decide)).2 (by decide)).1,
    by rfl⟩


/-! ## Reading a data node -/

/-- The sub-command that asks for the next 32 bytes. -/
theorem readJobs_reply {u : Utf8Codec} (m : UserData) (d : QByteArray) :
    (readJobs m).reply u d =
      if byteAt d 0 = 1 ∧ byteAt d 2 = 0 then
        if m.data = none then JobsOutcome.failed "reading data failed or no data"
        else JobsOutcome.finished m d
      else if byteAt d 0 ≠ 0 then
        JobsOutcome.running
          (readJobs
            { m with
              data := some (m.data.getD [] ++ replyPayload d),
              progress_total :=
                if m.data.getD [] = [] then
                  some (qFromBigEndian (m.data.getD [] ++ replyPayload d))
                else m.progress_total })
      else JobsOutcome.finished m d := by
  simp only [readJobs, AsyncJobs.reply, runCheck]
  split_ifs <;> simp_all

theorem readJobs_run {u : Utf8Codec} (replies : List QByteArray) :
    ∀ (m m1 : UserData) (d : QByteArray),
      (readJobs m).run u replies = JobsOutcome.finished m1 d →
      ∃ k, k < replies.length ∧ d = replies.getD k [] ∧ stopsReading (replies.getD k []) ∧
        (∀ i, i < k → ¬ stopsReading (replies.getD i [])) ∧
        m1.data.getD [] = m.data.getD [] ++ ((replies.take k).map replyPayload).flatten ∧
        m1.service = m.service := by
  induction replies with
  | nil => intro m m1 d h; simp [AsyncJobs.run] at h
  | cons r rest ih =>
    intro m m1 d h
    simp only [AsyncJobs.run, readJobs_reply] at h
    by_cases he : byteAt r 0 = 1 ∧ byteAt r 2 = 0
    · rw [if_pos he] at h
      by_cases hn : m.data = none
      · simp [hn] at h
      · simp only [hn, if_false, JobsOutcome.finished.injEq] at h
        refine ⟨0, by simp, by simp [h.2], Or.inl (by simpa using he), ?_, by simp [h.1],
          by rw [h.1]⟩
        intro i hi; omega
    · rw [if_neg he] at h
      by_cases h0 : byteAt r 0 = 0
      · simp only [h0, ne_eq, not_true_eq_false, if_false, JobsOutcome.finished.injEq] at h
        refine ⟨0, by simp, by simp [h.2], Or.inr (by simpa using h0), ?_, by simp [h.1],
          by rw [h.1]⟩
        intro i hi; omega
      · simp only [ne_eq, h0, not_false_eq_true, if_true] at h
        obtain ⟨k, hk, hd, hstop, hbefore, hdata, hserv⟩ := ih _ m1 d h
        refine ⟨k + 1, by simpa using hk, by simpa using hd, by simpa using hstop, ?_, ?_,
          hserv⟩
        · intro i hi
          cases i with
          | zero =>
            simp only [List.getD_cons_zero]
            rintro (hx | hx)
            · exact he hx
            · exact h0 hx
          | succ i => simpa using hbefore i (by omega)
        · rw [hdata]
          simp [List.append_assoc]

theorem flatten_getD_uniform (w : Nat) :
    ∀ (L : List (List Nat)), (∀ x ∈ L, x.length = w) → ∀ (k i : Nat), i < w → k < L.length →
      L.flatten.getD (w * k + i) 0 = (L.getD k []).getD i 0 := by
  intro L
  induction L with
  | nil => intro _ k i _ hk; simp at hk
  | cons x rest ih =>
    intro hw k i hi hk
    have hx : x.length = w := hw x (List.mem_cons_self _ _)
    cases k with
    | zero =>
      simp only [List.flatten_cons, Nat.mul_zero, Nat.zero_add, List.getD_cons_zero]
      simp only [List.getD_eq_getElem?_getD]
      rw [List.getElem?_append_left (by omega)]
    | succ k =>
      have hk2 : k < rest.length := by simpa using hk
      have := ih (fun y hy => hw y (List.mem_cons_of_mem _ hy)) k i hi hk2
      simp only [List.flatten_cons, List.getD_cons_succ]
      rw [← this]
      simp only [List.getD_eq_getElem?_getD]
      rw [List.getElem?_append_right (by rw [hx, Nat.mul_succ]; omega)]
      congr 2
      rw [hx, Nat.mul_succ]; omega

theorem flatten_length_uniform (w : Nat) :
    ∀ (L : List (List Nat)), (∀ x ∈ L, x.length = w) → L.flatten.length = w * L.length := by
  intro L
  induction L with
  | nil => intro _; simp
  | cons x rest ih =>
    intro hw
    simp only [List.flatten_cons, List.length_append, List.length_cons,
      hw x (List.mem_cons_self _ _), ih (fun y hy => hw y (List.mem_cons_of_mem _ hy))]
    rw [Nat.mul_succ]; omega

theorem readJobs_run_data {u : Utf8Codec} (blocks : List QByteArray) :
    ∀ (m : UserData) (tail : List QByteArray),
      (∀ r ∈ blocks, byteAt r 0 ≠ 0 ∧ byteAt r 0 ≠ 1) →
      ∃ m1, (readJobs m).run u (blocks ++ tail) = (readJobs m1).run u tail ∧
        m1.service = m.service ∧
        m1.data.getD [] = m.data.getD [] ++ (blocks.map replyPayload).flatten ∧
        (m.data ≠ none ∨ blocks ≠ [] → m1.data ≠ none) := by
  induction blocks with
  | nil =>
    intro m tail _
    exact ⟨m, rfl, rfl, by simp, fun h => h.elim id (fun h => absurd rfl h)⟩
  | cons r rest ih =>
    intro m tail h
    obtain ⟨h0, h1⟩ := h r (List.mem_cons_self _ _)
    obtain ⟨m1, e1, e2, e3, e4⟩ := ih
      { m with
        data := some (m.data.getD [] ++ replyPayload r),
        progress_total :=
          if m.data.getD [] = [] then some (qFromBigEndian (m.data.getD [] ++ replyPayload r))
          else m.progress_total } tail (fun x hx => h x (List.mem_cons_of_mem _ hx))
    refine ⟨m1, ?_, e2, ?_, ?_⟩
    · simp only [List.cons_append, AsyncJobs.run, readJobs_reply]
      rw [if_neg (fun hx => h1 hx.1), if_pos h0]
      exact e1
    · rw [e3]; simp [List.append_assoc]
    · intro _
      exact e4 (Or.inl (by simp))

theorem getDataNodeJobs_selected {u : Utf8Codec} (service fallback_service : List Nat)
    (ctx : QByteArray)
    (hctx : byteAt ctx 2 = 1) (replies : List QByteArray) :
    (getDataNodeJobs service fallback_service).run u (ctx :: replies) =
      (readJobs { service := some service }).run u replies := by
  simp [AsyncJobs.run, AsyncJobs.reply, getDataNodeJobs, runCheck, hctx, readJobs]

/-- With four bytes or fewer, `mid(4, len)` is empty whatever the length asked for. -/
theorem midInt_short (b : QByteArray) (len : Int) (h : b.length ≤ 4) : midInt b 4 len = [] := by
  unfold midInt mid
  split_ifs <;> simp [List.drop_eq_nil_of_le h]

/-- C22, two runs the claim does not cover. In the first the loop stops, and the job
succeeds, on a reply of length 0, no reply being the end-of-data one. In the second the
size read is 9 and the caller is handed no byte at all. -/
theorem C22_read_loop_counterexample :
    getDataNodeResult ((getDataNodeJobs [97] []).run utf8Codec
      [[1, MP_SET_DATA_SERVICE, 1], [5, MP_READ_32B_IN_DN, 0, 0, 0, 1, 7],
        [0, MP_READ_32B_IN_DN]]) =
      some { success := true, errstr := "", serv := [97], rawData := [7] } ∧
    ¬ isEndOfData [5, MP_READ_32B_IN_DN, 0, 0, 0, 1, 7] ∧ ¬ isEndOfData [0, MP_READ_32B_IN_DN] ∧
    getDataNodeResult ((getDataNodeJobs [97] []).run utf8Codec
      [[1, MP_SET_DATA_SERVICE, 1], [4, MP_READ_32B_IN_DN, 0, 0, 0, 9], endOfDataReply]) =
      some { success := true, errstr := "", serv := [97], rawData := [] } ∧
    qFromBigEndian (replyPayload [4, MP_READ_32B_IN_DN, 0, 0, 0, 9]) = 9 := by
  refine ⟨by rfl, ?_, ?_, by rfl, by rfl⟩ <;> (unfold isEndOfData; decide)

/-- C22 as the code has it: when `getDataNode`, the context once selected, succeeds on a
sequence of replies to `MP_READ_32B_IN_DN`, the read loop has stopped at the first reply that
is the end-of-data one (length 1, first payload byte 0) or has length 0; and when the
payloads of the replies before it, put together, have at least four bytes and these four
bytes give a size n below 2^31, the caller is handed what follows them, cut to its first n
bytes, which makes n bytes only when that many were gathered. -/
theorem C22_getDataNode_result (u : Utf8Codec) (service fallback_service : List Nat)
    (ctx : QByteArray) (replies : List QByteArray) (res : DataNodeResult)
    (hctx : byteAt ctx 2 = 1)
    (h : getDataNodeResult ((getDataNodeJobs service fallback_service).run u (ctx :: replies)) =
      some res)
    (hs : res.success = true) :
    ∃ k, k < replies.length ∧ stopsReading (replies.getD k []) ∧
      (∀ i, i < k → ¬ stopsReading (replies.getD i [])) ∧
      (4 ≤ (((replies.take k).map replyPayload).flatten).length →
        qFromBigEndian (((replies.take k).map replyPayload).flatten) < 2 ^ 31 →
        res.rawData = ((((replies.take k).map replyPayload).flatten).drop 4).take
          (qFromBigEndian (((replies.take k).map replyPayload).flatten)) ∧
        res.rawData.length = min (qFromBigEndian (((replies.take k).map replyPayload).flatten))
          ((((replies.take k).map replyPayload).flatten).length - 4)) := by
  rw [getDataNodeJobs_selected service fallback_service ctx hctx] at h
  cases ho : (readJobs { service := some service }).run u replies with
  | running j => rw [ho] at h; simp [getDataNodeResult] at h
  | failed e =>
    rw [ho] at h
    simp only [getDataNodeResult, Option.some.injEq] at h
    rw [← h] at hs
    cases hs
  | finished m d =>
    rw [ho] at h
    obtain ⟨k, hk, -, hstop, hbefore, hdata, -⟩ := readJobs_run replies _ m d ho
    simp only [Option.getD_none, List.nil_append] at hdata
    simp only [getDataNodeResult, hdata] at h
    simp only [Option.some.injEq] at h
    refine ⟨k, hk, hstop, hbefore, ?_⟩
    intro _ hsz
    rw [← h]
    simp only [hsz, if_true, midInt, mid]
    have : ¬ ((qFromBigEndian (((replies.take k).map replyPayload).flatten) : Nat) : Int) < 0 := by
      omega
    simp only [this, if_false, Int.toNat_ofNat, List.length_take, List.length_drop, true_and]

/-- C22 on a run of two data replies and the end-of-data reply: the size read is 3, and the
caller is handed the three bytes that follow it. -/
theorem C22_getDataNode_result_witness :
    byteAt [1, MP_SET_DATA_SERVICE, 1] 2 = 1 ∧
    getDataNodeResult ((getDataNodeJobs [97] []).run utf8Codec
      ([1, MP_SET_DATA_SERVICE, 1] :: [[5, MP_READ_32B_IN_DN, 0, 0, 0, 3, 7],
        [3, MP_READ_32B_IN_DN, 8, 9, 0], endOfDataReply])) =
      some { success := true, errstr := "", serv := [97], rawData := [7, 8, 9] } ∧
    ∃ k, k < ([[5, MP_READ_32B_IN_DN, 0, 0, 0, 3, 7], [3, MP_READ_32B_IN_DN, 8, 9, 0],
        endOfDataReply] : List QByteArray).length ∧
      stopsReading (([[5, MP_READ_32B_IN_DN, 0, 0, 0, 3, 7], [3, MP_READ_32B_IN_DN, 8, 9, 0],
        endOfDataReply] : List QByteArray).getD k []) :=
  ⟨by decide, by rfl, by
    obtain ⟨k, h1, h2, -⟩ := C22_getDataNode_result utf8Codec [97] []
      [1, MP_SET_DATA_SERVICE, 1]
      [[5, MP_READ_32B_IN_DN, 0, 0, 0, 3, 7], [3, MP_READ_32B_IN_DN, 8, 9, 0], endOfDataReply]
      { success := true, errstr := "", serv := [97], rawData := [7, 8, 9] } (by decide)
      (by rfl) rfl
    exact ⟨k, h1, h2⟩⟩


theorem replyPayload_blockReply (p : QByteArray) :
    replyPayload (blockReply p) = (p.drop 1).take 32 := by
  simp [replyPayload, blockReply, midInt, mid, charToInt, byteAt, MP_LEN_FIELD_INDEX,
    MP_PAYLOAD_FIELD_INDEX]

theorem block_getD (fill : Nat → Nat) (stream : QByteArray) (e k i : Nat) (hi : i < 32)
    (h : 32 * k + i < stream.length) :
    (resize fill (e :: mid stream (32 * k) 32) 33).getD (i + 1) 0 =
      stream.getD (32 * k + i) 0 := by
  rw [getD_resize _ _ _ _ (by omega)]
  have : i + 1 < (e :: mid stream (32 * k) 32).length := by
    simp only [List.length_cons, length_mid]; omega
  rw [if_pos this, List.getD_cons_succ, getD_mid _ _ _ _ hi]

theorem qFromBigEndian_qToBigEndian (n : Nat) (rest : QByteArray) (hn : n < 2 ^ 32) :
    qFromBigEndian (qToBigEndian n ++ rest) = n := by
  simp only [qFromBigEndian, qToBigEndian, byteAt, List.cons_append, List.getD_cons_zero,
    List.getD_cons_succ]
  omega

/-- What the read loop gathers from the blocks `setDataNode` sends starts with the stream
sent. -/
theorem gathered_take (fill : Nat → Nat) (stream : QByteArray) (count : Nat)
    (hc : stream.length ≤ 32 * count) :
    ((((List.range count).map fun j =>
        resize fill ((if stream.length - 32 * j ≤ 32 then 1 else 0) ::
          mid stream (32 * j) 32) 33).map
      fun p => (p.drop 1).take 32).flatten).take stream.length = stream := by
  have hw : ∀ x ∈ ((List.range count).map fun j =>
        resize fill ((if stream.length - 32 * j ≤ 32 then 1 else 0) ::
          mid stream (32 * j) 32) 33).map (fun p => (p.drop 1).take 32), x.length = 32 := by
    intro x hx
    simp only [List.map_map, List.mem_map, List.mem_range, Function.comp] at hx
    obtain ⟨j, -, rfl⟩ := hx
    simp [length_resize]
  have hlen := flatten_length_uniform 32 _ hw
  simp only [List.length_map, List.length_range] at hlen
  apply List.ext_getElem
  · simp only [List.length_take, hlen]; omega
  · intro i h1 h2
    rw [List.getElem_take]
    have hk : i / 32 < count := by
      have : i < 32 * count := by omega
      omega
    have hi : i % 32 < 32 := Nat.mod_lt _ (by decide)
    have hidx : 32 * (i / 32) + i % 32 = i := Nat.div_add_mod i 32
    have key := flatten_getD_uniform 32 _ hw (i / 32) (i % 32) hi
      (by simpa using hk)
    rw [hidx] at key
    have hb := block_getD fill stream (if stream.length - 32 * (i / 32) ≤ 32 then 1 else 0)
      (i / 32) (i % 32) hi (by rw [hidx]; exact h2)
    rw [hidx] at hb
    have e1 : ∀ (l : List Nat) (j : Nat) (hj : j < l.length), l[j] = l.getD j 0 := by
      intro l j hj
      simp [List.getD_eq_getElem?_getD, List.getElem?_eq_getElem hj]
    rw [e1, e1 stream i h2, key, ← hb]
    simp only [List.map_map, List.getD_eq_getElem?_getD, List.getElem?_map,
      List.getElem?_range hk, Option.map_some', Function.comp, Option.getD_some,
      List.getElem?_take, hi, if_true, List.getElem?_drop]
    congr 2
    omega

theorem getDataNode_round_trip {u : Utf8Codec} (fill : Nat → Nat)
    (service fallback_service : List Nat)
    (b : QByteArray) (written : Nat → QByteArray) (ctx : QByteArray) (hs : service ≠ [])
    (hw : ∀ k, byteAt (written k) 2 ≠ 0) (hb : b.length < 2 ^ 31) (hctx : byteAt ctx 2 = 1) :
    ∃ sent, setDataNodePackets fill service b written = some sent ∧
      getDataNodeResult ((getDataNodeJobs service fallback_service).run u
        (ctx :: (sent.map blockReply ++ [endOfDataReply]))) =
        some { success := true, errstr := "", serv := service, rawData := b } := by
  refine ⟨_, setDataNodePackets_eq fill service b written hs hw, ?_⟩
  have hL : (dataNodeStream b).length = b.length + 4 := by
    simp [dataNodeStream, qToBigEndian]
  rw [getDataNodeJobs_selected service fallback_service ctx hctx]
  obtain ⟨m1, e1, e2, e3, e4⟩ := readJobs_run_data
    (((List.range ((b.length + 4 + 31) / 32)).map fun j =>
        resize fill ((if (dataNodeStream b).length - 32 * j ≤ 32 then 1 else 0) ::
          mid (dataNodeStream b) (32 * j) 32) 33).map blockReply)
    { service := some service } [endOfDataReply] (by
      intro r hr
      simp only [List.map_map, List.mem_map, List.mem_range, Function.comp] at hr
      obtain ⟨j, -, rfl⟩ := hr
      simp [blockReply, byteAt])
  rw [e1]
  have hne : m1.data ≠ none := e4 (Or.inr (by
    have : 0 < (b.length + 4 + 31) / 32 := by omega
    intro h
    have h2 := congrArg List.length h
    simp only [List.length_map, List.length_range, List.length_nil] at h2
    omega))
  have hfin : (readJobs m1).run u [endOfDataReply] = JobsOutcome.finished m1 endOfDataReply := by
    simp [AsyncJobs.run, readJobs_reply, endOfDataReply, byteAt, hne]
  rw [hfin]
  simp only [Option.getD_none, List.nil_append, List.map_map] at e3
  have hfun : (replyPayload ∘ blockReply ∘ fun j =>
        resize fill ((if (dataNodeStream b).length - 32 * j ≤ 32 then 1 else 0) ::
          mid (dataNodeStream b) (32 * j) 32) 33) =
      ((fun p : QByteArray => (p.drop 1).take 32) ∘ fun j =>
        resize fill ((if (dataNodeStream b).length - 32 * j ≤ 32 then 1 else 0) ::
          mid (dataNodeStream b) (32 * j) 32) 33) := by
    funext j
    simp only [Function.comp, replyPayload_blockReply]
  rw [hfun, ← List.map_map] at e3
  have htake := gathered_take fill (dataNodeStream b) ((b.length + 4 + 31) / 32)
    (by rw [hL]; omega)
  rw [← e3] at htake
  -- the data gathered is the stream followed by the padding of the last block
  have hsplit : m1.data.getD [] = dataNodeStream b ++ (m1.data.getD []).drop (b.length + 4) := by
    conv_lhs => rw [← List.take_append_drop (b.length + 4) (m1.data.getD [])]
    rw [← hL, htake]
  have hsz : qFromBigEndian (m1.data.getD []) = b.length := by
    rw [hsplit]
    simp only [dataNodeStream, List.append_assoc]
    rw [Nat.mod_eq_of_lt (by omega)]
    exact qFromBigEndian_qToBigEndian _ _ (by omega)
  simp only [getDataNodeResult, hsz, hb, if_true, e2, Option.getD_some,
    Option.some.injEq, DataNodeResult.mk.injEq, true_and, midInt, mid]
  have : ¬ ((b.length : Nat) : Int) < 0 := by omega
  simp only [this, if_false, Int.toNat_ofNat]
  rw [hsplit]
  simp [dataNodeStream, qToBigEndian]

/-- C21: for a byte string `b` of fewer than 2^31 bytes, when the device is handed the
blocks `setDataNode` sends for `b` (every write being acknowledged) and gives their 32 data
bytes back, in order, as replies of length 32 to `MP_READ_32B_IN_DN`, followed by the
end-of-data reply, `getDataNode` succeeds and hands its caller `b`. -/
theorem C21_data_round_trip (u : Utf8Codec) (fill : Nat → Nat)
    (service fallback_service : List Nat)
    (b : QByteArray) (written : Nat → QByteArray) (ctx : QByteArray) (hs : service ≠ [])
    (hw : ∀ k, byteAt (written k) 2 ≠ 0) (hb : b.length < 2 ^ 31) (hctx : byteAt ctx 2 = 1) :
    ∃ sent, setDataNodePackets fill service b written = some sent ∧
      getDataNodeResult ((getDataNodeJobs service fallback_service).run u
        (ctx :: (sent.map blockReply ++ [endOfDataReply]))) =
        some { success := true, errstr := "", serv := service, rawData := b } :=
  getDataNode_round_trip fill service fallback_service b written ctx hs hw hb hctx

/-- C21 for byte strings of 0, 1, 32 and 33 bytes. -/
theorem C21_data_round_trip_witness :
    (([100] : List Nat) ≠ [] ∧ (∀ _k : Nat, byteAt ([1, 0xC0, 1] : List Nat) 2 ≠ 0) ∧
      byteAt [1, MP_SET_DATA_SERVICE, 1] 2 = 1) ∧
    (∀ n ∈ [0, 1, 32, 33], (List.range n).length < 2 ^ 31 ∧
      ∃ sent, setDataNodePackets (fun _ => 0) [100] (List.range n) (fun _ => [1, 0xC0, 1]) =
          some sent ∧
        getDataNodeResult ((getDataNodeJobs [100] []).run utf8Codec
          ([1, MP_SET_DATA_SERVICE, 1] :: (sent.map blockReply ++ [endOfDataReply]))) =
          some { success := true, errstr := "", serv := [100], rawData := List.range n }) :=
  ⟨⟨by decide, fun _ => by decide, by decide⟩, fun n hn =>
    have hlen : (List.range n).length < 2 ^ 31 := by
      simp only [List.mem_cons, List.mem_singleton, List.not_mem_nil, or_false] at hn
      rcases hn with rfl | rfl | rfl | rfl <;> decide
    ⟨hlen, C21_data_round_trip utf8Codec (fun _ => 0) [100] [] (List.range n) (fun _ => [1, 0xC0, 1])
      [1, MP_SET_DATA_SERVICE, 1] (by decide)
      (fun _ => (by decide : byteAt ([1, 0xC0, 1] : List Nat) 2 ≠ 0)) hlen (by decide)⟩⟩


/-! ## Lemmas: the repairing walk on chains with valid child chains -/

theorem lastVisited_cons (i : Nat) (rest : List Nat) (pt : Option Nat) :
    lastVisited (i :: rest) pt = lastVisited rest (some i) := rfl

theorem chainLinks_iff_segLinks (l : List MPNode) (next : MPNode → QByteArray)
    (path : List Nat) : ∀ a, ChainLinks l next a path ↔ SegLinks l next a path EmptyAddress := by
  induction path with
  | nil => intro a; rfl
  | cons i rest ih => intro a; simp only [ChainLinks, SegLinks, ih]

theorem segLinks_congr {l1 l2 : List MPNode} (next : MPNode → QByteArray)
    (haddr : l1.map MPNode.address = l2.map MPNode.address)
    (path : List Nat) (hnext : ∀ i ∈ path, next (nodeAt l1 i) = next (nodeAt l2 i)) :
    ∀ a x, SegLinks l1 next a path x ↔ SegLinks l2 next a path x := by
  induction path with
  | nil => intro a x; rfl
  | cons i rest ih =>
    intro a x
    simp only [SegLinks]
    have hr : resolve l1 a = resolve l2 a := resolveFrom_congr a l1 l2 0 haddr
    rw [hr, hnext i (List.mem_cons_self _ _),
      ih (fun j hj => hnext j (List.mem_cons_of_mem _ hj))]

theorem segLinks_lt (l : List MPNode) (next : MPNode → QByteArray) (path : List Nat) :
    ∀ a x, SegLinks l next a path x → ∀ i ∈ path, i < l.length := by
  induction path with
  | nil => intro a x _ i hi; simp at hi
  | cons j rest ih =>
    intro a x h i hi
    rcases List.mem_cons.mp hi with rfl | hi
    · exact (resolve_some l a i h.2.1).1
    · exact ih _ _ h.2.2 i hi

/-- The child loop with repair allowed, on a child chain without violation: it tags the
chain and changes nothing else. -/
theorem tagChildLoop_valid (isData : Bool) (p : Nat) (path : List Nat) :
    ∀ (fuel : Nat) (c : NodeChain) (a : QByteArray) (pt : Option Nat) (rb : Bool)
      (e : QByteArray),
      path.length < fuel →
      (∀ n ∈ c.children, n.address ≠ []) →
      FirstOrLater c.children (nodeAt c.parents p).startChildAddress a e pt →
      ChildPathOK isData c.children e a path →
      ∃ cpt, tagChildLoop isData true p fuel c a pt rb =
        some { chain := { start := c.start, parents := c.parents,
                          children := tagAll path c.children },
               tempParentNodePt := some p, tempChildNodePt := cpt, return_bool := rb,
               returned := false } := by
  induction path with
  | nil =>
    intro fuel c a pt rb e hfuel _ _ hpath
    obtain ⟨f, rfl⟩ : ∃ f, fuel = f + 1 := ⟨fuel - 1, by simp at hfuel; omega⟩
    have ha : a = EmptyAddress := hpath.1
    subst ha
    rw [tagChildLoop_empty]
    exact ⟨pt, rfl⟩
  | cons i rest ih =>
    intro fuel c a pt rb e hfuel hphys hfl hpath
    obtain ⟨f, rfl⟩ : ∃ f, fuel = f + 1 := ⟨fuel - 1, by simp at hfuel; omega⟩
    obtain ⟨hcl, hnd, hunt, hprev⟩ := hpath
    have ha : a ≠ EmptyAddress := hcl.1
    have hres : resolve c.children a = some i := hcl.2.1
    have hfind : findNodeWithAddressInList c.children a 0 = some i := by
      rw [find_eq_resolve c.children a 0 hphys, hres]
    have htag : (nodeAt c.children i).pointedToCheck = false := hunt i (List.mem_cons_self _ _)
    have hexp : childExpected c p pt a = e :=
      expected_of_firstOrLater c.children _ a e pt i hfl hres htag
    have hmis : childMismatch isData c p pt a i = false := by
      cases hd : isData
      · have := (hprev hd).1
        simp [childMismatch, hd, hexp, this]
      · simp [childMismatch]
    have hvisit : childVisit isData true c p pt a i =
        { start := c.start, parents := c.parents,
          children := updateNode c.children i MPNode.setPointedToCheck } := by
      simp [childVisit, hmis]
    rw [tagChildLoop_visit _ _ _ _ _ _ _ _ i ha hfind htag, hvisit, hmis]
    have hs := sameFields_tag c.children i
    have hnext : (nodeAt (updateNode c.children i MPNode.setPointedToCheck) i).nextChild isData
        = (nodeAt c.children i).nextChild isData :=
      sameFields_field hs (MPNode.nextChild isData) (nextChild_removePointedToCheck isData) i
    obtain ⟨cpt, hr⟩ := ih f
      { start := c.start, parents := c.parents,
        children := updateNode c.children i MPNode.setPointedToCheck }
      ((nodeAt (updateNode c.children i MPNode.setPointedToCheck) i).nextChild isData)
      (some i) rb (nodeAt c.children i).address (by simp at hfuel ⊢; omega)
      (sameFields_phys hs hphys)
      (firstOrLater_next c.children _ a e _ pt i hfl hres)
      ⟨by rw [hnext]
          exact (chainLinks_congr hs _ (nextChild_removePointedToCheck isData) rest _).mpr
            hcl.2.2,
        (List.nodup_cons.mp hnd).2,
        fun k hk => untagged_after_tag (hunt k (List.mem_cons_of_mem _ hk))
          (fun hki => (List.nodup_cons.mp hnd).1 (hki ▸ hk)),
        fun hd => (prevLinks_congr hs MPNode.previousChildAddress (fun _ => rfl) rest _).mpr
          (hprev hd).2⟩
    refine ⟨cpt, ?_⟩
    simp only [Bool.false_eq_true, if_false]
    rw [hr]
    rfl


theorem updateNode_twice (l : List MPNode) (i : Nat) (f g : MPNode → MPNode) :
    updateNode (updateNode l i f) i g = updateNode l i (fun n => g (f n)) := by
  by_cases hi : i < l.length
  · simp only [updateNode]
    rw [show nodeAt (l.set i (f (nodeAt l i))) i = f (nodeAt l i) from
      nodeAt_updateNode_same l i f hi]
    simp
  · rw [updateNode_of_le l i f (by omega), updateNode_of_le l i g (by omega),
      updateNode_of_le l i _ (by omega)]

theorem parentVisit_true (c : NodeChain) (pt : Option Nat) (a : QByteArray) (i : Nat) :
    parentVisit true c pt a i =
      { start := c.start, children := c.children,
        parents := updateNode c.parents i (fixParent (parentExpected c pt a)) } := by
  unfold parentVisit fixParent parentMismatch
  by_cases h : (nodeAt c.parents i).previousParentAddress = parentExpected c pt a
  · simp only [h, ne_eq, not_true_eq_false, decide_False, Bool.false_and, Bool.false_eq_true,
      if_false]
    congr 1
    simp only [updateNode, h, not_true_eq_false, if_false]
  · simp only [ne_eq, h, not_false_eq_true, decide_True, Bool.and_self, if_true]
    rw [updateNode_twice]
    congr 1
    simp only [updateNode, h, not_false_eq_true, if_true]

theorem fixParent_address (e : QByteArray) (n : MPNode) : (fixParent e n).address = n.address := by
  unfold fixParent; split_ifs <;> rfl

theorem fixParent_next (e : QByteArray) (n : MPNode) :
    (fixParent e n).nextParentAddress = n.nextParentAddress := by
  unfold fixParent; split_ifs <;> rfl

theorem fixParent_startChild (e : QByteArray) (n : MPNode) :
    (fixParent e n).startChildAddress = n.startChildAddress := by
  unfold fixParent; split_ifs <;> rfl

theorem fixParent_tag (e : QByteArray) (n : MPNode) : (fixParent e n).pointedToCheck = true := by
  unfold fixParent; split_ifs <;> rfl

theorem fixParent_prev (e : QByteArray) (n : MPNode) :
    (fixParent e n).previousParentAddress = e := by
  unfold fixParent
  split_ifs with h
  · rfl
  · simpa [MPNode.setPointedToCheck] using h

theorem phys_updateNode (l : List MPNode) (i : Nat) (f : MPNode → MPNode)
    (hf : ∀ n, (f n).address = n.address) (h : ∀ n ∈ l, n.address ≠ []) :
    ∀ n ∈ updateNode l i f, n.address ≠ [] := by
  intro n hn
  have h1 : n.address ∈ (updateNode l i f).map MPNode.address := List.mem_map_of_mem _ hn
  rw [map_updateNode l i f MPNode.address hf] at h1
  obtain ⟨m, hm, hma⟩ := List.mem_map.mp h1
  rw [← hma]
  exact h m hm

theorem childChain_of_fields (isData : Bool) {p1 p2 c1 c2 : List MPNode} (p : Nat)
    (hp : (nodeAt p1 p).startChildAddress = (nodeAt p2 p).startChildAddress)
    (hc : SameFields c1 c2) (path : List Nat) :
    ChildChain isData p1 c1 p path ↔ ChildChain isData p2 c2 p path := by
  simp only [ChildChain]
  rw [hp, chainLinks_congr hc _ (nextChild_removePointedToCheck isData) path,
    prevLinks_congr hc MPNode.previousChildAddress (fun _ => rfl) path]

theorem forall₂_childChain_of_fields (isData : Bool) {p1 p2 c1 c2 : List MPNode}
    (hp : ∀ p, (nodeAt p1 p).startChildAddress = (nodeAt p2 p).startChildAddress)
    (hc : SameFields c1 c2) (pp : List Nat) (cps : List (List Nat))
    (h : List.Forall₂ (ChildChain isData p1 c1) pp cps) :
    List.Forall₂ (ChildChain isData p2 c2) pp cps :=
  h.imp fun p path hh => (childChain_of_fields isData p (hp p) hc path).mp hh

theorem firstOrLater_fix (list : List MPNode) (sa a e e2 a2 : QByteArray)
    (pt : Option Nat) (i : Nat) (h : FirstOrLater list sa a e pt)
    (hres : resolve list a = some i) :
    FirstOrLater (updateNode list i (fixParent e2)) sa a2 (nodeAt list i).address (some i) := by
  right
  have hi := (resolve_some list a i hres).1
  have haddr : (updateNode list i (fixParent e2)).map MPNode.address = list.map MPNode.address :=
    map_updateNode list i _ MPNode.address (fixParent_address e2)
  constructor
  · intro j hj
    have hj2 : resolve list sa = some j := by
      rw [← hj]; exact (resolveFrom_congr sa _ _ 0 haddr).symm
    rw [nodeAt_updateNode]
    by_cases hij : i = j
    · subst hij
      simp only [hi, and_self, if_true]
      exact fixParent_tag _ _
    · simp only [hij, false_and, if_false]
      rcases h with ⟨h1, _⟩ | ⟨h1, _⟩
      · subst h1
        rw [hres] at hj2
        simp only [Option.some.injEq] at hj2
        exact absurd hj2 hij
      · exact h1 j hj2
  · simp only [ptrAddress]
    rw [nodeAt_updateNode_same list i _ hi, fixParent_address]

/-- The parent loop with repair allowed, from the address `a`, on a chain that leads
through the untagged parents `path` to the address `x`, which is empty or resolves to no
node, the child chains of these parents being without violation: the loop repairs the previous
addresses along the path, tags the path and the child chains, and at a missing address cuts the
link that holds it. -/
theorem tagParentLoop_walk (isData : Bool) (path : List Nat) :
    ∀ (cps : List (List Nat)) (fuel : Nat) (c : NodeChain) (a e x : QByteArray) (va : Nat)
      (ppt cpt : Option Nat) (rb : Bool),
      path.length < fuel →
      (∀ n ∈ c.parents, n.address ≠ []) → (∀ n ∈ c.children, n.address ≠ []) →
      SegLinks c.parents MPNode.nextParentAddress a path x →
      (x = EmptyAddress ∨ resolve c.parents x = none) →
      path.Nodup → (∀ i ∈ path, (nodeAt c.parents i).pointedToCheck = false) →
      List.Forall₂ (ChildChain isData c.parents c.children) path cps →
      cps.flatten.Nodup → (∀ j ∈ cps.flatten, (nodeAt c.children j).pointedToCheck = false) →
      FirstOrLater c.parents c.start a e ppt →
      ∃ r, tagParentLoop isData true fuel c a va ppt cpt rb = some r ∧
        r.returned = decide (x ≠ EmptyAddress) ∧
        r.chain =
          (if x = EmptyAddress then
            { start := c.start, parents := walkParents c.parents e path,
              children := tagAll cps.flatten c.children }
          else cutParentLink
            { start := c.start, parents := walkParents c.parents e path,
              children := tagAll cps.flatten c.children } (lastVisited path ppt) x) := by
  induction path with
  | nil =>
    intro cps fuel c a e x va ppt cpt rb hfuel hpp _ hseg hend _ _ hcc _ _ _
    obtain ⟨f, rfl⟩ : ∃ f, fuel = f + 1 := ⟨fuel - 1, by simp at hfuel; omega⟩
    have hax : a = x := hseg
    subst hax
    cases hcc
    by_cases ha : a = EmptyAddress
    · subst ha
      rw [tagParentLoop_empty]
      exact ⟨_, rfl, by simp, by simp [walkParents, tagAll]⟩
    · have hfind : findNodeWithAddressInList c.parents a va = none := by
        rw [find_eq_resolve c.parents a va hpp]
        exact hend.resolve_left ha
      rw [tagParentLoop_missing _ _ _ _ _ _ _ _ _ ha hfind]
      exact ⟨_, rfl, by simp [ha], by simp [ha, walkParents, tagAll, lastVisited]⟩
  | cons i rest ih =>
    intro cps fuel c a e x va ppt cpt rb hfuel hpp hpc hseg hend hnd hunt hcc hcnd hcunt hfl
    obtain ⟨f, rfl⟩ : ∃ f, fuel = f + 1 := ⟨fuel - 1, by simp at hfuel; omega⟩
    obtain ⟨ha, hres, hrest⟩ := hseg
    have hi : i < c.parents.length := (resolve_some _ _ _ hres).1
    have hfind : findNodeWithAddressInList c.parents a va = some i := by
      rw [find_eq_resolve c.parents a va hpp, hres]
    have htag := hunt i (List.mem_cons_self _ _)
    have hexp : parentExpected c ppt a = e :=
      expected_of_firstOrLater c.parents _ a e ppt i hfl hres htag
    cases hcc with
    | @cons _ cp _ cps1 hcp hcc1 =>
    rw [tagParentLoop_visit _ _ _ _ _ _ _ _ _ i ha hfind htag, parentVisit_true, hexp]
    simp only [List.flatten_cons, List.nodup_append] at hcnd
    have hstart : (nodeAt (updateNode c.parents i (fixParent e)) i).startChildAddress =
        (nodeAt c.parents i).startChildAddress := by
      rw [nodeAt_updateNode_same _ _ _ hi, fixParent_startChild]
    have hstartAll : ∀ p, (nodeAt c.parents p).startChildAddress =
        (nodeAt (updateNode c.parents i (fixParent e)) p).startChildAddress := fun p =>
      (field_updateNode c.parents i p (fixParent e) MPNode.startChildAddress
        (fixParent_startChild e)).symm
    obtain ⟨cpt1, hchild⟩ := tagChildLoop_valid isData i cp (c.children.length + 1)
      { start := c.start, children := c.children,
        parents := updateNode c.parents i (fixParent e) }
      (nodeAt (updateNode c.parents i (fixParent e)) i).startChildAddress cpt
      (if parentMismatch c ppt a i then false else rb) EmptyAddress
      (by
        have h1 := chainLinks_lt c.children (MPNode.nextChild isData) cp _ hcp.1
        have h2 : cp.length ≤ c.children.length := by
          have := List.Nodup.length_le_card (α := Fin c.children.length)
            (l := cp.pmap (fun j hj => (⟨j, hj⟩ : Fin c.children.length)) h1)
            (by
              apply List.Nodup.pmap _ hcnd.1
              intro a1 h1 b1 h2 hab
              simpa using hab)
          simpa using this
        omega)
      hpc (Or.inl ⟨rfl, rfl⟩)
      ⟨by rw [hstart]; exact hcp.1, hcnd.1,
        fun j hj => hcunt j (by simp only [List.flatten_cons, List.mem_append]; exact Or.inl hj),
        hcp.2⟩
    simp only at hchild
    rw [hchild]
    simp only [Bool.false_eq_true, if_false]
    have haddr : (updateNode c.parents i (fixParent e)).map MPNode.address =
        c.parents.map MPNode.address :=
      map_updateNode c.parents i _ MPNode.address (fixParent_address e)
    have hnext : ∀ k, (nodeAt (updateNode c.parents i (fixParent e)) k).nextParentAddress =
        (nodeAt c.parents k).nextParentAddress := fun k =>
      field_updateNode c.parents i k (fixParent e) MPNode.nextParentAddress (fixParent_next e)
    obtain ⟨r, hr, hret, hchain⟩ := ih cps1 f
      { start := c.start, parents := updateNode c.parents i (fixParent e),
        children := tagAll cp c.children }
      (nodeAt (updateNode c.parents i (fixParent e)) i).nextParentAddress
      (nodeAt c.parents i).address x
      (nodeAt (updateNode c.parents i (fixParent e)) i).nextParentVirtualAddress
      (some i) cpt1 (if parentMismatch c ppt a i then false else rb)
      (by simp at hfuel ⊢; omega)
      (phys_updateNode _ _ _ (fixParent_address e) hpp)
      (sameFields_phys (sameFields_tagAll cp c.children) hpc)
      (by
        rw [hnext]
        exact (segLinks_congr _ haddr rest (fun k _ => hnext k) _ _).mpr hrest)
      (by
        rcases hend with h | h
        · exact Or.inl h
        · right
          rw [← h]
          exact resolveFrom_congr x _ _ 0 haddr)
      (List.nodup_cons.mp hnd).2
      (by
        intro k hk
        rw [nodeAt_updateNode_ne c.parents i k _
          (fun h => (List.nodup_cons.mp hnd).1 (h ▸ hk))]
        exact hunt k (List.mem_cons_of_mem _ hk))
      (forall₂_childChain_of_fields isData hstartAll
        (sameFields_symm (sameFields_tagAll cp c.children)) rest cps1 hcc1)
      hcnd.2.1
      (by
        intro j hj
        cases hb : (nodeAt (tagAll cp c.children) j).pointedToCheck with
        | false => rfl
        | true =>
          rcases (tagged_tagAll cp c.children j).mp hb with ⟨h1, _⟩ | h1
          · exact (hcnd.2.2 h1 hj).elim
          · rw [hcunt j (by simp only [List.flatten_cons, List.mem_append]; exact Or.inr hj)]
              at h1
            cases h1)
      (firstOrLater_fix c.parents c.start a e e _ ppt i hfl hres)
    refine ⟨r, hr, hret, ?_⟩
    rw [hchain]
    simp only [walkParents, lastVisited_cons, List.flatten_cons, tagAll_append]


/-! ## Lemmas: what a repairing walk leaves -/

theorem nodup_length_le (P : List Nat) (n : Nat) (hnd : P.Nodup) (hlt : ∀ i ∈ P, i < n) :
    P.length ≤ n := by
  have hsub : P ⊆ List.range n := fun i hi => List.mem_range.mpr (hlt i hi)
  have := (List.subperm_of_subset hnd hsub).length_le
  simpa using this

theorem map_eq_of_nodeAt {β : Type} (g : MPNode → β) {l1 l2 : List MPNode}
    (hl : l1.length = l2.length) (h : ∀ k, g (nodeAt l1 k) = g (nodeAt l2 k)) :
    l1.map g = l2.map g := by
  apply List.ext_getElem
  · simp [hl]
  · intro k h1 h2
    simp only [List.length_map] at h1 h2
    simp only [List.getElem_map]
    rw [← nodeAt_eq_getElem l1 k h1, ← nodeAt_eq_getElem l2 k h2]
    exact h k

theorem nodeAt_of_map_eq {β : Type} (g : MPNode → β) {l1 l2 : List MPNode}
    (h : l1.map g = l2.map g) (k : Nat) : g (nodeAt l1 k) = g (nodeAt l2 k) := by
  have hl : l1.length = l2.length := by simpa using congrArg List.length h
  by_cases hk : k < l1.length
  · have hk2 : k < l2.length := hl ▸ hk
    rw [nodeAt_eq_getElem l1 k hk, nodeAt_eq_getElem l2 k hk2]
    have h1 : (l1.map g)[k]? = (l2.map g)[k]? := by rw [h]
    simpa [List.getElem?_map, List.getElem?_eq_getElem hk, List.getElem?_eq_getElem hk2]
      using h1
  · rw [nodeAt_of_le l1 k (by omega), nodeAt_of_le l2 k (by omega)]

theorem prevLinks_congr_on {l1 l2 : List MPNode} (prev : MPNode → QByteArray)
    (haddr : l1.map MPNode.address = l2.map MPNode.address)
    (path : List Nat) (hprev : ∀ i ∈ path, prev (nodeAt l1 i) = prev (nodeAt l2 i)) :
    ∀ e, PrevLinks l1 prev e path ↔ PrevLinks l2 prev e path := by
  induction path with
  | nil => intro e; rfl
  | cons i rest ih =>
    intro e
    simp only [PrevLinks]
    rw [hprev i (List.mem_cons_self _ _), nodeAt_of_map_eq MPNode.address haddr i,
      ih (fun j hj => hprev j (List.mem_cons_of_mem _ hj))]

/-! ### walkParents -/

theorem length_walkParents (P : List Nat) :
    ∀ (l : List MPNode) (e : QByteArray), (walkParents l e P).length = l.length := by
  induction P with
  | nil => intro l e; rfl
  | cons i rest ih =>
    intro l e
    simp only [walkParents]
    rw [ih, length_updateNode]

theorem field_walkParents {β : Type} (g : MPNode → β) (hg : ∀ e n, g (fixParent e n) = g n)
    (P : List Nat) :
    ∀ (l : List MPNode) (e : QByteArray) (k : Nat),
      g (nodeAt (walkParents l e P) k) = g (nodeAt l k) := by
  induction P with
  | nil => intro l e k; rfl
  | cons i rest ih =>
    intro l e k
    simp only [walkParents]
    rw [ih, field_updateNode l i k (fixParent e) g (hg e)]

theorem nodeAt_walkParents_not_mem (P : List Nat) :
    ∀ (l : List MPNode) (e : QByteArray) (k : Nat), k ∉ P →
      nodeAt (walkParents l e P) k = nodeAt l k := by
  induction P with
  | nil => intro l e k _; rfl
  | cons i rest ih =>
    intro l e k hk
    simp only [walkParents]
    rw [ih _ _ k (fun h => hk (List.mem_cons_of_mem _ h)),
      nodeAt_updateNode_ne l i k _ (fun h => hk (h ▸ List.mem_cons_self _ _))]

theorem tagged_walkParents (P : List Nat) :
    ∀ (l : List MPNode) (e : QByteArray) (k : Nat),
      (nodeAt (walkParents l e P) k).pointedToCheck = true ↔
        (k ∈ P ∧ k < l.length) ∨ (nodeAt l k).pointedToCheck = true := by
  induction P with
  | nil => intro l e k; simp [walkParents]
  | cons i rest ih =>
    intro l e k
    simp only [walkParents]
    rw [ih, length_updateNode, nodeAt_updateNode]
    by_cases hik : i = k
    · subst hik
      by_cases hi : i < l.length
      · simp [hi, fixParent_tag]
      · simp [hi]
    · have : ¬ k = i := fun h => hik h.symm
      simp [hik, this]

theorem unlinked_fixParent (e : QByteArray) (n : MPNode) :
    (fixParent e n).unlinked = n.unlinked := by
  unfold fixParent; split_ifs <;> rfl

theorem prevLinks_walkParents (P : List Nat) :
    ∀ (l : List MPNode) (e : QByteArray), P.Nodup → (∀ i ∈ P, i < l.length) →
      PrevLinks (walkParents l e P) MPNode.previousParentAddress e P := by
  induction P with
  | nil => intro l e _ _; trivial
  | cons i rest ih =>
    intro l e hnd hlt
    have hi := hlt i (List.mem_cons_self _ _)
    have hni := (List.nodup_cons.mp hnd).1
    simp only [walkParents, PrevLinks]
    have hnode : nodeAt (walkParents (updateNode l i (fixParent e)) (nodeAt l i).address rest) i
        = fixParent e (nodeAt l i) := by
      rw [nodeAt_walkParents_not_mem rest _ _ i hni, nodeAt_updateNode_same l i _ hi]
    rw [hnode, fixParent_prev, fixParent_address]
    exact ⟨rfl, ih _ _ (List.nodup_cons.mp hnd).2
      (fun j hj => by rw [length_updateNode]; exact hlt j (List.mem_cons_of_mem _ hj))⟩

/-! ### The cut at a missing address -/

theorem lastVisited_mem (P : List Nat) :
    ∀ pt, P ≠ [] → ∃ z ∈ P, lastVisited P pt = some z := by
  induction P with
  | nil => intro pt h; exact absurd rfl h
  | cons i rest ih =>
    intro pt _
    rw [lastVisited_cons]
    by_cases hr : rest = []
    · subst hr
      exact ⟨i, List.mem_cons_self _ _, rfl⟩
    · obtain ⟨z, hz, hl⟩ := ih (some i) hr
      exact ⟨z, List.mem_cons_of_mem _ hz, hl⟩

theorem segLinks_cut (l : List MPNode) (P : List Nat) :
    ∀ (a x : QByteArray) (pt : Option Nat),
      SegLinks l MPNode.nextParentAddress a P x → P.Nodup → P ≠ [] →
      SegLinks (updatePtr l (lastVisited P pt) (fun n => n.setNextParentAddress EmptyAddress 0))
        MPNode.nextParentAddress a P EmptyAddress := by
  induction P with
  | nil => intro a x pt _ _ h; exact absurd rfl h
  | cons i rest ih =>
    intro a x pt hseg hnd _
    obtain ⟨ha, hres, hrest⟩ := hseg
    have hi := (resolve_some l a i hres).1
    have haddr : ∀ q, (updatePtr l q (fun n => n.setNextParentAddress EmptyAddress 0)).map
        MPNode.address = l.map MPNode.address := fun q =>
      map_updatePtr l q _ MPNode.address (fun _ => rfl)
    rw [lastVisited_cons]
    refine ⟨ha, ?_, ?_⟩
    · rw [← hres]
      exact resolveFrom_congr a _ _ 0 (haddr _)
    · by_cases hr : rest = []
      · subst hr
        simp only [lastVisited, List.foldl_nil, updatePtr, SegLinks]
        rw [nodeAt_updateNode_same l i _ hi]
        rfl
      · obtain ⟨z, hz, hl⟩ := lastVisited_mem rest (some i) hr
        have hzi : z ≠ i := fun h => (List.nodup_cons.mp hnd).1 (h ▸ hz)
        have := ih _ x (some i) hrest (List.nodup_cons.mp hnd).2 hr
        rw [hl] at this ⊢
        rw [nodeAt_updatePtr_ne l (some z) i _ (by simpa using hzi)]
        exact this

/-! ### A linked chain is determined by its path -/

theorem segLinks_start_eq {l1 l2 : List MPNode} (next : MPNode → QByteArray)
    (haddr : l1.map MPNode.address = l2.map MPNode.address) (P : List Nat) :
    ∀ (a1 a2 x : QByteArray), SegLinks l1 next a1 P x → SegLinks l2 next a2 P x →
      a1 = a2 ∧ ∀ i ∈ P, next (nodeAt l1 i) = next (nodeAt l2 i) := by
  induction P with
  | nil =>
    intro a1 a2 x h1 h2
    exact ⟨(show a1 = x from h1).trans (show a2 = x from h2).symm, fun i hi => by simp at hi⟩
  | cons i rest ih =>
    intro a1 a2 x h1 h2
    have e1 := (resolve_some l1 a1 i h1.2.1).2
    have e2 := (resolve_some l2 a2 i h2.2.1).2
    have ea := nodeAt_of_map_eq MPNode.address haddr i
    obtain ⟨hn, hr⟩ := ih _ _ x h1.2.2 h2.2.2
    refine ⟨by rw [← e1, ← e2, ea], ?_⟩
    intro j hj
    rcases List.mem_cons.mp hj with rfl | hj
    · exact hn
    · exact hr j hj

theorem prevLinks_eq {l1 l2 : List MPNode} (prev : MPNode → QByteArray)
    (haddr : l1.map MPNode.address = l2.map MPNode.address) (P : List Nat) :
    ∀ (e : QByteArray), PrevLinks l1 prev e P → PrevLinks l2 prev e P →
      ∀ i ∈ P, prev (nodeAt l1 i) = prev (nodeAt l2 i) := by
  induction P with
  | nil => intro e _ _ i hi; simp at hi
  | cons i rest ih =>
    intro e h1 h2 j hj
    rcases List.mem_cons.mp hj with rfl | hj
    · rw [h1.1, h2.1]
    · have h2r := h2.2
      rw [← nodeAt_of_map_eq MPNode.address haddr i] at h2r
      exact ih _ h1.2 h2r j hj

theorem core_eq_of {n m : MPNode} (hu : n.unlinked = m.unlinked)
    (hp : n.previousParentAddress = m.previousParentAddress)
    (hn : n.nextParentAddress = m.nextParentAddress) : n.core = m.core := by
  cases n; cases m
  simp only [MPNode.unlinked, MPNode.core, MPNode.mk.injEq] at *
  simp_all

theorem unlinked_of_core {n m : MPNode} (h : n.core = m.core) : n.unlinked = m.unlinked := by
  have := congrArg MPNode.unlinked h
  simpa [MPNode.unlinked, MPNode.core] using this

theorem sameButLinks_address {l1 l2 : List MPNode} (h : SameButLinks l1 l2) :
    l1.map MPNode.address = l2.map MPNode.address := by
  have := congrArg (List.map MPNode.address) h
  simpa [List.map_map, Function.comp_def, MPNode.unlinked] using this

theorem sameCore_address {l1 l2 : List MPNode} (h : SameCore l1 l2) :
    l1.map MPNode.address = l2.map MPNode.address := by
  have := congrArg (List.map MPNode.address) h
  simpa [List.map_map, Function.comp_def, MPNode.core] using this

theorem sameButLinks_length {l1 l2 : List MPNode} (h : SameButLinks l1 l2) :
    l1.length = l2.length := by
  simpa using congrArg List.length h

theorem sameCore_length {l1 l2 : List MPNode} (h : SameCore l1 l2) :
    l1.length = l2.length := by
  simpa using congrArg List.length h

theorem sameButLinks_of_sameCore {l1 l2 : List MPNode} (h : SameCore l1 l2) :
    SameButLinks l1 l2 :=
  map_eq_of_nodeAt MPNode.unlinked (sameCore_length h)
    (fun k => unlinked_of_core (nodeAt_of_map_eq MPNode.core h k))

/-- Two lists that hold the same nodes up to the parent links, and whose parents `P` are
linked both ways along the same path, agree on the parent links too. -/
theorem linked_unique {l1 l2 : List MPNode} {s1 s2 : QByteArray} {P : List Nat}
    (hs : SameButLinks l1 l2) (h1 : Linked l1 s1 P) (h2 : Linked l2 s2 P)
    (hframe : ∀ k, k ∉ P → (nodeAt l1 k).core = (nodeAt l2 k).core) :
    SameCore l1 l2 ∧ s1 = s2 := by
  have haddr := sameButLinks_address hs
  obtain ⟨hs12, hnext⟩ := segLinks_start_eq MPNode.nextParentAddress haddr P s1 s2 EmptyAddress
    ((chainLinks_iff_segLinks _ _ _ _).mp h1.1) ((chainLinks_iff_segLinks _ _ _ _).mp h2.1)
  have hprev := prevLinks_eq MPNode.previousParentAddress haddr P EmptyAddress h1.2 h2.2
  refine ⟨?_, hs12⟩
  apply map_eq_of_nodeAt MPNode.core (sameButLinks_length hs)
  intro k
  by_cases hk : k ∈ P
  · exact core_eq_of (nodeAt_of_map_eq MPNode.unlinked hs k) (hprev k hk) (hnext k hk)
  · exact hframe k hk


theorem linked_nil (l : List MPNode) : Linked l EmptyAddress [] :=
  ⟨rfl, trivial⟩

/-- The repairing walk from the start address of a walkable chain whose nodes are all
untagged: it stops inside the loop exactly when the path ends at a missing address, and it
leaves the parents of the path linked both ways and tagged, the nodes being otherwise the
same. -/
theorem tagParentLoop_walked (isData : Bool) (c : NodeChain) (P : List Nat)
    (cps : List (List Nat)) (x : QByteArray) (va fuel : Nat) (rb : Bool)
    (hfuel : c.parents.length < fuel)
    (hpp : ∀ n ∈ c.parents, n.address ≠ []) (hpc : ∀ n ∈ c.children, n.address ≠ [])
    (hw : Walkable isData c P cps x)
    (hup : ∀ k, (nodeAt c.parents k).pointedToCheck = false)
    (huc : ∀ k, (nodeAt c.children k).pointedToCheck = false) :
    ∃ r, tagParentLoop isData true fuel c c.start va none none rb = some r ∧
      r.returned = decide (x ≠ EmptyAddress) ∧ Walked c r.chain P := by
  obtain ⟨hseg, hend, hnd, hcc, hcnd⟩ := hw
  have hlt := segLinks_lt _ _ _ _ _ hseg
  obtain ⟨r, hr, hret, hchain⟩ := tagParentLoop_walk isData P cps fuel c c.start EmptyAddress x
    va none none rb (by have := nodup_length_le P _ hnd hlt; omega) hpp hpc hseg hend hnd
    (fun i _ => hup i) hcc hcnd (fun j _ => huc j) (Or.inl ⟨rfl, rfl⟩)
  refine ⟨r, hr, hret, ?_⟩
  have haddrW : (walkParents c.parents EmptyAddress P).map MPNode.address =
      c.parents.map MPNode.address :=
    map_eq_of_nodeAt MPNode.address (length_walkParents _ _ _)
      (field_walkParents MPNode.address fixParent_address P _ _)
  have hsegW : SegLinks (walkParents c.parents EmptyAddress P) MPNode.nextParentAddress
      c.start P x :=
    (segLinks_congr _ haddrW P
      (fun i _ => field_walkParents MPNode.nextParentAddress fixParent_next P _ _ i) _ _).mpr hseg
  have hprevW := prevLinks_walkParents P c.parents EmptyAddress hnd hlt
  have hsameW : SameButLinks (walkParents c.parents EmptyAddress P) c.parents :=
    map_eq_of_nodeAt MPNode.unlinked (length_walkParents _ _ _)
      (field_walkParents MPNode.unlinked unlinked_fixParent P _ _)
  have htagW : ∀ k, (nodeAt (walkParents c.parents EmptyAddress P) k).pointedToCheck = true ↔
      k ∈ P := by
    intro k
    rw [tagged_walkParents, hup k]
    constructor
    · rintro (⟨h, _⟩ | h)
      · exact h
      · cases h
    · intro h
      exact Or.inl ⟨h, hlt k h⟩
  have hframeW : ∀ k, k ∉ P →
      (nodeAt (walkParents c.parents EmptyAddress P) k).core = (nodeAt c.parents k).core :=
    fun k hk => by rw [nodeAt_walkParents_not_mem P _ _ k hk]
  rw [hchain]
  by_cases hx : x = EmptyAddress
  · rw [if_pos hx]
    subst hx
    exact ⟨hsameW, sameFields_tagAll _ _, ⟨(chainLinks_iff_segLinks _ _ _ _).mpr hsegW, hprevW⟩,
      htagW, hframeW⟩
  · rw [if_neg hx]
    have hxr : resolve c.parents x = none := hend.resolve_left hx
    unfold cutParentLink
    by_cases hxs : x = c.start
    · rw [if_pos hxs]
      have hP : P = [] := by
        cases P with
        | nil => rfl
        | cons i rest =>
          have := hseg.2.1
          rw [← hxs, hxr] at this
          cases this
      subst hP
      exact ⟨hsameW, sameFields_tagAll _ _, linked_nil _, htagW, hframeW⟩
    · rw [if_neg hxs]
      have hP : P ≠ [] := by
        intro hP
        subst hP
        exact hxs (show c.start = x from hseg).symm
      obtain ⟨z, hz, hl⟩ := lastVisited_mem P none hP
      have hcut := segLinks_cut _ P c.start x none hsegW hnd hP
      have haddrC : (updatePtr (walkParents c.parents EmptyAddress P) (lastVisited P none)
          (fun n => n.setNextParentAddress EmptyAddress 0)).map MPNode.address =
          (walkParents c.parents EmptyAddress P).map MPNode.address :=
        map_updatePtr _ _ _ MPNode.address (fun _ => rfl)
      refine ⟨?_, sameFields_tagAll _ _, ⟨(chainLinks_iff_segLinks _ _ _ _).mpr hcut, ?_⟩,
        ?_, ?_⟩
      · exact (map_updatePtr (walkParents c.parents EmptyAddress P) (lastVisited P none)
          (fun n => n.setNextParentAddress EmptyAddress 0) MPNode.unlinked
          (fun _ => rfl)).trans hsameW
      · exact (prevLinks_congr_on MPNode.previousParentAddress haddrC P
          (fun i _ => field_updatePtr _ _ i _ MPNode.previousParentAddress (fun _ => rfl))
          _).mpr hprevW
      · intro k
        rw [← htagW k]
        exact Eq.to_iff (congrArg (· = true)
          (field_updatePtr _ _ k _ MPNode.pointedToCheck (fun _ => rfl)))
      · intro k hk
        dsimp only
        rw [hl, nodeAt_updatePtr_ne _ (some z) k _
          (by intro h; exact hk ((Option.some.inj h) ▸ hz))]
        exact hframeW k hk


/-! ### The whole tagging with repair allowed -/

theorem core_removePointedToCheck (n : MPNode) : n.removePointedToCheck.core = n.core := rfl

theorem unlinked_removePointedToCheck (n : MPNode) :
    n.removePointedToCheck.unlinked = n.unlinked := rfl

theorem sameCore_of_sameFields {l1 l2 : List MPNode} (h : SameFields l1 l2) : SameCore l1 l2 :=
  map_eq_of_nodeAt MPNode.core (sameFields_length h)
    (sameFields_field h MPNode.core core_removePointedToCheck)

theorem sameButLinks_of_sameFields {l1 l2 : List MPNode} (h : SameFields l1 l2) :
    SameButLinks l1 l2 :=
  sameButLinks_of_sameCore (sameCore_of_sameFields h)

theorem walkable_of_sameFields (isData : Bool) (c c1 : NodeChain) (hs : c1.start = c.start)
    (hp : SameFields c1.parents c.parents) (hc : SameFields c1.children c.children)
    (P : List Nat) (cps : List (List Nat)) (x : QByteArray) (h : Walkable isData c P cps x) :
    Walkable isData c1 P cps x := by
  obtain ⟨hseg, hend, hnd, hcc, hcnd⟩ := h
  refine ⟨?_, ?_, hnd, (forall₂_childChain_congr isData hp hc P cps).mpr hcc, hcnd⟩
  · rw [hs]
    exact (segLinks_congr _ (sameFields_map_address hp) P
      (fun i _ => sameFields_field hp MPNode.nextParentAddress (fun _ => rfl) i) _ _).mpr hseg
  · rw [sameFields_resolve hp]
    exact hend

theorem walked_of_sameFields (c c0 : NodeChain) {c1 : NodeChain} {P : List Nat}
    (hp : SameFields c.parents c0.parents) (hc : SameFields c.children c0.children)
    (h : Walked c c1 P) : Walked c0 c1 P := by
  obtain ⟨h1, h2, h3, h4, h5⟩ := h
  refine ⟨h1.trans (sameButLinks_of_sameFields hp), sameFields_trans h2 hc, h3, h4, ?_⟩
  intro k hk
  rw [h5 k hk]
  exact sameFields_field hp MPNode.core core_removePointedToCheck k

/-- The tagging with repair allowed on a session whose chains are walkable: the credential
chain is left walked along its path; the data chain is left walked along its path when the
credential path ends at the empty address, and is left untagged when it ends at a missing
address. Nothing else changes. -/
theorem tagPointedNodes_walked (s : Session) (P Q : List Nat) (cps dps : List (List Nat))
    (x y : QByteArray) (hphys : AllPhysical s)
    (hc : Walkable false s.credChain P cps x) (hd : Walkable true s.dataChain Q dps y) :
    ∃ b c1 c2, tagPointedNodes true s = some (b, (s.setCredChain c1).setDataChain c2) ∧
      Walked s.credChain c1 P ∧
      (x = EmptyAddress → Walked s.dataChain c2 Q) ∧
      (x ≠ EmptyAddress → c2 = (detagPointedNodes s).dataChain) := by
  obtain ⟨p1, p2, p3, p4⟩ := hphys
  have hsf1 := sameFields_map_detag s.loginNodes
  have hsf2 := sameFields_map_detag s.loginChildNodes
  have hsf3 := sameFields_map_detag s.dataNodes
  have hsf4 := sameFields_map_detag s.dataChildNodes
  obtain ⟨r1, hr1, hret1, hw1⟩ := tagParentLoop_walked false (detagPointedNodes s).credChain P cps
    x (detagPointedNodes s).virtualStartNode ((detagPointedNodes s).loginNodes.length + 1) true
    (Nat.lt_succ_self _) (sameFields_phys hsf1 p1) (sameFields_phys hsf2 p2)
    (walkable_of_sameFields false s.credChain (detagPointedNodes s).credChain rfl hsf1 hsf2
      P cps x hc)
    (nodeAt_map_detag s.loginNodes) (nodeAt_map_detag s.loginChildNodes)
  have hw1s : Walked s.credChain r1.chain P := walked_of_sameFields (detagPointedNodes s).credChain s.credChain hsf1 hsf2 hw1
  have hr1x : tagParentLoop false true ((detagPointedNodes s).loginNodes.length + 1)
      (detagPointedNodes s).credChain (detagPointedNodes s).startNode
      (detagPointedNodes s).virtualStartNode none none true = some r1 := hr1
  unfold tagPointedNodes
  simp only [hr1x]
  by_cases hx : x = EmptyAddress
  · have hret : r1.returned = false := by rw [hret1]; simp [hx]
    simp only [hret, Bool.false_eq_true, if_false]
    obtain ⟨r2, hr2, hret2, hw2⟩ := tagParentLoop_walked true (detagPointedNodes s).dataChain Q
      dps y ((detagPointedNodes s).setCredChain r1.chain).virtualStartNode
      ((detagPointedNodes s).dataNodes.length + 1) r1.return_bool
      (Nat.lt_succ_self _) (sameFields_phys hsf3 p3) (sameFields_phys hsf4 p4)
      (walkable_of_sameFields true s.dataChain (detagPointedNodes s).dataChain rfl hsf3 hsf4
        Q dps y hd)
      (nodeAt_map_detag s.dataNodes) (nodeAt_map_detag s.dataChildNodes)
    have hw2s : Walked s.dataChain r2.chain Q := walked_of_sameFields (detagPointedNodes s).dataChain s.dataChain hsf3 hsf4 hw2
    have hr2x : tagParentLoop true true
        (((detagPointedNodes s).setCredChain r1.chain).dataNodes.length + 1)
        ((detagPointedNodes s).setCredChain r1.chain).dataChain
        ((detagPointedNodes s).setCredChain r1.chain).startDataNode
        ((detagPointedNodes s).setCredChain r1.chain).virtualStartNode none none
        r1.return_bool = some r2 := hr2
    simp only [hr2x]
    by_cases hy : r2.returned = true
    · simp only [hy, if_true]
      exact ⟨false, r1.chain, r2.chain, rfl, hw1s, fun _ => hw2s, fun h => absurd hx h⟩
    · simp only [hy, Bool.false_eq_true, if_false]
      exact ⟨r2.return_bool, r1.chain, r2.chain, rfl, hw1s, fun _ => hw2s, fun h => absurd hx h⟩
  · have hret : r1.returned = true := by rw [hret1]; simp [hx]
    simp only [hret, if_true]
    exact ⟨false, r1.chain, (detagPointedNodes s).dataChain, rfl, hw1s, fun h => absurd h hx,
      fun _ => rfl⟩

/-! ## Lemmas: sessions up to tags and virtual ids -/

theorem getNodeData_core (n : MPNode) : n.core.getNodeData = n.getNodeData := rfl

theorem sameNodes_of_sameCore {l1 l2 c : List MPNode} (h : SameCore l1 l2)
    (hn : SameNodes l2 c) : SameNodes l1 c := by
  have : l1.map (fun n => (n.address, n.getNodeData)) =
      l2.map (fun n => (n.address, n.getNodeData)) :=
    map_eq_of_nodeAt (fun n => (n.address, n.getNodeData)) (sameCore_length h)
      (fun k => by
        have := nodeAt_of_map_eq MPNode.core h k
        have h2 := congrArg (fun n => (n.address, n.getNodeData)) this
        simpa [MPNode.core, MPNode.getNodeData] using h2)
  exact sameNodes_congr this hn

theorem addressesDistinct_of_sameCore {l1 l2 : List MPNode} (h : SameCore l1 l2)
    (hd : AddressesDistinct l2) : AddressesDistinct l1 := by
  have ha := sameCore_address h
  refine ⟨?_, by rw [ha]; exact hd.2⟩
  intro n hn
  have h1 : n.address ∈ l1.map MPNode.address := List.mem_map_of_mem _ hn
  rw [ha] at h1
  obtain ⟨m, hm, hma⟩ := List.mem_map.mp h1
  rw [← hma]
  exact hd.1 m hm

theorem core_loginNodes {s t : Session} (h : t.core = s.core) :
    SameCore t.loginNodes s.loginNodes := by
    have h0 := congrArg Session.loginNodes h; exact h0

theorem core_dataNodes {s t : Session} (h : t.core = s.core) :
    SameCore t.dataNodes s.dataNodes := by
    have h0 := congrArg Session.dataNodes h; exact h0

theorem core_loginChildNodes {s t : Session} (h : t.core = s.core) :
    SameFields t.loginChildNodes s.loginChildNodes := by
    have h0 := congrArg Session.loginChildNodes h; exact h0

theorem core_dataChildNodes {s t : Session} (h : t.core = s.core) :
    SameFields t.dataChildNodes s.dataChildNodes := by
    have h0 := congrArg Session.dataChildNodes h; exact h0

theorem allDistinct_of_core {s t : Session} (h : t.core = s.core) (hd : AllDistinct s) :
    AllDistinct t :=
  ⟨addressesDistinct_of_sameCore (core_loginNodes h) hd.1,
    addressesDistinct_of_sameCore (sameCore_of_sameFields (core_loginChildNodes h)) hd.2.1,
    addressesDistinct_of_sameCore (core_dataNodes h) hd.2.2.1,
    addressesDistinct_of_sameCore (sameCore_of_sameFields (core_dataChildNodes h)) hd.2.2.2⟩

theorem liveEqualsClone_of_core {s t : Session} (h : t.core = s.core)
    (hl : LiveEqualsClone s) : LiveEqualsClone t := by
  obtain ⟨n1, n2, n3, n4, hf, hc, hs, hsd, hz⟩ := hl
  have e1 : t.favoritesAddrs = s.favoritesAddrs := by
    have h0 := congrArg Session.favoritesAddrs h; exact h0
  have e2 : t.favoritesAddrsClone = s.favoritesAddrsClone := by
    have h0 := congrArg Session.favoritesAddrsClone h; exact h0
  have e3 : t.ctrValue = s.ctrValue := by
    have h0 := congrArg Session.ctrValue h; exact h0
  have e4 : t.ctrValueClone = s.ctrValueClone := by
    have h0 := congrArg Session.ctrValueClone h; exact h0
  have e5 : t.startNode = s.startNode := by
    have h0 := congrArg Session.startNode h; exact h0
  have e6 : t.startNodeClone = s.startNodeClone := by
    have h0 := congrArg Session.startNodeClone h; exact h0
  have e7 : t.startDataNode = s.startDataNode := by
    have h0 := congrArg Session.startDataNode h; exact h0
  have e8 : t.startDataNodeClone = s.startDataNodeClone := by
    have h0 := congrArg Session.startDataNodeClone h; exact h0
  have e9 : t.cpzCtrValue = s.cpzCtrValue := by
    have h0 := congrArg Session.cpzCtrValue h; exact h0
  have e10 : t.cpzCtrValueClone = s.cpzCtrValueClone := by
    have h0 := congrArg Session.cpzCtrValueClone h; exact h0
  have c1 : t.loginNodesClone = s.loginNodesClone := by
    have h0 := congrArg Session.loginNodesClone h; exact h0
  have c2 : t.loginChildNodesClone = s.loginChildNodesClone := by
    have h0 := congrArg Session.loginChildNodesClone h; exact h0
  have c3 : t.dataNodesClone = s.dataNodesClone := by
    have h0 := congrArg Session.dataNodesClone h; exact h0
  have c4 : t.dataChildNodesClone = s.dataChildNodesClone := by
    have h0 := congrArg Session.dataChildNodesClone h; exact h0
  refine ⟨?_, ?_, ?_, ?_, by rw [e1, e2, hf], by rw [e3, e4, hc], by rw [e5, e6, hs],
    by rw [e7, e8, hsd], by rw [e9, e10]; exact hz⟩
  · rw [c1]; exact sameNodes_of_sameCore (core_loginNodes h) n1
  · rw [c2]; exact sameNodes_of_sameCore (sameCore_of_sameFields (core_loginChildNodes h)) n2
  · rw [c3]; exact sameNodes_of_sameCore (core_dataNodes h) n3
  · rw [c4]; exact sameNodes_of_sameCore (sameCore_of_sameFields (core_dataChildNodes h)) n4

/-- A session restored up to tags and virtual ids to one that equals its clone gives
`generateSavePackets` nothing to write. -/
theorem generateSavePackets_of_core {s t : Session} (h : t.core = s.core)
    (hd : AllDistinct s) (hl : LiveEqualsClone s) (hflag : s.diagSavePacketsGenerated = false) :
    generateSavePackets t = some (true, t) ∧ t.diagSavePacketsGenerated = false :=
  ⟨generateSavePackets_same t
      (clonePhysical_of_distinct (allDistinct_of_core h hd) (liveEqualsClone_of_core h hl))
      (liveEqualsClone_of_core h hl),
    (congrArg Session.diagSavePacketsGenerated h).trans hflag⟩

theorem core_of_restores (s : Session) (c1 c2 : NodeChain) (h1 : Restores s.credChain c1)
    (h2 : Restores s.dataChain c2) :
    ((s.setCredChain c1).setDataChain c2).core = s.core := by
  obtain ⟨a1, a2, a3⟩ := h1
  obtain ⟨b1, b2, b3⟩ := h2
  simp only [Session.credChain, Session.dataChain] at a1 a2 a3 b1 b2 b3
  simp only [Session.core, Session.setCredChain, Session.setDataChain]
  rw [a1, b1, show c1.parents.map MPNode.core = s.loginNodes.map MPNode.core from a2,
    show c2.parents.map MPNode.core = s.dataNodes.map MPNode.core from b2,
    show c1.children.map MPNode.removePointedToCheck =
      s.loginChildNodes.map MPNode.removePointedToCheck from a3,
    show c2.children.map MPNode.removePointedToCheck =
      s.dataChildNodes.map MPNode.removePointedToCheck from b3]

theorem core_detag (s : Session) : (detagPointedNodes s).core = s.core := by
  simp only [Session.core, detagPointedNodes, List.map_map]
  congr 1

theorem core_of_detag {s t : Session} (h : detagPointedNodes t = detagPointedNodes s) :
    t.core = s.core := by
  rw [← core_detag t, h, core_detag]

theorem addrSame_of_sameCore {l1 l2 : List MPNode} (h : SameCore l1 l2) : AddrSame l1 l2 :=
  map_eq_of_nodeAt (fun n => (n.address, n.virtualAddress)) (sameCore_length h)
    (fun k => by
      have h2 := congrArg (fun n => (n.address, n.virtualAddress))
        (nodeAt_of_map_eq MPNode.core h k)
      simpa [MPNode.core] using h2)

theorem checkFavorite_of_addrSame (s t : Session) (h1 : AddrSame t.loginNodes s.loginNodes)
    (h2 : AddrSame t.loginChildNodes s.loginChildNodes) (f : QByteArray) :
    checkFavorite t f = checkFavorite s f := by
  simp only [checkFavorite, addrSame_find h1, addrSame_find h2]

theorem checkFavorite_of_core {s t : Session} (h : t.core = s.core) (f : QByteArray) :
    checkFavorite t f = checkFavorite s f :=
  checkFavorite_of_addrSame s t (addrSame_of_sameCore (core_loginNodes h))
    (addrSame_of_sameFields (core_loginChildNodes h)) f

theorem favoritesKept_of_core {s t : Session} (h : t.core = s.core) (hk : FavoritesKept s) :
    FavoritesKept t := by
  intro f hf
  have e1 : t.favoritesAddrs = s.favoritesAddrs := by
    have h0 := congrArg Session.favoritesAddrs h; exact h0
  rw [checkFavorite_of_core h]
  exact hk f (e1 ▸ hf)

theorem checkFavorites_kept (s : Session) (hk : FavoritesKept s) :
    ({ s with favoritesAddrs := s.favoritesAddrs.map (checkFavorite s) } : Session) = s := by
  have : s.favoritesAddrs.map (checkFavorite s) = s.favoritesAddrs := by
    conv_rhs => rw [← List.map_id s.favoritesAddrs]
    exact List.map_congr_left (fun f hf => hk f hf)
  rw [this]

theorem orphanParentsLoop_false_state (d : Bool) (idxs : List Nat) :
    ∀ (s : Session) (nb : Nat), ∃ nb2, orphanParentsLoop false d idxs s nb = some (s, nb2) := by
  induction idxs with
  | nil => intro s nb; exact ⟨nb, rfl⟩
  | cons i rest ih =>
    intro s nb
    rw [orphanParentsLoop]
    simp only [Bool.false_eq_true, if_false]
    split_ifs
    · exact ih s nb
    · exact ih s (nb + 1)

/-- A pass of `checkLoadedNodes` without repair changes the tags only, when the favorites
check keeps the favorites. -/
theorem checkLoadedNodesPass_false_core (s : Session) (hk : FavoritesKept s) :
    ∃ b t, checkLoadedNodesPass false s = some (b, t) ∧ t.core = s.core := by
  obtain ⟨⟨b, t1⟩, ht⟩ := tagPointedNodes_total false s
  have hd := tagPointedNodes_false_frame s t1 b ht
  have hc : t1.core = s.core := core_of_detag hd
  obtain ⟨n1, h1⟩ := orphanParentsLoop_false_state false (List.range t1.loginNodes.length) t1 0
  have h2 := (orphanChildrenLoop_count false (List.range t1.loginChildNodes.length) t1 0).1
  obtain ⟨n3, h3⟩ := orphanParentsLoop_false_state true (List.range t1.dataNodes.length) t1 0
  unfold checkLoadedNodesPass
  simp only [ht, h1, h2, h3]
  rw [checkFavorites_kept t1 (favoritesKept_of_core hc hk)]
  split_ifs
  · exact ⟨false, t1, rfl, hc⟩
  · exact ⟨b, t1, rfl, hc⟩

/-- When the first pass of `checkLoadedNodes(true)` leaves the database restored, so does the
whole of it. -/
theorem checkLoadedNodes_of_pass (s s0 r : Session) (b : Bool)
    (hp : checkLoadedNodesPass true s = some (b, r)) (hc : r.core = s0.core)
    (hk : FavoritesKept s0) :
    ∃ b2 t, checkLoadedNodes true s = some (b2, t) ∧ t.core = s0.core := by
  unfold checkLoadedNodes
  simp only [hp]
  by_cases hb : b = true
  · simp only [hb, if_true]
    exact ⟨true, r, rfl, hc⟩
  · simp only [hb, Bool.false_eq_true, if_false, Bool.not_true]
    obtain ⟨b2, t, ht, htc⟩ := checkLoadedNodesPass_false_core r (favoritesKept_of_core hc hk)
    simp only [ht]
    exact ⟨false, t, rfl, htc.trans hc⟩


/-! ## Lemmas: valid chains and the repairing walk -/

theorem walkable_of_valid (isData : Bool) (c : NodeChain) (P : List Nat)
    (cps : List (List Nat)) (h : ChainValidAlong isData c P cps) :
    Walkable isData c P cps EmptyAddress :=
  ⟨(chainLinks_iff_segLinks _ _ _ _).mp h.1, Or.inl rfl, h.2.1, h.2.2.2.1, h.2.2.2.2⟩

theorem linked_of_valid (isData : Bool) (c : NodeChain) (P : List Nat)
    (cps : List (List Nat)) (h : ChainValidAlong isData c P cps) :
    Linked c.parents c.start P :=
  ⟨h.1, h.2.2.1⟩

theorem restores_of_walked (c c0 c1 : NodeChain) {P : List Nat} (hw : Walked c c1 P)
    (hs : SameButLinks c.parents c0.parents)
    (hf : ∀ k, k ∉ P → (nodeAt c.parents k).core = (nodeAt c0.parents k).core)
    (hch : SameFields c.children c0.children) (hl : Linked c0.parents c0.start P) :
    Restores c0 c1 := by
  obtain ⟨h1, h2, h3, _, h5⟩ := hw
  obtain ⟨hcore, hstart⟩ := linked_unique (h1.trans hs) h3 hl
    (fun k hk => (h5 k hk).trans (hf k hk))
  exact ⟨hstart, hcore, sameFields_trans h2 hch⟩

theorem chainValidAlong_of_restores (isData : Bool) {c c1 : NodeChain} (h : Restores c c1)
    (P : List Nat) (cps : List (List Nat)) (hv : ChainValidAlong isData c P cps) :
    ChainValidAlong isData c1 P cps := by
  obtain ⟨hs, hp, hc⟩ := h
  obtain ⟨v1, v2, v3, v4, v5⟩ := hv
  have haddr := sameCore_address hp
  have hfield : ∀ {β : Type} (g : MPNode → β), (∀ n, g n.core = g n) →
      ∀ k, g (nodeAt c1.parents k) = g (nodeAt c.parents k) := by
    intro β g hg k
    rw [← hg (nodeAt c1.parents k), ← hg (nodeAt c.parents k), nodeAt_of_map_eq MPNode.core hp k]
  refine ⟨?_, v2, ?_, ?_, v5⟩
  · rw [hs, chainLinks_iff_segLinks]
    exact (segLinks_congr _ haddr P
      (fun i _ => hfield MPNode.nextParentAddress (fun _ => rfl) i) _ _).mpr
      ((chainLinks_iff_segLinks _ _ _ _).mp v1)
  · exact (prevLinks_congr_on _ haddr P
      (fun i _ => hfield MPNode.previousParentAddress (fun _ => rfl) i) _).mpr v3
  · exact forall₂_childChain_of_fields isData
      (fun p => (hfield MPNode.startChildAddress (fun _ => rfl) p).symm)
      (sameFields_symm hc) P cps v4

theorem walkable_setPrev (isData : Bool) (c : NodeChain) (P : List Nat) (cps : List (List Nat))
    (x a : QByteArray) (k v : Nat) (h : Walkable isData c P cps x) :
    Walkable isData
      { start := c.start, children := c.children,
        parents := updateNode c.parents k (fun n => n.setPreviousParentAddress a v) } P cps x := by
  obtain ⟨hseg, hend, hnd, hcc, hcnd⟩ := h
  have haddr : (updateNode c.parents k (fun n => n.setPreviousParentAddress a v)).map
      MPNode.address = c.parents.map MPNode.address :=
    map_updateNode _ _ _ MPNode.address (fun _ => rfl)
  refine ⟨?_, ?_, hnd, ?_, hcnd⟩
  · exact (segLinks_congr _ haddr P
      (fun i _ => field_updateNode _ _ i _ MPNode.nextParentAddress (fun _ => rfl)) _ _).mpr hseg
  · rcases hend with h | h
    · exact Or.inl h
    · right
      rw [← h]
      exact resolveFrom_congr x _ _ 0 haddr
  · exact forall₂_childChain_of_fields isData
      (fun p => (field_updateNode c.parents k p (fun n => n.setPreviousParentAddress a v)
        MPNode.startChildAddress (fun _ => rfl)).symm)
      (sameFields_refl _) P cps hcc

theorem restores_of_walked_setPrev (isData : Bool) (c0 c1 : NodeChain) (P : List Nat)
    (cps : List (List Nat)) (a : QByteArray) (k v : Nat)
    (hv : ChainValidAlong isData c0 P cps) (hk : k ∈ P)
    (hw : Walked
      { start := c0.start, children := c0.children,
        parents := updateNode c0.parents k (fun n => n.setPreviousParentAddress a v) } c1 P) :
    Restores c0 c1 := by
  apply restores_of_walked _ c0 c1 hw
  · exact map_updateNode c0.parents k (fun n => n.setPreviousParentAddress a v)
      MPNode.unlinked (fun _ => rfl)
  · intro i hi
    dsimp only
    rw [nodeAt_updateNode_ne c0.parents k i _ (fun h => hi (h ▸ hk))]
  · exact sameFields_refl _
  · exact linked_of_valid isData c0 P cps hv

theorem prevLinks_at (l : List MPNode) (prev : MPNode → QByteArray) (pre post : List Nat)
    (j k : Nat) :
    ∀ e, PrevLinks l prev e (pre ++ j :: k :: post) → prev (nodeAt l k) = (nodeAt l j).address := by
  induction pre with
  | nil => intro e h; exact h.2.1
  | cons i rest ih => intro e h; exact ih _ h.2

theorem allPhysical_of_distinct {s : Session} (h : AllDistinct s) : AllPhysical s :=
  ⟨h.1.1, h.2.1.1, h.2.2.1.1, h.2.2.2.1⟩

theorem allTagged_of_walked {c c1 : NodeChain} {P : List Nat} (hw : Walked c c1 P)
    (hall : ∀ i, i < c.parents.length → i ∈ P) :
    ∀ i ∈ List.range c1.parents.length, (nodeAt c1.parents i).pointedToCheck = true := by
  intro i hi
  rw [hw.2.2.2.1 i]
  apply hall
  rw [← sameButLinks_length hw.1]
  exact List.mem_range.mp hi
/-! ## Lemmas: paths and their concatenation -/

theorem segLinks_append (l : List MPNode) (next : MPNode → QByteArray) (P1 P2 : List Nat) :
    ∀ (a x : QByteArray), SegLinks l next a (P1 ++ P2) x ↔
      ∃ m, SegLinks l next a P1 m ∧ SegLinks l next m P2 x := by
  induction P1 with
  | nil =>
    intro a x
    simp only [List.nil_append, SegLinks]
    constructor
    · intro h; exact ⟨a, rfl, h⟩
    · rintro ⟨m, rfl, h⟩; exact h
  | cons i rest ih =>
    intro a x
    show (a ≠ EmptyAddress ∧ resolve l a = some i ∧
      SegLinks l next (next (nodeAt l i)) (rest ++ P2) x) ↔ _
    rw [ih]
    constructor
    · rintro ⟨h1, h2, m, h3, h4⟩; exact ⟨m, ⟨h1, h2, h3⟩, h4⟩
    · rintro ⟨m, ⟨h1, h2, h3⟩, h4⟩; exact ⟨h1, h2, m, h3, h4⟩

theorem segLinks_first (l : List MPNode) (next : MPNode → QByteArray) (P : List Nat)
    (a x : QByteArray) (h : SegLinks l next a P x) : a = firstAddress l x P := by
  cases P with
  | nil => exact h
  | cons i rest => exact (resolve_some l a i h.2.1).2.symm

theorem lastAddress_cons (l : List MPNode) (e : QByteArray) (i : Nat) (rest : List Nat) :
    lastAddress l e (i :: rest) = lastAddress l (nodeAt l i).address rest := rfl

theorem lastAddress_concat (l : List MPNode) (e : QByteArray) (P : List Nat) (i : Nat) :
    lastAddress l e (P ++ [i]) = (nodeAt l i).address := by
  simp [lastAddress, List.foldl_append]

theorem prevLinks_append (l : List MPNode) (prev : MPNode → QByteArray) (P1 P2 : List Nat) :
    ∀ (e : QByteArray), PrevLinks l prev e (P1 ++ P2) ↔
      PrevLinks l prev e P1 ∧ PrevLinks l prev (lastAddress l e P1) P2 := by
  induction P1 with
  | nil => intro e; simp [PrevLinks, lastAddress]
  | cons i rest ih =>
    intro e
    show (prev (nodeAt l i) = e ∧ PrevLinks l prev (nodeAt l i).address (rest ++ P2)) ↔ _
    rw [ih, lastAddress_cons]
    simp only [PrevLinks, and_assoc]

theorem lastAddress_congr {l1 l2 : List MPNode}
    (haddr : l1.map MPNode.address = l2.map MPNode.address) (e : QByteArray) (P : List Nat) :
    lastAddress l1 e P = lastAddress l2 e P := by
  unfold lastAddress
  congr 1
  funext _ i
  exact nodeAt_of_map_eq MPNode.address haddr i

/-! ### Sorted paths -/

theorem sorted_split (p : Nat) (T : List Nat) (hs : T.Pairwise (· < ·)) (hp : p ∉ T) :
    T = T.filter (fun i => decide (i < p)) ++ T.filter (fun i => decide (p < i)) := by
  induction T with
  | nil => rfl
  | cons h tl ih =>
    have hs2 := List.pairwise_cons.mp hs
    have hne : h ≠ p := fun e => hp (e ▸ List.mem_cons_self _ _)
    have hptl : p ∉ tl := fun e => hp (List.mem_cons_of_mem _ e)
    by_cases hlt : h < p
    · have hnot : ¬ p < h := by omega
      simp only [List.filter_cons, hlt, decide_True, if_true, hnot, decide_False,
        Bool.false_eq_true, if_false, List.cons_append]
      rw [← ih hs2.2 hptl]
    · have hgt : p < h := by omega
      have e1 : tl.filter (fun i => decide (i < p)) = [] := by
        rw [List.filter_eq_nil_iff]
        intro i hi
        have := hs2.1 i hi
        simp only [decide_eq_true_eq]
        omega
      have e2 : tl.filter (fun i => decide (p < i)) = tl := by
        rw [List.filter_eq_self]
        intro i hi
        have := hs2.1 i hi
        simp only [decide_eq_true_eq]
        omega
      simp only [List.filter_cons, hlt, decide_False, Bool.false_eq_true, if_false, hgt,
        decide_True, if_true, e1, e2, List.nil_append]

theorem sorted_insert (p : Nat) (T : List Nat) (hs : T.Pairwise (· < ·)) :
    (T.filter (fun i => decide (i < p)) ++ p :: T.filter (fun i => decide (p < i))).Pairwise
      (· < ·) := by
  rw [List.pairwise_append]
  refine ⟨hs.filter _, ?_, ?_⟩
  · rw [List.pairwise_cons]
    refine ⟨?_, hs.filter _⟩
    intro i hi
    simpa using (List.mem_filter.mp hi).2
  · intro a ha b hb
    have h1 : a < p := by simpa using (List.mem_filter.mp ha).2
    rcases List.mem_cons.mp hb with rfl | hb
    · exact h1
    · have h2 : p < b := by simpa using (List.mem_filter.mp hb).2
      omega

theorem filter_range_of_sorted (n : Nat) (T : List Nat) (hs : T.Pairwise (· < ·))
    (hlt : ∀ i ∈ T, i < n) : (List.range n).filter (fun i => decide (i ∈ T)) = T := by
  apply List.eq_of_perm_of_sorted (r := (· < ·))
  · apply (List.perm_ext_iff_of_nodup ((List.nodup_range n).filter _)
      (hs.imp (fun h => Nat.ne_of_lt h))).mpr
    intro i
    simp only [List.mem_filter, List.mem_range, decide_eq_true_eq]
    exact ⟨fun h => h.2, fun h => ⟨hlt i h, h⟩⟩
  · exact (List.sorted_lt_range n).filter _
  · exact hs

theorem taggedNodes_eq (l : List MPNode) (T : List Nat) (hs : T.Pairwise (· < ·))
    (htag : ∀ i, (nodeAt l i).pointedToCheck = true ↔ i ∈ T) (hlt : ∀ i ∈ T, i < l.length) :
    taggedNodes l = T := by
  rw [← filter_range_of_sorted l.length T hs hlt]
  unfold taggedNodes
  apply List.filter_congr
  intro i _
  by_cases h : i ∈ T
  · simp [h, (htag i).mpr h]
  · have : (nodeAt l i).pointedToCheck = false := by
      cases hb : (nodeAt l i).pointedToCheck
      · rfl
      · exact absurd ((htag i).mp hb) h
    simp [h, this]

/-! ### The scan of addOrphanParentToDB -/

theorem orphanScan_eq_scanPath (sv : List Nat) (l : List MPNode) :
    ∀ (pre : List MPNode) (pv : Option Nat),
      orphanScan sv l pre.length pv =
        scanPath sv (pre ++ l) ((List.range' pre.length l.length).filter
          fun i => (nodeAt (pre ++ l) i).pointedToCheck) pv := by
  induction l with
  | nil => intro pre pv; simp [orphanScan, scanPath]
  | cons x rest ih =>
    intro pre pv
    have hx : nodeAt (pre ++ x :: rest) pre.length = x := by
      have h1 : (pre ++ x :: rest)[pre.length]? = some x := by
        rw [List.getElem?_append_right (Nat.le_refl _)]
        simp
      simp [nodeAt, List.getD_eq_getElem?_getD, h1]
    have ih1 := ih (pre ++ [x])
    simp only [List.length_append, List.length_singleton, List.append_assoc,
      List.singleton_append] at ih1
    simp only [orphanScan, List.length_cons, List.range'_succ, List.filter_cons, hx]
    by_cases ht : x.pointedToCheck = true
    · simp only [ht, if_true, scanPath, hx]
      by_cases hs : x.service > sv
      · simp only [hs, if_true]
      · simp only [hs, if_false]
        exact ih1 _
    · simp only [ht, Bool.false_eq_true, if_false]
      exact ih1 _

theorem orphanScan_eq (sv : List Nat) (l : List MPNode) :
    orphanScan sv l 0 none = scanPath sv l (taggedNodes l) none := by
  have := orphanScan_eq_scanPath sv l [] none
  simpa [taggedNodes, List.range_eq_range'] using this

theorem scanPath_found (sv : List Nat) (l : List MPNode) (A : List Nat) (b : Nat)
    (B : List Nat) (hA : ∀ i ∈ A, ¬ sv < (nodeAt l i).service)
    (hb : sv < (nodeAt l b).service) :
    ∀ pv, scanPath sv l (A ++ b :: B) pv = (some b, some b) := by
  induction A with
  | nil =>
    intro pv
    simp only [List.nil_append, scanPath]
    rw [if_pos hb]
  | cons i rest ih =>
    intro pv
    simp only [List.cons_append, scanPath]
    rw [if_neg (hA i (List.mem_cons_self _ _))]
    exact ih (fun j hj => hA j (List.mem_cons_of_mem _ hj)) _

theorem scanPath_none (sv : List Nat) (l : List MPNode) (A : List Nat)
    (hA : ∀ i ∈ A, ¬ sv < (nodeAt l i).service) :
    ∀ pv, scanPath sv l A pv = (none, lastVisited A pv) := by
  induction A with
  | nil => intro pv; rfl
  | cons i rest ih =>
    intro pv
    simp only [scanPath]
    rw [if_neg (hA i (List.mem_cons_self _ _)), lastVisited_cons]
    exact ih (fun j hj => hA j (List.mem_cons_of_mem _ hj)) _


/-! ### Linking a node into a linked chain -/

theorem getLast?_mem {A : List Nat} {a : Nat} (h : A.getLast? = some a) : a ∈ A :=
  List.mem_of_getLast?_eq_some h

theorem head?_mem {B : List Nat} {b : Nat} (h : B.head? = some b) : b ∈ B :=
  List.mem_of_mem_head? (by rw [h]; rfl)

/-- A list `L'` that differs from a list `L` the way `addOrphanParentToDB` makes it differ:
the chain `A ++ B` of `L`, with the node `p` put between `A` and `B`, is linked both ways in
`L'`. -/
theorem linked_insert (L L' : List MPNode) (a0 a0' : QByteArray) (A B : List Nat) (p : Nat)
    (haddr : L'.map MPNode.address = L.map MPNode.address)
    (hres : resolve L (nodeAt L p).address = some p)
    (hpne : (nodeAt L p).address ≠ EmptyAddress)
    (hnd : (A ++ B).Nodup) (hl : Linked L a0 (A ++ B))
    (hN : ∀ i ∈ A ++ B, A.getLast? ≠ some i →
      (nodeAt L' i).nextParentAddress = (nodeAt L i).nextParentAddress)
    (hP : ∀ i ∈ A ++ B, B.head? ≠ some i →
      (nodeAt L' i).previousParentAddress = (nodeAt L i).previousParentAddress)
    (hNa : ∀ a, A.getLast? = some a → (nodeAt L' a).nextParentAddress = (nodeAt L p).address)
    (hPb : ∀ b, B.head? = some b → (nodeAt L' b).previousParentAddress = (nodeAt L p).address)
    (hp1 : (nodeAt L' p).previousParentAddress = lastAddress L EmptyAddress A)
    (hp2 : (nodeAt L' p).nextParentAddress = firstAddress L EmptyAddress B)
    (hs : (A = [] → a0' = (nodeAt L p).address) ∧ (A ≠ [] → a0' = a0)) :
    Linked L' a0' (A ++ p :: B) := by
  obtain ⟨hf, hb⟩ := hl
  rw [chainLinks_iff_segLinks, segLinks_append] at hf
  obtain ⟨m, hfA, hfB⟩ := hf
  have hm := segLinks_first _ _ _ _ _ hfB
  rw [prevLinks_append] at hb
  obtain ⟨hbA, hbB⟩ := hb
  have hdisj := List.disjoint_of_nodup_append hnd
  have hndA : A.Nodup := (List.nodup_append.mp hnd).1
  have hndB : B.Nodup := (List.nodup_append.mp hnd).2.1
  have hresolve : ∀ a, resolve L' a = resolve L a := fun a => resolveFrom_congr a _ _ 0 haddr
  have haddrAt : ∀ i, (nodeAt L' i).address = (nodeAt L i).address :=
    nodeAt_of_map_eq MPNode.address haddr
  constructor
  · rw [chainLinks_iff_segLinks, segLinks_append]
    refine ⟨(nodeAt L p).address, ?_, hpne, by rw [hresolve]; exact hres, ?_⟩
    · rcases List.eq_nil_or_concat A with hA | ⟨A0, a, hA⟩
      · subst hA
        exact hs.1 rfl
      · rw [List.concat_eq_append] at hA
        subst hA
        rw [hs.2 (by simp)]
        rw [segLinks_append] at hfA ⊢
        obtain ⟨m1, h1, h2⟩ := hfA
        refine ⟨m1, ?_, h2.1, by rw [hresolve]; exact h2.2.1, ?_⟩
        · refine (segLinks_congr _ haddr A0 ?_ _ _).mpr h1
          intro i hi
          apply hN i (by simp [hi])
          rw [List.getLast?_concat]
          intro h
          have hia : a = i := Option.some.inj h
          subst hia
          have := List.disjoint_of_nodup_append hndA
          exact this hi (List.mem_singleton_self _)
        · show (nodeAt L' a).nextParentAddress = (nodeAt L p).address
          exact hNa a (List.getLast?_concat _)
    · rw [hp2, ← hm]
      refine (segLinks_congr _ haddr B ?_ _ _).mpr hfB
      intro i hi
      apply hN i (by simp [hi])
      intro h
      exact hdisj (getLast?_mem h) hi
  · rw [prevLinks_append]
    constructor
    · refine (prevLinks_congr_on _ haddr A ?_ _).mpr hbA
      intro i hi
      apply hP i (by simp [hi])
      intro h
      exact hdisj hi (head?_mem h)
    · refine ⟨by rw [hp1]; exact (lastAddress_congr haddr _ _).symm, ?_⟩
      cases B with
      | nil => trivial
      | cons b B' =>
        refine ⟨by rw [haddrAt]; exact hPb b rfl, ?_⟩
        rw [haddrAt b]
        refine (prevLinks_congr_on _ haddr B' ?_ _).mpr hbB.2
        intro i hi
        apply hP i (by simp [hi])
        intro h
        have hib : b = i := Option.some.inj h
        subst hib
        exact (List.nodup_cons.mp hndB).1 hi
/-! ## Lemmas: the chains of a session -/

theorem chain_parents (s : Session) (d : Bool) : (s.chain d).parents = s.parentList d := by
  cases d <;> rfl

theorem setParentList_parentList (s : Session) (d : Bool) (l : List MPNode) :
    (s.setParentList d l).parentList d = l := by
  cases d <;> rfl

theorem setParentList_chain (s : Session) (d : Bool) (l : List MPNode) :
    (s.setParentList d l).chain d =
      { start := (s.chain d).start, parents := l, children := (s.chain d).children } := by
  cases d <;> rfl

theorem setParentList_chain_other (s : Session) (d : Bool) (l : List MPNode) :
    (s.setParentList d l).chain (!d) = s.chain (!d) := by
  cases d <;> rfl

theorem setParentList_others (s : Session) (d : Bool) (l : List MPNode) :
    (s.setParentList d l).others = s.others := by
  cases d <;> rfl

theorem setStartParent_parentList (s : Session) (d : Bool) (a : QByteArray) (v : Nat) :
    (s.setStartParent d a v).parentList d = s.parentList d := by
  cases d <;> rfl

theorem setStartParent_chain (s : Session) (d : Bool) (a : QByteArray) (v : Nat) :
    (s.setStartParent d a v).chain d =
      { start := a, parents := s.parentList d, children := (s.chain d).children } := by
  cases d <;> rfl

theorem setStartParent_chain_other (s : Session) (d : Bool) (a : QByteArray) (v : Nat) :
    (s.setStartParent d a v).chain (!d) = s.chain (!d) := by
  cases d <;> rfl

theorem setStartParent_others (s : Session) (d : Bool) (a : QByteArray) (v : Nat) :
    (s.setStartParent d a v).others = s.others := by
  cases d <;> rfl

/-! ### The branches of addOrphanParentToDB -/

theorem addOrphan_newStart (p : Nat) (d : Bool) (s : Session) (b : Nat) (y : Option Nat)
    (ht : (nodeAt (s.parentList d) p).pointedToCheck = false)
    (hscan : orphanScan (nodeAt (s.parentList d) p).service (s.parentList d) 0 none = (some b, y))
    (hprev : (nodeAt (s.parentList d) b).previousParentAddress = EmptyAddress) :
    addOrphanParentToDB p d s =
      (tagPointedNodes true
        ((s.setStartParent d (nodeAt (s.parentList d) p).address
            (nodeAt (s.parentList d) p).virtualAddress).setParentList d
          (linkAsFirst (s.parentList d) p b))).map fun r => (true, r.2) := by
  unfold addOrphanParentToDB linkAsFirst
  simp only [ht, Bool.false_eq_true, if_false, hscan, hprev, if_true]

theorem addOrphan_between (p : Nat) (d : Bool) (s : Session) (a b : Nat) (y : Option Nat)
    (ht : (nodeAt (s.parentList d) p).pointedToCheck = false)
    (hscan : orphanScan (nodeAt (s.parentList d) p).service (s.parentList d) 0 none = (some b, y))
    (hprev : (nodeAt (s.parentList d) b).previousParentAddress ≠ EmptyAddress)
    (hfind : findNodeWithAddressInList (s.parentList d)
      (nodeAt (s.parentList d) b).previousParentAddress
      (nodeAt (s.parentList d) b).prevParentVirtualAddress = some a) :
    addOrphanParentToDB p d s =
      (tagPointedNodes true (s.setParentList d (linkBetween (s.parentList d) a p b))).map
        fun r => (true, r.2) := by
  unfold addOrphanParentToDB linkBetween
  simp only [ht, Bool.false_eq_true, if_false, hscan, hprev, hfind]

theorem addOrphan_alone (p : Nat) (d : Bool) (s : Session)
    (ht : (nodeAt (s.parentList d) p).pointedToCheck = false)
    (hscan : orphanScan (nodeAt (s.parentList d) p).service (s.parentList d) 0 none =
      (none, none)) :
    addOrphanParentToDB p d s =
      (tagPointedNodes true
        ((s.setStartParent d (nodeAt (s.parentList d) p).address
            (nodeAt (s.parentList d) p).virtualAddress).setParentList d
          (linkAlone (s.parentList d) p))).map fun r => (true, r.2) := by
  unfold addOrphanParentToDB linkAlone
  simp only [ht, Bool.false_eq_true, if_false, hscan]

theorem addOrphan_last (p : Nat) (d : Bool) (s : Session) (a : Nat)
    (ht : (nodeAt (s.parentList d) p).pointedToCheck = false)
    (hscan : orphanScan (nodeAt (s.parentList d) p).service (s.parentList d) 0 none =
      (none, some a)) :
    addOrphanParentToDB p d s =
      (tagPointedNodes true (s.setParentList d (linkLast (s.parentList d) a p))).map
        fun r => (true, r.2) := by
  unfold addOrphanParentToDB linkLast
  simp only [ht, Bool.false_eq_true, if_false, hscan]


/-! ### The fields of the lists addOrphanParentToDB makes -/

theorem address_setNext (l : List MPNode) (i k : Nat) (x : QByteArray) (v : Nat) :
    (nodeAt (updateNode l i (fun n => n.setNextParentAddress x v)) k).address =
      (nodeAt l k).address :=
  field_updateNode l i k _ MPNode.address (fun _ => rfl)

theorem address_setPrev (l : List MPNode) (i k : Nat) (x : QByteArray) (v : Nat) :
    (nodeAt (updateNode l i (fun n => n.setPreviousParentAddress x v)) k).address =
      (nodeAt l k).address :=
  field_updateNode l i k _ MPNode.address (fun _ => rfl)

theorem next_setPrev (l : List MPNode) (i k : Nat) (x : QByteArray) (v : Nat) :
    (nodeAt (updateNode l i (fun n => n.setPreviousParentAddress x v)) k).nextParentAddress =
      (nodeAt l k).nextParentAddress :=
  field_updateNode l i k _ MPNode.nextParentAddress (fun _ => rfl)

theorem prev_setNext (l : List MPNode) (i k : Nat) (x : QByteArray) (v : Nat) :
    (nodeAt (updateNode l i (fun n => n.setNextParentAddress x v)) k).previousParentAddress =
      (nodeAt l k).previousParentAddress :=
  field_updateNode l i k _ MPNode.previousParentAddress (fun _ => rfl)

theorem next_setNext (l : List MPNode) (i k : Nat) (x : QByteArray) (v : Nat) :
    (nodeAt (updateNode l i (fun n => n.setNextParentAddress x v)) k).nextParentAddress =
      if i = k ∧ k < l.length then x else (nodeAt l k).nextParentAddress := by
  rw [nodeAt_updateNode]
  split_ifs <;> rfl

theorem prev_setPrev (l : List MPNode) (i k : Nat) (x : QByteArray) (v : Nat) :
    (nodeAt (updateNode l i (fun n => n.setPreviousParentAddress x v)) k).previousParentAddress =
      if i = k ∧ k < l.length then x else (nodeAt l k).previousParentAddress := by
  rw [nodeAt_updateNode]
  split_ifs <;> rfl

theorem unlinked_setNext (l : List MPNode) (i : Nat) (x : QByteArray) (v : Nat) :
    (updateNode l i (fun n => n.setNextParentAddress x v)).map MPNode.unlinked =
      l.map MPNode.unlinked :=
  map_updateNode l i _ MPNode.unlinked (fun _ => rfl)

theorem unlinked_setPrev (l : List MPNode) (i : Nat) (x : QByteArray) (v : Nat) :
    (updateNode l i (fun n => n.setPreviousParentAddress x v)).map MPNode.unlinked =
      l.map MPNode.unlinked :=
  map_updateNode l i _ MPNode.unlinked (fun _ => rfl)

theorem linkAsFirst_fields (l : List MPNode) (p b : Nat) (hp : p < l.length)
    (hb : b < l.length) (hpb : p ≠ b) :
    (linkAsFirst l p b).map MPNode.unlinked = l.map MPNode.unlinked ∧
    (∀ k, (nodeAt (linkAsFirst l p b) k).nextParentAddress =
      if k = p then (nodeAt l b).address else (nodeAt l k).nextParentAddress) ∧
    (∀ k, (nodeAt (linkAsFirst l p b) k).previousParentAddress =
      if k = p then EmptyAddress else if k = b then (nodeAt l p).address
      else (nodeAt l k).previousParentAddress) := by
  refine ⟨?_, ?_, ?_⟩
  · unfold linkAsFirst
    simp only [unlinked_setNext, unlinked_setPrev]
  · intro k
    unfold linkAsFirst
    simp only [next_setNext, next_setPrev, address_setPrev, length_updateNode]
    by_cases hk : k = p
    · subst hk; simp [hp]
    · simp [hk, Ne.symm hk]
  · intro k
    unfold linkAsFirst
    simp only [prev_setNext, prev_setPrev, address_setPrev, length_updateNode]
    by_cases hk : k = p
    · subst hk; simp [hp, hpb.symm]
    · by_cases hkb : k = b
      · subst hkb; simp [hb, hk]
      · simp [hk, hkb, Ne.symm hk, Ne.symm hkb]

theorem linkBetween_fields (l : List MPNode) (a p b : Nat) (ha : a < l.length)
    (hp : p < l.length) (hb : b < l.length) (hap : a ≠ p) (hpb : p ≠ b) (hab : a ≠ b) :
    (linkBetween l a p b).map MPNode.unlinked = l.map MPNode.unlinked ∧
    (∀ k, (nodeAt (linkBetween l a p b) k).nextParentAddress =
      if k = p then (nodeAt l b).address else if k = a then (nodeAt l p).address
      else (nodeAt l k).nextParentAddress) ∧
    (∀ k, (nodeAt (linkBetween l a p b) k).previousParentAddress =
      if k = p then (nodeAt l a).address else if k = b then (nodeAt l p).address
      else (nodeAt l k).previousParentAddress) := by
  refine ⟨?_, ?_, ?_⟩
  · unfold linkBetween
    simp only [unlinked_setNext, unlinked_setPrev]
  · intro k
    unfold linkBetween
    simp only [next_setNext, next_setPrev, address_setPrev, address_setNext, length_updateNode]
    by_cases hk : k = p
    · subst hk; simp [hp]
    · by_cases hka : k = a
      · subst hka; simp [ha, hk, Ne.symm hk]
      · simp [hk, hka, Ne.symm hk, Ne.symm hka]
  · intro k
    unfold linkBetween
    simp only [prev_setNext, prev_setPrev, address_setPrev, address_setNext, length_updateNode]
    by_cases hk : k = p
    · subst hk; simp [hp, hpb.symm]
    · by_cases hkb : k = b
      · subst hkb; simp [hb, hk]
      · simp [hk, hkb, Ne.symm hk, Ne.symm hkb]

theorem linkAlone_fields (l : List MPNode) (p : Nat) (hp : p < l.length) :
    (linkAlone l p).map MPNode.unlinked = l.map MPNode.unlinked ∧
    (∀ k, (nodeAt (linkAlone l p) k).nextParentAddress =
      if k = p then EmptyAddress else (nodeAt l k).nextParentAddress) ∧
    (∀ k, (nodeAt (linkAlone l p) k).previousParentAddress =
      if k = p then EmptyAddress else (nodeAt l k).previousParentAddress) := by
  refine ⟨?_, ?_, ?_⟩
  · unfold linkAlone
    simp only [unlinked_setNext, unlinked_setPrev]
  · intro k
    unfold linkAlone
    simp only [next_setNext, next_setPrev, length_updateNode]
    by_cases hk : k = p
    · subst hk; simp [hp]
    · simp [hk, Ne.symm hk]
  · intro k
    unfold linkAlone
    simp only [prev_setNext, prev_setPrev, length_updateNode]
    by_cases hk : k = p
    · subst hk; simp [hp]
    · simp [hk, Ne.symm hk]

theorem linkLast_fields (l : List MPNode) (a p : Nat) (ha : a < l.length)
    (hp : p < l.length) (hap : a ≠ p) :
    (linkLast l a p).map MPNode.unlinked = l.map MPNode.unlinked ∧
    (∀ k, (nodeAt (linkLast l a p) k).nextParentAddress =
      if k = p then EmptyAddress else if k = a then (nodeAt l p).address
      else (nodeAt l k).nextParentAddress) ∧
    (∀ k, (nodeAt (linkLast l a p) k).previousParentAddress =
      if k = p then (nodeAt l a).address else (nodeAt l k).previousParentAddress) := by
  refine ⟨?_, ?_, ?_⟩
  · unfold linkLast
    simp only [unlinked_setNext, unlinked_setPrev]
  · intro k
    unfold linkLast
    simp only [next_setNext, next_setPrev, address_setNext, length_updateNode]
    by_cases hk : k = p
    · subst hk; simp [hp]
    · by_cases hka : k = a
      · subst hka; simp [ha, hk, Ne.symm hk]
      · simp [hk, hka, Ne.symm hk, Ne.symm hka]
  · intro k
    unfold linkLast
    simp only [prev_setNext, prev_setPrev, address_setNext, length_updateNode]
    by_cases hk : k = p
    · subst hk; simp [hp]
    · simp [hk, Ne.symm hk]


/-! ### The orphan is linked at its place -/

theorem linked_insert_of_fields (L L' : List MPNode) (a0 a0' : QByteArray) (A B : List Nat)
    (p : Nat) (hu : L'.map MPNode.unlinked = L.map MPNode.unlinked)
    (hres : resolve L (nodeAt L p).address = some p)
    (hpne : (nodeAt L p).address ≠ EmptyAddress)
    (hnd : (A ++ B).Nodup) (hpT : p ∉ A ++ B) (hl : Linked L a0 (A ++ B))
    (hnext : ∀ k, (nodeAt L' k).nextParentAddress =
      if k = p then firstAddress L EmptyAddress B
      else if A.getLast? = some k then (nodeAt L p).address
      else (nodeAt L k).nextParentAddress)
    (hprev : ∀ k, (nodeAt L' k).previousParentAddress =
      if k = p then lastAddress L EmptyAddress A
      else if B.head? = some k then (nodeAt L p).address
      else (nodeAt L k).previousParentAddress)
    (hs : (A = [] → a0' = (nodeAt L p).address) ∧ (A ≠ [] → a0' = a0)) :
    Linked L' a0' (A ++ p :: B) := by
  apply linked_insert L L' a0 a0' A B p (sameButLinks_address hu) hres hpne hnd hl
  · intro i hi hlast
    have hip : i ≠ p := fun h => hpT (h ▸ hi)
    rw [hnext, if_neg hip, if_neg hlast]
  · intro i hi hhead
    have hip : i ≠ p := fun h => hpT (h ▸ hi)
    rw [hprev, if_neg hip, if_neg hhead]
  · intro a ha
    have hap : a ≠ p := fun h => hpT (h ▸ List.mem_append_left _ (getLast?_mem ha))
    rw [hnext, if_neg hap, if_pos ha]
  · intro b hb
    have hbp : b ≠ p := fun h => hpT (h ▸ List.mem_append_right _ (head?_mem hb))
    rw [hprev, if_neg hbp, if_pos hb]
  · rw [hprev, if_pos rfl]
  · rw [hnext, if_pos rfl]
  · exact hs

/-- What `addOrphanParentToDB` does with an untagged parent `p`, the tagged parents `T`
being linked both ways from the start address in the order of the list and `p` having its
place by service between those before it and those behind it in the list: it links `p`
into the chain at its place, changing parent links only, and runs `tagPointedNodes(true)`
on the session `s1` so made. -/
theorem addOrphanParentToDB_relinks (s : Session) (d : Bool) (p : Nat) (T : List Nat)
    (hdist : AddressesDistinct (s.parentList d))
    (hnep : (nodeAt (s.parentList d) p).address ≠ EmptyAddress)
    (hneT : ∀ i ∈ T, (nodeAt (s.parentList d) i).address ≠ EmptyAddress)
    (hp : p < (s.parentList d).length)
    (hT : T.Pairwise (· < ·)) (hlt : ∀ i ∈ T, i < (s.parentList d).length)
    (htag : ∀ i, (nodeAt (s.parentList d) i).pointedToCheck = true ↔ i ∈ T) (hpT : p ∉ T)
    (hl : T = [] ∨ Linked (s.parentList d) (s.chain d).start T)
    (hA : ∀ i ∈ T, i < p →
      ¬ (nodeAt (s.parentList d) p).service < (nodeAt (s.parentList d) i).service)
    (hB : ∀ i ∈ T, p < i →
      (nodeAt (s.parentList d) p).service < (nodeAt (s.parentList d) i).service) :
    ∃ s1, addOrphanParentToDB p d s = (tagPointedNodes true s1).map (fun r => (true, r.2)) ∧
      s1.others = s.others ∧ s1.chain (!d) = s.chain (!d) ∧
      (s1.chain d).children = (s.chain d).children ∧
      SameButLinks (s1.chain d).parents (s.parentList d) ∧
      Linked (s1.chain d).parents (s1.chain d).start
        (T.filter (fun i => decide (i < p)) ++ p :: T.filter (fun i => decide (p < i))) ∧
      (T.filter (fun i => decide (i < p)) = [] →
        (s1.chain d).start = (nodeAt (s.parentList d) p).address) ∧
      (T.filter (fun i => decide (i < p)) ≠ [] → (s1.chain d).start = (s.chain d).start) := by
  have hsplit := sorted_split p T hT hpT
  have hAs : ∀ i ∈ T.filter (fun i => decide (i < p)),
      ¬ (nodeAt (s.parentList d) p).service < (nodeAt (s.parentList d) i).service := by
    intro i hi
    have := List.mem_filter.mp hi
    exact hA i this.1 (by simpa using this.2)
  have hBs : ∀ i ∈ T.filter (fun i => decide (p < i)),
      (nodeAt (s.parentList d) p).service < (nodeAt (s.parentList d) i).service := by
    intro i hi
    have := List.mem_filter.mp hi
    exact hB i this.1 (by simpa using this.2)
  have hAT : ∀ i ∈ T.filter (fun i => decide (i < p)), i ∈ T := fun i hi =>
    (List.mem_filter.mp hi).1
  have hBT : ∀ i ∈ T.filter (fun i => decide (p < i)), i ∈ T := fun i hi =>
    (List.mem_filter.mp hi).1
  have htp : (nodeAt (s.parentList d) p).pointedToCheck = false := by
    cases hb : (nodeAt (s.parentList d) p).pointedToCheck
    · rfl
    · exact absurd ((htag p).mp hb) hpT
  have hscan : orphanScan (nodeAt (s.parentList d) p).service (s.parentList d) 0 none =
      scanPath (nodeAt (s.parentList d) p).service (s.parentList d)
        (T.filter (fun i => decide (i < p)) ++ T.filter (fun i => decide (p < i))) none := by
    rw [orphanScan_eq, taggedNodes_eq _ T hT htag hlt, ← hsplit]
  have hres : ∀ i, i < (s.parentList d).length →
      resolve (s.parentList d) (nodeAt (s.parentList d) i).address = some i := fun i hi =>
    resolve_nodup _ i hdist.2 hi
  have hndT : T.Nodup := hT.imp (fun h => Nat.ne_of_lt h)
  generalize hAdef : T.filter (fun i => decide (i < p)) = A at *
  generalize hBdef : T.filter (fun i => decide (p < i)) = B at *
  have hnd : (A ++ B).Nodup := hsplit ▸ hndT
  have hpAB : p ∉ A ++ B := hsplit ▸ hpT
  have hlAB : T ≠ [] → Linked (s.parentList d) (s.chain d).start (A ++ B) := by
    intro hTne
    rcases hl with h | h
    · exact absurd h hTne
    · rw [← hsplit]; exact h
  cases B with
  | nil =>
    rw [scanPath_none _ _ _ (by simpa using hAs)] at hscan
    rcases List.eq_nil_or_concat A with hA0 | ⟨A0, a, hA0⟩
    · subst hA0
      obtain ⟨f1, f2, f3⟩ := linkAlone_fields (s.parentList d) p hp
      refine ⟨_, addOrphan_alone p d s htp hscan, ?_, ?_, ?_, ?_, ?_, ?_, ?_⟩
      · rw [setParentList_others, setStartParent_others]
      · rw [setParentList_chain_other, setStartParent_chain_other]
      · rw [setParentList_chain, setStartParent_chain]
      · rw [setParentList_chain]
        exact f1
      · rw [setParentList_chain, setStartParent_chain]
        apply linked_insert_of_fields (s.parentList d) _ EmptyAddress _ [] [] p f1 (hres p hp)
          hnep (by simp) (by simp) (linked_nil _)
        · intro k; rw [f2]; simp [firstAddress]
        · intro k; rw [f3]; simp [lastAddress]
        · exact ⟨fun _ => rfl, fun h => absurd rfl h⟩
      · intro _
        rw [setParentList_chain, setStartParent_chain]
      · intro h; exact absurd rfl h
    · rw [List.concat_eq_append] at hA0
      subst hA0
      have haT : a ∈ T := by rw [hsplit]; simp
      have hTne : T ≠ [] := List.ne_nil_of_mem haT
      have hap : a ≠ p := fun h => hpT (h ▸ haT)
      have hscan2 : orphanScan (nodeAt (s.parentList d) p).service (s.parentList d) 0 none =
          (none, some a) := by
        rw [hscan]; simp [lastVisited]
      obtain ⟨f1, f2, f3⟩ := linkLast_fields (s.parentList d) a p (hlt a haT) hp hap
      refine ⟨_, addOrphan_last p d s a htp hscan2, ?_, ?_, ?_, ?_, ?_, ?_, ?_⟩
      · rw [setParentList_others]
      · rw [setParentList_chain_other]
      · rw [setParentList_chain]
      · rw [setParentList_chain]
        exact f1
      · rw [setParentList_chain]
        apply linked_insert_of_fields (s.parentList d) _ (s.chain d).start _ (A0 ++ [a]) [] p f1
          (hres p hp) hnep hnd hpAB (hlAB hTne)
        · intro k; rw [f2]
          by_cases hk : k = p
          · simp [hk, firstAddress]
          · by_cases hka : k = a
            · simp [hk, hka, hap]
            · simp [hk, hka, Ne.symm hka]
        · intro k; rw [f3]
          by_cases hk : k = p
          · simp [hk, lastAddress_concat]
          · simp [hk]
        · exact ⟨fun h => absurd h (by simp), fun _ => rfl⟩
      · intro h; exact absurd h (by simp)
      · intro _
        rw [setParentList_chain]
  | cons b B' =>
    have hbT : b ∈ T := by rw [hsplit]; simp
    have hTne : T ≠ [] := List.ne_nil_of_mem hbT
    have hpb : p ≠ b := fun h => hpT (h ▸ hbT)
    have hscan2 : orphanScan (nodeAt (s.parentList d) p).service (s.parentList d) 0 none =
        (some b, some b) := by
      rw [hscan]
      exact scanPath_found _ _ A b B' hAs (hBs b (List.mem_cons_self _ _)) none
    have hlk := hlAB hTne
    have hprevb : (nodeAt (s.parentList d) b).previousParentAddress =
        lastAddress (s.parentList d) EmptyAddress A :=
      ((prevLinks_append _ _ A (b :: B') _).mp hlk.2).2.1
    rcases List.eq_nil_or_concat A with hA0 | ⟨A0, a, hA0⟩
    · subst hA0
      obtain ⟨f1, f2, f3⟩ := linkAsFirst_fields (s.parentList d) p b hp (hlt b hbT) hpb
      refine ⟨_, addOrphan_newStart p d s b _ htp hscan2 hprevb, ?_, ?_, ?_, ?_, ?_, ?_, ?_⟩
      · rw [setParentList_others, setStartParent_others]
      · rw [setParentList_chain_other, setStartParent_chain_other]
      · rw [setParentList_chain, setStartParent_chain]
      · rw [setParentList_chain]
        exact f1
      · rw [setParentList_chain, setStartParent_chain]
        apply linked_insert_of_fields (s.parentList d) _ (s.chain d).start _ [] (b :: B') p f1
          (hres p hp) hnep hnd hpAB hlk
        · intro k; rw [f2]; simp [firstAddress]
        · intro k; rw [f3]
          by_cases hk : k = p
          · simp [hk, lastAddress]
          · by_cases hkb : k = b
            · simp [hk, hkb, hpb.symm]
            · simp [hk, hkb, Ne.symm hkb]
        · exact ⟨fun _ => rfl, fun h => absurd rfl h⟩
      · intro _
        rw [setParentList_chain, setStartParent_chain]
      · intro h; exact absurd rfl h
    · rw [List.concat_eq_append] at hA0
      subst hA0
      have haT : a ∈ T := by rw [hsplit]; simp
      have hap : a ≠ p := fun h => hpT (h ▸ haT)
      have hab : a ≠ b := by
        intro h
        exact List.disjoint_of_nodup_append hnd (List.mem_append_right A0
          (List.mem_singleton_self a)) (h ▸ List.mem_cons_self b B')
      rw [lastAddress_concat] at hprevb
      have hprevne : (nodeAt (s.parentList d) b).previousParentAddress ≠ EmptyAddress := by
        rw [hprevb]; exact hneT a haT
      have hfind : findNodeWithAddressInList (s.parentList d)
          (nodeAt (s.parentList d) b).previousParentAddress
          (nodeAt (s.parentList d) b).prevParentVirtualAddress = some a := by
        rw [find_eq_resolve _ _ _ hdist.1, hprevb]
        exact hres a (hlt a haT)
      obtain ⟨f1, f2, f3⟩ := linkBetween_fields (s.parentList d) a p b (hlt a haT) hp
        (hlt b hbT) hap hpb hab
      refine ⟨_, addOrphan_between p d s a b _ htp hscan2 hprevne hfind, ?_, ?_, ?_, ?_, ?_,
        ?_, ?_⟩
      · rw [setParentList_others]
      · rw [setParentList_chain_other]
      · rw [setParentList_chain]
      · rw [setParentList_chain]
        exact f1
      · rw [setParentList_chain]
        apply linked_insert_of_fields (s.parentList d) _ (s.chain d).start _ (A0 ++ [a])
          (b :: B') p f1 (hres p hp) hnep hnd hpAB hlk
        · intro k; rw [f2]
          by_cases hk : k = p
          · simp [hk, firstAddress]
          · by_cases hka : k = a
            · simp [hk, hka, hap]
            · simp [hk, hka, Ne.symm hka]
        · intro k; rw [f3]
          by_cases hk : k = p
          · simp [hk, lastAddress_concat]
          · by_cases hkb : k = b
            · simp [hk, hkb, hpb.symm]
            · simp [hk, hkb, Ne.symm hkb]
        · exact ⟨fun h => absurd h (by simp), fun _ => rfl⟩
      · intro h; exact absurd h (by simp)
      · intro _
        rw [setParentList_chain]
/-! ## Lemmas: the repairing walk leaves a linked chain linked -/

theorem links_address {l1 l2 : List MPNode} (h : l1.map MPNode.links = l2.map MPNode.links) :
    l1.map MPNode.address = l2.map MPNode.address := by
  have := congrArg (List.map (fun x : QByteArray × QByteArray × QByteArray × List Nat => x.1)) h
  simpa [List.map_map, Function.comp_def, MPNode.links] using this

theorem links_field {l1 l2 : List MPNode} (h : l1.map MPNode.links = l2.map MPNode.links)
    (k : Nat) :
    (nodeAt l1 k).address = (nodeAt l2 k).address ∧
    (nodeAt l1 k).previousParentAddress = (nodeAt l2 k).previousParentAddress ∧
    (nodeAt l1 k).nextParentAddress = (nodeAt l2 k).nextParentAddress ∧
    (nodeAt l1 k).service = (nodeAt l2 k).service := by
  have := nodeAt_of_map_eq MPNode.links h k
  simpa [MPNode.links] using this

theorem linked_of_links {l1 l2 : List MPNode} (h : l1.map MPNode.links = l2.map MPNode.links)
    (a : QByteArray) (P : List Nat) (hl : Linked l2 a P) : Linked l1 a P := by
  constructor
  · rw [chainLinks_iff_segLinks]
    exact (segLinks_congr _ (links_address h) P (fun i _ => (links_field h i).2.2.1) _ _).mpr
      ((chainLinks_iff_segLinks _ _ _ _).mp hl.1)
  · exact (prevLinks_congr_on _ (links_address h) P (fun i _ => (links_field h i).2.1) _).mpr hl.2

theorem links_of_startChild {l1 l2 : List MPNode} (hl : l1.length = l2.length)
    (h : ∀ k, (nodeAt l1 k).setStartChildAddress EmptyAddress =
      (nodeAt l2 k).setStartChildAddress EmptyAddress) :
    l1.map MPNode.links = l2.map MPNode.links :=
  map_eq_of_nodeAt MPNode.links hl (fun k => by
    have := congrArg MPNode.links (h k)
    simpa [MPNode.links, MPNode.setStartChildAddress] using this)

theorem updateNode_fixParent_of_prev (l : List MPNode) (i : Nat) (e : QByteArray)
    (h : (nodeAt l i).previousParentAddress = e) :
    updateNode l i (fixParent e) = updateNode l i MPNode.setPointedToCheck := by
  simp [updateNode, fixParent, h]

theorem firstOrLater_congr {l1 l2 : List MPNode} (ha : AddrSame l1 l2) (ht : SameTags l1 l2)
    (sa a e : QByteArray) (pt : Option Nat) (h : FirstOrLater l2 sa a e pt) :
    FirstOrLater l1 sa a e pt := by
  have haddr : l1.map MPNode.address = l2.map MPNode.address := by
    have := congrArg (List.map (fun x : QByteArray × Nat => x.1)) ha
    simpa [List.map_map, Function.comp_def] using this
  rcases h with h | ⟨h1, h2⟩
  · exact Or.inl h
  · right
    refine ⟨?_, by rw [h2]; exact (addrSame_ptrAddress ha pt).symm⟩
    intro j hj
    rw [sameTags_nodeAt ht j]
    apply h1 j
    rw [← hj]
    exact (resolveFrom_congr sa _ _ 0 haddr).symm

/-- The parent loop with repair allowed, from the address `a` on a parent chain that is
linked both ways along the untagged parents `P`: whatever it finds in the child chains, it
leaves the start address, and the address, the parent links and the service of every
parent. -/
theorem tagParentLoop_links (isData : Bool) (P : List Nat) :
    ∀ (fuel : Nat) (c : NodeChain) (a e : QByteArray) (va : Nat) (ppt cpt : Option Nat)
      (rb : Bool) (r : TagLoop),
      tagParentLoop isData true fuel c a va ppt cpt rb = some r →
      (∀ n ∈ c.parents, n.address ≠ []) →
      SegLinks c.parents MPNode.nextParentAddress a P EmptyAddress → P.Nodup →
      (∀ i ∈ P, (nodeAt c.parents i).pointedToCheck = false) →
      PrevLinks c.parents MPNode.previousParentAddress e P →
      FirstOrLater c.parents c.start a e ppt →
      r.chain.start = c.start ∧ r.chain.parents.map MPNode.links = c.parents.map MPNode.links := by
  induction P with
  | nil =>
    intro fuel c a e va ppt cpt rb r h _ hseg _ _ _ _
    have ha : a = EmptyAddress := hseg
    subst ha
    cases fuel with
    | zero => simp [tagParentLoop] at h
    | succ f =>
      rw [tagParentLoop_empty] at h
      simp only [Option.some.injEq] at h
      rw [← h]
      exact ⟨rfl, rfl⟩
  | cons i rest ih =>
    intro fuel c a e va ppt cpt rb r h hpp hseg hnd hunt hprev hfl
    cases fuel with
    | zero => simp [tagParentLoop] at h
    | succ f =>
      obtain ⟨ha, hres, hrest⟩ := hseg
      have hi : i < c.parents.length := (resolve_some _ _ _ hres).1
      have hfind : findNodeWithAddressInList c.parents a va = some i := by
        rw [find_eq_resolve c.parents a va hpp, hres]
      have htag := hunt i (List.mem_cons_self _ _)
      have hexp : parentExpected c ppt a = e :=
        expected_of_firstOrLater c.parents _ a e ppt i hfl hres htag
      rw [tagParentLoop_visit _ _ _ _ _ _ _ _ _ i ha hfind htag, parentVisit_true, hexp,
        updateNode_fixParent_of_prev _ _ _ hprev.1] at h
      cases hchild : tagChildLoop isData true i (c.children.length + 1)
          { start := c.start, children := c.children,
            parents := updateNode c.parents i MPNode.setPointedToCheck }
          (nodeAt (updateNode c.parents i MPNode.setPointedToCheck) i).startChildAddress cpt
          (if parentMismatch c ppt a i then false else rb) with
      | none =>
        rw [hchild] at h
        cases h
      | some r1 =>
        rw [hchild] at h
        simp only at h
        obtain ⟨f1, f2, _, _, f5, _, _, _⟩ := tagChildLoop_frameT isData i _ _ _ _ _ r1 hchild
        have hlinks2 : (updateNode c.parents i MPNode.setPointedToCheck).map MPNode.links =
            c.parents.map MPNode.links :=
          map_updateNode c.parents i _ MPNode.links (fun _ => rfl)
        have hlinks1 : r1.chain.parents.map MPNode.links = c.parents.map MPNode.links :=
          (links_of_startChild (addrSame_length f2) f5).trans hlinks2
        by_cases hret : r1.returned = true
        · simp only [hret, if_true, Option.some.injEq] at h
          rw [← h]
          exact ⟨f1, hlinks1⟩
        · simp only [hret, Bool.false_eq_true, if_false] at h
          have htags := tagChildLoop_parentTags isData i _ _ _ _ _ r1 hchild
          have haddr1 := links_address hlinks1
          have hphys1 : ∀ n ∈ r1.chain.parents, n.address ≠ [] := by
            intro n hn
            have h1 : n.address ∈ r1.chain.parents.map MPNode.address :=
              List.mem_map_of_mem _ hn
            rw [haddr1] at h1
            obtain ⟨m, hm, hma⟩ := List.mem_map.mp h1
            rw [← hma]
            exact hpp m hm
          obtain ⟨g1, g2⟩ := ih f r1.chain
            (nodeAt r1.chain.parents i).nextParentAddress (nodeAt c.parents i).address
            (nodeAt r1.chain.parents i).nextParentVirtualAddress (some i) r1.tempChildNodePt
            r1.return_bool r h hphys1
            (by
              rw [(links_field hlinks1 i).2.2.1]
              exact (segLinks_congr _ haddr1 rest
                (fun k _ => (links_field hlinks1 k).2.2.1) _ _).mpr hrest)
            (List.nodup_cons.mp hnd).2
            (by
              intro k hk
              rw [sameTags_nodeAt htags k]
              dsimp only
              rw [nodeAt_updateNode_ne c.parents i k _
                (fun h => (List.nodup_cons.mp hnd).1 (h ▸ hk))]
              exact hunt k (List.mem_cons_of_mem _ hk))
            ((prevLinks_congr_on _ haddr1 rest
              (fun k _ => (links_field hlinks1 k).2.1) _).mpr hprev.2)
            (by
              rw [f1]
              apply firstOrLater_congr f2 htags
              have := firstOrLater_fix c.parents c.start a e e
                (nodeAt r1.chain.parents i).nextParentAddress ppt i hfl hres
              rw [updateNode_fixParent_of_prev _ _ _ hprev.1] at this
              exact this)
          exact ⟨g1.trans f1, g2.trans hlinks1⟩


theorem links_map_detag (l : List MPNode) :
    (l.map MPNode.removePointedToCheck).map MPNode.links = l.map MPNode.links := by
  rw [List.map_map]
  congr 1

theorem linked_detag (l : List MPNode) (a : QByteArray) (T : List Nat) (h : Linked l a T) :
    Linked (l.map MPNode.removePointedToCheck) a T :=
  linked_of_links (links_map_detag l) a T h

/-- The tagging with repair allowed leaves a parent chain that is linked both ways linked
as it is: the start address, and the address, the parent links and the service of every
parent of the list, whatever the state of the child chains and of the other list. -/
theorem tagPointedNodes_links (s : Session) (d : Bool) (T : List Nat)
    (hphys : ∀ n ∈ s.parentList d, n.address ≠ [])
    (hl : Linked (s.parentList d) (s.chain d).start T) (hnd : T.Nodup) :
    ∃ b t, tagPointedNodes true s = some (b, t) ∧ (t.chain d).start = (s.chain d).start ∧
      (t.parentList d).map MPNode.links = (s.parentList d).map MPNode.links ∧
      t.others = s.others := by
  obtain ⟨⟨b, t⟩, ht⟩ := tagPointedNodes_total true s
  refine ⟨b, t, ht, ?_⟩
  unfold tagPointedNodes at ht
  simp only at ht
  cases h1 : tagParentLoop false true ((detagPointedNodes s).loginNodes.length + 1)
      (detagPointedNodes s).credChain (detagPointedNodes s).startNode
      (detagPointedNodes s).virtualStartNode none none true with
  | none => rw [h1] at ht; cases ht
  | some r1 =>
    rw [h1] at ht
    simp only at ht
    cases d with
    | false =>
      have hl0 := linked_detag _ _ _ hl
      obtain ⟨g1, g2⟩ := tagParentLoop_links false T _ (detagPointedNodes s).credChain
        (detagPointedNodes s).startNode EmptyAddress _ none none true r1 h1
        (sameFields_phys (sameFields_map_detag s.loginNodes) hphys)
        ((chainLinks_iff_segLinks _ _ _ _).mp hl0.1) hnd
        (fun i _ => nodeAt_map_detag s.loginNodes i) hl0.2 (Or.inl ⟨rfl, rfl⟩)
      have g2s : r1.chain.parents.map MPNode.links = s.loginNodes.map MPNode.links :=
        g2.trans (links_map_detag s.loginNodes)
      by_cases hret : r1.returned = true
      · simp only [hret, if_true, Option.some.injEq, Prod.mk.injEq] at ht
        rw [← ht.2]
        exact ⟨g1, g2s, rfl⟩
      · simp only [hret, Bool.false_eq_true, if_false] at ht
        cases h2 : tagParentLoop true true
            (((detagPointedNodes s).setCredChain r1.chain).dataNodes.length + 1)
            ((detagPointedNodes s).setCredChain r1.chain).dataChain
            ((detagPointedNodes s).setCredChain r1.chain).startDataNode
            ((detagPointedNodes s).setCredChain r1.chain).virtualStartNode none none
            r1.return_bool with
        | none => rw [h2] at ht; cases ht
        | some r2 =>
          rw [h2] at ht
          simp only at ht
          have : t = ((detagPointedNodes s).setCredChain r1.chain).setDataChain r2.chain := by
            split_ifs at ht <;>
            · simp only [Option.some.injEq, Prod.mk.injEq] at ht
              exact ht.2.symm
          rw [this]
          exact ⟨g1, g2s, rfl⟩
    | true =>
      by_cases hret : r1.returned = true
      · simp only [hret, if_true, Option.some.injEq, Prod.mk.injEq] at ht
        rw [← ht.2]
        exact ⟨rfl, links_map_detag s.dataNodes, rfl⟩
      · simp only [hret, Bool.false_eq_true, if_false] at ht
        cases h2 : tagParentLoop true true
            (((detagPointedNodes s).setCredChain r1.chain).dataNodes.length + 1)
            ((detagPointedNodes s).setCredChain r1.chain).dataChain
            ((detagPointedNodes s).setCredChain r1.chain).startDataNode
            ((detagPointedNodes s).setCredChain r1.chain).virtualStartNode none none
            r1.return_bool with
        | none => rw [h2] at ht; cases ht
        | some r2 =>
          rw [h2] at ht
          simp only at ht
          have : t = ((detagPointedNodes s).setCredChain r1.chain).setDataChain r2.chain := by
            split_ifs at ht <;>
            · simp only [Option.some.injEq, Prod.mk.injEq] at ht
              exact ht.2.symm
          rw [this]
          have hl0 := linked_detag _ _ _ hl
          obtain ⟨g1, g2⟩ := tagParentLoop_links true T _
            ((detagPointedNodes s).setCredChain r1.chain).dataChain
            (detagPointedNodes s).startDataNode EmptyAddress _ none none r1.return_bool r2 h2
            (sameFields_phys (sameFields_map_detag s.dataNodes) hphys)
            ((chainLinks_iff_segLinks _ _ _ _).mp hl0.1) hnd
            (fun i _ => nodeAt_map_detag s.dataNodes i) hl0.2 (Or.inl ⟨rfl, rfl⟩)
          exact ⟨g1, g2.trans (links_map_detag s.dataNodes), rfl⟩

theorem linked_ne_empty (l : List MPNode) (next : MPNode → QByteArray) (P : List Nat) :
    ∀ a, ChainLinks l next a P → ∀ i ∈ P, (nodeAt l i).address ≠ EmptyAddress := by
  induction P with
  | nil => intro a _ i hi; simp at hi
  | cons j rest ih =>
    intro a h i hi
    rcases List.mem_cons.mp hi with rfl | hi
    · rw [(resolve_some l a i h.2.1).2]
      exact h.1
    · exact ih _ h.2.2 i hi

theorem pairwise_of_sorted {R : Nat → Nat → Prop} (T : List Nat) (hR : T.Pairwise R)
    (hs : T.Pairwise (· < ·)) : ∀ i ∈ T, ∀ j ∈ T, i < j → R i j := by
  induction T with
  | nil => intro i hi; simp at hi
  | cons h tl ih =>
    intro i hi j hj hij
    have hR2 := List.pairwise_cons.mp hR
    have hs2 := List.pairwise_cons.mp hs
    rcases List.mem_cons.mp hi with hi1 | hi1
    · rcases List.mem_cons.mp hj with hj1 | hj1
      · omega
      · rw [hi1]; exact hR2.1 j hj1
    · rcases List.mem_cons.mp hj with hj1 | hj1
      · have := hs2.1 i hi1
        omega
      · exact ih hR2.2 hs2.2 i hi1 j hj1 hij

theorem sameButLinks_service {l1 l2 : List MPNode} (h : SameButLinks l1 l2) (k : Nat) :
    (nodeAt l1 k).service = (nodeAt l2 k).service := by
  have := congrArg MPNode.service (nodeAt_of_map_eq MPNode.unlinked h k)
  simpa [MPNode.unlinked] using this

theorem sameButLinks_phys {l1 l2 : List MPNode} (h : SameButLinks l1 l2)
    (hphys : ∀ n ∈ l2, n.address ≠ []) : ∀ n ∈ l1, n.address ≠ [] := by
  intro n hn
  have h1 : n.address ∈ l1.map MPNode.address := List.mem_map_of_mem _ hn
  rw [sameButLinks_address h] at h1
  obtain ⟨m, hm, hma⟩ := List.mem_map.mp h1
  rw [← hma]
  exact hphys m hm
/-- The tagging with repair allowed after the test "Setting parent node loop" on a valid
database: it leaves the database restored. -/
theorem tagPointedNodes_setParentLoop (s : Session) (isData : Bool) (P Q : List Nat)
    (cps dps : List (List Nat)) (k m : Nat) (hd : AllDistinct s)
    (hc : ChainValidAlong false s.credChain P cps)
    (hdd : ChainValidAlong true s.dataChain Q dps)
    (hk : k ∈ (if isData then Q else P)) :
    ∃ b c1 c2, tagPointedNodes true (setParentLoop isData k m s) =
        some (b, (s.setCredChain c1).setDataChain c2) ∧
      Restores s.credChain c1 ∧ Restores s.dataChain c2 ∧
      (∀ i, (nodeAt c1.parents i).pointedToCheck = true ↔ i ∈ P) ∧
      (∀ i, (nodeAt c2.parents i).pointedToCheck = true ↔ i ∈ Q) := by
  have hphys := allPhysical_of_distinct hd
  cases isData with
  | false =>
    simp only [Bool.false_eq_true, if_false] at hk
    have hw1 := walkable_setPrev false s.credChain P cps EmptyAddress
      (nodeAt s.loginNodes m).address k 0 (walkable_of_valid false _ P cps hc)
    have hw2 := walkable_of_valid true _ Q dps hdd
    obtain ⟨b, c1, c2, ht, w1, w2, _⟩ := tagPointedNodes_walked (setParentLoop false k m s)
      P Q cps dps EmptyAddress EmptyAddress
      ⟨phys_updateNode s.loginNodes k
        (fun n => n.setPreviousParentAddress (nodeAt s.loginNodes m).address 0)
        (fun _ => rfl) hphys.1, hphys.2.1, hphys.2.2.1, hphys.2.2.2⟩
      hw1 hw2
    refine ⟨b, c1, c2, ht, ?_, ?_, w1.2.2.2.1, (w2 rfl).2.2.2.1⟩
    · exact restores_of_walked_setPrev false s.credChain c1 P cps _ k 0 hc hk w1
    · exact restores_of_walked _ s.dataChain c2 (w2 rfl) rfl (fun _ _ => rfl)
        (sameFields_refl _) (linked_of_valid true _ Q dps hdd)
  | true =>
    simp only [if_true] at hk
    have hw1 := walkable_of_valid false _ P cps hc
    have hw2 := walkable_setPrev true s.dataChain Q dps EmptyAddress
      (nodeAt s.dataNodes m).address k 0 (walkable_of_valid true _ Q dps hdd)
    obtain ⟨b, c1, c2, ht, w1, w2, _⟩ := tagPointedNodes_walked (setParentLoop true k m s)
      P Q cps dps EmptyAddress EmptyAddress
      ⟨hphys.1, hphys.2.1, phys_updateNode s.dataNodes k
        (fun n => n.setPreviousParentAddress (nodeAt s.dataNodes m).address 0)
        (fun _ => rfl) hphys.2.2.1, hphys.2.2.2⟩
      hw1 hw2
    refine ⟨b, c1, c2, ht, ?_, ?_, w1.2.2.2.1, (w2 rfl).2.2.2.1⟩
    · exact restores_of_walked _ s.credChain c1 w1 rfl (fun _ _ => rfl)
        (sameFields_refl _) (linked_of_valid false _ P cps hc)
    · exact restores_of_walked_setPrev true s.dataChain c2 Q dps _ k 0 hdd hk (w2 rfl)


theorem restores_of_core {s t : Session} (h : t.core = s.core) :
    Restores s.credChain t.credChain ∧ Restores s.dataChain t.dataChain :=
  ⟨⟨by have h0 := congrArg Session.startNode h; exact h0, core_loginNodes h,
      core_loginChildNodes h⟩,
    ⟨by have h0 := congrArg Session.startDataNode h; exact h0, core_dataNodes h,
      core_dataChildNodes h⟩⟩

/-- A session restored to a valid one passes the tagging without repair. -/
theorem tagPointedNodes_false_of_core {s t : Session} (h : t.core = s.core)
    (hd : AllDistinct s) (P Q : List Nat) (cps dps : List (List Nat))
    (hc : ChainValidAlong false s.credChain P cps)
    (hdd : ChainValidAlong true s.dataChain Q dps) :
    ∃ t2, tagPointedNodes false t = some (true, t2) := by
  obtain ⟨r1, r2⟩ := restores_of_core h
  exact (tagPointedNodes_false_iff t (allPhysical_of_distinct (allDistinct_of_core h hd))).2.mpr
    ⟨⟨P, cps, chainValidAlong_of_restores false r1 P cps hc⟩,
      ⟨Q, dps, chainValidAlong_of_restores true r2 Q dps hdd⟩⟩

/-- A pass of `checkLoadedNodes` whose tagging leaves every parent tagged, on a session whose
favorites the check keeps, leaves the state the tagging left. -/
theorem checkLoadedNodesPass_parents_tagged (rep : Bool) (s t : Session) (b : Bool)
    (ht : tagPointedNodes rep s = some (b, t))
    (h1 : ∀ i ∈ List.range t.loginNodes.length, (nodeAt t.loginNodes i).pointedToCheck = true)
    (h3 : ∀ i ∈ List.range t.dataNodes.length, (nodeAt t.dataNodes i).pointedToCheck = true)
    (hk : FavoritesKept t) :
    ∃ b2, checkLoadedNodesPass rep s = some (b2, t) := by
  have e1 := orphanParentsLoop_tagged rep false (List.range t.loginNodes.length) t 0 h1
  have e2 := (orphanChildrenLoop_count rep (List.range t.loginChildNodes.length) t 0).1
  have e3 := orphanParentsLoop_tagged rep true (List.range t.dataNodes.length) t 0 h3
  unfold checkLoadedNodesPass
  simp only [ht, e1, e2, e3]
  rw [checkFavorites_kept t hk]
  split_ifs
  · exact ⟨false, rfl⟩
  · exact ⟨b, rfl⟩

theorem cleanDb_credValid :
    ChainValidAlong false cleanDb.credChain [0, 1, 2, 3, 4, 5] [[0, 1], [], [], [], [], []] := by
  simp only [ChainValidAlong, ChainLinks, PrevLinks, ChildChain, List.forall₂_cons,
    List.forall₂_nil_left_iff, true_implies, and_true, forall_const]
  refine ⟨?_, ?_, ?_, ?_, ?_⟩ <;> decide

theorem cleanDb_dataValid :
    ChainValidAlong true cleanDb.dataChain [0, 1, 2, 3, 4, 5] [[0, 1], [], [], [], [], []] := by
  simp only [ChainValidAlong, ChainLinks, PrevLinks, ChildChain, List.forall₂_cons,
    List.forall₂_nil_left_iff, and_true]
  refine ⟨?_, ?_, ?_, ?_, ?_⟩ <;> decide

theorem cleanDb_favoritesKept : FavoritesKept cleanDb := by
  unfold FavoritesKept
  decide

theorem cleanDb_noOrphanParent :
    (∀ i, i < cleanDb.loginNodes.length → i ∈ [0, 1, 2, 3, 4, 5]) ∧
    (∀ i, i < cleanDb.dataNodes.length → i ∈ [0, 1, 2, 3, 4, 5]) := by
  constructor <;>
  · intro i hi
    have : i < 6 := hi
    simp only [List.mem_cons, List.mem_singleton, List.not_mem_nil, or_false]
    omega

theorem sortedDb_credValid :
    ChainValidAlong false sortedDb.credChain [0, 1, 2, 3, 4, 5] [[0, 1], [], [], [], [], []] := by
  simp only [ChainValidAlong, ChainLinks, PrevLinks, ChildChain, List.forall₂_cons,
    List.forall₂_nil_left_iff, true_implies, and_true, forall_const]
  refine ⟨?_, ?_, ?_, ?_, ?_⟩ <;> decide

theorem sortedDb_dataValid :
    ChainValidAlong true sortedDb.dataChain [0, 1, 2, 3, 4, 5] [[0, 1], [], [], [], [], []] := by
  simp only [ChainValidAlong, ChainLinks, PrevLinks, ChildChain, List.forall₂_cons,
    List.forall₂_nil_left_iff, and_true]
  refine ⟨?_, ?_, ?_, ?_, ?_⟩ <;> decide

theorem sortedDb_favoritesKept : FavoritesKept sortedDb := by
  unfold FavoritesKept
  decide

theorem sortedDb_noOrphanParent :
    (∀ i, i < sortedDb.loginNodes.length → i ∈ [0, 1, 2, 3, 4, 5]) ∧
    (∀ i, i < sortedDb.dataNodes.length → i ∈ [0, 1, 2, 3, 4, 5]) := by
  constructor <;>
  · intro i hi
    have : i < 6 := hi
    simp only [List.mem_cons, List.mem_singleton, List.not_mem_nil, or_false]
    omega

/-- C16: on a database whose two chains are valid, whose addresses are physical and pairwise
distinct in each list and whose live state equals the clone (each live list has the
addresses of its clone list, with the same node data at each address, in whatever order), let the previous-parent address
of a parent `k` that follows the parent `j` on its chain (the credential chain or the data
chain) be overwritten with the address of a parent `m`. Then `tagPointedNodes(true)` leaves
the database as it was before the overwriting, up to the tags and the virtual ids of the
parent links; the previous-parent address of `k` is again the address of `j`;
`tagPointedNodes(false)` on the result returns true; and `generateSavePackets` sets no write
flag. When moreover no parent is an orphan and the favorites check keeps the favorites, the
same holds of `checkLoadedNodes(true)`. -/
theorem C16_parent_loop_repaired (s : Session) (isData : Bool) (P Q : List Nat)
    (cps dps : List (List Nat)) (pre post : List Nat) (j k m : Nat)
    (hd : AllDistinct s) (hc : ChainValidAlong false s.credChain P cps)
    (hdd : ChainValidAlong true s.dataChain Q dps) (hl : LiveEqualsClone s)
    (hflag : s.diagSavePacketsGenerated = false)
    (hjk : (if isData then Q else P) = pre ++ j :: k :: post) :
    (∃ b s1, tagPointedNodes true (setParentLoop isData k m s) = some (b, s1) ∧
      s1.core = s.core ∧
      (nodeAt (s1.parentList isData) k).previousParentAddress =
        (nodeAt (s.parentList isData) j).address ∧
      (∃ s2, tagPointedNodes false s1 = some (true, s2)) ∧
      generateSavePackets s1 = some (true, s1) ∧ s1.diagSavePacketsGenerated = false) ∧
    ((∀ i, i < s.loginNodes.length → i ∈ P) → (∀ i, i < s.dataNodes.length → i ∈ Q) →
      FavoritesKept s →
      ∃ b t, checkLoadedNodes true (setParentLoop isData k m s) = some (b, t) ∧
        t.core = s.core ∧
        (nodeAt (t.parentList isData) k).previousParentAddress =
          (nodeAt (s.parentList isData) j).address ∧
        (∃ t2, tagPointedNodes false t = some (true, t2)) ∧
        generateSavePackets t = some (true, t) ∧ t.diagSavePacketsGenerated = false) := by
  have hk : k ∈ (if isData then Q else P) := by rw [hjk]; simp
  obtain ⟨b, c1, c2, ht, r1, r2, g1, g2⟩ :=
    tagPointedNodes_setParentLoop s isData P Q cps dps k m hd hc hdd hk
  have hcore := core_of_restores s c1 c2 r1 r2
  have hprev : ∀ t : Session, t.core = s.core →
      (nodeAt (t.parentList isData) k).previousParentAddress =
        (nodeAt (s.parentList isData) j).address := by
    intro t htc
    cases isData with
    | false =>
      simp only [Bool.false_eq_true, if_false] at hjk
      have e := congrArg MPNode.previousParentAddress
        (nodeAt_of_map_eq MPNode.core (core_loginNodes htc) k)
      simp only [Session.parentList, Bool.false_eq_true, if_false]
      refine Eq.trans e ?_
      exact prevLinks_at s.loginNodes _ pre post j k _ (hjk ▸ hc.2.2.1)
    | true =>
      simp only [if_true] at hjk
      have e := congrArg MPNode.previousParentAddress
        (nodeAt_of_map_eq MPNode.core (core_dataNodes htc) k)
      simp only [Session.parentList, if_true]
      refine Eq.trans e ?_
      exact prevLinks_at s.dataNodes _ pre post j k _ (hjk ▸ hdd.2.2.1)
  have hfin : ∀ t : Session, t.core = s.core →
      (nodeAt (t.parentList isData) k).previousParentAddress =
        (nodeAt (s.parentList isData) j).address ∧
      (∃ t2, tagPointedNodes false t = some (true, t2)) ∧
      generateSavePackets t = some (true, t) ∧ t.diagSavePacketsGenerated = false :=
    fun t htc => ⟨hprev t htc, tagPointedNodes_false_of_core htc hd P Q cps dps hc hdd,
      generateSavePackets_of_core htc hd hl hflag⟩
  refine ⟨⟨b, _, ht, hcore, hfin _ hcore⟩, ?_⟩
  intro hall1 hall2 hfav
  have t1 : ∀ i ∈ List.range c1.parents.length, (nodeAt c1.parents i).pointedToCheck = true := by
    intro i hi
    rw [g1 i]
    apply hall1
    have := sameCore_length r1.2.1
    simp only [Session.credChain] at this
    rw [← this]
    exact List.mem_range.mp hi
  have t2 : ∀ i ∈ List.range c2.parents.length, (nodeAt c2.parents i).pointedToCheck = true := by
    intro i hi
    rw [g2 i]
    apply hall2
    have := sameCore_length r2.2.1
    simp only [Session.dataChain] at this
    rw [← this]
    exact List.mem_range.mp hi
  obtain ⟨b2, hp⟩ := checkLoadedNodesPass_parents_tagged true _ _ b ht t1 t2
    (favoritesKept_of_core hcore hfav)
  obtain ⟨b3, t, hcl, htc⟩ := checkLoadedNodes_of_pass _ s _ b2 hp hcore hfav
  exact ⟨b3, t, hcl, htc, hfin t htc⟩


/-- C16 on the database of the self-test, whose live parent lists are sorted by service and
whose clone lists are in the order of the scan: the previous-parent address of the sixth
parent is overwritten with the address of the third one, in the credential list and in the
data list. -/
theorem C16_parent_loop_repaired_witness :
    sortedDb.loginNodes ≠ sortedDb.loginNodesClone ∧
    (∃ b t, checkLoadedNodes true (setParentLoop false 5 2 sortedDb) = some (b, t) ∧
      t.core = sortedDb.core ∧
      (nodeAt (t.parentList false) 5).previousParentAddress =
        (nodeAt (sortedDb.parentList false) 4).address ∧
      (∃ t2, tagPointedNodes false t = some (true, t2)) ∧
      generateSavePackets t = some (true, t) ∧ t.diagSavePacketsGenerated = false) ∧
    (∃ b t, checkLoadedNodes true (setParentLoop true 5 2 sortedDb) = some (b, t) ∧
      t.core = sortedDb.core ∧
      (nodeAt (t.parentList true) 5).previousParentAddress =
        (nodeAt (sortedDb.parentList true) 4).address ∧
      (∃ t2, tagPointedNodes false t = some (true, t2)) ∧
      generateSavePackets t = some (true, t) ∧ t.diagSavePacketsGenerated = false) :=
  ⟨by decide,
    (C16_parent_loop_repaired sortedDb false [0, 1, 2, 3, 4, 5] [0, 1, 2, 3, 4, 5]
      [[0, 1], [], [], [], [], []] [[0, 1], [], [], [], [], []] [0, 1, 2, 3] [] 4 5 2
      sortedDb_distinct sortedDb_credValid sortedDb_dataValid sortedDb_liveEqualsClone rfl rfl).2
      sortedDb_noOrphanParent.1 sortedDb_noOrphanParent.2 sortedDb_favoritesKept,
    (C16_parent_loop_repaired sortedDb true [0, 1, 2, 3, 4, 5] [0, 1, 2, 3, 4, 5]
      [[0, 1], [], [], [], [], []] [[0, 1], [], [], [], [], []] [0, 1, 2, 3] [] 4 5 2
      sortedDb_distinct sortedDb_credValid sortedDb_dataValid sortedDb_liveEqualsClone rfl rfl).2
      sortedDb_noOrphanParent.1 sortedDb_noOrphanParent.2 sortedDb_favoritesKept⟩
/-- The list of two parents is in the order of the services, its tagged parent `t` is the
whole chain, linked both ways from the start address, and the other parent is untagged. -/
theorem twoParents_premises (s : Session) (t : Nat) (hlen : s.loginNodes.length = 2)
    (hord : (nodeAt s.loginNodes 0).service ≤ (nodeAt s.loginNodes 1).service)
    (hres : resolve s.loginNodes s.startNode = some t)
    (hstart : s.startNode ≠ EmptyAddress)
    (hnext : (nodeAt s.loginNodes t).nextParentAddress = EmptyAddress)
    (hprev : (nodeAt s.loginNodes t).previousParentAddress = EmptyAddress) :
    (∀ i j, i < j → j < s.loginNodes.length →
      (nodeAt s.loginNodes i).service ≤ (nodeAt s.loginNodes j).service) ∧
    Linked s.loginNodes s.startNode [t] := by
  constructor
  · intro i j hij hj
    rw [hlen] at hj
    have hi0 : i = 0 := by omega
    have hj1 : j = 1 := by omega
    subst hi0 hj1
    exact hord
  · unfold Linked
    simp only [ChainLinks, PrevLinks, and_true]
    exact ⟨⟨hstart, hres, hnext⟩, hprev⟩

/-- C11, as stated, fails, in four ways. In each of the four states the list is ascending
by service, its one tagged node is a valid chain from the start address, the other node is
untagged, and `addOrphanParentToDB` on that node returns true. In `sameServiceDb` the orphan
is linked behind the tagged node, although both have the same service: the chain left is
not strictly ascending by service. In `nullOrphanDb` the orphan has no address (and the
virtual id 0): it becomes the start node, and the re-tagging, looking for the address of the
tagged node, arrives at the orphan again and cuts the link: the former chain node is left
out of the chain, untagged. In `sameAddressDb` the orphan has the address of the tagged
node: the re-tagging arrives at the tagged node again and clears the start address. In
`emptyAddressOrphanDb` the address of the orphan is the empty address: the link to it ends
the chain, and the orphan is left out, untagged. -/
theorem C11_same_service_counterexample :
    ((∀ i j, i < j → j < sameServiceDb.loginNodes.length →
      (nodeAt sameServiceDb.loginNodes i).service ≤ (nodeAt sameServiceDb.loginNodes j).service) ∧
    Linked sameServiceDb.loginNodes sameServiceDb.startNode [0] ∧
    (nodeAt sameServiceDb.loginNodes 0).pointedToCheck = true ∧
    (nodeAt sameServiceDb.loginNodes 1).pointedToCheck = false ∧
    (addOrphanParentToDB 1 false sameServiceDb).map
        (fun r => (r.1, r.2.startNode,
          r.2.loginNodes.map
            (fun n => (n.previousParentAddress, n.nextParentAddress, n.service)))) =
      some (true, [1, 8], [([0, 0], [2, 8], [97]), ([1, 8], [0, 0], [97])]) ∧
    ¬ (([97] : List Nat) < [97])) ∧
    ((∀ i j, i < j → j < nullOrphanDb.loginNodes.length →
      (nodeAt nullOrphanDb.loginNodes i).service ≤ (nodeAt nullOrphanDb.loginNodes j).service) ∧
    Linked nullOrphanDb.loginNodes nullOrphanDb.startNode [1] ∧
    (nodeAt nullOrphanDb.loginNodes 1).pointedToCheck = true ∧
    (nodeAt nullOrphanDb.loginNodes 0).pointedToCheck = false ∧
    (nodeAt nullOrphanDb.loginNodes 0).service < (nodeAt nullOrphanDb.loginNodes 1).service ∧
    (addOrphanParentToDB 0 false nullOrphanDb).map
        (fun r => (r.1, r.2.startNode,
          r.2.loginNodes.map
            (fun n => (n.address, n.previousParentAddress, n.nextParentAddress,
              n.pointedToCheck)))) =
      some (true, [], [([], [0, 0], [0, 0], true), ([1, 8], [], [0, 0], false)])) ∧
    ((∀ i j, i < j → j < sameAddressDb.loginNodes.length →
      (nodeAt sameAddressDb.loginNodes i).service ≤ (nodeAt sameAddressDb.loginNodes j).service) ∧
    Linked sameAddressDb.loginNodes sameAddressDb.startNode [0] ∧
    (nodeAt sameAddressDb.loginNodes 0).pointedToCheck = true ∧
    (nodeAt sameAddressDb.loginNodes 1).pointedToCheck = false ∧
    (nodeAt sameAddressDb.loginNodes 0).service < (nodeAt sameAddressDb.loginNodes 1).service ∧
    (addOrphanParentToDB 1 false sameAddressDb).map
        (fun r => (r.1, r.2.startNode,
          r.2.loginNodes.map
            (fun n => (n.address, n.previousParentAddress, n.nextParentAddress,
              n.pointedToCheck)))) =
      some (true, [0, 0],
        [([1, 8], [0, 0], [1, 8], true), ([1, 8], [1, 8], [0, 0], false)])) ∧
    ((∀ i j, i < j → j < emptyAddressOrphanDb.loginNodes.length →
      (nodeAt emptyAddressOrphanDb.loginNodes i).service ≤
        (nodeAt emptyAddressOrphanDb.loginNodes j).service) ∧
    Linked emptyAddressOrphanDb.loginNodes emptyAddressOrphanDb.startNode [0] ∧
    (nodeAt emptyAddressOrphanDb.loginNodes 0).pointedToCheck = true ∧
    (nodeAt emptyAddressOrphanDb.loginNodes 1).pointedToCheck = false ∧
    (nodeAt emptyAddressOrphanDb.loginNodes 0).service <
      (nodeAt emptyAddressOrphanDb.loginNodes 1).service ∧
    (addOrphanParentToDB 1 false emptyAddressOrphanDb).map
        (fun r => (r.1, r.2.startNode,
          r.2.loginNodes.map
            (fun n => (n.address, n.previousParentAddress, n.nextParentAddress,
              n.pointedToCheck)))) =
      some (true, [1, 8],
        [([1, 8], [0, 0], [0, 0], true), ([0, 0], [1, 8], [0, 0], false)])) := by
  have h1 := twoParents_premises sameServiceDb 0 rfl (by decide)
    (by decide) (by decide) rfl rfl
  have h2 := twoParents_premises nullOrphanDb 1 rfl (by decide)
    (by decide) (by decide) rfl rfl
  have h3 := twoParents_premises sameAddressDb 0 rfl (by decide)
    (by decide) (by decide) rfl rfl
  have h4 := twoParents_premises emptyAddressOrphanDb 0 rfl (by decide)
    (by decide) (by decide) rfl rfl
  exact ⟨⟨h1.1, h1.2, by decide, by decide, by rfl, by decide⟩,
    ⟨h2.1, h2.2, by decide, by decide, by decide, by rfl⟩,
    ⟨h3.1, h3.2, by decide, by decide, by decide, by rfl⟩,
    ⟨h4.1, h4.2, by decide, by decide, by decide, by rfl⟩⟩


/-- C11, amended with three conditions: the addresses of the list are not null and pairwise
distinct, the address of the orphan is not the empty address, and the service of the orphan
differs from the service of every tagged node. Given a parent list (the credential parents
or the data parents) with such addresses, whose in-memory order is ascending by service and
whose tagged nodes `T` are linked both ways from the start address in strictly ascending
service order, and such an untagged parent `p` of the list:
`addOrphanParentToDB` returns true and leaves a chain `T2`, linked both ways from the start
address, that is made of the nodes of `T` and of `p` and is strictly ascending by service;
and the start address has changed only if `p` is the first node of `T2`. -/
theorem C11_orphan_parent_linked (s : Session) (d : Bool) (p : Nat) (T : List Nat)
    (hdist : AddressesDistinct (s.parentList d))
    (hnep : (nodeAt (s.parentList d) p).address ≠ EmptyAddress)
    (hp : p < (s.parentList d).length)
    (hord : ∀ i j, i < j → j < (s.parentList d).length →
      (nodeAt (s.parentList d) i).service ≤ (nodeAt (s.parentList d) j).service)
    (hl : Linked (s.parentList d) (s.chain d).start T)
    (htag : ∀ i, (nodeAt (s.parentList d) i).pointedToCheck = true ↔ i ∈ T)
    (hstrict : T.Pairwise (fun i j =>
      (nodeAt (s.parentList d) i).service < (nodeAt (s.parentList d) j).service))
    (hpu : (nodeAt (s.parentList d) p).pointedToCheck = false)
    (hdiff : ∀ i ∈ T, (nodeAt (s.parentList d) i).service ≠ (nodeAt (s.parentList d) p).service) :
    ∃ t T2, addOrphanParentToDB p d s = some (true, t) ∧
      Linked (t.parentList d) (t.chain d).start T2 ∧ T2.Perm (p :: T) ∧
      T2.Pairwise (fun i j =>
        (nodeAt (t.parentList d) i).service < (nodeAt (t.parentList d) j).service) ∧
      ((t.chain d).start ≠ (s.chain d).start → T2.head? = some p) := by
  have hltT := chainLinks_lt _ _ _ _ hl.1
  have hneT := linked_ne_empty _ _ _ _ hl.1
  have hpT : p ∉ T := by
    intro h
    rw [(htag p).mpr h] at hpu
    cases hpu
  have hT : T.Pairwise (· < ·) := by
    apply hstrict.imp_of_mem
    intro i j hi hj hij
    by_contra hcon
    have hji : j ≤ i := by omega
    rcases Nat.eq_or_lt_of_le hji with e | e
    · rw [e] at hij
      exact lt_irrefl _ hij
    · exact absurd hij (not_lt.mpr (hord j i e (hltT i hi)))
  obtain ⟨s1, h1, _, _, _, h5, h6, h7, h8⟩ := addOrphanParentToDB_relinks s d p T hdist hnep
    hneT hp hT hltT htag hpT (Or.inr hl)
    (fun i hi hip => not_lt.mpr (hord i p hip hp))
    (fun i hi hpi => lt_of_le_of_ne (hord p i hpi (hltT i hi)) (hdiff i hi).symm)
  have hins := sorted_insert p T hT
  rw [chain_parents] at h5 h6
  obtain ⟨b, t, g1, g2, g3, _⟩ := tagPointedNodes_links s1 d _
    (sameButLinks_phys h5 hdist.1) h6 (hins.imp (fun h => Nat.ne_of_lt h))
  refine ⟨t, T.filter (fun i => decide (i < p)) ++ p :: T.filter (fun i => decide (p < i)),
    ?_, ?_, ?_, ?_, ?_⟩
  · rw [h1, g1]; rfl
  · rw [g2]
    exact linked_of_links g3 _ _ h6
  · have h : (T.filter (fun i => decide (i < p)) ++ p :: T.filter (fun i => decide (p < i))).Perm
        (p :: (T.filter (fun i => decide (i < p)) ++ T.filter (fun i => decide (p < i)))) :=
      List.perm_middle
    rw [← sorted_split p T hT hpT] at h
    exact h
  · apply hins.imp_of_mem
    intro i j hi hj hij
    have hsv : ∀ k, (nodeAt (t.parentList d) k).service = (nodeAt (s.parentList d) k).service :=
      fun k => ((links_field g3 k).2.2.2).trans (sameButLinks_service h5 k)
    rw [hsv i, hsv j]
    have hmem : ∀ k, k ∈ T.filter (fun i => decide (i < p)) ++
        p :: T.filter (fun i => decide (p < i)) → k = p ∨ k ∈ T := by
      intro k hk
      rcases List.mem_append.mp hk with h | h
      · exact Or.inr (List.mem_filter.mp h).1
      · rcases List.mem_cons.mp h with h | h
        · exact Or.inl h
        · exact Or.inr (List.mem_filter.mp h).1
    have hjn : j < (s.parentList d).length := by
      rcases hmem j hj with h | h
      · rw [h]; exact hp
      · exact hltT j h
    refine lt_of_le_of_ne (hord i j hij hjn) ?_
    rcases hmem i hi with hi1 | hi1
    · rcases hmem j hj with hj1 | hj1
      · omega
      · rw [hi1]; exact (hdiff j hj1).symm
    · rcases hmem j hj with hj1 | hj1
      · rw [hj1]; exact hdiff i hi1
      · exact ne_of_lt (pairwise_of_sorted T hstrict hT i hi1 j hj1 hij)
  · intro hne
    rw [g2] at hne
    by_cases hA : T.filter (fun i => decide (i < p)) = []
    · rw [hA]; rfl
    · exact absurd (h8 hA) hne


/-- C11 on `orphanParentDb`: the orphan is the second of three parents, and it is linked
between the other two. -/
theorem C11_orphan_parent_linked_witness :
    (addOrphanParentToDB 1 false orphanParentDb).map
        (fun r => (r.1, r.2.startNode,
          r.2.loginNodes.map (fun n => (n.previousParentAddress, n.nextParentAddress)))) =
      some (true, [1, 8], [([0, 0], [2, 8]), ([1, 8], [3, 8]), ([2, 8], [0, 0])]) ∧
    ∃ t T2, addOrphanParentToDB 1 false orphanParentDb = some (true, t) ∧
      Linked (t.parentList false) (t.chain false).start T2 ∧ T2.Perm (1 :: [0, 2]) ∧
      T2.Pairwise (fun i j =>
        (nodeAt (t.parentList false) i).service < (nodeAt (t.parentList false) j).service) ∧
      ((t.chain false).start ≠ (orphanParentDb.chain false).start → T2.head? = some 1) :=
  ⟨by rfl,
    C11_orphan_parent_linked orphanParentDb false 1 [0, 2]
      (by unfold AddressesDistinct; decide) (by decide) (by decide)
      (by
        intro i j hij hj
        have hj2 : j < 3 := hj
        have : (i = 0 ∧ j = 1) ∨ (i = 0 ∧ j = 2) ∨ (i = 1 ∧ j = 2) := by omega
        rcases this with ⟨rfl, rfl⟩ | ⟨rfl, rfl⟩ | ⟨rfl, rfl⟩ <;> decide)
      (by
        unfold Linked
        simp only [ChainLinks, PrevLinks, and_true]
        decide)
      (by
        intro i
        have : i = 0 ∨ i = 1 ∨ i = 2 ∨ 3 ≤ i := by omega
        rcases this with rfl | rfl | rfl | h
        · decide
        · decide
        · decide
        · rw [nodeAt_of_le _ _ h]
          simp only [List.mem_cons, List.mem_singleton, List.not_mem_nil, or_false]
          constructor
          · intro h2; cases h2
          · intro h2; omega)
      (by
        refine List.Pairwise.cons ?_ (List.pairwise_singleton _ _)
        intro j hj
        rw [List.mem_singleton.mp hj]
        decide)
      (by decide) (by decide)⟩

set_option maxRecDepth 100000 in
theorem byte_bits : ∀ b : Fin 256,
    ((b.val <<< 5) &&& 0x1FE0) = b.val * 32 ∧ ((b.val >>> 3) &&& 0x1F) = b.val / 8 ∧
    b.val &&& 7 = b.val % 8 ∧ b.val &&& 0xF8 = b.val / 8 * 8 := by
  decide

theorem page_eq (a0 a1 : Nat) :
    getFlashPageFromAddress [a0, a1] = (a0 % 256 + 256 * (a1 % 256)) / 8 := by
  have h0 := byte_bits ⟨a0 % 256, Nat.mod_lt _ (by norm_num)⟩
  have h1 := byte_bits ⟨a1 % 256, Nat.mod_lt _ (by norm_num)⟩
  simp only at h0 h1
  have hlt : a0 % 256 / 8 < 2 ^ 5 := by
    have := Nat.mod_lt a0 (show 0 < 256 by norm_num)
    omega
  simp only [getFlashPageFromAddress, byteAt, List.getD_cons_zero, List.getD_cons_succ]
  rw [h1.1, h0.2.1, show a1 % 256 * 32 = 2 ^ 5 * (a1 % 256) by ring,
    ← Nat.mul_add_lt_is_or hlt]
  omega

theorem nodeId_eq (a0 a1 : Nat) :
    getNodeIdFromAddress [a0, a1] = (a0 % 256 + 256 * (a1 % 256)) % 8 := by
  have h0 := byte_bits ⟨a0 % 256, Nat.mod_lt _ (by norm_num)⟩
  simp only at h0
  simp only [getNodeIdFromAddress, byteAt, List.getD_cons_zero]
  rw [h0.2.2.1]
  omega


theorem page_slotAddress (p s : Nat) (hp : p < 8192) (hs : s < 8) :
    getFlashPageFromAddress (slotAddress p s) = p := by
  rw [slotAddress, page_eq]
  omega

theorem nodeId_slotAddress (p s : Nat) (_hp : p < 8192) (hs : s < 8) :
    getNodeIdFromAddress (slotAddress p s) = s := by
  rw [slotAddress, nodeId_eq]
  omega

theorem slot_byte (s p : Nat) (hs : s < 8) :
    (s ||| (((p <<< 3) % 2 ^ 8) &&& 0xF8)) = p % 32 * 8 + s := by
  have h1 := byte_bits ⟨(p <<< 3) % 2 ^ 8, Nat.mod_lt _ (by norm_num)⟩
  simp only at h1
  rw [h1.2.2.2, Nat.shiftLeft_eq]
  have e : p * 2 ^ 3 % 2 ^ 8 / 8 * 8 = 2 ^ 3 * (p % 32) := by omega
  rw [e, Nat.lor_comm, ← Nat.mul_add_lt_is_or (by simpa using hs)]
  omega

theorem next_slotAddress (flashMbSize p s : Nat) (hp : p < 8192)
    (hsn : s < getNodesPerPage flashMbSize) :
    getNextNodeAddressInMemory flashMbSize (slotAddress p s) =
      if s + 1 = getNodesPerPage flashMbSize then
        [(p + 1) % 32 * 8, (p + 1) / 32 % 256]
      else [p % 32 * 8 + (s + 1), p / 32] := by
  have hnpp : getNodesPerPage flashMbSize ≤ 4 := by
    unfold getNodesPerPage; split <;> omega
  have hs : s < 8 := by omega
  have hpage := page_slotAddress p s hp hs
  have hid := nodeId_slotAddress p s hp hs
  unfold getNodeIdFromAddress at hid
  unfold getNextNodeAddressInMemory
  simp only [hpage, hid]
  have hinc : (s + 1) % 2 ^ 8 = s + 1 := by omega
  rw [hinc]
  by_cases h : s + 1 = getNodesPerPage flashMbSize
  · simp only [h, if_true]
    have hp1 : (p + 1) % 2 ^ 16 = p + 1 := by omega
    rw [hp1, slot_byte 0 (p + 1) (by norm_num), Nat.shiftRight_eq_div_pow]
    simp [slotAddress]
  · simp only [h, if_false]
    have hs1 : s + 1 < 8 := by omega
    rw [slot_byte (s + 1) p hs1, Nat.shiftRight_eq_div_pow]
    have : p / 2 ^ 5 % 2 ^ 8 = p / 32 := by omega
    simp only [slotAddress, List.set_cons_zero, List.set_cons_succ, this]


theorem scanFrom_mono (flashMbSize : Nat) :
    ∀ (fuel : Nat) (a : QByteArray) (l : List QByteArray),
      scanFrom flashMbSize fuel a = some l → scanFrom flashMbSize (fuel + 1) a = some l := by
  intro fuel
  induction fuel with
  | zero => intro a l h; simp [scanFrom] at h
  | succ f ih =>
    intro a l h
    rw [scanFrom] at h ⊢
    split_ifs at h ⊢ with hc
    · exact h
    · cases hn : scanFrom flashMbSize f (getNextNodeAddressInMemory flashMbSize a) with
      | none => rw [hn] at h; cases h
      | some l1 =>
        rw [hn] at h
        rw [ih _ l1 hn]
        exact h

theorem scanFrom_mono_le (flashMbSize : Nat) (a : QByteArray) (l : List QByteArray)
    (f1 f2 : Nat) (hle : f1 ≤ f2) (h : scanFrom flashMbSize f1 a = some l) :
    scanFrom flashMbSize f2 a = some l := by
  induction hle with
  | refl => exact h
  | step _ ih => exact scanFrom_mono _ _ _ _ ih

theorem nodesPerPage_cases (flashMbSize : Nat) :
    getNodesPerPage flashMbSize = 2 ∨ getNodesPerPage flashMbSize = 4 := by
  unfold getNodesPerPage
  split
  · exact Or.inr rfl
  · exact Or.inl rfl

/-- The scan from the slot number `i` of the flash, `m` slots before the end: it reads the
`m` slots in order and stops. -/
theorem scanFrom_slots (flashMbSize : Nat) (hN : getNumberOfPages flashMbSize < 8192) :
    ∀ (m i : Nat), i + m = getNumberOfPages flashMbSize * getNodesPerPage flashMbSize →
      scanFrom flashMbSize (m + 1)
          (slotAddress (i / getNodesPerPage flashMbSize) (i % getNodesPerPage flashMbSize)) =
        some ((List.range' i m).map fun j =>
          slotAddress (j / getNodesPerPage flashMbSize) (j % getNodesPerPage flashMbSize)) := by
  intro m
  induction m with
  | zero =>
    intro i hi
    have hpage : getFlashPageFromAddress
        (slotAddress (i / getNodesPerPage flashMbSize) (i % getNodesPerPage flashMbSize)) =
        getNumberOfPages flashMbSize := by
      rcases nodesPerPage_cases flashMbSize with h | h
      · rw [h] at hi ⊢
        rw [page_slotAddress _ _ (by omega) (by omega)]
        omega
      · rw [h] at hi ⊢
        rw [page_slotAddress _ _ (by omega) (by omega)]
        omega
    rw [scanFrom, if_pos hpage]
    rfl
  | succ m ih =>
    intro i hi
    have hpage : getFlashPageFromAddress
        (slotAddress (i / getNodesPerPage flashMbSize) (i % getNodesPerPage flashMbSize)) ≠
        getNumberOfPages flashMbSize := by
      rcases nodesPerPage_cases flashMbSize with h | h
      · rw [h] at hi ⊢
        rw [page_slotAddress _ _ (by omega) (by omega)]
        omega
      · rw [h] at hi ⊢
        rw [page_slotAddress _ _ (by omega) (by omega)]
        omega
    have hnext : getNextNodeAddressInMemory flashMbSize
        (slotAddress (i / getNodesPerPage flashMbSize) (i % getNodesPerPage flashMbSize)) =
        slotAddress ((i + 1) / getNodesPerPage flashMbSize)
          ((i + 1) % getNodesPerPage flashMbSize) := by
      rw [next_slotAddress flashMbSize _ _
        (by rcases nodesPerPage_cases flashMbSize with h | h <;> rw [h] at hi ⊢ <;> omega)
        (Nat.mod_lt _ (by rcases nodesPerPage_cases flashMbSize with h | h <;> rw [h] <;>
          norm_num))]
      rcases nodesPerPage_cases flashMbSize with h | h
      · rw [h] at hi ⊢
        unfold slotAddress
        split_ifs with hc
        · have e1 : (i + 1) / 2 = i / 2 + 1 := by omega
          have e2 : (i + 1) % 2 = 0 := by omega
          have e3 : (i / 2 + 1) / 32 % 256 = (i / 2 + 1) / 32 := by omega
          rw [e1, e2, e3]; rfl
        · have e1 : (i + 1) / 2 = i / 2 := by omega
          have e2 : (i + 1) % 2 = i % 2 + 1 := by omega
          rw [e1, e2]
      · rw [h] at hi ⊢
        unfold slotAddress
        split_ifs with hc
        · have e1 : (i + 1) / 4 = i / 4 + 1 := by omega
          have e2 : (i + 1) % 4 = 0 := by omega
          have e3 : (i / 4 + 1) / 32 % 256 = (i / 4 + 1) / 32 := by omega
          rw [e1, e2, e3]; rfl
        · have e1 : (i + 1) / 4 = i / 4 := by omega
          have e2 : (i + 1) % 4 = i % 4 + 1 := by omega
          rw [e1, e2]
    rw [scanFrom, if_neg hpage, hnext, ih (i + 1) (by omega)]
    simp [List.range'_succ]


theorem slotsOf_mem (first pages npp : Nat) (h : npp = 2 ∨ npp = 4) (p s : Nat) :
    (p, s) ∈ slotsOf first pages npp ↔ first ≤ p ∧ p < pages ∧ s < npp := by
  simp only [slotsOf, List.mem_map, List.mem_range', Prod.mk.injEq]
  constructor
  · rintro ⟨i, ⟨k, hk, rfl⟩, h1, h2⟩
    have hmul : first * npp + (pages - first) * npp = (first + (pages - first)) * npp := by ring
    rcases h with h | h <;> subst h <;> omega
  · rintro ⟨h1, h2, h3⟩
    refine ⟨p * npp + s, ⟨p * npp + s - first * npp, ?_, ?_⟩, ?_, ?_⟩
    · rcases h with h | h <;> subst h <;> omega
    · rcases h with h | h <;> subst h <;> omega
    · rcases h with h | h <;> subst h <;> omega
    · rcases h with h | h <;> subst h <;> omega

theorem slotsOf_ascending (first pages npp : Nat) (h : npp = 2 ∨ npp = 4) :
    (slotsOf first pages npp).Pairwise
      (fun x y => x.1 < y.1 ∨ (x.1 = y.1 ∧ x.2 < y.2)) := by
  unfold slotsOf
  rw [List.pairwise_map]
  apply (List.pairwise_lt_range' _ _).imp
  intro i j hij
  rcases h with h | h <;> subst h <;> omega

theorem page_lt (a : QByteArray) : getFlashPageFromAddress a < 8192 := by
  unfold getFlashPageFromAddress
  exact Nat.or_lt_two_pow (n := 13) (Nat.and_lt_two_pow _ (by norm_num))
    (Nat.and_lt_two_pow _ (by norm_num))

theorem scanFrom_32 : ∀ (fuel : Nat) (a : QByteArray), scanFrom 32 fuel a = none := by
  intro fuel
  induction fuel with
  | zero => intro a; rfl
  | succ f ih =>
    intro a
    rw [scanFrom, if_neg, ih]
    · rfl
    · have := page_lt a
      have e : getNumberOfPages 32 = 8192 := by decide
      omega

/-- The full scan for the flash sizes 1, 2, 4, 8 and 16. Starting at
`getMemoryFirstNodeAddress` and going on with `getNextNodeAddressInMemory`, the scan stops
within any bound greater than the number of node slots from the first page on; the addresses
it has read by then are, by page and slot, the slots of the pages from the first one to
`getNumberOfPages - 1`, each page with its slots 0 to `getNodesPerPage - 1`: every such slot
is in the list, and the list is strictly ascending by page and then by slot, so that no slot
comes twice. -/
theorem fullScan_sizes_to_16 (flashMbSize fuel : Nat)
    (hflash : flashMbSize = 1 ∨ flashMbSize = 2 ∨ flashMbSize = 4 ∨ flashMbSize = 8 ∨
      flashMbSize = 16)
    (hfuel : (getNumberOfPages flashMbSize -
        getFlashPageFromAddress (getMemoryFirstNodeAddress flashMbSize)) *
      getNodesPerPage flashMbSize < fuel) :
    ∃ l, scanFrom flashMbSize fuel (getMemoryFirstNodeAddress flashMbSize) = some l ∧
      l.map (fun a => (getFlashPageFromAddress a, getNodeIdFromAddress a)) =
        slotsOf (getFlashPageFromAddress (getMemoryFirstNodeAddress flashMbSize))
          (getNumberOfPages flashMbSize) (getNodesPerPage flashMbSize) ∧
      (∀ p s, (p, s) ∈ l.map (fun a => (getFlashPageFromAddress a, getNodeIdFromAddress a)) ↔
        getFlashPageFromAddress (getMemoryFirstNodeAddress flashMbSize) ≤ p ∧
          p < getNumberOfPages flashMbSize ∧ s < getNodesPerPage flashMbSize) ∧
      (l.map (fun a => (getFlashPageFromAddress a, getNodeIdFromAddress a))).Pairwise
        (fun x y => x.1 < y.1 ∨ (x.1 = y.1 ∧ x.2 < y.2)) := by
  have hN : getNumberOfPages flashMbSize < 8192 := by
    rcases hflash with h | h | h | h | h <;> subst h <;> decide
  have hfirst : ∃ fp, getMemoryFirstNodeAddress flashMbSize = slotAddress fp 0 ∧
      fp ≤ getNumberOfPages flashMbSize ∧
      getFlashPageFromAddress (getMemoryFirstNodeAddress flashMbSize) = fp := by
    rcases hflash with h | h | h | h | h <;> subst h
    · exact ⟨128, by decide, by decide, by decide⟩
    · exact ⟨128, by decide, by decide, by decide⟩
    · exact ⟨256, by decide, by decide, by decide⟩
    · exact ⟨256, by decide, by decide, by decide⟩
    · exact ⟨256, by decide, by decide, by decide⟩
  obtain ⟨fp, hfa, hfle, hfp⟩ := hfirst
  have hnpp := nodesPerPage_cases flashMbSize
  rw [hfp] at hfuel ⊢
  have hscan := scanFrom_slots flashMbSize hN
    ((getNumberOfPages flashMbSize - fp) * getNodesPerPage flashMbSize)
    (fp * getNodesPerPage flashMbSize)
    (by rw [← Nat.add_mul]; congr 1; omega)
  have hdiv : fp * getNodesPerPage flashMbSize / getNodesPerPage flashMbSize = fp := by
    rcases hnpp with h | h <;> rw [h] <;> omega
  have hmod : fp * getNodesPerPage flashMbSize % getNodesPerPage flashMbSize = 0 := by
    rcases hnpp with h | h <;> rw [h] <;> omega
  rw [hdiv, hmod, ← hfa] at hscan
  have hmap : (List.map (fun j => slotAddress (j / getNodesPerPage flashMbSize)
        (j % getNodesPerPage flashMbSize))
      (List.range' (fp * getNodesPerPage flashMbSize)
        ((getNumberOfPages flashMbSize - fp) * getNodesPerPage flashMbSize))).map
      (fun a => (getFlashPageFromAddress a, getNodeIdFromAddress a)) =
      slotsOf fp (getNumberOfPages flashMbSize) (getNodesPerPage flashMbSize) := by
    unfold slotsOf
    rw [List.map_map]
    apply List.map_congr_left
    intro j hj
    have hj2 := List.mem_range'_1.mp hj
    have hmul : fp * getNodesPerPage flashMbSize +
        (getNumberOfPages flashMbSize - fp) * getNodesPerPage flashMbSize =
        getNumberOfPages flashMbSize * getNodesPerPage flashMbSize := by
      rw [← Nat.add_mul]; congr 1; omega
    have hjp : j / getNodesPerPage flashMbSize < 8192 ∧
        j % getNodesPerPage flashMbSize < 8 := by
      rcases hnpp with h | h <;> rw [h] at hj2 hmul ⊢ <;> omega
    simp only [Function.comp]
    rw [page_slotAddress _ _ hjp.1 hjp.2, nodeId_slotAddress _ _ hjp.1 hjp.2]
  refine ⟨_, scanFrom_mono_le _ _ _ _ _ hfuel hscan, hmap, ?_, ?_⟩
  · intro p s
    rw [hmap]
    exact slotsOf_mem _ _ _ hnpp p s
  · rw [hmap]
    exact slotsOf_ascending _ _ _ hnpp

/-- C36 fails for the flash size 32, a size of the table of `getNumberOfPages`: the number of
pages is 8192 there, a page number the thirteen page bits of an address cannot hold. The slot
after the last one, slot 3 of page 8191, is the address 0x0000, whose page is 0; no address
has the page 8192; and the scan never reaches its stop condition, whatever the bound. For the
sizes 1, 2, 4, 8 and 16 the scan stops within any bound greater than the number of node slots
from the first page on, and the addresses read are, by page and slot, exactly the slots of
the pages from the first one to `getNumberOfPages - 1`, in strictly ascending order. -/
theorem C36_flash_32_scan_never_stops :
    (getNumberOfPages 32 = 8192 ∧ getNodesPerPage 32 = 4 ∧
    getFlashPageFromAddress [0xFB, 0xFF] = 8191 ∧ getNodeIdFromAddress [0xFB, 0xFF] = 3 ∧
    getNextNodeAddressInMemory 32 [0xFB, 0xFF] = [0, 0] ∧
    getFlashPageFromAddress [0, 0] = 0 ∧
    (∀ a : QByteArray, getFlashPageFromAddress a ≠ getNumberOfPages 32) ∧
    ∀ fuel, scanFrom 32 fuel (getMemoryFirstNodeAddress 32) = none) ∧
    ∀ flashMbSize fuel : Nat,
      (flashMbSize = 1 ∨ flashMbSize = 2 ∨ flashMbSize = 4 ∨ flashMbSize = 8 ∨
        flashMbSize = 16) →
      (getNumberOfPages flashMbSize -
          getFlashPageFromAddress (getMemoryFirstNodeAddress flashMbSize)) *
        getNodesPerPage flashMbSize < fuel →
      ∃ l, scanFrom flashMbSize fuel (getMemoryFirstNodeAddress flashMbSize) = some l ∧
        (∀ p s, (p, s) ∈ l.map (fun a => (getFlashPageFromAddress a, getNodeIdFromAddress a)) ↔
          getFlashPageFromAddress (getMemoryFirstNodeAddress flashMbSize) ≤ p ∧
            p < getNumberOfPages flashMbSize ∧ s < getNodesPerPage flashMbSize) ∧
        (l.map (fun a => (getFlashPageFromAddress a, getNodeIdFromAddress a))).Pairwise
          (fun x y => x.1 < y.1 ∨ (x.1 = y.1 ∧ x.2 < y.2)) := by
  refine ⟨⟨by decide, by decide, by decide, by decide, by decide, by decide, ?_, ?_⟩, ?_⟩
  · intro a
    have := page_lt a
    have e : getNumberOfPages 32 = 8192 := by decide
    omega
  · intro fuel
    exact scanFrom_32 fuel _
  · intro flashMbSize fuel hflash hfuel
    obtain ⟨l, h1, _, h3, h4⟩ := fullScan_sizes_to_16 flashMbSize fuel hflash hfuel
    exact ⟨l, h1, h3, h4⟩

/-- C37: for the two bytes `a0`, `a1` of an address, taken as unsigned bytes, with the
little-endian value `v = a0 + 256 * a1`, `getFlashPageFromAddress` is `v / 8` and
`getNodeIdFromAddress` is `v % 8`. -/
theorem C37_page_and_slot (a0 a1 : Nat) :
    getFlashPageFromAddress [a0, a1] = (a0 % 256 + 256 * (a1 % 256)) / 8 ∧
    getNodeIdFromAddress [a0, a1] = (a0 % 256 + 256 * (a1 % 256)) % 8 :=
  ⟨page_eq a0 a1, nodeId_eq a0 a1⟩


/-! ## Device parameters -/

theorem toQuint8_of_byte (v : Int) (h0 : 0 ≤ v) (h1 : v ≤ 255) : toQuint8 v = v.toNat := by
  unfold toQuint8
  rw [Int.emod_eq_of_lt h0 (by omega)]

theorem toQuint8_clamp (v : Int) :
    toQuint8 (if (if v < 0 then 0 else v) > 0xFF then 0xFF else (if v < 0 then 0 else v))
      = clampByte v := by
  unfold clampByte
  by_cases h : v < 0
  · rw [if_pos h, if_pos h, if_neg (by decide)]; rfl
  · rw [if_neg h, if_neg h]
    by_cases h2 : v > 255
    · rw [if_pos h2, if_pos h2]; rfl
    · rw [if_neg h2, if_neg h2]
      exact toQuint8_of_byte v (by omega) (by omega)

/-- C31, counterexample: the keyboard layout setter given 256 sends `[1, 0]` and the screen
brightness setter given -1 sends `[26, 255]`, where the clamped values are 255 and 0: the
value is cut to its low byte, not clamped. -/
theorem C31_unclamped_counterexample :
    updateKeyboardLayout 256 = [KEYBOARD_LAYOUT_PARAM, 0] ∧ clampByte 256 = 255 ∧
    updateKeyboardLayout 256 ≠ [KEYBOARD_LAYOUT_PARAM, clampByte 256] ∧
    updateScreenBrightness (-1) = [MINI_OLED_CONTRAST_CURRENT_PARAM, 255] ∧
    clampByte (-1) = 0 ∧
    updateScreenBrightness (-1) ≠ [MINI_OLED_CONTRAST_CURRENT_PARAM, clampByte (-1)] := by
  decide

/-- C31, amended: for every integer `v` the lock timeout and the user-interaction timeout
setters send `[id, clamp(v, 0, 255)]`; the six other setters (keyboard layout, screen
brightness, key after login, key after password, delay after key entry, lock/unlock mode)
send `[id, v mod 256]`, the low byte of `v`. -/
theorem C31_setter_payloads (v : Int) :
    updateLockTimeout v = [LOCK_TIMEOUT_PARAM, clampByte v] ∧
    updateUserInteractionTimeout v = [USER_INTER_TIMEOUT_PARAM, clampByte v] ∧
    updateKeyboardLayout v = [KEYBOARD_LAYOUT_PARAM, (v % 256).toNat] ∧
    updateScreenBrightness v = [MINI_OLED_CONTRAST_CURRENT_PARAM, (v % 256).toNat] ∧
    updateKeyAfterLoginSend v = [KEY_AFTER_LOGIN_SEND_PARAM, (v % 256).toNat] ∧
    updateKeyAfterPassSend v = [KEY_AFTER_PASS_SEND_PARAM, (v % 256).toNat] ∧
    updateDelayAfterKeyEntry v = [DELAY_AFTER_KEY_ENTRY_PARAM, (v % 256).toNat] ∧
    updateLockUnlockMode v = [LOCK_UNLOCK_FEATURE_PARAM, (v % 256).toNat] := by
  refine ⟨?_, ?_, rfl, rfl, rfl, rfl, rfl, rfl⟩
  · show [LOCK_TIMEOUT_PARAM % 256, toQuint8 _] = _
    rw [toQuint8_clamp]; rfl
  · show [USER_INTER_TIMEOUT_PARAM % 256, toQuint8 _] = _
    rw [toQuint8_clamp]; rfl

/-! ## CPZ/CTR records -/

theorem cpzCtrCb_lists (s : Session) (data : QByteArray) (hnd : s.cpzCtrValue.Nodup) :
    (cpzCtrCb s data).session.cpzCtrValue.Nodup ∧
    ∃ added, (cpzCtrCb s data).session.cpzCtrValue = s.cpzCtrValue ++ added ∧
      (cpzCtrCb s data).session.cpzCtrValueClone = s.cpzCtrValueClone ++ added := by
  by_cases h1 : byteAt data 1 % 256 = MP_CARD_CPZ_CTR_PACKET
  · by_cases h2 : replyPayload data ∈ s.cpzCtrValue
    · have e : cpzCtrCb s data = { ret := true, done := false, error := false, session := s } := by
        simp only [cpzCtrCb, h1, h2, if_true]
      rw [e]
      exact ⟨hnd, [], by simp, by simp⟩
    · have e : (cpzCtrCb s data).session =
          { s with cpzCtrValue := s.cpzCtrValue ++ [replyPayload data],
                   cpzCtrValueClone := s.cpzCtrValueClone ++ [replyPayload data] } := by
        simp only [cpzCtrCb, h1, h2, if_true, if_false]
      rw [e]
      refine ⟨?_, [replyPayload data], rfl, rfl⟩
      show (s.cpzCtrValue ++ [replyPayload data]).Nodup
      rw [List.nodup_append]
      refine ⟨hnd, List.nodup_singleton _, ?_⟩
      intro a ha hb
      rw [List.mem_singleton] at hb
      exact h2 (hb ▸ ha)
  · have e : (cpzCtrCb s data).session = s := by
      unfold cpzCtrCb
      rw [if_neg h1]
      split_ifs <;> rfl
    rw [e]
    exact ⟨hnd, [], by simp, by simp⟩

theorem cpzCtrRun_lists (packets : List QByteArray) :
    ∀ s : Session, s.cpzCtrValue.Nodup →
    (cpzCtrRun s packets).cpzCtrValue.Nodup ∧
    ∃ added, (cpzCtrRun s packets).cpzCtrValue = s.cpzCtrValue ++ added ∧
      (cpzCtrRun s packets).cpzCtrValueClone = s.cpzCtrValueClone ++ added := by
  induction packets with
  | nil => intro s hnd; exact ⟨hnd, [], by simp [cpzCtrRun], by simp [cpzCtrRun]⟩
  | cons d rest ih =>
    intro s hnd
    obtain ⟨h1, a1, e1, e2⟩ := cpzCtrCb_lists s d hnd
    obtain ⟨h2, a2, e3, e4⟩ := ih _ h1
    refine ⟨h2, a1 ++ a2, ?_, ?_⟩
    · show (cpzCtrRun (cpzCtrCb s d).session rest).cpzCtrValue = _
      rw [e3, e1, List.append_assoc]
    · show (cpzCtrRun (cpzCtrCb s d).session rest).cpzCtrValueClone = _
      rw [e4, e2, List.append_assoc]

/-- C33: starting from a duplicate-free `cpzCtrValue`, after the handler has processed any
sequence of packets `cpzCtrValue` holds no two equal records; the records appended to
`cpzCtrValueClone` are those appended to `cpzCtrValue`, in the same order; for a CPZ/CTR
packet the handler returns true with `done = false`, and for the final
`MP_GET_CARD_CPZ_CTR` packet it returns true with `done` left true and changes nothing. -/
theorem C33_cpz_ctr_no_duplicates (s : Session) (packets : List QByteArray)
    (hnd : s.cpzCtrValue.Nodup) :
    (cpzCtrRun s packets).cpzCtrValue.Nodup ∧
    (∃ added, (cpzCtrRun s packets).cpzCtrValue = s.cpzCtrValue ++ added ∧
      (cpzCtrRun s packets).cpzCtrValueClone = s.cpzCtrValueClone ++ added) ∧
    (∀ (t : Session) (data : QByteArray), byteAt data 1 % 256 = MP_CARD_CPZ_CTR_PACKET →
      (cpzCtrCb t data).ret = true ∧ (cpzCtrCb t data).done = false ∧
      (cpzCtrCb t data).error = false) ∧
    (∀ (t : Session) (data : QByteArray), byteAt data 1 % 256 = MP_GET_CARD_CPZ_CTR →
      cpzCtrCb t data = { ret := true, done := true, error := false, session := t }) := by
  refine ⟨(cpzCtrRun_lists packets s hnd).1, (cpzCtrRun_lists packets s hnd).2, ?_, ?_⟩
  · intro t data h
    by_cases h2 : replyPayload data ∈ t.cpzCtrValue
    · simp only [cpzCtrCb, h, h2, if_true, and_self]
    · simp only [cpzCtrCb, h, h2, if_true, if_false, and_self]
  · intro t data h
    unfold cpzCtrCb
    have hne : ¬ byteAt data 1 % 256 = MP_CARD_CPZ_CTR_PACKET := by
      rw [h]; decide
    rw [if_neg hne, if_pos h]

/-- C33, witness: on a session with no record, the packets carrying the records `[1, 2]`,
`[1, 2]` again and `[3]`, then the final packet, leave the two records `[1, 2]`, `[3]` in
both lists. -/
theorem C33_cpz_ctr_no_duplicates_witness :
    ({} : Session).cpzCtrValue.Nodup ∧
    (cpzCtrRun {} [[2, 0xCF, 1, 2], [2, 0xCF, 1, 2], [1, 0xCF, 3], [0, 0xCE]]).cpzCtrValue
      = [[1, 2], [3]] ∧
    (cpzCtrRun {} [[2, 0xCF, 1, 2], [2, 0xCF, 1, 2], [1, 0xCF, 3], [0, 0xCE]]).cpzCtrValueClone
      = [[1, 2], [3]] ∧
    (cpzCtrRun {} [[2, 0xCF, 1, 2], [2, 0xCF, 1, 2], [1, 0xCF, 3], [0, 0xCE]]).cpzCtrValue.Nodup :=
  ⟨by decide, by decide, by decide,
    (C33_cpz_ctr_no_duplicates {} [[2, 0xCF, 1, 2], [2, 0xCF, 1, 2], [1, 0xCF, 3], [0, 0xCE]]
      (by decide)).1⟩

/-! ## Version reply -/

theorem takeWhile_digits (ds rest : List Nat) (hds : ∀ c ∈ ds, isDigit c = true)
    (hrest : ∀ c ∈ rest.head?, isDigit c = false) :
    (ds ++ rest).takeWhile isDigit = ds ∧ (ds ++ rest).dropWhile isDigit = rest := by
  induction ds with
  | nil =>
    cases rest with
    | nil => exact ⟨rfl, rfl⟩
    | cons c r =>
      have hc : isDigit c = false := hrest c (by simp)
      simp [List.takeWhile, List.dropWhile, hc]
  | cons d ds ih =>
    have hd : isDigit d = true := hds d (List.mem_cons_self _ _)
    obtain ⟨h1, h2⟩ := ih (fun c hc => hds c (List.mem_cons_of_mem _ hc))
    simp [List.takeWhile, List.dropWhile, hd, h1, h2]

theorem takeWhile_all (p : Nat → Bool) (l : List Nat) (h : ∀ c ∈ l, p c = true) :
    l.takeWhile p = l := by
  induction l with
  | nil => rfl
  | cons c r ih =>
    simp [List.takeWhile, h c (List.mem_cons_self _ _),
      ih (fun x hx => h x (List.mem_cons_of_mem _ hx))]

theorem matchVersionHere_versionString (major minor suffix : List Nat)
    (hmajor : major ≠ [] ∧ ∀ c ∈ major, isDigit c = true)
    (hminor : minor ≠ [] ∧ ∀ c ∈ minor, isDigit c = true)
    (hsuffix : (∀ c ∈ suffix, 32 ≤ c ∧ c < 127) ∧ ∀ c ∈ suffix.head?, isDigit c = false) :
    firstVersionMatch (versionString major minor suffix) = some (major, minor, suffix) := by
  have h1 := takeWhile_digits major (46 :: (minor ++ suffix)) hmajor.2
    (by intro c hc; simp at hc; subst hc; decide)
  have h2 := takeWhile_digits minor suffix hminor.2 hsuffix.2
  have h3 : suffix.takeWhile (fun c => decide (c ≠ 10)) = suffix :=
    takeWhile_all _ suffix (by
      intro c hc
      have := hsuffix.1 c hc
      simp only [decide_eq_true_eq]
      omega)
  unfold versionString firstVersionMatch matchVersionHere
  simp only [h1.1, h1.2, h2.1, h2.2, h3, hmajor.1, hminor.1, if_false]

theorem qString_of_ascii (u : Utf8Codec) (l : List Nat) (h : ∀ c ∈ l, c ≠ 0 ∧ c < 128) :
    qString u l = l := by
  unfold qString
  rw [takeWhile_all _ l (by intro c hc; simpa using (h c hc).1)]
  exact u.ascii l (fun c hc => (h c hc).2)

theorem isDigit_bounds (c : Nat) (h : isDigit c = true) : 48 ≤ c ∧ c ≤ 57 := by
  simpa [isDigit] using h

theorem versionString_ascii (major minor suffix : List Nat)
    (hmajor : ∀ c ∈ major, isDigit c = true) (hminor : ∀ c ∈ minor, isDigit c = true)
    (hsuffix : ∀ c ∈ suffix, 32 ≤ c ∧ c < 127) :
    ∀ c ∈ versionString major minor suffix, c ≠ 0 ∧ c < 128 := by
  intro c hc
  simp only [versionString, List.mem_cons, List.mem_append] at hc
  rcases hc with h | h | h | h | h
  · omega
  · have := isDigit_bounds c (hmajor c h); omega
  · omega
  · have := isDigit_bounds c (hminor c h); omega
  · have := hsuffix c h; omega

theorem wrapInt_of_fits (x : Int) (h0 : 0 ≤ x) (h1 : x < 2147483648) : wrapInt x = x := by
  unfold wrapInt
  norm_num
  rw [Int.emod_eq_of_lt (by omega) (by omega)]
  omega

/-- C32, counterexample: for the payload `[0x04, "v1.2_mini"]` with the length byte equal
to the payload length, 10, the check keeps `"v1.2_min"` as the hardware string and leaves
`isMiniFlag` false; and for the string `"v0.12"`, taken whole, it sets `isFw12Flag`,
although the version 0.12 is below 1.2. -/
theorem C32_payload_length_counterexample :
    versionCb utf8Codec {} (versionReply 10 4 [118, 49, 46, 50, 95, 109, 105, 110, 105]) =
      (true, { flashMbSize := 4, hwVersion := [118, 49, 46, 50, 95, 109, 105, 110],
               isFw12Flag := true, isMiniFlag := false }) ∧
    (versionReply 10 4 [118, 49, 46, 50, 95, 109, 105, 110, 105]).length - 2 = 10 ∧
    versionCb utf8Codec {} (versionReply 7 4 [118, 48, 46, 49, 50]) =
      (true, { flashMbSize := 4, hwVersion := [118, 48, 46, 49, 50],
               isFw12Flag := true, isMiniFlag := false }) := by
  decide

/-- C32, amended: for every `MP_VERSION` reply whose payload is a flash-size byte followed
by a hardware string `v<major>.<minor><suffix>` (two non-empty runs of digits and a suffix
of printable ASCII characters that does not begin with a digit), with the length byte equal
to the length of the string plus 2, the check returns true and sets `flashMbSize` to the
flash-size byte, `hwVersion` to the whole string, `isFw12Flag` to true exactly when
`10 * major + minor ≥ 12`, and `isMiniFlag` to true exactly when the suffix is `_mini`;
what follows the string in the packet does not matter. -/
theorem C32_version_parsed (u : Utf8Codec) (old : VersionInfo) (flash : Nat)
    (major minor suffix tail : List Nat)
    (hflash : flash < 256)
    (hmajor : major ≠ [] ∧ ∀ c ∈ major, isDigit c = true)
    (hminor : minor ≠ [] ∧ ∀ c ∈ minor, isDigit c = true)
    (hsuffix : (∀ c ∈ suffix, 32 ≤ c ∧ c < 127) ∧ ∀ c ∈ suffix.head?, isDigit c = false)
    (hlen : (versionString major minor suffix).length + 2 < 256)
    (hfit : decimalValue major * 10 + decimalValue minor < 2 ^ 31) :
    versionCb u old
      (versionReply ((versionString major minor suffix).length + 2) flash
        (versionString major minor suffix) ++ tail) =
      (true, { flashMbSize := flash, hwVersion := versionString major minor suffix,
               isFw12Flag := decide (12 ≤ decimalValue major * 10 + decimalValue minor),
               isMiniFlag := decide (suffix = [95, 109, 105, 110, 105]) }) := by
  set hw := versionString major minor suffix with hhw
  have hcmd : byteAt (versionReply (hw.length + 2) flash hw ++ tail) MP_CMD_FIELD_INDEX % 256
      = MP_VERSION := by
    simp [versionReply, byteAt, MP_CMD_FIELD_INDEX, MP_VERSION]
  have hb0 : byteAt (versionReply (hw.length + 2) flash hw ++ tail) 0 % 256 = hw.length + 2 := by
    simp only [versionReply, byteAt, List.cons_append, List.getD_cons_zero]
    exact Nat.mod_eq_of_lt hlen
  have hb2 : byteAt (versionReply (hw.length + 2) flash hw ++ tail) 2 % 256 = flash := by
    simp only [versionReply, byteAt, List.cons_append, List.getD_cons_succ, List.getD_cons_zero]
    exact Nat.mod_eq_of_lt hflash
  have hmid : midInt (versionReply (hw.length + 2) flash hw ++ tail) 3
      (((hw.length + 2 : Nat) : Int) - 2) = hw := by
    have e : ((hw.length + 2 : Nat) : Int) - 2 = (hw.length : Int) := by push_cast; omega
    rw [e]
    unfold midInt mid
    rw [if_neg (by omega)]
    simp [versionReply]
  have hq : qString u hw = hw :=
    qString_of_ascii u hw (versionString_ascii major minor suffix hmajor.2 hminor.2 hsuffix.1)
  have hm := matchVersionHere_versionString major minor suffix hmajor hminor hsuffix
  have hfit1 : decimalValue major * 10 + decimalValue minor < 2147483648 := by
    have h := hfit
    norm_num at h
    exact h
  have hM : decimalValue major < 2 ^ 31 := by norm_num; omega
  have hN : decimalValue minor < 2 ^ 31 := by norm_num; omega
  have e1 : digitsToInt major = (decimalValue major : Int) := by
    unfold digitsToInt; rw [if_pos hM]
  have e2 : digitsToInt minor = (decimalValue minor : Int) := by
    unfold digitsToInt; rw [if_pos hN]
  have e3 : wrapInt (wrapInt (digitsToInt major * 10) + digitsToInt minor)
      = ((decimalValue major * 10 + decimalValue minor : Nat) : Int) := by
    have w1 : wrapInt ((decimalValue major : Int) * 10) = (decimalValue major : Int) * 10 :=
      wrapInt_of_fits _ (by omega) (by omega)
    rw [e1, e2, w1, wrapInt_of_fits _ (by omega) (by omega)]
    push_cast; rfl
  unfold versionCb
  rw [if_neg (by rw [hcmd]; exact fun h => h rfl)]
  simp only [hb0, hb2, hmid, hq, ← hhw, hm, e3]
  congr 2
  simp only [ge_iff_le, decide_eq_decide]
  constructor <;> intro h <;> omega

/-- C32, witness: the reply carrying `0x04` and `"v1.2_mini"` with the length byte 11. -/
theorem C32_version_parsed_witness :
    versionCb utf8Codec {} (versionReply 11 4 [118, 49, 46, 50, 95, 109, 105, 110, 105] ++ []) =
      (true, { flashMbSize := 4, hwVersion := [118, 49, 46, 50, 95, 109, 105, 110, 105],
               isFw12Flag := true, isMiniFlag := true }) :=
  C32_version_parsed utf8Codec {} 4 [49] [50] [95, 109, 105, 110, 105] [] (by decide)
    ⟨by decide, by decide⟩ ⟨by decide, by decide⟩ ⟨by decide, by decide⟩ (by decide) (by decide)

/-! ## Lemmas: the walks and `return_bool` -/

/-- What the child loop does with the chain does not depend on `return_bool`. -/
theorem tagChildLoop_walkState (isData repairAllowed : Bool) (p : Nat) :
    ∀ (fuel : Nat) (c : NodeChain) (a : QByteArray) (pt : Option Nat) (rb rb2 : Bool),
      (tagChildLoop isData repairAllowed p fuel c a pt rb).map TagLoop.walkState
        = (tagChildLoop isData repairAllowed p fuel c a pt rb2).map TagLoop.walkState := by
  intro fuel
  induction fuel with
  | zero => intro c a pt rb rb2; rfl
  | succ fuel ih =>
    intro c a pt rb rb2
    by_cases ha : a = EmptyAddress
    · subst ha
      rw [tagChildLoop_empty, tagChildLoop_empty]; rfl
    · cases hfind : findNodeWithAddressInList c.children a 0 with
      | none =>
        rw [tagChildLoop_missing _ _ _ _ _ _ _ _ ha hfind,
          tagChildLoop_missing _ _ _ _ _ _ _ _ ha hfind]
      | some i =>
        cases htag : (nodeAt c.children i).pointedToCheck with
        | true =>
          rw [tagChildLoop_tagged _ _ _ _ _ _ _ _ i ha hfind htag,
            tagChildLoop_tagged _ _ _ _ _ _ _ _ i ha hfind htag]; rfl
        | false =>
          rw [tagChildLoop_visit _ _ _ _ _ _ _ _ i ha hfind htag,
            tagChildLoop_visit _ _ _ _ _ _ _ _ i ha hfind htag]
          exact ih _ _ _ _ _

/-- What the parent loop does with the chain does not depend on `return_bool`. -/
theorem tagParentLoop_walkState (isData repairAllowed : Bool) :
    ∀ (fuel : Nat) (c : NodeChain) (a : QByteArray) (va : Nat) (ppt cpt : Option Nat)
      (rb rb2 : Bool),
      (tagParentLoop isData repairAllowed fuel c a va ppt cpt rb).map TagLoop.walkState
        = (tagParentLoop isData repairAllowed fuel c a va ppt cpt rb2).map
            TagLoop.walkState := by
  intro fuel
  induction fuel with
  | zero => intro c a va ppt cpt rb rb2; rfl
  | succ fuel ih =>
    intro c a va ppt cpt rb rb2
    by_cases ha : a = EmptyAddress
    · subst ha
      rw [tagParentLoop_empty, tagParentLoop_empty]; rfl
    · cases hfind : findNodeWithAddressInList c.parents a va with
      | none =>
        rw [tagParentLoop_missing _ _ _ _ _ _ _ _ _ ha hfind,
          tagParentLoop_missing _ _ _ _ _ _ _ _ _ ha hfind]; rfl
      | some i =>
        cases htag : (nodeAt c.parents i).pointedToCheck with
        | true =>
          rw [tagParentLoop_tagged _ _ _ _ _ _ _ _ _ i ha hfind htag,
            tagParentLoop_tagged _ _ _ _ _ _ _ _ _ i ha hfind htag]; rfl
        | false =>
          rw [tagParentLoop_visit _ _ _ _ _ _ _ _ _ i ha hfind htag,
            tagParentLoop_visit _ _ _ _ _ _ _ _ _ i ha hfind htag]
          have hc := tagChildLoop_walkState isData repairAllowed i
            ((parentVisit repairAllowed c ppt a i).children.length + 1)
            (parentVisit repairAllowed c ppt a i)
            (nodeAt (parentVisit repairAllowed c ppt a i).parents i).startChildAddress cpt
            (if parentMismatch c ppt a i then false else rb)
            (if parentMismatch c ppt a i then false else rb2)
          cases h1 : tagChildLoop isData repairAllowed i
            ((parentVisit repairAllowed c ppt a i).children.length + 1)
            (parentVisit repairAllowed c ppt a i)
            (nodeAt (parentVisit repairAllowed c ppt a i).parents i).startChildAddress cpt
            (if parentMismatch c ppt a i then false else rb) with
          | none =>
            rw [h1] at hc
            cases h2 : tagChildLoop isData repairAllowed i
              ((parentVisit repairAllowed c ppt a i).children.length + 1)
              (parentVisit repairAllowed c ppt a i)
              (nodeAt (parentVisit repairAllowed c ppt a i).parents i).startChildAddress cpt
              (if parentMismatch c ppt a i then false else rb2) with
            | none => rfl
            | some r2 => rw [h2] at hc; cases hc
          | some r1 =>
            rw [h1] at hc
            cases h2 : tagChildLoop isData repairAllowed i
              ((parentVisit repairAllowed c ppt a i).children.length + 1)
              (parentVisit repairAllowed c ppt a i)
              (nodeAt (parentVisit repairAllowed c ppt a i).parents i).startChildAddress cpt
              (if parentMismatch c ppt a i then false else rb2) with
            | none => rw [h2] at hc; cases hc
            | some r2 =>
              rw [h2] at hc
              simp only [Option.map_some', Option.some.injEq, TagLoop.walkState,
                Prod.mk.injEq] at hc
              obtain ⟨e1, e2, e3, e4⟩ := hc
              simp only
              rw [e4]
              by_cases hr : r2.returned = true
              · simp only [hr, if_true, Option.map_some', TagLoop.walkState, e1, e2, e3, e4]
              · simp only [hr, if_false, Bool.false_eq_true]
                rw [e1, e3]
                exact ih _ _ _ _ _ _ _

/-! ## Lemmas: checkLoadedNodes returns -/

theorem addOrphanParentToDB_total (p : Nat) (d : Bool) (s : Session) :
    ∃ r, addOrphanParentToDB p d s = some r := by
  have hmap : ∀ t : Session, ∃ r, (tagPointedNodes true t).map
      (fun r : Bool × Session => (true, r.2)) = some r := by
    intro t
    obtain ⟨r, hr⟩ := tagPointedNodes_total true t
    exact ⟨(true, r.2), by rw [hr]; rfl⟩
  unfold addOrphanParentToDB
  simp only
  split
  · exact ⟨_, rfl⟩
  · split
    · split
      · exact hmap _
      · split
        · exact ⟨_, rfl⟩
        · exact hmap _
    · exact hmap _
    · exact hmap _

theorem orphanParentsLoop_total (rep d : Bool) (idxs : List Nat) :
    ∀ (s : Session) (nb : Nat), ∃ r, orphanParentsLoop rep d idxs s nb = some r := by
  induction idxs with
  | nil => intro s nb; exact ⟨_, rfl⟩
  | cons i rest ih =>
    intro s nb
    rw [orphanParentsLoop]
    split
    · exact ih _ _
    · split
      · obtain ⟨r, hr⟩ := addOrphanParentToDB_total i d s
        rw [hr]
        exact ih _ _
      · exact ih _ _

theorem checkLoadedNodesPass_total (rep : Bool) (s : Session) :
    ∃ r, checkLoadedNodesPass rep s = some r := by
  unfold checkLoadedNodesPass
  obtain ⟨r, hr⟩ := tagPointedNodes_total rep s
  rw [hr]
  simp only
  obtain ⟨p1, h1⟩ := orphanParentsLoop_total rep false (List.range r.2.loginNodes.length) r.2 0
  rw [h1]
  simp only
  obtain ⟨p3, h3⟩ := orphanParentsLoop_total rep true
    (List.range (orphanChildrenLoop rep (List.range p1.1.loginChildNodes.length)
      p1.1 0).1.dataNodes.length)
    (orphanChildrenLoop rep (List.range p1.1.loginChildNodes.length) p1.1 0).1 0
  rw [h3]
  simp only
  split <;> exact ⟨_, rfl⟩

theorem checkLoadedNodes_total (rep : Bool) (s : Session) :
    ∃ r, checkLoadedNodes rep s = some r := by
  unfold checkLoadedNodes
  obtain ⟨r, hr⟩ := checkLoadedNodesPass_total rep s
  rw [hr]
  simp only
  split
  · exact ⟨_, rfl⟩
  · split
    · exact ⟨_, rfl⟩
    · obtain ⟨r2, hr2⟩ := checkLoadedNodesPass_total false r.2
      rw [hr2]
      exact ⟨_, rfl⟩

/-- A pass of `checkLoadedNodes` without repair changes the tags and the favorites the
favorites check zeroes, nothing else. -/
theorem checkLoadedNodesPass_false_frame (s : Session) :
    ∃ b t, checkLoadedNodesPass false s = some (b, t) ∧
      detagPointedNodes t = detagPointedNodes (checkFavorites s) := by
  obtain ⟨⟨b, t1⟩, ht⟩ := tagPointedNodes_total false s
  have hd := tagPointedNodes_false_frame s t1 b ht
  have hc : t1.core = s.core := core_of_detag hd
  obtain ⟨n1, h1⟩ := orphanParentsLoop_false_state false (List.range t1.loginNodes.length) t1 0
  have h2 := (orphanChildrenLoop_count false (List.range t1.loginChildNodes.length) t1 0).1
  obtain ⟨n3, h3⟩ := orphanParentsLoop_false_state true (List.range t1.dataNodes.length) t1 0
  have hf : t1.favoritesAddrs.map (checkFavorite t1) = s.favoritesAddrs.map (checkFavorite s) := by
    have e : t1.favoritesAddrs = s.favoritesAddrs := by
      have := congrArg Session.favoritesAddrs hd
      exact this
    rw [e]
    exact List.map_congr_left (fun f _ => checkFavorite_of_core hc f)
  have hfin : detagPointedNodes
      { t1 with favoritesAddrs := t1.favoritesAddrs.map (checkFavorite t1) }
      = detagPointedNodes (checkFavorites s) := by
    rw [hf]
    have := congrArg (fun u : Session =>
      { u with favoritesAddrs := s.favoritesAddrs.map (checkFavorite s) }) hd
    exact this
  unfold checkLoadedNodesPass
  simp only [ht, h1, h2, h3]
  split_ifs
  · exact ⟨false, _, rfl, hfin⟩
  · exact ⟨b, _, rfl, hfin⟩

/-! ## The two walks of tagPointedNodes -/

/-- The child loop without repair, on a child chain without violation: it tags the chain
and changes nothing else. -/
theorem tagChildLoop_tags (isData : Bool) (p : Nat) (path : List Nat) :
    ∀ (fuel : Nat) (c : NodeChain) (a : QByteArray) (pt : Option Nat) (rb : Bool)
      (e : QByteArray),
      path.length < fuel →
      (∀ n ∈ c.children, n.address ≠ []) →
      FirstOrLater c.children (nodeAt c.parents p).startChildAddress a e pt →
      ChildPathOK isData c.children e a path →
      ∃ cpt, tagChildLoop isData false p fuel c a pt rb =
        some { chain := { start := c.start, parents := c.parents,
                          children := tagAll path c.children },
               tempParentNodePt := some p, tempChildNodePt := cpt, return_bool := rb,
               returned := false } := by
  induction path with
  | nil =>
    intro fuel c a pt rb e hfuel _ _ hpath
    obtain ⟨f, rfl⟩ : ∃ f, fuel = f + 1 := ⟨fuel - 1, by simp at hfuel; omega⟩
    have ha : a = EmptyAddress := hpath.1
    subst ha
    rw [tagChildLoop_empty]
    exact ⟨pt, rfl⟩
  | cons i rest ih =>
    intro fuel c a pt rb e hfuel hphys hfl hpath
    obtain ⟨f, rfl⟩ : ∃ f, fuel = f + 1 := ⟨fuel - 1, by simp at hfuel; omega⟩
    obtain ⟨hcl, hnd, hunt, hprev⟩ := hpath
    have ha : a ≠ EmptyAddress := hcl.1
    have hres : resolve c.children a = some i := hcl.2.1
    have hfind : findNodeWithAddressInList c.children a 0 = some i := by
      rw [find_eq_resolve c.children a 0 hphys, hres]
    have htag : (nodeAt c.children i).pointedToCheck = false := hunt i (List.mem_cons_self _ _)
    have hexp : childExpected c p pt a = e :=
      expected_of_firstOrLater c.children _ a e pt i hfl hres htag
    have hmis : childMismatch isData c p pt a i = false := by
      cases hd : isData
      · have := (hprev hd).1
        simp [childMismatch, hd, hexp, this]
      · simp [childMismatch]
    rw [tagChildLoop_visit _ _ _ _ _ _ _ _ i ha hfind htag, childVisit_false, hmis]
    have hs := sameFields_tag c.children i
    have hnext : (nodeAt (updateNode c.children i MPNode.setPointedToCheck) i).nextChild isData
        = (nodeAt c.children i).nextChild isData :=
      sameFields_field hs (MPNode.nextChild isData) (nextChild_removePointedToCheck isData) i
    obtain ⟨cpt, hr⟩ := ih f
      { start := c.start, parents := c.parents,
        children := updateNode c.children i MPNode.setPointedToCheck }
      ((nodeAt (updateNode c.children i MPNode.setPointedToCheck) i).nextChild isData)
      (some i) rb (nodeAt c.children i).address (by simp at hfuel ⊢; omega)
      (sameFields_phys hs hphys)
      (firstOrLater_next c.children _ a e _ pt i hfl hres)
      ⟨by rw [hnext]
          exact (chainLinks_congr hs _ (nextChild_removePointedToCheck isData) rest _).mpr
            hcl.2.2,
        (List.nodup_cons.mp hnd).2,
        fun k hk => untagged_after_tag (hunt k (List.mem_cons_of_mem _ hk))
          (fun hki => (List.nodup_cons.mp hnd).1 (hki ▸ hk)),
        fun hd => (prevLinks_congr hs MPNode.previousChildAddress (fun _ => rfl) rest _).mpr
          (hprev hd).2⟩
    refine ⟨cpt, ?_⟩
    simp only [Bool.false_eq_true, if_false]
    rw [hr]
    rfl

/-- The parent loop without repair, from the address `a`, on a chain that leads through the
untagged parents `path` to the address `x`, which is empty or resolves to no node, the child
chains of these parents being without violation: the loop tags the path and the child
chains and changes nothing else; it stops inside the loop exactly when `x` is not empty. -/
theorem tagParentLoop_tags (isData : Bool) (path : List Nat) :
    ∀ (cps : List (List Nat)) (fuel : Nat) (c : NodeChain) (a x : QByteArray) (va : Nat)
      (ppt cpt : Option Nat) (rb : Bool),
      path.length < fuel →
      (∀ n ∈ c.parents, n.address ≠ []) → (∀ n ∈ c.children, n.address ≠ []) →
      SegLinks c.parents MPNode.nextParentAddress a path x →
      (x = EmptyAddress ∨ resolve c.parents x = none) →
      path.Nodup → (∀ i ∈ path, (nodeAt c.parents i).pointedToCheck = false) →
      List.Forall₂ (ChildChain isData c.parents c.children) path cps →
      cps.flatten.Nodup → (∀ j ∈ cps.flatten, (nodeAt c.children j).pointedToCheck = false) →
      ∃ r, tagParentLoop isData false fuel c a va ppt cpt rb = some r ∧
        r.returned = decide (x ≠ EmptyAddress) ∧
        r.chain = { start := c.start, parents := tagAll path c.parents,
                    children := tagAll cps.flatten c.children } := by
  induction path with
  | nil =>
    intro cps fuel c a x va ppt cpt rb hfuel hpp _ hseg hend _ _ hcc _ _
    obtain ⟨f, rfl⟩ : ∃ f, fuel = f + 1 := ⟨fuel - 1, by simp at hfuel; omega⟩
    have hax : a = x := hseg
    subst hax
    cases hcc
    by_cases ha : a = EmptyAddress
    · subst ha
      rw [tagParentLoop_empty]
      exact ⟨_, rfl, by simp, by simp [tagAll]⟩
    · have hfind : findNodeWithAddressInList c.parents a va = none := by
        rw [find_eq_resolve c.parents a va hpp]
        exact hend.resolve_left ha
      rw [tagParentLoop_missing _ _ _ _ _ _ _ _ _ ha hfind]
      exact ⟨_, rfl, by simp [ha], by simp [tagAll]⟩
  | cons i rest ih =>
    intro cps fuel c a x va ppt cpt rb hfuel hpp hpc hseg hend hnd hunt hcc hcnd hcunt
    obtain ⟨f, rfl⟩ : ∃ f, fuel = f + 1 := ⟨fuel - 1, by simp at hfuel; omega⟩
    obtain ⟨ha, hres, hrest⟩ := hseg
    have hi : i < c.parents.length := (resolve_some _ _ _ hres).1
    have hfind : findNodeWithAddressInList c.parents a va = some i := by
      rw [find_eq_resolve c.parents a va hpp, hres]
    have htag := hunt i (List.mem_cons_self _ _)
    cases hcc with
    | @cons _ cp _ cps1 hcp hcc1 =>
    rw [tagParentLoop_visit _ _ _ _ _ _ _ _ _ i ha hfind htag, parentVisit_false]
    simp only [List.flatten_cons, List.nodup_append] at hcnd
    have hsp := sameFields_tag c.parents i
    have hstartAll : ∀ p, (nodeAt c.parents p).startChildAddress =
        (nodeAt (updateNode c.parents i MPNode.setPointedToCheck) p).startChildAddress :=
      fun p => (field_updateNode c.parents i p MPNode.setPointedToCheck
        MPNode.startChildAddress (fun _ => rfl)).symm
    obtain ⟨cpt1, hchild⟩ := tagChildLoop_tags isData i cp (c.children.length + 1)
      { start := c.start, children := c.children,
        parents := updateNode c.parents i MPNode.setPointedToCheck }
      (nodeAt (updateNode c.parents i MPNode.setPointedToCheck) i).startChildAddress cpt
      (if parentMismatch c ppt a i then false else rb) EmptyAddress
      (by
        have h1 := chainLinks_lt c.children (MPNode.nextChild isData) cp _ hcp.1
        have h2 : cp.length ≤ c.children.length := by
          have := List.Nodup.length_le_card (α := Fin c.children.length)
            (l := cp.pmap (fun j hj => (⟨j, hj⟩ : Fin c.children.length)) h1)
            (by
              apply List.Nodup.pmap _ hcnd.1
              intro a1 h1 b1 h2 hab
              simpa using hab)
          simpa using this
        omega)
      hpc (Or.inl ⟨rfl, rfl⟩)
      ⟨by rw [← hstartAll i]; exact hcp.1, hcnd.1,
        fun j hj => hcunt j (by simp only [List.flatten_cons, List.mem_append]; exact Or.inl hj),
        hcp.2⟩
    simp only at hchild
    rw [hchild]
    simp only [Bool.false_eq_true, if_false]
    have haddr : (updateNode c.parents i MPNode.setPointedToCheck).map MPNode.address =
        c.parents.map MPNode.address :=
      map_updateNode c.parents i _ MPNode.address (fun _ => rfl)
    have hnext : ∀ k, (nodeAt (updateNode c.parents i MPNode.setPointedToCheck) k).nextParentAddress
        = (nodeAt c.parents k).nextParentAddress := fun k =>
      field_updateNode c.parents i k MPNode.setPointedToCheck MPNode.nextParentAddress
        (fun _ => rfl)
    obtain ⟨r, hr, hret, hchain⟩ := ih cps1 f
      { start := c.start, parents := updateNode c.parents i MPNode.setPointedToCheck,
        children := tagAll cp c.children }
      (nodeAt (updateNode c.parents i MPNode.setPointedToCheck) i).nextParentAddress x
      (nodeAt (updateNode c.parents i MPNode.setPointedToCheck) i).nextParentVirtualAddress
      (some i) cpt1 (if parentMismatch c ppt a i then false else rb)
      (by simp at hfuel ⊢; omega)
      (phys_updateNode _ _ _ (fun _ => rfl) hpp)
      (sameFields_phys (sameFields_tagAll cp c.children) hpc)
      (by
        rw [hnext]
        exact (segLinks_congr _ haddr rest (fun k _ => hnext k) _ _).mpr hrest)
      (by
        rcases hend with h | h
        · exact Or.inl h
        · right
          rw [← h]
          exact resolveFrom_congr x _ _ 0 haddr)
      (List.nodup_cons.mp hnd).2
      (by
        intro k hk
        rw [nodeAt_updateNode_ne c.parents i k _
          (fun h => (List.nodup_cons.mp hnd).1 (h ▸ hk))]
        exact hunt k (List.mem_cons_of_mem _ hk))
      (forall₂_childChain_of_fields isData hstartAll
        (sameFields_symm (sameFields_tagAll cp c.children)) rest cps1 hcc1)
      hcnd.2.1
      (by
        intro j hj
        cases hb : (nodeAt (tagAll cp c.children) j).pointedToCheck with
        | false => rfl
        | true =>
          rcases (tagged_tagAll cp c.children j).mp hb with ⟨h1, _⟩ | h1
          · exact (hcnd.2.2 h1 hj).elim
          · rw [hcunt j (by simp only [List.flatten_cons, List.mem_append]; exact Or.inr hj)]
              at h1
            cases h1)
    refine ⟨r, hr, hret, ?_⟩
    rw [hchain]
    simp only [List.flatten_cons, tagAll_append, tagAll_cons]

theorem childPaths_lt (isData : Bool) (parents children : List MPNode) (Q : List Nat)
    (dps : List (List Nat)) (h : List.Forall₂ (ChildChain isData parents children) Q dps) :
    ∀ j ∈ dps.flatten, j < children.length := by
  induction h with
  | nil => intro j hj; simp at hj
  | cons hcp _ ih =>
    intro j hj
    simp only [List.flatten_cons, List.mem_append] at hj
    rcases hj with hj | hj
    · exact chainLinks_lt _ _ _ _ hcp.1 j hj
    · exact ih j hj

theorem tagPointedNodes_data_walked (s : Session) (Q : List Nat) (dps : List (List Nat))
    (y : QByteArray)
    (hpd : ∀ n ∈ s.dataNodes, n.address ≠ []) (hpc : ∀ n ∈ s.dataChildNodes, n.address ≠ [])
    (hd : Walkable true s.dataChain Q dps y) :
    ∃ r1 b t, credentialWalk true s = some r1 ∧ tagPointedNodes true s = some (b, t) ∧
      (r1.returned = true → b = false ∧ t.dataChain = (detagPointedNodes s).dataChain) ∧
      (r1.returned = false →
        Walked s.dataChain t.dataChain Q ∧
        ∀ j, (nodeAt t.dataChildNodes j).pointedToCheck = true ↔ j ∈ dps.flatten) := by
  obtain ⟨r1, h1⟩ := tagParentLoop_total false true
    ((detagPointedNodes s).loginNodes.length + 1) (detagPointedNodes s).credChain
    (detagPointedNodes s).startNode (detagPointedNodes s).virtualStartNode none none true
    (Nat.lt_succ_of_le (untagged_le_length _))
  have hsf3 := sameFields_map_detag s.dataNodes
  have hsf4 := sameFields_map_detag s.dataChildNodes
  have hwd : Walkable true (detagPointedNodes s).dataChain Q dps y :=
    walkable_of_sameFields true s.dataChain (detagPointedNodes s).dataChain rfl hsf3 hsf4
      Q dps y hd
  obtain ⟨r2, hr2, _, hw2⟩ := tagParentLoop_walked true (detagPointedNodes s).dataChain Q
    dps y ((detagPointedNodes s).setCredChain r1.chain).virtualStartNode
    ((detagPointedNodes s).dataNodes.length + 1) r1.return_bool
    (Nat.lt_succ_self _) (sameFields_phys hsf3 hpd) (sameFields_phys hsf4 hpc) hwd
    (nodeAt_map_detag s.dataNodes) (nodeAt_map_detag s.dataChildNodes)
  obtain ⟨hseg, hend, hnd, hcc, hcnd⟩ := hwd
  have hlt := segLinks_lt _ _ _ _ _ hseg
  obtain ⟨r3, hr3, _, hchain⟩ := tagParentLoop_walk true Q dps
    ((detagPointedNodes s).dataNodes.length + 1) (detagPointedNodes s).dataChain
    (detagPointedNodes s).dataChain.start EmptyAddress y
    ((detagPointedNodes s).setCredChain r1.chain).virtualStartNode none none r1.return_bool
    (by
      have := nodup_length_le Q _ hnd hlt
      have e : (detagPointedNodes s).dataChain.parents = (detagPointedNodes s).dataNodes := rfl
      rw [e] at this
      omega)
    (sameFields_phys hsf3 hpd) (sameFields_phys hsf4 hpc) hseg hend hnd
    (fun i _ => nodeAt_map_detag s.dataNodes i) hcc hcnd
    (fun j _ => nodeAt_map_detag s.dataChildNodes j) (Or.inl ⟨rfl, rfl⟩)
  have e23 : r2 = r3 := Option.some.inj (hr2.symm.trans hr3)
  have hchildren : r2.chain.children =
      tagAll dps.flatten (detagPointedNodes s).dataChain.children := by
    rw [e23, hchain]
    unfold cutParentLink
    split_ifs <;> rfl
  have hw2s : Walked s.dataChain r2.chain Q :=
    walked_of_sameFields (detagPointedNodes s).dataChain s.dataChain hsf3 hsf4 hw2
  have hctag : ∀ j, (nodeAt r2.chain.children j).pointedToCheck = true ↔ j ∈ dps.flatten := by
    intro j
    rw [hchildren, tagged_tagAll]
    have hun : (nodeAt (detagPointedNodes s).dataChain.children j).pointedToCheck = false :=
      nodeAt_map_detag s.dataChildNodes j
    rw [hun]
    constructor
    · rintro (h | h)
      · exact h.1
      · cases h
    · intro h
      exact Or.inl ⟨h, childPaths_lt true _ _ Q dps hcc j h⟩
  have hr2x : tagParentLoop true true
      (((detagPointedNodes s).setCredChain r1.chain).dataNodes.length + 1)
      ((detagPointedNodes s).setCredChain r1.chain).dataChain
      ((detagPointedNodes s).setCredChain r1.chain).startDataNode
      ((detagPointedNodes s).setCredChain r1.chain).virtualStartNode none none
      r1.return_bool = some r2 := hr2
  have hcw : credentialWalk true s = some r1 := h1
  cases hr : r1.returned with
  | true =>
    refine ⟨r1, false, (detagPointedNodes s).setCredChain r1.chain, hcw, ?_,
      fun _ => ⟨rfl, rfl⟩, (fun h => by rw [hr] at h; cases h)⟩
    unfold tagPointedNodes
    simp only [h1, hr, if_true]
  | false =>
    refine ⟨r1, if r2.returned then false else r2.return_bool,
      ((detagPointedNodes s).setCredChain r1.chain).setDataChain r2.chain, hcw, ?_,
      (fun h => by rw [hr] at h; cases h), fun _ => ⟨hw2s, hctag⟩⟩
    unfold tagPointedNodes
    simp only [h1, hr, Bool.false_eq_true, if_false, hr2x]
    split_ifs <;> rfl

/-- The tagging without repair on a session whose data chain can be walked: when the
credential walk runs to its end, the data parents of the path and the children of their
child chains are tagged, and nothing else changes. -/
theorem tagPointedNodes_data_tagged (s : Session) (Q : List Nat) (dps : List (List Nat))
    (y : QByteArray)
    (hpd : ∀ n ∈ s.dataNodes, n.address ≠ []) (hpc : ∀ n ∈ s.dataChildNodes, n.address ≠ [])
    (hd : Walkable true s.dataChain Q dps y) :
    ∃ r1 b t, credentialWalk false s = some r1 ∧ tagPointedNodes false s = some (b, t) ∧
      (r1.returned = true → b = false ∧ t.dataChain = (detagPointedNodes s).dataChain) ∧
      (r1.returned = false →
        (∀ k, (nodeAt t.dataNodes k).pointedToCheck = true ↔ k ∈ Q) ∧
        (∀ j, (nodeAt t.dataChildNodes j).pointedToCheck = true ↔ j ∈ dps.flatten) ∧
        t.startDataNode = s.startDataNode ∧ SameFields t.dataNodes s.dataNodes ∧
        SameFields t.dataChildNodes s.dataChildNodes) := by
  obtain ⟨r1, h1⟩ := tagParentLoop_total false false
    ((detagPointedNodes s).loginNodes.length + 1) (detagPointedNodes s).credChain
    (detagPointedNodes s).startNode (detagPointedNodes s).virtualStartNode none none true
    (Nat.lt_succ_of_le (untagged_le_length _))
  have hsf3 := sameFields_map_detag s.dataNodes
  have hsf4 := sameFields_map_detag s.dataChildNodes
  obtain ⟨hseg, hend, hnd, hcc, hcnd⟩ :=
    walkable_of_sameFields true s.dataChain (detagPointedNodes s).dataChain rfl hsf3 hsf4
      Q dps y hd
  have hlt := segLinks_lt _ _ _ _ _ hseg
  obtain ⟨r2, hr2, _, hchain⟩ := tagParentLoop_tags true Q dps
    ((detagPointedNodes s).dataNodes.length + 1) (detagPointedNodes s).dataChain
    (detagPointedNodes s).dataChain.start y
    ((detagPointedNodes s).setCredChain r1.chain).virtualStartNode none none r1.return_bool
    (by
      have := nodup_length_le Q _ hnd hlt
      have e : (detagPointedNodes s).dataChain.parents = (detagPointedNodes s).dataNodes := rfl
      rw [e] at this
      omega)
    (sameFields_phys hsf3 hpd) (sameFields_phys hsf4 hpc) hseg hend hnd
    (fun i _ => nodeAt_map_detag s.dataNodes i) hcc hcnd
    (fun j _ => nodeAt_map_detag s.dataChildNodes j)
  have hptag : ∀ k, (nodeAt r2.chain.parents k).pointedToCheck = true ↔ k ∈ Q := by
    intro k
    rw [hchain]
    simp only
    rw [tagged_tagAll]
    have hun : (nodeAt (detagPointedNodes s).dataChain.parents k).pointedToCheck = false :=
      nodeAt_map_detag s.dataNodes k
    rw [hun]
    constructor
    · rintro (h | h)
      · exact h.1
      · cases h
    · intro h
      exact Or.inl ⟨h, hlt k h⟩
  have hctag : ∀ j, (nodeAt r2.chain.children j).pointedToCheck = true ↔ j ∈ dps.flatten := by
    intro j
    rw [hchain]
    simp only
    rw [tagged_tagAll]
    have hun : (nodeAt (detagPointedNodes s).dataChain.children j).pointedToCheck = false :=
      nodeAt_map_detag s.dataChildNodes j
    rw [hun]
    constructor
    · rintro (h | h)
      · exact h.1
      · cases h
    · intro h
      exact Or.inl ⟨h, childPaths_lt true _ _ Q dps hcc j h⟩
  have hsame : r2.chain.start = s.startDataNode ∧ SameFields r2.chain.parents s.dataNodes ∧
      SameFields r2.chain.children s.dataChildNodes := by
    rw [hchain]
    exact ⟨rfl, sameFields_trans (sameFields_tagAll Q _) hsf3,
      sameFields_trans (sameFields_tagAll dps.flatten _) hsf4⟩
  have hr2x : tagParentLoop true false
      (((detagPointedNodes s).setCredChain r1.chain).dataNodes.length + 1)
      ((detagPointedNodes s).setCredChain r1.chain).dataChain
      ((detagPointedNodes s).setCredChain r1.chain).startDataNode
      ((detagPointedNodes s).setCredChain r1.chain).virtualStartNode none none
      r1.return_bool = some r2 := hr2
  have hcw : credentialWalk false s = some r1 := h1
  cases hr : r1.returned with
  | true =>
    refine ⟨r1, false, (detagPointedNodes s).setCredChain r1.chain, hcw, ?_,
      fun _ => ⟨rfl, rfl⟩, (fun h => by rw [hr] at h; cases h)⟩
    unfold tagPointedNodes
    simp only [h1, hr, if_true]
  | false =>
    refine ⟨r1, if r2.returned then false else r2.return_bool,
      ((detagPointedNodes s).setCredChain r1.chain).setDataChain r2.chain, hcw, ?_,
      (fun h => by rw [hr] at h; cases h),
      fun _ => ⟨hptag, hctag, hsame.1, hsame.2.1, hsame.2.2⟩⟩
    unfold tagPointedNodes
    simp only [h1, hr, Bool.false_eq_true, if_false, hr2x]
    split_ifs <;> rfl

/-- On a credential chain that can be walked, the credential walk stops exactly when the
chain leads to an address that no credential parent has. -/
theorem credentialWalk_returned (repairAllowed : Bool) (s : Session) (P : List Nat)
    (cps : List (List Nat)) (x : QByteArray) (r1 : TagLoop)
    (h1 : credentialWalk repairAllowed s = some r1)
    (hp1 : ∀ n ∈ s.loginNodes, n.address ≠ [])
    (hp2 : ∀ n ∈ s.loginChildNodes, n.address ≠ [])
    (hc : Walkable false s.credChain P cps x) :
    r1.returned = true ↔ x ≠ EmptyAddress := by
  have hsf1 := sameFields_map_detag s.loginNodes
  have hsf2 := sameFields_map_detag s.loginChildNodes
  have hw := walkable_of_sameFields false s.credChain (detagPointedNodes s).credChain rfl
    hsf1 hsf2 P cps x hc
  cases repairAllowed with
  | true =>
    obtain ⟨r, hr, hret, _⟩ := tagParentLoop_walked false (detagPointedNodes s).credChain P
      cps x (detagPointedNodes s).virtualStartNode ((detagPointedNodes s).loginNodes.length + 1)
      true (Nat.lt_succ_self _) (sameFields_phys hsf1 hp1) (sameFields_phys hsf2 hp2) hw
      (nodeAt_map_detag s.loginNodes) (nodeAt_map_detag s.loginChildNodes)
    have e : r = r1 := Option.some.inj (hr.symm.trans h1)
    rw [← e, hret]
    simp
  | false =>
    obtain ⟨hseg, hend, hnd, hcc, hcnd⟩ := hw
    have hlt := segLinks_lt _ _ _ _ _ hseg
    obtain ⟨r, hr, hret, _⟩ := tagParentLoop_tags false P cps
      ((detagPointedNodes s).loginNodes.length + 1) (detagPointedNodes s).credChain
      (detagPointedNodes s).credChain.start x (detagPointedNodes s).virtualStartNode none none
      true
      (by
        have := nodup_length_le P _ hnd hlt
        have e : (detagPointedNodes s).credChain.parents = (detagPointedNodes s).loginNodes :=
          rfl
        rw [e] at this
        omega)
      (sameFields_phys hsf1 hp1) (sameFields_phys hsf2 hp2) hseg hend hnd
      (fun i _ => nodeAt_map_detag s.loginNodes i) hcc hcnd
      (fun j _ => nodeAt_map_detag s.loginChildNodes j)
    have e : r = r1 := Option.some.inj (hr.symm.trans h1)
    rw [← e, hret]
    simp

/-- C34, counterexample: two states on which `tagPointedNodes(true)` leaves a data parent
that is reachable from the data start address untagged. In `credStartLostDb` the credential
start address names no node and the data parent, which the data start address names, has a
wrong previous address: the call clears the credential start address and returns false at
once, the data parent is left untagged and its previous address is left wrong; on the state
with the credential start address cleared, the same call tags the data parent and sets its
previous address right. In `dataChildLoopDb` the credential walk runs to its end and reports
nothing, and the data walk stops at the child of the first data parent, which it meets
twice: the second data parent, which the next address of the first one names, is left
untagged. -/
theorem C34_credential_stop_counterexample :
    (tagPointedNodes true credStartLostDb
      = some (false, { credStartLostDb with startNode := EmptyAddress }) ∧
    findNodeWithAddressInList credStartLostDb.dataNodes credStartLostDb.startDataNode 0
      = some 0 ∧
    credStartLostDb.dataNodes.map
      (fun n => (n.pointedToCheck, n.previousParentAddress)) = [(false, [0x05, 0x0A])] ∧
    (tagPointedNodes true { credStartLostDb with startNode := EmptyAddress }).map
      (fun r => r.2.dataNodes.map (fun n => (n.pointedToCheck, n.previousParentAddress)))
      = some [(true, EmptyAddress)]) ∧
    ((credentialWalk true dataChildLoopDb).map (fun r => (r.returned, r.return_bool))
      = some (false, true) ∧
    resolve dataChildLoopDb.dataNodes dataChildLoopDb.startDataNode = some 0 ∧
    resolve dataChildLoopDb.dataNodes (nodeAt dataChildLoopDb.dataNodes 0).nextParentAddress
      = some 1 ∧
    (tagPointedNodes true dataChildLoopDb).map
      (fun r => (r.1, r.2.dataNodes.map MPNode.pointedToCheck)) = some (false, [true, false]))
    := by
  refine ⟨⟨?_, ?_, ?_, ?_⟩, ⟨?_, ?_, ?_, ?_⟩⟩ <;> rfl

/-- C34, amended. Let the data parents and the data children have physical addresses, let
the next-parent addresses lead from the data start address through the distinct data parents
`Q` to the address `y`, which is empty or the address of no data parent, and let the child
chains of these parents be `dps`, each leading to the empty address, no child being met
twice. Then `tagPointedNodes` returns, with or without repair, whatever the credential lists
are. When the credential walk stops inside its loop, the call returns false and leaves the
data chain as it was, every data node untagged. When the credential walk runs to its end,
whatever it reported, the data parents of `Q` are tagged and no other data parent is, and
the data children of `dps` are tagged and no other data child is; with repair allowed the
data parents `Q` are left linked both ways from the data start address (wrong previous
addresses set right, the link to `y` cleared), the data nodes being otherwise those of
before; without repair the data start address and the data nodes are those of before, tags
apart. And on a credential chain that can be walked (physical addresses, distinct parents,
child chains without violation), the credential walk stops exactly when the chain leads to
an address no credential parent has. -/
theorem C34_data_walk_after_credential_walk (repairAllowed : Bool) (s : Session)
    (Q : List Nat) (dps : List (List Nat)) (y : QByteArray)
    (hpd : ∀ n ∈ s.dataNodes, n.address ≠ []) (hpc : ∀ n ∈ s.dataChildNodes, n.address ≠ [])
    (hd : Walkable true s.dataChain Q dps y) :
    ∃ r1 b t, credentialWalk repairAllowed s = some r1 ∧
      tagPointedNodes repairAllowed s = some (b, t) ∧
      (r1.returned = true → b = false ∧ t.dataChain = (detagPointedNodes s).dataChain) ∧
      (r1.returned = false →
        (∀ k, (nodeAt t.dataNodes k).pointedToCheck = true ↔ k ∈ Q) ∧
        (∀ j, (nodeAt t.dataChildNodes j).pointedToCheck = true ↔ j ∈ dps.flatten) ∧
        (repairAllowed = true → Walked s.dataChain t.dataChain Q) ∧
        (repairAllowed = false →
          t.startDataNode = s.startDataNode ∧ SameFields t.dataNodes s.dataNodes ∧
          SameFields t.dataChildNodes s.dataChildNodes)) ∧
      (∀ (P : List Nat) (cps : List (List Nat)) (x : QByteArray),
        (∀ n ∈ s.loginNodes, n.address ≠ []) → (∀ n ∈ s.loginChildNodes, n.address ≠ []) →
        Walkable false s.credChain P cps x → (r1.returned = true ↔ x ≠ EmptyAddress)) := by
  cases repairAllowed with
  | true =>
    obtain ⟨r1, b, t, h1, h2, h3, h4⟩ := tagPointedNodes_data_walked s Q dps y hpd hpc hd
    exact ⟨r1, b, t, h1, h2, h3,
      fun hr => ⟨(h4 hr).1.2.2.2.1, (h4 hr).2, fun _ => (h4 hr).1, (fun h => by cases h)⟩,
      fun P cps x hp1 hp2 hc => credentialWalk_returned true s P cps x r1 h1 hp1 hp2 hc⟩
  | false =>
    obtain ⟨r1, b, t, h1, h2, h3, h4⟩ := tagPointedNodes_data_tagged s Q dps y hpd hpc hd
    exact ⟨r1, b, t, h1, h2, h3,
      fun hr => ⟨(h4 hr).1, (h4 hr).2.1, (fun h => by cases h), fun _ => (h4 hr).2.2⟩,
      fun P cps x hp1 hp2 hc => credentialWalk_returned false s P cps x r1 h1 hp1 hp2 hc⟩

theorem brokenDataDb_walkable :
    Walkable true brokenDataDb.dataChain [0] [[0, 1]] [0x07, 0x0A] := by
  simp only [Walkable, SegLinks, ChildChain, ChainLinks, List.forall₂_cons,
    List.forall₂_nil_left_iff, and_true]
  exact ⟨by decide, by decide, by decide, ⟨by decide, fun h => absurd h (by decide)⟩,
    by decide⟩

/-- C34 on `brokenDataDb`, with repair allowed: the credential walk reports violations
without stopping, and the data walk tags the data parent and its two children, sets the
previous address of the parent right and clears its next address, which names no node. -/
theorem C34_data_walk_after_credential_walk_witness :
    ((∀ n ∈ brokenDataDb.dataNodes, n.address ≠ []) ∧
      (∀ n ∈ brokenDataDb.dataChildNodes, n.address ≠ []) ∧
      Walkable true brokenDataDb.dataChain [0] [[0, 1]] [0x07, 0x0A]) ∧
    (credentialWalk true brokenDataDb).map (fun r => (r.returned, r.return_bool))
      = some (false, false) ∧
    (tagPointedNodes true brokenDataDb).map
      (fun r => (r.1, r.2.startDataNode,
        r.2.dataNodes.map
          (fun n => (n.pointedToCheck, n.previousParentAddress, n.nextParentAddress)),
        r.2.dataChildNodes.map MPNode.pointedToCheck))
      = some (false, [0x00, 0x0A], [(true, [0, 0], [0, 0])], [true, true]) ∧
    ∃ r1 b t, credentialWalk true brokenDataDb = some r1 ∧
      tagPointedNodes true brokenDataDb = some (b, t) ∧
      (r1.returned = true →
        b = false ∧ t.dataChain = (detagPointedNodes brokenDataDb).dataChain) ∧
      (r1.returned = false →
        (∀ k, (nodeAt t.dataNodes k).pointedToCheck = true ↔ k ∈ [0]) ∧
        (∀ j, (nodeAt t.dataChildNodes j).pointedToCheck = true ↔
          j ∈ ([[0, 1]] : List (List Nat)).flatten) ∧
        (true = true → Walked brokenDataDb.dataChain t.dataChain [0]) ∧
        (true = false →
          t.startDataNode = brokenDataDb.startDataNode ∧
          SameFields t.dataNodes brokenDataDb.dataNodes ∧
          SameFields t.dataChildNodes brokenDataDb.dataChildNodes)) ∧
      (∀ (P : List Nat) (cps : List (List Nat)) (x : QByteArray),
        (∀ n ∈ brokenDataDb.loginNodes, n.address ≠ []) →
        (∀ n ∈ brokenDataDb.loginChildNodes, n.address ≠ []) →
        Walkable false brokenDataDb.credChain P cps x →
        (r1.returned = true ↔ x ≠ EmptyAddress)) :=
  ⟨⟨by decide, by decide, brokenDataDb_walkable⟩, by rfl, by rfl,
    C34_data_walk_after_credential_walk true brokenDataDb [0] [[0, 1]] [0x07, 0x0A]
      (by decide) (by decide) brokenDataDb_walkable⟩

/-! ## Checking without repair -/

/-- C35, counterexample: `checkLoadedNodes(false)` on `lostFavoriteDb`, whose favorite
names a parent that does not exist, sets the four bytes of the favorite to 0. -/
theorem C35_lost_favorite_counterexample :
    lostFavoriteDb.favoritesAddrs = [[0x07, 0x08, 0x00, 0x09]] ∧
    (checkLoadedNodes false lostFavoriteDb).map (fun r => r.2.favoritesAddrs)
      = some [[0, 0, 0, 0]] := by
  refine ⟨?_, ?_⟩ <;> rfl

/-- C35, amended: `tagPointedNodes(false)` returns and leaves everything but the tags of
the nodes as it was; `checkLoadedNodes(false)` returns and leaves everything but the tags
and the favorites as it was, the favorites being those the favorites check makes of the
favorites it was given. -/
theorem C35_without_repair_tags_and_favorites (s : Session) :
    (∃ b t, tagPointedNodes false s = some (b, t) ∧
      detagPointedNodes t = detagPointedNodes s) ∧
    (∃ b t, checkLoadedNodes false s = some (b, t) ∧
      detagPointedNodes t = detagPointedNodes (checkFavorites s)) := by
  constructor
  · obtain ⟨⟨b, t⟩, ht⟩ := tagPointedNodes_total false s
    exact ⟨b, t, ht, tagPointedNodes_false_frame s t b ht⟩
  · obtain ⟨b, t, hp, hf⟩ := checkLoadedNodesPass_false_frame s
    unfold checkLoadedNodes
    simp only [hp]
    by_cases hb : b = true
    · simp only [hb, if_true]
      exact ⟨true, t, rfl, hf⟩
    · simp only [hb, if_false, Bool.false_eq_true, Bool.not_false, if_true]
      exact ⟨false, t, rfl, hf⟩

/-! ## A parent loop back to the first parent -/

/-- C38, the divergence: in `loopToFirstDb` the next address of the second parent is the
address of the first one, which is the start address. `tagPointedNodes(true)` returns
false, sets the start address to the empty address and leaves the next address of the
second parent as it was; the check without repair that follows `checkLoadedNodes(true)`
fails. In `loopToSecondDb`, where the loop leads back to the second parent, the start
address is kept and the next address of the third parent is cleared; the check without
repair that follows `checkLoadedNodes(true)` passes. -/
theorem C38_loop_to_first_clears_start :
    (tagPointedNodes true loopToFirstDb).map
      (fun r => (r.1, r.2.startNode, r.2.loginNodes.map MPNode.nextParentAddress))
      = some (false, EmptyAddress, [[2, 8], [1, 8]]) ∧
    (checkLoadedNodes true loopToFirstDb).bind
      (fun r => (checkLoadedNodes false r.2).map Prod.fst) = some false ∧
    (tagPointedNodes true loopToSecondDb).map
      (fun r => (r.1, r.2.startNode, r.2.loginNodes.map MPNode.nextParentAddress))
      = some (false, [1, 8], [[2, 8], [3, 8], EmptyAddress]) ∧
    (checkLoadedNodes true loopToSecondDb).bind
      (fun r => (checkLoadedNodes false r.2).map Prod.fst) = some true := by
  refine ⟨?_, ?_, ?_, ?_⟩ <;> rfl

/-! ## The verdict of checkLoadedNodes -/

/-- C40, counterexample: `checkLoadedNodes(true)` on `lostFavoriteDb` zeroes the favorite
and returns true. -/
theorem C40_lost_favorite_counterexample :
    lostFavoriteDb.favoritesAddrs = [[0x07, 0x08, 0x00, 0x09]] ∧
    (checkLoadedNodes true lostFavoriteDb).map (fun r => (r.1, r.2.favoritesAddrs))
      = some (true, [[0, 0, 0, 0]]) := by
  refine ⟨?_, ?_⟩ <;> rfl

/-- C40, amended: `checkLoadedNodes` always returns, and what it returns is the verdict of
its first pass: true if and only if the first tag walk returned true and left no node of
the four lists untagged. When it returns true it has changed nothing but the tags and the
favorites (the favorites check runs whatever the verdict). When it returns false with
repair allowed, the state it leaves is the one a single pass without repair makes of the
state left by the first pass. -/
theorem C40_verdict_of_first_pass (repairAllowed : Bool) (s : Session) :
    ∃ b0 t0 b t, tagPointedNodes repairAllowed s = some (b0, t0) ∧
      checkLoadedNodes repairAllowed s = some (b, t) ∧
      (b = true ↔ b0 = true ∧ AllTagged t0) ∧
      (b = true → t = checkFavorites t0 ∧ detagPointedNodes t0 = detagPointedNodes s) ∧
      (b = false → ∃ r, checkLoadedNodesPass repairAllowed s = some (false, r) ∧
        if repairAllowed then ∃ b2, checkLoadedNodesPass false r = some (b2, t) else t = r) := by
  obtain ⟨⟨b0, t0⟩, h0⟩ := tagPointedNodes_total repairAllowed s
  obtain ⟨⟨b1, r⟩, hp⟩ := checkLoadedNodesPass_total repairAllowed s
  have hiff : b1 = true ↔ b0 = true ∧ AllTagged t0 := by
    constructor
    · intro hb
      subst hb
      obtain ⟨t, ht, _, q1, q2, q3, q4⟩ := checkLoadedNodesPass_true repairAllowed s r hp
      rw [h0] at ht
      simp only [Option.some.injEq, Prod.mk.injEq] at ht
      obtain ⟨e1, e2⟩ := ht
      subst e2
      exact ⟨e1, allTagged_of_range _ q1, allTagged_of_range _ q2, allTagged_of_range _ q3, q4⟩
    · rintro ⟨hb0, hall⟩
      have := checkLoadedNodesPass_allTagged repairAllowed s t0 b0 h0 hall
      rw [hp] at this
      simp only [Option.some.injEq, Prod.mk.injEq] at this
      rw [this.1, hb0]
  have htrue : b1 = true → r = checkFavorites t0 ∧ detagPointedNodes t0 = detagPointedNodes s := by
    intro hb
    obtain ⟨hb0, hall⟩ := hiff.mp hb
    have := checkLoadedNodesPass_allTagged repairAllowed s t0 b0 h0 hall
    rw [hp] at this
    simp only [Option.some.injEq, Prod.mk.injEq] at this
    refine ⟨this.2, ?_⟩
    subst hb0
    cases repairAllowed with
    | false => exact tagPointedNodes_false_frame s t0 true h0
    | true =>
      exact tagPointedNodes_false_frame s t0 true (tagPointedNodes_repair_free s t0 h0)
  unfold checkLoadedNodes
  simp only [hp]
  cases b1 with
  | true =>
    simp only [if_true]
    refine ⟨b0, t0, true, r, h0, rfl, hiff, ?_, ?_⟩
    · intro _; exact htrue rfl
    · intro h; cases h
  | false =>
    simp only [if_false, Bool.false_eq_true]
    cases repairAllowed with
    | false =>
      simp only [Bool.not_false, if_true]
      refine ⟨b0, t0, false, r, h0, rfl, hiff, ?_, ?_⟩
      · intro h; cases h
      · intro _; exact ⟨r, rfl, by simp⟩
    | true =>
      simp only [Bool.not_true, if_false, Bool.false_eq_true]
      obtain ⟨⟨b2, r2⟩, hr2⟩ := checkLoadedNodesPass_total false r
      simp only [hr2]
      refine ⟨b0, t0, false, r2, h0, rfl, hiff, ?_, ?_⟩
      · intro h; cases h
      · intro _; exact ⟨r, rfl, by simp only [if_true]; exact ⟨b2, hr2⟩⟩

/-! ## Lemmas: the counted loops are the loops -/

theorem tagChildLoopCounted_fst (isData repairAllowed : Bool) (p : Nat) :
    ∀ (fuel : Nat) (c : NodeChain) (a : QByteArray) (pt : Option Nat) (rb : Bool),
      (tagChildLoopCounted isData repairAllowed p fuel c a pt rb).map Prod.fst
        = tagChildLoop isData repairAllowed p fuel c a pt rb := by
  intro fuel
  induction fuel with
  | zero => intro c a pt rb; rfl
  | succ fuel ih =>
    intro c a pt rb
    by_cases ha : a = EmptyAddress
    · subst ha
      rw [tagChildLoop_empty]
      simp [tagChildLoopCounted]
    · cases hfind : findNodeWithAddressInList c.children a 0 with
      | none =>
        rw [tagChildLoop_missing _ _ _ _ _ _ _ _ ha hfind]
        simp [tagChildLoopCounted, ha, hfind]
      | some i =>
        cases htag : (nodeAt c.children i).pointedToCheck with
        | true =>
          rw [tagChildLoop_tagged _ _ _ _ _ _ _ _ i ha hfind htag]
          simp [tagChildLoopCounted, ha, hfind, htag]
        | false =>
          rw [tagChildLoop_visit _ _ _ _ _ _ _ _ i ha hfind htag, ← ih]
          rw [tagChildLoopCounted]
          simp only [ha, if_false, hfind, htag, Bool.false_eq_true, Option.map_map]
          rfl

theorem tagParentLoopCounted_fst (isData repairAllowed : Bool) :
    ∀ (fuel : Nat) (c : NodeChain) (a : QByteArray) (va : Nat) (ppt cpt : Option Nat)
      (rb : Bool),
      (tagParentLoopCounted isData repairAllowed fuel c a va ppt cpt rb).map Prod.fst
        = tagParentLoop isData repairAllowed fuel c a va ppt cpt rb := by
  intro fuel
  induction fuel with
  | zero => intro c a va ppt cpt rb; rfl
  | succ fuel ih =>
    intro c a va ppt cpt rb
    by_cases ha : a = EmptyAddress
    · subst ha
      rw [tagParentLoop_empty]
      simp [tagParentLoopCounted]
    · cases hfind : findNodeWithAddressInList c.parents a va with
      | none =>
        rw [tagParentLoop_missing _ _ _ _ _ _ _ _ _ ha hfind]
        simp [tagParentLoopCounted, ha, hfind]
      | some i =>
        cases htag : (nodeAt c.parents i).pointedToCheck with
        | true =>
          rw [tagParentLoop_tagged _ _ _ _ _ _ _ _ _ i ha hfind htag]
          simp [tagParentLoopCounted, ha, hfind, htag]
        | false =>
          rw [tagParentLoop_visit _ _ _ _ _ _ _ _ _ i ha hfind htag]
          rw [tagParentLoopCounted]
          simp only [ha, if_false, hfind, htag, Bool.false_eq_true]
          rw [← tagChildLoopCounted_fst]
          cases tagChildLoopCounted isData repairAllowed i
            ((parentVisit repairAllowed c ppt a i).children.length + 1)
            (parentVisit repairAllowed c ppt a i)
            (nodeAt (parentVisit repairAllowed c ppt a i).parents i).startChildAddress cpt
            (if parentMismatch c ppt a i then false else rb) with
          | none => rfl
          | some r =>
            simp only [Option.map_some']
            by_cases hr : r.1.returned = true
            · simp only [hr, if_true, Option.map_some']
            · simp only [hr, if_false, Bool.false_eq_true, Option.map_map]
              rw [← ih]
              rfl

theorem tagPointedNodesCounted_fst (repairAllowed : Bool) (s : Session) :
    (tagPointedNodesCounted repairAllowed s).map Prod.fst = tagPointedNodes repairAllowed s := by
  unfold tagPointedNodesCounted tagPointedNodes
  simp only
  rw [← tagParentLoopCounted_fst]
  cases tagParentLoopCounted false repairAllowed ((detagPointedNodes s).loginNodes.length + 1)
    (detagPointedNodes s).credChain (detagPointedNodes s).startNode
    (detagPointedNodes s).virtualStartNode none none true with
  | none => rfl
  | some r1 =>
    simp only [Option.map_some']
    by_cases hr : r1.1.returned = true
    · simp only [hr, if_true, Option.map_some']
    · simp only [hr, if_false, Bool.false_eq_true]
      rw [← tagParentLoopCounted_fst]
      cases tagParentLoopCounted true repairAllowed
        (((detagPointedNodes s).setCredChain r1.1.chain).dataNodes.length + 1)
        ((detagPointedNodes s).setCredChain r1.1.chain).dataChain
        ((detagPointedNodes s).setCredChain r1.1.chain).startDataNode
        ((detagPointedNodes s).setCredChain r1.1.chain).virtualStartNode none none
        r1.1.return_bool with
      | none => rfl
      | some r2 =>
        simp only [Option.map_some']
        split_ifs <;> rfl

/-! ## Lemmas: every iteration tags a node or is the last one -/

/-- The iterations of a child loop: at most one more than the children it tags. -/
theorem tagChildLoopCounted_bound (isData repairAllowed : Bool) (p : Nat) :
    ∀ (fuel : Nat) (c : NodeChain) (a : QByteArray) (pt : Option Nat) (rb : Bool)
      (r : TagLoop) (n : Nat),
      tagChildLoopCounted isData repairAllowed p fuel c a pt rb = some (r, n) →
      n + untagged r.chain.children ≤ untagged c.children + 1 ∧
      r.chain.parents.map MPNode.pointedToCheck = c.parents.map MPNode.pointedToCheck := by
  intro fuel
  induction fuel with
  | zero => intro c a pt rb r n h; simp [tagChildLoopCounted] at h
  | succ fuel ih =>
    intro c a pt rb r n h
    rw [tagChildLoopCounted] at h
    by_cases ha : a = EmptyAddress
    · simp only [ha, if_true, Option.some.injEq, Prod.mk.injEq] at h
      obtain ⟨h1, h2⟩ := h
      subst h1 h2
      exact ⟨by simp, rfl⟩
    · simp only [ha, if_false] at h
      cases hfind : findNodeWithAddressInList c.children a 0 with
      | none =>
        rw [hfind] at h
        simp only [Option.some.injEq, Prod.mk.injEq] at h
        obtain ⟨h1, h2⟩ := h
        subst h1 h2
        simp only
        split
        · have := cutChildLink_tags isData c p pt a
          rw [untagged_congr this.2]
          exact ⟨by omega, this.1⟩
        · exact ⟨by omega, rfl⟩
      | some i =>
        rw [hfind] at h
        simp only at h
        cases htag : (nodeAt c.children i).pointedToCheck with
        | true =>
          rw [htag] at h
          simp only [if_true, Option.some.injEq, Prod.mk.injEq] at h
          obtain ⟨h1, h2⟩ := h
          subst h1 h2
          simp only
          split
          · have := cutChildLink_tags isData c p pt a
            rw [untagged_congr this.2]
            exact ⟨by omega, this.1⟩
          · exact ⟨by omega, rfl⟩
        | false =>
          rw [htag] at h
          simp only [Bool.false_eq_true, if_false, Option.map_eq_some', Prod.mk.injEq,
            Prod.exists] at h
          obtain ⟨r0, n0, h0, hr, hn⟩ := h
          subst hr hn
          obtain ⟨b1, b2⟩ := ih _ _ _ _ _ _ h0
          have hi : i < c.children.length := findNodeWithAddressInList_lt _ _ _ _ hfind
          have hv := untagged_childVisit isData repairAllowed c p pt a i hi htag
          refine ⟨by omega, ?_⟩
          rw [b2]
          rfl

/-- The iterations of a parent loop, those of its child loops included: at most the nodes
it tags, one more for every parent it tags, and one more when it ends by `return false`. -/
theorem tagParentLoopCounted_bound (isData repairAllowed : Bool) :
    ∀ (fuel : Nat) (c : NodeChain) (a : QByteArray) (va : Nat) (ppt cpt : Option Nat)
      (rb : Bool) (r : TagLoop) (n : Nat),
      tagParentLoopCounted isData repairAllowed fuel c a va ppt cpt rb = some (r, n) →
      n + untagged r.chain.children + 2 * untagged r.chain.parents
        + (if r.returned then 0 else 1)
        ≤ untagged c.children + 2 * untagged c.parents + 1 := by
  intro fuel
  induction fuel with
  | zero => intro c a va ppt cpt rb r n h; simp [tagParentLoopCounted] at h
  | succ fuel ih =>
    intro c a va ppt cpt rb r n h
    rw [tagParentLoopCounted] at h
    by_cases ha : a = EmptyAddress
    · simp only [ha, if_true, Option.some.injEq, Prod.mk.injEq] at h
      obtain ⟨h1, h2⟩ := h
      subst h1 h2
      simp
    · simp only [ha, if_false] at h
      cases hfind : findNodeWithAddressInList c.parents a va with
      | none =>
        rw [hfind] at h
        simp only [Option.some.injEq, Prod.mk.injEq] at h
        obtain ⟨h1, h2⟩ := h
        subst h1 h2
        simp only [if_true]
        split
        · have := cutParentLink_tags c ppt a
          rw [untagged_congr this.1, this.2]
          omega
        · omega
      | some i =>
        rw [hfind] at h
        simp only at h
        cases htag : (nodeAt c.parents i).pointedToCheck with
        | true =>
          rw [htag] at h
          simp only [if_true, Option.some.injEq, Prod.mk.injEq] at h
          obtain ⟨h1, h2⟩ := h
          subst h1 h2
          simp only [if_true]
          split
          · have := cutParentLink_tags c ppt a
            rw [untagged_congr this.1, this.2]
            omega
          · omega
        | false =>
          rw [htag] at h
          simp only [Bool.false_eq_true, if_false] at h
          have hi : i < c.parents.length := findNodeWithAddressInList_lt _ _ _ _ hfind
          have hv := untagged_parentVisit repairAllowed c ppt a i hi htag
          have hvc : (parentVisit repairAllowed c ppt a i).children = c.children := rfl
          cases hc : tagChildLoopCounted isData repairAllowed i
              ((parentVisit repairAllowed c ppt a i).children.length + 1)
              (parentVisit repairAllowed c ppt a i)
              (nodeAt (parentVisit repairAllowed c ppt a i).parents i).startChildAddress cpt
              (if parentMismatch c ppt a i then false else rb) with
          | none => rw [hc] at h; simp at h
          | some rc =>
            rw [hc] at h
            simp only at h
            obtain ⟨b1, b2⟩ := tagChildLoopCounted_bound isData repairAllowed i _ _ _ _ _
              rc.1 rc.2 hc
            have b3 := untagged_congr b2
            rw [hvc] at b1
            by_cases hr : rc.1.returned = true
            · simp only [hr, if_true, Option.some.injEq, Prod.mk.injEq] at h
              obtain ⟨h1, h2⟩ := h
              subst h1 h2
              simp only [hr, if_true]
              omega
            · simp only [hr, if_false, Bool.false_eq_true, Option.map_eq_some', Prod.mk.injEq,
                Prod.exists] at h
              obtain ⟨r0, n0, h0, e1, e2⟩ := h
              subst e1 e2
              have := ih _ _ _ _ _ _ _ _ h0
              omega

/-! ## Termination of tagPointedNodes -/

/-- C39, counterexample: `danglingStarts` holds no node, and `tagPointedNodes` executes
the body of its first loop once on it (the start address is not found). -/
theorem C39_one_iteration_counterexample :
    danglingStarts.nodeCount + danglingStarts.parentCount = 0 ∧
    (tagPointedNodesCounted true danglingStarts).map Prod.snd = some 1 ∧
    (tagPointedNodesCounted false danglingStarts).map Prod.snd = some 1 := by
  refine ⟨?_, ?_, ?_⟩ <;> rfl

/-- C39, amended: `tagPointedNodes` returns on every session state, with or without repair,
and the number of iterations of its loops (parent loops and child loops together) is at
most the number of nodes plus the number of parents plus one. -/
theorem C39_iterations_bounded (repairAllowed : Bool) (s : Session) :
    ∃ r n, tagPointedNodes repairAllowed s = some r ∧
      tagPointedNodesCounted repairAllowed s = some (r, n) ∧
      n ≤ s.nodeCount + s.parentCount + 1 := by
  obtain ⟨r, hr⟩ := tagPointedNodes_total repairAllowed s
  have hf := tagPointedNodesCounted_fst repairAllowed s
  rw [hr] at hf
  simp only [Option.map_eq_some', Prod.exists] at hf
  obtain ⟨b0, t0, n, hc, hrn⟩ := hf
  subst hrn
  refine ⟨(b0, t0), n, hr, hc, ?_⟩
  have l1 : untagged (detagPointedNodes s).credChain.children ≤ s.loginChildNodes.length := by
    have := untagged_le_length (detagPointedNodes s).credChain.children
    simpa [detagPointedNodes, Session.credChain] using this
  have l2 : untagged (detagPointedNodes s).credChain.parents ≤ s.loginNodes.length := by
    have := untagged_le_length (detagPointedNodes s).credChain.parents
    simpa [detagPointedNodes, Session.credChain] using this
  unfold tagPointedNodesCounted at hc
  simp only at hc
  cases h1 : tagParentLoopCounted false repairAllowed
      ((detagPointedNodes s).loginNodes.length + 1) (detagPointedNodes s).credChain
      (detagPointedNodes s).startNode (detagPointedNodes s).virtualStartNode none none true with
  | none => rw [h1] at hc; simp at hc
  | some r1 =>
    rw [h1] at hc
    simp only at hc
    have b1 := tagParentLoopCounted_bound false repairAllowed _ _ _ _ _ _ _ r1.1 r1.2 h1
    by_cases hret : r1.1.returned = true
    · simp only [hret, if_true, Option.some.injEq, Prod.mk.injEq] at hc b1
      obtain ⟨_, e⟩ := hc
      subst e
      unfold Session.nodeCount Session.parentCount
      omega
    · simp only [hret, if_false, Bool.false_eq_true] at hc b1
      have l3 : untagged ((detagPointedNodes s).setCredChain r1.1.chain).dataChain.children
          ≤ s.dataChildNodes.length := by
        have := untagged_le_length
          ((detagPointedNodes s).setCredChain r1.1.chain).dataChain.children
        simpa [detagPointedNodes, Session.dataChain, Session.setCredChain] using this
      have l4 : untagged ((detagPointedNodes s).setCredChain r1.1.chain).dataChain.parents
          ≤ s.dataNodes.length := by
        have := untagged_le_length
          ((detagPointedNodes s).setCredChain r1.1.chain).dataChain.parents
        simpa [detagPointedNodes, Session.dataChain, Session.setCredChain] using this
      cases h2 : tagParentLoopCounted true repairAllowed
          (((detagPointedNodes s).setCredChain r1.1.chain).dataNodes.length + 1)
          ((detagPointedNodes s).setCredChain r1.1.chain).dataChain
          ((detagPointedNodes s).setCredChain r1.1.chain).startDataNode
          ((detagPointedNodes s).setCredChain r1.1.chain).virtualStartNode none none
          r1.1.return_bool with
      | none => rw [h2] at hc; simp at hc
      | some r2 =>
        rw [h2] at hc
        simp only at hc
        have b2 := tagParentLoopCounted_bound true repairAllowed _ _ _ _ _ _ _ r2.1 r2.2 h2
        have e : n = r1.2 + r2.2 := by
          split_ifs at hc <;>
            (simp only [Option.some.injEq, Prod.mk.injEq] at hc; exact hc.2.symm)
        unfold Session.nodeCount Session.parentCount
        omega

/-! ## Lemmas: what a clean list provides -/

theorem service_lt_of_clean (l : List MPNode)
    (h : (l.map MPNode.service).Pairwise (· < ·)) (i j : Nat) (hij : i < j)
    (hj : j < l.length) : (nodeAt l i).service < (nodeAt l j).service := by
  rw [List.pairwise_iff_getElem] at h
  have := h i j (by simp; omega) (by simpa using hj) hij
  simpa [nodeAt_eq_getElem l i (by omega), nodeAt_eq_getElem l j hj] using this

theorem range_ne_empty (l : List MPNode) (a : QByteArray)
    (h : ChainLinks l MPNode.nextParentAddress a (List.range l.length)) (i : Nat)
    (hi : i < l.length) : (nodeAt l i).address ≠ EmptyAddress :=
  linked_ne_empty l _ _ a h i (List.mem_range.mpr hi)

/-- The child chains of a clean list serve every path made of parents of the list in the
order of the list. -/
theorem children_of_path (isData : Bool) (c : NodeChain) (cps : List (List Nat))
    (hcc : List.Forall₂ (ChildChain isData c.parents c.children)
      (List.range c.parents.length) cps)
    (hnd : cps.flatten.Nodup) (P : List Nat) (hP : P.Pairwise (· < ·))
    (hlt : ∀ i ∈ P, i < c.parents.length) :
    ∃ cpsP, List.Forall₂ (ChildChain isData c.parents c.children) P cpsP ∧
      cpsP.flatten.Nodup := by
  have hlen : cps.length = c.parents.length := by
    have := hcc.length_eq
    simpa using this.symm
  have hget : ∀ i (hi : i < c.parents.length),
      ChildChain isData c.parents c.children i (cps.getD i []) := by
    intro i hi
    have := hcc.get (i := i) (by simpa using hi) (by omega)
    simpa [List.getD_eq_getElem?_getD, List.getElem?_eq_getElem (hlen ▸ hi)] using this
  rw [List.nodup_flatten] at hnd
  refine ⟨P.map (fun i => cps.getD i []), ?_, ?_⟩
  · rw [List.forall₂_map_right_iff, List.forall₂_same]
    intro i hi
    exact hget i (hlt i hi)
  · rw [List.nodup_flatten]
    constructor
    · intro l hl
      obtain ⟨i, hi, rfl⟩ := List.mem_map.mp hl
      apply hnd.1
      have hi2 : i < cps.length := hlen ▸ hlt i hi
      simp [List.getD_eq_getElem?_getD, List.getElem?_eq_getElem hi2]
    · rw [List.pairwise_map]
      apply hP.imp_of_mem
      intro i j hi hj hij
      have hi2 : i < cps.length := hlen ▸ hlt i hi
      have hj2 : j < cps.length := hlen ▸ hlt j hj
      have := (List.pairwise_iff_getElem.mp hnd.2) i j hi2 hj2 hij
      simpa [List.getD_eq_getElem?_getD, List.getElem?_eq_getElem hi2,
        List.getElem?_eq_getElem hj2] using this

theorem sameButLinks_startChild {l1 l2 : List MPNode} (h : SameButLinks l1 l2) (k : Nat) :
    (nodeAt l1 k).startChildAddress = (nodeAt l2 k).startChildAddress := by
  have := congrArg MPNode.startChildAddress (nodeAt_of_map_eq MPNode.unlinked h k)
  simpa [MPNode.unlinked] using this

theorem addressesDistinct_of_sameButLinks {l1 l2 : List MPNode} (h : SameButLinks l1 l2)
    (hd : AddressesDistinct l2) : AddressesDistinct l1 :=
  ⟨sameButLinks_phys h hd.1, by rw [sameButLinks_address h]; exact hd.2⟩

/-- A chain that holds the children and, up to the links, the parents of a clean chain, and
that is linked along a path in the order of the list, can be walked along that path to its
end. -/
theorem walkable_of_linked (isData : Bool) (c0 c : NodeChain) (hclean : CleanList isData c0)
    (hch : SameFields c.children c0.children) (hp : SameButLinks c.parents c0.parents)
    (W : List Nat) (hW : W.Pairwise (· < ·)) (hlt : ∀ i ∈ W, i < c0.parents.length)
    (hl : Linked c.parents c.start W) :
    ∃ cps, Walkable isData c W cps EmptyAddress := by
  obtain ⟨⟨cps0, hv⟩, _⟩ := hclean
  obtain ⟨cps, h1, h2⟩ := children_of_path isData c0 cps0 hv.2.2.2.1 hv.2.2.2.2 W hW hlt
  refine ⟨cps, (chainLinks_iff_segLinks _ _ _ _).mp hl.1, Or.inl rfl,
    hW.imp (fun h => Nat.ne_of_lt h), ?_, h2⟩
  exact forall₂_childChain_of_fields isData
    (fun p => (sameButLinks_startChild hp p).symm)
    (sameFields_symm hch) W cps h1

theorem sorted_range (n : Nat) : (List.range n).Pairwise (· < ·) :=
  List.sorted_lt_range n

theorem eq_range_of_all (n : Nat) (T : List Nat) (hs : T.Pairwise (· < ·))
    (hlt : ∀ i ∈ T, i < n) (hall : ∀ i, i < n → i ∈ T) : T = List.range n := by
  rw [← filter_range_of_sorted n T hs hlt]
  apply List.filter_eq_self.mpr
  intro i hi
  simpa using hall i (List.mem_range.mp hi)

/-! ## Lemmas: the tagging of two walkable chains -/

theorem setChains_others (s : Session) (c1 c2 : NodeChain) :
    ((s.setCredChain c1).setDataChain c2).others = s.others := rfl

theorem setChains_cred (s : Session) (c1 c2 : NodeChain) :
    ((s.setCredChain c1).setDataChain c2).credChain = c1 := rfl

theorem setChains_data (s : Session) (c1 c2 : NodeChain) :
    ((s.setCredChain c1).setDataChain c2).dataChain = c2 := rfl

/-- The tagging with repair allowed of a session whose two chains can be walked to their
ends leaves both walked. -/
theorem tagPointedNodes_walked_both (s : Session) (d : Bool) (P Q : List Nat)
    (cps dps : List (List Nat)) (hphys : AllPhysical s)
    (hc : Walkable d (s.chain d) P cps EmptyAddress)
    (hd : Walkable (!d) (s.chain (!d)) Q dps EmptyAddress) :
    ∃ b t, tagPointedNodes true s = some (b, t) ∧ t.others = s.others ∧
      Walked (s.chain d) (t.chain d) P ∧ Walked (s.chain (!d)) (t.chain (!d)) Q := by
  cases d with
  | false =>
    obtain ⟨b, c1, c2, h, w1, w2, _⟩ :=
      tagPointedNodes_walked s P Q cps dps EmptyAddress EmptyAddress hphys hc hd
    exact ⟨b, _, h, rfl, w1, w2 rfl⟩
  | true =>
    obtain ⟨b, c1, c2, h, w1, w2, _⟩ :=
      tagPointedNodes_walked s Q P dps cps EmptyAddress EmptyAddress hphys hd hc
    exact ⟨b, _, h, rfl, w2 rfl, w1⟩

/-! ## Lemmas: one orphan parent linked in -/

theorem bool_eq_or_not (d e : Bool) : e = d ∨ e = !d := by
  cases d <;> cases e <;> simp

theorem repairInv_chain {s0 s : Session} (h : RepairInv s0 s) (d : Bool) :
    ChainState (s0.chain d) (s.chain d) := by
  cases d
  · exact h.2.1
  · exact h.2.2

theorem repairInv_of_chains {s0 t : Session} (d : Bool) (ho : t.others = s0.others)
    (h1 : ChainState (s0.chain d) (t.chain d))
    (h2 : ChainState (s0.chain (!d)) (t.chain (!d))) : RepairInv s0 t := by
  cases d
  · exact ⟨ho, h1, h2⟩
  · exact ⟨ho, h2, h1⟩

theorem cleanDb_chain {s0 : Session} (h : CleanDb s0) (d : Bool) :
    CleanList d (s0.chain d) := by
  cases d
  · exact h.2.1
  · exact h.2.2.1

theorem cleanDb_parents {s0 : Session} (h : CleanDb s0) (d : Bool) :
    AddressesDistinct (s0.chain d).parents := by
  cases d
  · exact h.1.1
  · exact h.1.2.2.1

theorem cleanDb_children {s0 : Session} (h : CleanDb s0) (d : Bool) :
    AddressesDistinct (s0.chain d).children := by
  cases d
  · exact h.1.2.1
  · exact h.1.2.2.2

theorem allPhysical_of_chains (s : Session)
    (h : ∀ d, (∀ n ∈ (s.chain d).parents, n.address ≠ []) ∧
      (∀ n ∈ (s.chain d).children, n.address ≠ [])) : AllPhysical s :=
  ⟨(h false).1, (h false).2, (h true).1, (h true).2⟩

theorem chainState_phys {c0 c : NodeChain} (h : ChainState c0 c)
    (hp : AddressesDistinct c0.parents) (hc : AddressesDistinct c0.children) :
    (∀ n ∈ c.parents, n.address ≠ []) ∧ (∀ n ∈ c.children, n.address ≠ []) :=
  ⟨sameButLinks_phys h.2.1 hp.1, sameFields_phys h.1 hc.1⟩

theorem chainState_sorted {c0 c : NodeChain} {T W : List Nat} (hT : T.Pairwise (· < ·))
    (htag : ∀ i, (nodeAt c.parents i).pointedToCheck = true ↔ i ∈ T)
    (hsb : SameButLinks c.parents c0.parents)
    (hW : W = T ∨ (T = [] ∧ W = List.range c0.parents.length)) :
    W.Pairwise (· < ·) ∧ (∀ i ∈ W, i < c0.parents.length) ∧ ∀ i ∈ T, i ∈ W := by
  rcases hW with rfl | ⟨h1, h2⟩
  · refine ⟨hT, ?_, fun i hi => hi⟩
    intro i hi
    rw [← sameButLinks_length hsb]
    exact lt_of_tagged _ _ ((htag i).mpr hi)
  · subst h1 h2
    exact ⟨sorted_range _, fun i hi => List.mem_range.mp hi, fun i hi => by simp at hi⟩

/-- The state a chain is left in by a walk along a path in the order of the list. -/
theorem chainState_of_walked {c0 c c1 : NodeChain} {P : List Nat}
    (hch : SameFields c.children c0.children) (hsb : SameButLinks c.parents c0.parents)
    (hP : P.Pairwise (· < ·)) (hw : Walked c c1 P) : ChainState c0 c1 :=
  ⟨sameFields_trans hw.2.1 hch, hw.1.trans hsb, P, P, hP, hw.2.2.2.1, hw.2.2.1, Or.inl rfl⟩

/-- One call of `addOrphanParentToDB` during the repair of a damaged clean database: the
untagged parent `p` is linked in at its place and tagged, the state is again one of a repair
under way, and no parent loses its tag. -/
theorem addOrphan_step (s0 s : Session) (d : Bool) (p : Nat) (hclean : CleanDb s0)
    (hinv : RepairInv s0 s) (hp : p < (s0.chain d).parents.length)
    (hun : (nodeAt (s.chain d).parents p).pointedToCheck = false) :
    ∃ r, addOrphanParentToDB p d s = some (true, r) ∧ RepairInv s0 r ∧
      (nodeAt (r.chain d).parents p).pointedToCheck = true ∧
      ∀ e i, (nodeAt (s.chain e).parents i).pointedToCheck = true →
        (nodeAt (r.chain e).parents i).pointedToCheck = true := by
  obtain ⟨hch, hsb, T, W, hT, htag, hl, hW⟩ := repairInv_chain hinv d
  obtain ⟨hcho, hsbo, To, Wo, hTo, htago, hlo, hWo⟩ := repairInv_chain hinv (!d)
  have hcl := cleanDb_chain hclean d
  have hclo := cleanDb_chain hclean (!d)
  obtain ⟨hWs, hWlt, hTW⟩ := chainState_sorted hT htag hsb hW
  obtain ⟨hWos, hWolt, hToWo⟩ := chainState_sorted hTo htago hsbo hWo
  have hpl : s.parentList d = (s.chain d).parents := (chain_parents s d).symm
  have hlen : (s.chain d).parents.length = (s0.chain d).parents.length :=
    sameButLinks_length hsb
  have hTlt : ∀ i ∈ T, i < (s0.chain d).parents.length := fun i hi => hWlt i (hTW i hi)
  have hpT : p ∉ T := by
    intro h
    have := (htag p).mpr h
    rw [hun] at this
    cases this
  have hlT : T = [] ∨ Linked (s.parentList d) (s.chain d).start T := by
    rcases hW with h1 | ⟨h1, _⟩
    · right; rw [hpl, ← h1]; exact hl
    · left; exact h1
  have hsv : ∀ i j, i < j → j < (s0.chain d).parents.length →
      (nodeAt (s.parentList d) i).service < (nodeAt (s.parentList d) j).service := by
    intro i j hij hj
    rw [hpl, sameButLinks_service hsb i, sameButLinks_service hsb j]
    exact service_lt_of_clean _ hcl.2 i j hij hj
  have hne : ∀ i, i < (s0.chain d).parents.length →
      (nodeAt (s.parentList d) i).address ≠ EmptyAddress := by
    intro i hi
    rw [hpl, nodeAt_of_map_eq MPNode.address (sameButLinks_address hsb) i]
    obtain ⟨cps0, hv⟩ := hcl.1
    exact range_ne_empty _ _ hv.1 i hi
  obtain ⟨s1, h1, ho1, hother1, hchild1, hsb1, hl1, _, _⟩ :=
    addOrphanParentToDB_relinks s d p T
      (by rw [hpl]; exact addressesDistinct_of_sameButLinks hsb (cleanDb_parents hclean d))
      (hne p hp) (fun i hi => hne i (hTlt i hi)) (by rw [hpl, hlen]; exact hp) hT
      (fun i hi => by rw [hpl, hlen]; exact hTlt i hi)
      (by rw [hpl]; exact htag) hpT hlT
      (fun i hi hip => lt_asymm (hsv i p hip hp))
      (fun i hi hpi => hsv p i hpi (hTlt i hi))
  have hT2 : (T.filter (fun i => decide (i < p)) ++ p :: T.filter (fun i => decide (p < i))).Pairwise
      (· < ·) := sorted_insert p T hT
  have hT2lt : ∀ i ∈ T.filter (fun i => decide (i < p)) ++ p :: T.filter (fun i => decide (p < i)),
      i < (s0.chain d).parents.length := by
    intro i hi
    rcases List.mem_append.mp hi with h | h
    · exact hTlt i (List.mem_filter.mp h).1
    · rcases List.mem_cons.mp h with h | h
      · rw [h]; exact hp
      · exact hTlt i (List.mem_filter.mp h).1
  have hT2mem : ∀ i ∈ T,
      i ∈ T.filter (fun i => decide (i < p)) ++ p :: T.filter (fun i => decide (p < i)) := by
    intro i hi
    have hs := sorted_split p T hT hpT
    rw [hs] at hi
    rcases List.mem_append.mp hi with h | h
    · exact List.mem_append_left _ h
    · exact List.mem_append_right _ (List.mem_cons_of_mem _ h)
  have hch1 : SameFields (s1.chain d).children (s0.chain d).children := by
    rw [hchild1]; exact hch
  have hsb1' : SameButLinks (s1.chain d).parents (s0.chain d).parents := by
    rw [hpl] at hsb1
    exact hsb1.trans hsb
  obtain ⟨cps, hw1⟩ := walkable_of_linked d (s0.chain d) (s1.chain d) hcl hch1 hsb1' _ hT2
    hT2lt hl1
  obtain ⟨dps, hw2⟩ := walkable_of_linked (!d) (s0.chain (!d)) (s1.chain (!d)) hclo
    (by rw [hother1]; exact hcho) (by rw [hother1]; exact hsbo) Wo hWos hWolt
    (by rw [hother1]; exact hlo)
  have hphys1 : AllPhysical s1 := by
    apply allPhysical_of_chains
    intro e
    rcases bool_eq_or_not d e with rfl | rfl
    · exact ⟨sameButLinks_phys hsb1' (cleanDb_parents hclean _).1,
        sameFields_phys hch1 (cleanDb_children hclean _).1⟩
    · rw [hother1]
      exact ⟨sameButLinks_phys hsbo (cleanDb_parents hclean _).1,
        sameFields_phys hcho (cleanDb_children hclean _).1⟩
  obtain ⟨b, t, htg, hot, wk1, wk2⟩ :=
    tagPointedNodes_walked_both s1 d _ Wo cps dps hphys1 hw1 hw2
  refine ⟨t, by rw [h1, htg]; rfl, ?_, ?_, ?_⟩
  · apply repairInv_of_chains d (hot.trans (ho1.trans hinv.1))
    · exact chainState_of_walked hch1 hsb1' hT2 wk1
    · exact chainState_of_walked (by rw [hother1]; exact hcho) (by rw [hother1]; exact hsbo)
        hWos wk2
  · rw [wk1.2.2.2.1 p]
    exact List.mem_append_right _ (List.mem_cons_self _ _)
  · intro e i hi
    rcases bool_eq_or_not d e with rfl | rfl
    · rw [wk1.2.2.2.1 i]
      exact hT2mem i ((htag i).mp hi)
    · rw [wk2.2.2.2.1 i]
      exact hToWo i ((htago i).mp hi)

/-! ## Lemmas: the orphan loops during a repair -/

theorem core_rebuild (s : Session) :
    s.core = ((s.others.setCredChain s.credChain).setDataChain s.dataChain).core := rfl

theorem core_of_chains (o : Session) (c1 c2 d1 d2 : NodeChain) (h1 : Restores c1 d1)
    (h2 : Restores c2 d2) :
    ((o.setCredChain d1).setDataChain d2).core = ((o.setCredChain c1).setDataChain c2).core := by
  obtain ⟨a1, a2, a3⟩ := h1
  obtain ⟨b1, b2, b3⟩ := h2
  simp only [Session.core, Session.setCredChain, Session.setDataChain]
  rw [a1, b1, show d1.parents.map MPNode.core = c1.parents.map MPNode.core from a2,
    show d2.parents.map MPNode.core = c2.parents.map MPNode.core from b2,
    show d1.children.map MPNode.removePointedToCheck =
      c1.children.map MPNode.removePointedToCheck from a3,
    show d2.children.map MPNode.removePointedToCheck =
      c2.children.map MPNode.removePointedToCheck from b3]

theorem core_of_others {s0 s : Session} (ho : s.others = s0.others)
    (h1 : Restores s0.credChain s.credChain) (h2 : Restores s0.dataChain s.dataChain) :
    s.core = s0.core := by
  rw [core_rebuild s, core_rebuild s0, ho]
  exact core_of_chains _ _ _ _ _ h1 h2

/-- A chain under repair all of whose parents are tagged is the clean chain again, up to the
tags and the virtual ids of the links. -/
theorem restores_of_allTagged (isData : Bool) {c0 c : NodeChain} (hclean : CleanList isData c0)
    (h : ChainState c0 c)
    (hall : ∀ i, i < c0.parents.length → (nodeAt c.parents i).pointedToCheck = true) :
    Restores c0 c := by
  obtain ⟨hch, hsb, T, W, hT, htag, hl, hW⟩ := h
  obtain ⟨_, hWlt, hTW⟩ := chainState_sorted hT htag hsb hW
  have hTr : T = List.range c0.parents.length :=
    eq_range_of_all _ T hT (fun i hi => hWlt i (hTW i hi)) (fun i hi => (htag i).mp (hall i hi))
  have hWr : W = List.range c0.parents.length := by
    rcases hW with h1 | ⟨_, h2⟩
    · rw [h1, hTr]
    · exact h2
  rw [hWr] at hl
  obtain ⟨cps0, hv⟩ := hclean.1
  have hl0 := linked_of_valid isData c0 _ cps0 hv
  obtain ⟨hcore, hstart⟩ := linked_unique hsb hl hl0 (by
    intro k hk
    have hk2 : c0.parents.length ≤ k := by
      by_contra hlt
      exact hk (List.mem_range.mpr (by omega))
    rw [nodeAt_of_le c0.parents k hk2, nodeAt_of_le c.parents k
      (by rw [sameButLinks_length hsb]; exact hk2)])
  exact ⟨hstart, hcore, hch⟩

/-- The orphan loop of `checkLoadedNodes(true)` over one parent list during the repair of a
damaged clean database: it returns, leaves a state of a repair under way in which the
parents it looked at are tagged, and takes no tag away. -/
theorem orphanParentsLoop_repair (s0 : Session) (d : Bool) (hclean : CleanDb s0)
    (idxs : List Nat) :
    ∀ (s : Session) (nb : Nat), RepairInv s0 s →
      (∀ i ∈ idxs, i < (s0.chain d).parents.length) →
      ∃ r nb2, orphanParentsLoop true d idxs s nb = some (r, nb2) ∧ RepairInv s0 r ∧
        (∀ i ∈ idxs, (nodeAt (r.chain d).parents i).pointedToCheck = true) ∧
        ∀ e i, (nodeAt (s.chain e).parents i).pointedToCheck = true →
          (nodeAt (r.chain e).parents i).pointedToCheck = true := by
  induction idxs with
  | nil =>
    intro s nb hinv _
    exact ⟨s, nb, rfl, hinv, by simp, fun _ _ h => h⟩
  | cons i rest ih =>
    intro s nb hinv hlt
    have hrest : ∀ j ∈ rest, j < (s0.chain d).parents.length :=
      fun j hj => hlt j (List.mem_cons_of_mem _ hj)
    rw [orphanParentsLoop]
    by_cases htag : (nodeAt (s.parentList d) i).pointedToCheck = true
    · simp only [htag, if_true]
      obtain ⟨r, nb2, h1, h2, h3, h4⟩ := ih s nb hinv hrest
      refine ⟨r, nb2, h1, h2, ?_, h4⟩
      intro j hj
      rcases List.mem_cons.mp hj with rfl | hj
      · exact h4 d j (by rw [chain_parents]; exact htag)
      · exact h3 j hj
    · simp only [htag, if_false, Bool.false_eq_true, if_true]
      have hun : (nodeAt (s.chain d).parents i).pointedToCheck = false := by
        rw [chain_parents]
        cases h : (nodeAt (s.parentList d) i).pointedToCheck
        · rfl
        · exact absurd h htag
      obtain ⟨r1, ha, hinv1, hti, hmono⟩ := addOrphan_step s0 s d i hclean hinv
        (hlt i (List.mem_cons_self _ _)) hun
      rw [ha]
      simp only
      obtain ⟨r, nb2, h1, h2, h3, h4⟩ := ih r1 (nb + 1) hinv1 hrest
      refine ⟨r, nb2, h1, h2, ?_, fun e j hj => h4 e j (hmono e j hj)⟩
      intro j hj
      rcases List.mem_cons.mp hj with rfl | hj
      · exact h4 d j hti
      · exact h3 j hj

/-- The first pass of `checkLoadedNodes(true)` on a damaged clean database, when its tagging
leaves a state of a repair under way: the database is left as the clean one, up to the tags
and the virtual ids of the links. -/
theorem checkLoadedNodesPass_repair (s0 s t : Session) (b0 : Bool) (hclean : CleanDb s0)
    (htag : tagPointedNodes true s = some (b0, t)) (hinv : RepairInv s0 t) :
    ∃ b r, checkLoadedNodesPass true s = some (b, r) ∧ r.core = s0.core := by
  have hlen1 : t.loginNodes.length = (s0.chain false).parents.length :=
    sameButLinks_length hinv.2.1.2.1
  obtain ⟨r1, nb1, hl1, hinv1, hall1, _⟩ := orphanParentsLoop_repair s0 false hclean
    (List.range t.loginNodes.length) t 0 hinv
    (fun i hi => by rw [← hlen1]; exact List.mem_range.mp hi)
  have h2 := (orphanChildrenLoop_count true (List.range r1.loginChildNodes.length) r1 0).1
  have hlen2 : r1.dataNodes.length = (s0.chain true).parents.length :=
    sameButLinks_length hinv1.2.2.2.1
  obtain ⟨r2, nb2, hl2, hinv2, hall2, hmono2⟩ := orphanParentsLoop_repair s0 true hclean
    (List.range r1.dataNodes.length) r1 0 hinv1
    (fun i hi => by rw [← hlen2]; exact List.mem_range.mp hi)
  have hc1 : Restores s0.credChain r2.credChain :=
    restores_of_allTagged false hclean.2.1 hinv2.2.1 (by
      intro i hi
      apply hmono2 false i
      apply hall1 i
      rw [hlen1]
      exact List.mem_range.mpr hi)
  have hc2 : Restores s0.dataChain r2.dataChain :=
    restores_of_allTagged true hclean.2.2.1 hinv2.2.2 (by
      intro i hi
      apply hall2 i
      rw [hlen2]
      exact List.mem_range.mpr hi)
  have hcore : r2.core = s0.core := core_of_others hinv2.1 hc1 hc2
  unfold checkLoadedNodesPass
  simp only [htag, hl1, h2, hl2]
  rw [checkFavorites_kept r2 (favoritesKept_of_core hcore hclean.2.2.2.1)]
  split_ifs
  · exact ⟨false, r2, rfl, hcore⟩
  · exact ⟨b0, r2, rfl, hcore⟩

/-! ## Lemmas: the repair of a damaged clean database -/

theorem walkable_of_seg (isData : Bool) (c0 c : NodeChain) (hclean : CleanList isData c0)
    (hch : SameFields c.children c0.children) (hp : SameButLinks c.parents c0.parents)
    (P : List Nat) (x : QByteArray) (hP : P.Pairwise (· < ·))
    (hseg : SegLinks c.parents MPNode.nextParentAddress c.start P x)
    (hx : x = EmptyAddress ∨ resolve c.parents x = none) :
    ∃ cps, Walkable isData c P cps x := by
  obtain ⟨⟨cps0, hv⟩, _⟩ := hclean
  have hlt : ∀ i ∈ P, i < c0.parents.length := by
    intro i hi
    rw [← sameButLinks_length hp]
    exact segLinks_lt _ _ P _ _ hseg i hi
  obtain ⟨cps, h1, h2⟩ := children_of_path isData c0 cps0 hv.2.2.2.1 hv.2.2.2.2 P hP hlt
  refine ⟨cps, hseg, hx, hP.imp (fun h => Nat.ne_of_lt h), ?_, h2⟩
  exact forall₂_childChain_of_fields isData
    (fun p => (sameButLinks_startChild hp p).symm)
    (sameFields_symm hch) P cps h1

theorem chainState_clean (isData : Bool) {c0 c : NodeChain} (hclean : CleanList isData c0)
    (h : c = c0) : ∃ cps, Walkable isData c (List.range c0.parents.length) cps EmptyAddress := by
  subst h
  obtain ⟨⟨cps0, hv⟩, _⟩ := hclean
  exact ⟨cps0, walkable_of_valid isData c _ cps0 hv⟩

theorem chainState_detag (isData : Bool) {c0 : NodeChain} (hclean : CleanList isData c0)
    (a : QByteArray) (ha : a = c0.start) :
    ChainState c0 { start := a, parents := c0.parents.map MPNode.removePointedToCheck,
                    children := c0.children.map MPNode.removePointedToCheck } := by
  subst ha
  obtain ⟨⟨cps0, hv⟩, _⟩ := hclean
  refine ⟨sameFields_map_detag _, sameButLinks_of_sameFields (sameFields_map_detag _), [],
    List.range c0.parents.length, List.Pairwise.nil, ?_, ?_, Or.inr ⟨rfl, rfl⟩⟩
  · intro i
    simp only [List.not_mem_nil, iff_false]
    rw [nodeAt_map_detag]
    simp [MPNode.removePointedToCheck]
  · exact linked_detag _ _ _ (linked_of_valid isData c0 _ cps0 hv)

/-- The tagging with repair allowed of a damaged clean database leaves a state of a repair
under way. -/
theorem tagPointedNodes_damaged (s0 s : Session) (d : Bool) (P : List Nat) (x : QByteArray)
    (hclean : CleanDb s0) (hd : Damaged d s0 s P x) :
    ∃ b t, tagPointedNodes true s = some (b, t) ∧ RepairInv s0 t := by
  obtain ⟨ho, hother, hchild, hsb, hP, hseg, hx⟩ := hd
  have hch : SameFields (s.chain d).children (s0.chain d).children := by
    rw [hchild]; exact sameFields_refl _
  obtain ⟨cps, hw⟩ := walkable_of_seg d (s0.chain d) (s.chain d) (cleanDb_chain hclean d)
    hch hsb P x hP hseg hx
  obtain ⟨dps, hwo⟩ := chainState_clean (!d) (cleanDb_chain hclean (!d)) hother
  have hphys : AllPhysical s := by
    apply allPhysical_of_chains
    intro e
    rcases bool_eq_or_not d e with rfl | rfl
    · exact ⟨sameButLinks_phys hsb (cleanDb_parents hclean _).1,
        sameFields_phys hch (cleanDb_children hclean _).1⟩
    · rw [hother]
      exact ⟨(cleanDb_parents hclean _).1, (cleanDb_children hclean _).1⟩
  have hso : SameFields (s.chain (!d)).children (s0.chain (!d)).children := by
    rw [hother]; exact sameFields_refl _
  have hsbo : SameButLinks (s.chain (!d)).parents (s0.chain (!d)).parents := by
    rw [hother]; rfl
  cases d with
  | false =>
    obtain ⟨b, c1, c2, h, w1, w2, w3⟩ :=
      tagPointedNodes_walked s P _ cps dps x EmptyAddress hphys hw hwo
    refine ⟨b, _, h, ho, chainState_of_walked hch hsb hP w1, ?_⟩
    by_cases hxe : x = EmptyAddress
    · exact chainState_of_walked hso hsbo (sorted_range _) (w2 hxe)
    · rw [setChains_data, w3 hxe]
      have e : s.dataChain = s0.dataChain := hother
      have := chainState_detag true hclean.2.2.1 s.startDataNode
        (by have := congrArg NodeChain.start e; exact this)
      have e2 : (detagPointedNodes s).dataChain =
          { start := s.startDataNode,
            parents := s0.dataChain.parents.map MPNode.removePointedToCheck,
            children := s0.dataChain.children.map MPNode.removePointedToCheck } := by
        rw [← e]; rfl
      rw [e2]
      exact this
  | true =>
    obtain ⟨b, c1, c2, h, w1, w2, _⟩ :=
      tagPointedNodes_walked s _ P dps cps EmptyAddress x hphys hwo hw
    exact ⟨b, _, h, ho, chainState_of_walked hso hsbo (sorted_range _) w1,
      chainState_of_walked hch hsb hP (w2 rfl)⟩

/-- The repair of a damaged clean database: `checkLoadedNodes(true)` returns and leaves the
database as the clean one, up to the tags and the virtual ids of the parent links and of the
start addresses; `generateSavePackets` then finds nothing to write. -/
theorem checkLoadedNodes_damaged (s0 s : Session) (d : Bool) (P : List Nat) (x : QByteArray)
    (hclean : CleanDb s0) (hd : Damaged d s0 s P x) :
    ∃ b t, checkLoadedNodes true s = some (b, t) ∧ t.core = s0.core ∧
      generateSavePackets t = some (true, t) ∧ t.diagSavePacketsGenerated = false := by
  obtain ⟨b0, t0, htag, hinv⟩ := tagPointedNodes_damaged s0 s d P x hclean hd
  obtain ⟨b1, r, hp, hcore⟩ := checkLoadedNodesPass_repair s0 s t0 b0 hclean htag hinv
  obtain ⟨b2, t, hcl, htc⟩ := checkLoadedNodes_of_pass s s0 r b1 hp hcore hclean.2.2.2.1
  exact ⟨b2, t, hcl, htc,
    generateSavePackets_of_core htc hclean.1 hclean.2.2.2.2.1 hclean.2.2.2.2.2⟩

/-! ## Lemmas: the paths left by the unlinking scenarios -/

theorem range_split (n k : Nat) (h : k ≤ n) :
    List.range n = List.range k ++ List.range' k (n - k) := by
  rw [List.range_eq_range', List.range_eq_range']
  have := List.range'_append_1 0 k (n - k)
  rw [Nat.zero_add] at this
  rw [this]
  congr 1
  omega

theorem segLinks_split (l : List MPNode) (a x : QByteArray) (n k : Nat) (h : k ≤ n)
    (hs : SegLinks l MPNode.nextParentAddress a (List.range n) x) :
    ∃ m, SegLinks l MPNode.nextParentAddress a (List.range k) m ∧
      SegLinks l MPNode.nextParentAddress m (List.range' k (n - k)) x := by
  rw [range_split n k h] at hs
  exact (segLinks_append _ _ _ _ _ _).mp hs

theorem segLinks_untouched (l : List MPNode) (j : Nat) (f : MPNode → MPNode)
    (hf : ∀ n, (f n).address = n.address) (B : List Nat) (hj : j ∉ B) (a x : QByteArray) :
    SegLinks (updateNode l j f) MPNode.nextParentAddress a B x ↔
      SegLinks l MPNode.nextParentAddress a B x :=
  segLinks_congr _ (map_updateNode l j f MPNode.address hf) B
    (fun i hi => by rw [nodeAt_updateNode_ne l j i f (fun e => hj (e ▸ hi))]) a x

theorem segLinks_keepNext (l : List MPNode) (j : Nat) (f : MPNode → MPNode)
    (hf : ∀ n, (f n).address = n.address)
    (hn : ∀ n, (f n).nextParentAddress = n.nextParentAddress) (B : List Nat)
    (a x : QByteArray) :
    SegLinks (updateNode l j f) MPNode.nextParentAddress a B x ↔
      SegLinks l MPNode.nextParentAddress a B x :=
  segLinks_congr _ (map_updateNode l j f MPNode.address hf) B
    (fun i _ => field_updateNode l j i f MPNode.nextParentAddress hn) a x

/-- Changing the next address of the last parent of a path changes where the path ends. -/
theorem segLinks_setLast (l : List MPNode) (A : List Nat) (j : Nat) (f : MPNode → MPNode)
    (hf : ∀ n, (f n).address = n.address) (a x : QByteArray)
    (h : SegLinks l MPNode.nextParentAddress a (A ++ [j]) x) (hj : j ∉ A) :
    SegLinks (updateNode l j f) MPNode.nextParentAddress a (A ++ [j])
      (f (nodeAt l j)).nextParentAddress := by
  obtain ⟨m, h1, h2⟩ := (segLinks_append _ _ _ _ _ _).mp h
  refine (segLinks_append _ _ _ _ _ _).mpr ⟨m, (segLinks_untouched l j f hf A hj a m).mpr h1, ?_⟩
  obtain ⟨hm, hres, _⟩ := h2
  refine ⟨hm, ?_, ?_⟩
  · rw [show resolve (updateNode l j f) m = resolve l m from
      resolveFrom_congr m _ _ 0 (map_updateNode l j f MPNode.address hf)]
    exact hres
  · show (nodeAt (updateNode l j f) j).nextParentAddress = _
    rw [nodeAt_updateNode_same l j f (resolve_some l m j hres).1]

theorem resolve_updateNode (l : List MPNode) (j : Nat) (f : MPNode → MPNode)
    (hf : ∀ n, (f n).address = n.address) (a : QByteArray) :
    resolve (updateNode l j f) a = resolve l a :=
  resolveFrom_congr a _ _ 0 (map_updateNode l j f MPNode.address hf)

theorem sorted_range' (s n : Nat) : (List.range' s n).Pairwise (· < ·) :=
  List.pairwise_lt_range' s n

theorem cleanList_seg (isData : Bool) (c : NodeChain) (h : CleanList isData c) :
    SegLinks c.parents MPNode.nextParentAddress c.start (List.range c.parents.length)
      EmptyAddress := by
  obtain ⟨⟨cps, hv⟩, _⟩ := h
  exact (chainLinks_iff_segLinks _ _ _ _).mp hv.1

theorem setStart_others (s : Session) (d : Bool) (a : QByteArray) :
    (s.setStart d a).others = s.others := by
  cases d <;> rfl

theorem setStart_chain_other (s : Session) (d : Bool) (a : QByteArray) :
    (s.setStart d a).chain (!d) = s.chain (!d) := by
  cases d <;> rfl

theorem setStart_chain (s : Session) (d : Bool) (a : QByteArray) :
    (s.setStart d a).chain d =
      { start := a, parents := s.parentList d, children := (s.chain d).children } := by
  cases d <;> rfl

theorem setStart_parentList (s : Session) (d : Bool) (a : QByteArray) :
    (s.setStart d a).parentList d = s.parentList d := by
  cases d <;> rfl

/-- A session made from a clean one by new parent links and a new start address for one
chain is a damaged clean database once the new chain is known to lead somewhere. -/
theorem damaged_of_links (s0 : Session) (d : Bool) (a : QByteArray) (l : List MPNode)
    (P : List Nat) (x : QByteArray)
    (hsb : SameButLinks l (s0.parentList d)) (hP : P.Pairwise (· < ·))
    (hseg : SegLinks l MPNode.nextParentAddress a P x)
    (hx : x = EmptyAddress ∨ resolve l x = none) :
    Damaged d s0 ((s0.setStart d a).setParentList d l) P x := by
  refine ⟨?_, ?_, ?_, ?_, hP, ?_, ?_⟩
  · rw [setParentList_others, setStart_others]
  · rw [setParentList_chain_other, setStart_chain_other]
  · rw [setParentList_chain, setStart_chain]
  · rw [setParentList_chain, chain_parents]; exact hsb
  · rw [setParentList_chain, setStart_chain]; exact hseg
  · rw [setParentList_chain]; exact hx

theorem setStart_self (s : Session) (d : Bool) : s.setStart d (s.chain d).start = s := by
  cases d <;> rfl

theorem setParentList_self (s : Session) (d : Bool) : s.setParentList d (s.parentList d) = s := by
  cases d <;> rfl

/-! ## The unlinking scenarios damage a clean database in the way the repair undoes -/

theorem repairRestores_of_damaged (s0 s : Session) (d : Bool) (P : List Nat) (x : QByteArray)
    (hclean : CleanDb s0) (hd : Damaged d s0 s P x) : RepairRestores s0 s := by
  obtain ⟨b, t, h1, h2, h3, h4⟩ := checkLoadedNodes_damaged s0 s d P x hclean hd
  exact ⟨b, t, h1, h2, liveEqualsClone_of_core h2 hclean.2.2.2.2.1, h3, h4⟩

theorem cleanDb_seg {s0 : Session} (hclean : CleanDb s0) (d : Bool) :
    SegLinks (s0.parentList d) MPNode.nextParentAddress (s0.chain d).start
      (List.range (s0.parentList d).length) EmptyAddress := by
  have := cleanList_seg d (s0.chain d) (cleanDb_chain hclean d)
  rw [chain_parents] at this
  exact this

theorem segLinks_range'_first (l : List MPNode) (m x : QByteArray) (k len : Nat)
    (hlen : 0 < len) (h : SegLinks l MPNode.nextParentAddress m (List.range' k len) x) :
    m = (nodeAt l k).address := by
  obtain ⟨len2, rfl⟩ : ∃ len2, len = len2 + 1 := ⟨len - 1, by omega⟩
  rw [List.range'_succ] at h
  exact segLinks_first l _ _ m x h

theorem damaged_skipParentLink (s0 : Session) (d : Bool) (j : Nat) (hclean : CleanDb s0)
    (hj : j + 2 < (s0.parentList d).length) :
    Damaged d s0 (skipParentLink d j s0)
      (List.range (j + 1) ++ List.range' (j + 2) ((s0.parentList d).length - (j + 2)))
      EmptyAddress := by
  have hseg := cleanDb_seg hclean d
  obtain ⟨m1, h1, _⟩ := segLinks_split _ _ _ _ (j + 1) (by omega) hseg
  obtain ⟨m2, _, h2⟩ := segLinks_split _ _ _ _ (j + 2) (by omega) hseg
  have hm2 := segLinks_range'_first _ m2 _ (j + 2) _ (by omega) h2
  rw [List.range_succ] at h1
  have hA := segLinks_setLast (s0.parentList d) (List.range j) j
    (fun n => n.setNextParentAddress (nodeAt (s0.parentList d) (j + 2)).address 0)
    (fun _ => rfl) _ _ h1 (by simp)
  have hB := (segLinks_untouched (s0.parentList d) j
    (fun n => n.setNextParentAddress (nodeAt (s0.parentList d) (j + 2)).address 0)
    (fun _ => rfl) (List.range' (j + 2) ((s0.parentList d).length - (j + 2)))
    (by simp [List.mem_range'_1]) m2 EmptyAddress).mpr h2
  rw [hm2] at hB
  have hall := (segLinks_append _ _ _ _ _ _).mpr ⟨_, hA, hB⟩
  rw [← List.range_succ] at hall
  have := damaged_of_links s0 d (s0.chain d).start _ _ EmptyAddress
    (unlinked_setNext (s0.parentList d) j (nodeAt (s0.parentList d) (j + 2)).address 0)
    (List.pairwise_append.mpr ⟨sorted_range _, sorted_range' _ _, fun a ha b hb => by
      have := List.mem_range.mp ha
      have := List.mem_range'_1.mp hb
      omega⟩)
    hall (Or.inl rfl)
  rw [setStart_self] at this
  exact this

theorem damaged_skipFirstParent (s0 : Session) (d : Bool) (hclean : CleanDb s0)
    (hn : 2 ≤ (s0.parentList d).length) :
    Damaged d s0 (skipFirstParent d s0) (List.range' 1 ((s0.parentList d).length - 1))
      EmptyAddress := by
  have hseg := cleanDb_seg hclean d
  obtain ⟨m, _, h⟩ := segLinks_split _ _ _ _ 1 (by omega) hseg
  have hm := segLinks_range'_first _ m _ 1 _ (by omega) h
  rw [hm] at h
  exact damaged_of_links s0 d _ _ _ EmptyAddress
    (unlinked_setPrev (s0.parentList d) 1 EmptyAddress 0) (sorted_range' _ _)
    ((segLinks_keepNext (s0.parentList d) 1
      (fun n => n.setPreviousParentAddress EmptyAddress 0) (fun _ => rfl) (fun _ => rfl)
      _ _ _).mpr h) (Or.inl rfl)

theorem damaged_skipLastParent (s0 : Session) (d : Bool) (hclean : CleanDb s0)
    (hn : 2 ≤ (s0.parentList d).length) :
    Damaged d s0 (skipLastParent d s0) (List.range ((s0.parentList d).length - 2 + 1))
      EmptyAddress := by
  have hseg := cleanDb_seg hclean d
  obtain ⟨m, h1, _⟩ := segLinks_split _ _ _ _ ((s0.parentList d).length - 2 + 1) (by omega) hseg
  rw [List.range_succ] at h1
  have hA := segLinks_setLast (s0.parentList d) (List.range ((s0.parentList d).length - 2))
    ((s0.parentList d).length - 2) (fun n => n.setNextParentAddress EmptyAddress 0)
    (fun _ => rfl) _ _ h1 (by simp)
  rw [← List.range_succ] at hA
  have := damaged_of_links s0 d (s0.chain d).start _ _ EmptyAddress
    (unlinked_setNext (s0.parentList d) ((s0.parentList d).length - 2) EmptyAddress 0)
    (sorted_range _) hA (Or.inl rfl)
  rw [setStart_self] at this
  exact this

theorem damaged_setInvalidStart (s0 : Session) (d : Bool) (invalidAddress : QByteArray)
    (hX : resolve (s0.parentList d) invalidAddress = none) :
    Damaged d s0 (setInvalidStart d invalidAddress s0) [] invalidAddress := by
  have := damaged_of_links s0 d invalidAddress (s0.parentList d) [] invalidAddress rfl
    List.Pairwise.nil rfl (Or.inr hX)
  have e : (s0.setStart d invalidAddress).setParentList d (s0.parentList d)
      = s0.setStart d invalidAddress := by
    rw [← setStart_parentList s0 d invalidAddress, setParentList_self]
  rw [e] at this
  exact this

theorem damaged_breakParentLinks (s0 : Session) (d : Bool) (k : Nat)
    (invalidAddress : QByteArray) (hclean : CleanDb s0) (hk : k < (s0.parentList d).length)
    (hX : resolve (s0.parentList d) invalidAddress = none) :
    Damaged d s0 (breakParentLinks d k invalidAddress s0) (List.range (k + 1))
      invalidAddress := by
  have hseg := cleanDb_seg hclean d
  obtain ⟨m, h1, _⟩ := segLinks_split _ _ _ _ (k + 1) (by omega) hseg
  rw [List.range_succ] at h1
  have h2 := (segLinks_keepNext (s0.parentList d) k
    (fun n => n.setPreviousParentAddress invalidAddress 0) (fun _ => rfl) (fun _ => rfl)
    _ _ _).mpr h1
  have hA := segLinks_setLast _ (List.range k) k
    (fun n => n.setNextParentAddress invalidAddress 0) (fun _ => rfl) _ _ h2 (by simp)
  rw [← List.range_succ] at hA
  have := damaged_of_links s0 d (s0.chain d).start _ _ invalidAddress
    ((unlinked_setNext _ k invalidAddress 0).trans
      (unlinked_setPrev (s0.parentList d) k invalidAddress 0))
    (sorted_range _) hA (Or.inr (by
      rw [resolve_updateNode _ k (fun n => n.setNextParentAddress invalidAddress 0)
        (fun _ => rfl), resolve_updateNode _ k
        (fun n => n.setPreviousParentAddress invalidAddress 0) (fun _ => rfl)]
      exact hX))
  rw [setStart_self] at this
  exact this


/-! ## The example databases are clean -/

theorem cleanDb_clean : CleanDb cleanDb :=
  ⟨cleanDb_distinct,
    ⟨⟨[[0, 1], [], [], [], [], []], cleanDb_credValid⟩, by decide⟩,
    ⟨⟨[[0, 1], [], [], [], [], []], cleanDb_dataValid⟩, by decide⟩,
    cleanDb_favoritesKept, cleanDb_liveEqualsClone, rfl⟩

theorem sortedDb_clean : CleanDb sortedDb :=
  ⟨sortedDb_distinct,
    ⟨⟨[[0, 1], [], [], [], [], []], sortedDb_credValid⟩, by decide⟩,
    ⟨⟨[[0, 1], [], [], [], [], []], sortedDb_dataValid⟩, by decide⟩,
    sortedDb_favoritesKept, sortedDb_liveEqualsClone, rfl⟩

/-! ## Claims: the repair of unlinked parents and of invalid addresses -/

/-- C17: let `s0` be a clean database: in each list the addresses are physical and pairwise
distinct, each chain is valid and visits all the parents of its list in the order of the
list, which is the strictly ascending order of the services, the favorites check keeps the
favorites, the live state equals the clone (each live list has the addresses of its clone
list, with the same node data at each address, in whatever order) and the write flag is
unset. Unlink one parent
of the credential list or of the data list: an interior one (the next address of parent `j`
is set to the address of parent `j + 2`), the first one (the start address is set to the
address of the second parent, whose previous address is cleared), or the last one (the next
address of the second-to-last parent is cleared). Then `checkLoadedNodes(true)` returns and
leaves the database as `s0` was, up to the tags and the virtual ids of the parent links and
start addresses: the live state equals the clone again, and `generateSavePackets` returns
true without setting the write flag. -/
theorem C17_unlinked_parent_restored (s0 : Session) (isData : Bool) (j : Nat)
    (hclean : CleanDb s0) :
    (j + 2 < (s0.parentList isData).length →
      RepairRestores s0 (skipParentLink isData j s0)) ∧
    (2 ≤ (s0.parentList isData).length → RepairRestores s0 (skipFirstParent isData s0)) ∧
    (2 ≤ (s0.parentList isData).length → RepairRestores s0 (skipLastParent isData s0)) :=
  ⟨fun hj => repairRestores_of_damaged s0 _ isData _ _ hclean
      (damaged_skipParentLink s0 isData j hclean hj),
    fun hn => repairRestores_of_damaged s0 _ isData _ _ hclean
      (damaged_skipFirstParent s0 isData hclean hn),
    fun hn => repairRestores_of_damaged s0 _ isData _ _ hclean
      (damaged_skipLastParent s0 isData hclean hn)⟩

/-- C17 on the database of the self-test (six credential parents, six data parents, the
live parent lists sorted by service, the clone lists in the order of the scan), the cases of
the self-test: the link from the second parent skips the third one, the first parent is
skipped, the last parent is skipped, for the credential list and for the data list. -/
theorem C17_unlinked_parent_restored_witness :
    CleanDb sortedDb ∧ sortedDb.loginNodes ≠ sortedDb.loginNodesClone ∧
    (RepairRestores sortedDb (skipParentLink false 1 sortedDb) ∧
      RepairRestores sortedDb (skipFirstParent false sortedDb) ∧
      RepairRestores sortedDb (skipLastParent false sortedDb)) ∧
    (RepairRestores sortedDb (skipParentLink true 1 sortedDb) ∧
      RepairRestores sortedDb (skipFirstParent true sortedDb) ∧
      RepairRestores sortedDb (skipLastParent true sortedDb)) :=
  ⟨sortedDb_clean, by decide,
    ⟨(C17_unlinked_parent_restored sortedDb false 1 sortedDb_clean).1 (by decide),
      (C17_unlinked_parent_restored sortedDb false 1 sortedDb_clean).2.1 (by decide),
      (C17_unlinked_parent_restored sortedDb false 1 sortedDb_clean).2.2 (by decide)⟩,
    ⟨(C17_unlinked_parent_restored sortedDb true 1 sortedDb_clean).1 (by decide),
      (C17_unlinked_parent_restored sortedDb true 1 sortedDb_clean).2.1 (by decide),
      (C17_unlinked_parent_restored sortedDb true 1 sortedDb_clean).2.2 (by decide)⟩⟩

/-- C18: let `s0` be a clean database (as in C17) and `invalidAddress` an address that no
parent of the list has (the credential list or the data list). Replace the start address of
the list by `invalidAddress`, or replace both the previous and the next address of one
parent `k` of the list by it. Then `checkLoadedNodes(true)` returns and leaves the database
as `s0` was, up to the tags and the virtual ids of the parent links and start addresses: the
live state equals the clone again, and `generateSavePackets` returns true without setting
the write flag. -/
theorem C18_invalid_address_restored (s0 : Session) (isData : Bool) (k : Nat)
    (invalidAddress : QByteArray) (hclean : CleanDb s0)
    (hX : resolve (s0.parentList isData) invalidAddress = none) :
    RepairRestores s0 (setInvalidStart isData invalidAddress s0) ∧
    (k < (s0.parentList isData).length →
      RepairRestores s0 (breakParentLinks isData k invalidAddress s0)) :=
  ⟨repairRestores_of_damaged s0 _ isData _ _ hclean
      (damaged_setInvalidStart s0 isData invalidAddress hX),
    fun hk => repairRestores_of_damaged s0 _ isData _ _ hclean
      (damaged_breakParentLinks s0 isData k invalidAddress hclean hk hX)⟩

/-- C18 on the database of the self-test (the live parent lists sorted by service, the
clone lists in the order of the scan), the cases of the self-test: the address 0x0200 as
start address, and as previous and next address of the sixth parent, for the credential
list and for the data list. -/
theorem C18_invalid_address_restored_witness :
    CleanDb sortedDb ∧ sortedDb.loginNodes ≠ sortedDb.loginNodesClone ∧
    resolve (sortedDb.parentList false) [0x02, 0x00] = none ∧
    resolve (sortedDb.parentList true) [0x02, 0x00] = none ∧
    (RepairRestores sortedDb (setInvalidStart false [0x02, 0x00] sortedDb) ∧
      RepairRestores sortedDb (breakParentLinks false 5 [0x02, 0x00] sortedDb)) ∧
    (RepairRestores sortedDb (setInvalidStart true [0x02, 0x00] sortedDb) ∧
      RepairRestores sortedDb (breakParentLinks true 5 [0x02, 0x00] sortedDb)) :=
  ⟨sortedDb_clean, by decide, by decide, by decide,
    ⟨(C18_invalid_address_restored sortedDb false 5 [0x02, 0x00] sortedDb_clean (by decide)).1,
      (C18_invalid_address_restored sortedDb false 5 [0x02, 0x00] sortedDb_clean (by decide)).2
        (by decide)⟩,
    ⟨(C18_invalid_address_restored sortedDb true 5 [0x02, 0x00] sortedDb_clean (by decide)).1,
      (C18_invalid_address_restored sortedDb true 5 [0x02, 0x00] sortedDb_clean (by decide)).2
        (by decide)⟩⟩

end Moolticute
